import Mathlib

/-! # IBTK `PETScMatUtilities`: ownership ranges, non-zero prediction and assembly

A shallow embedding of `ibtk/src/math/PETScMatUtilities.cpp`.

Conventions of the embedding:

* the compile-time constant `NDIM` (2 or 3 in the sources) is a parameter `NDIM : Nat`;
* C++ `int` is `Int` in exact arithmetic (signed overflow is undefined behaviour in the
  source and is left out); `/` and `%` on `int` are `Int.tdiv` and `Int.tmod`;
* `double` is `ℚ` in exact arithmetic;
* a `std::vector<int>` is a `List Int`; a SAMRAI `hier::Index` is a `List Int` with one
  entry per direction;
* patch data (`CellData<int>`, `SideData<int>`) is a total function of the index, ghost
  cells included;
* calls into PETSc are recorded: a matrix is the preallocation it was created with and the
  sequence of `MatSetValues` calls made on it;
* `TBOX_ASSERT` and `TBOX_ERROR` failures are values of `Except Failure`;
* the red-black colouring of `CCPoissonPointRelaxationFACOperator`, the vector transfer
  of `StaggeredStokesPETScVecUtilities` and the overlap of `NodeSynchCopyFillPattern`, of
  which the headers are at hand, are modelled from the specification; the definitions
  concerned say so.
-/

set_option autoImplicit false

namespace IBTK

/-! ## Definitions -/

/-- SAMRAI `hier::Index`: one integer per spatial direction. -/
abbrev Index := List Int

/-- The zero index, `Index::getZeroIndex(DIM)`. -/
def Index.getZeroIndex (dim : Nat) : Index := List.replicate dim 0

/-- Component `d` of an index, `idx(d)`. -/
def Index.comp (i : Index) (d : Nat) : Int := i.getD d 0

/-- Component-wise sum of two indices, `i + j`. -/
def Index.add (i j : Index) : Index := List.zipWith (· + ·) i j

/-- The sum `std::accumulate(first, last, init)` over a range of `int`. -/
def accumulate (xs : List Int) (init : Int) : Int := xs.foldl (· + ·) init

/-- The local size `n_local = num_dofs_per_proc[mpi_rank]`. -/
def n_local (num_dofs_per_proc : List Int) (mpi_rank : Nat) : Int :=
  num_dofs_per_proc.getD mpi_rank 0

/-- The lower end `i_lower = std::accumulate(num_dofs_per_proc.begin(), num_dofs_per_proc.begin() + mpi_rank, 0)`. -/
def i_lower (num_dofs_per_proc : List Int) (mpi_rank : Nat) : Int :=
  accumulate (num_dofs_per_proc.take mpi_rank) 0

/-- The upper end `i_upper = i_lower + n_local`. -/
def i_upper (num_dofs_per_proc : List Int) (mpi_rank : Nat) : Int :=
  i_lower num_dofs_per_proc mpi_rank + n_local num_dofs_per_proc mpi_rank

/-- The global size `n_total = std::accumulate(num_dofs_per_proc.begin(), num_dofs_per_proc.end(), 0)`. -/
def n_total (num_dofs_per_proc : List Int) : Int :=
  accumulate num_dofs_per_proc 0

/-- The stencil size `stencil_sz = 2 * NDIM + 1`. -/
def stencil_sz (NDIM : Nat) : Nat := 2 * NDIM + 1

/-- The loop nest
`for (axis = 0, stencil_index = 1; axis < NDIM; ++axis)
   for (side = 0; side <= 1; ++side, ++stencil_index) body`
with the running counter `stencil_index` carried next to the loop state. -/
def stencilLoop {σ : Type} (NDIM : Nat) (body : Nat → Nat → Nat → σ → σ) (init : σ) : σ :=
  ((List.range NDIM).foldl
    (fun (st : σ × Nat) (axis : Nat) =>
      (List.range 2).foldl
        (fun (st : σ × Nat) (side : Nat) => (body axis side st.2 st.1, st.2 + 1)) st)
    (init, 1)).1

/-- The finite difference stencil: `stencil_sz` zero indices, then
`stencil[stencil_index](axis) = (side == 0 ? -1 : +1)` in the loop nest. -/
def stencil (NDIM : Nat) : List Index :=
  stencilLoop NDIM
    (fun axis side stencil_index (st : List Index) =>
      st.modify (fun ix => ix.set axis (if side = 0 then -1 else 1)) stencil_index)
    (List.replicate (stencil_sz NDIM) (Index.getZeroIndex NDIM))

/-- SAMRAI `hier::Box`: the cells between a lower and an upper corner, both included. -/
structure Box where
  lower : Index
  upper : Index
deriving DecidableEq, Repr

/-- The integers `lo, lo + 1, ..., hi` (none when `hi < lo`). -/
def intRange (lo hi : Int) : List Int :=
  (List.range (hi + 1 - lo).toNat).map (fun k => lo + (k : Int))

/-- The indices between two corners in SAMRAI's iteration order, first direction fastest. -/
def boxIndices : List Int → List Int → List Index
  | [], [] => [[]]
  | l :: ls, u :: us =>
      (boxIndices ls us).flatMap (fun rest => (intRange l u).map (fun x => x :: rest))
  | _, _ => []

/-- The cells visited by `for (b = CellGeometry::begin(box); b != CellGeometry::end(box); ++b)`
and by `for (b = box.begin(); b != box.end(); ++b)`. -/
def Box.indices (b : Box) : List Index := boxIndices b.lower b.upper

/-- The box `SideGeometry::toSideBox(box, axis)`: the box of the sides normal to `axis`,
one more than the cells along `axis`. -/
def Box.toSideBox (b : Box) (axis : Nat) : Box :=
  { lower := b.lower, upper := b.upper.modify (· + 1) axis }

/-- The patch data `pdat::CellData<T>`: depth and the accessor `operator()(i, d)`. -/
structure CellData (α : Type) where
  depth : Nat
  data : Index → Nat → α

/-- The patch data `pdat::SideData<T>`: depth, ghost box and the accessor
`operator()(SideIndex(i, axis, Lower), d)`. -/
structure SideData (α : Type) where
  depth : Nat
  ghost_box : Box
  data : Nat → Index → Nat → α

/-- A `hier::Patch` as the builders read it: the global id, the box, and the patch data
registered under `dof_index_idx`. -/
structure Patch (D : Type) where
  global_id : Int
  box : Box
  dof_index_data : D

/-- The fatal exits of the builders. -/
inductive Failure where
  /-- Failed `TBOX_ASSERT(depth == dof_index_data->getDepth())` -/
  | assert_cell_depth
  /-- Failed `TBOX_ASSERT(bc_coefs.size() == NDIM)` -/
  | assert_bc_coefs_size
  /-- Failed `TBOX_ASSERT(dof_index_data->getDepth() == 1)` -/
  | assert_side_depth
  /-- Failed `TBOX_ASSERT(i_lower <= dof_index_real && dof_index_real < i_upper)` -/
  | assert_real_local
  /-- Failed `TBOX_ASSERT(i_lower <= dof_index_imag && dof_index_imag < i_upper)` -/
  | assert_imag_local
  /-- Failed `TBOX_ASSERT(domain_boxes.size() == 1)` -/
  | assert_domain_boxes
  /-- Failed `TBOX_ASSERT(overlap_boxes.size() != 0)` -/
  | assert_overlap_boxes
  /-- Failed lookup: `patch_level->getPatch(patch_id[k])` finds no local patch with that id -/
  | get_patch
  /-- Raised `TBOX_ERROR("... support for odd stencil sizes not currently implemented")` -/
  | error_odd_stencil
  /-- Failed `TBOX_ASSERT(SideGeometry::toSideBox(ghost box, axis).contains(stencil_box_axis))` -/
  | assert_ghost_box
  /-- Failed allocation: `w[d].resize(interp_stencil)` with a negative width -/
  | length_error
deriving DecidableEq, Repr

/-- One call `MatSetValues(mat, 1, &row, n, &cols[0], &vals[0], INSERT_VALUES)`. -/
structure SetValues where
  row : Int
  cols : List Int
  vals : List ℚ
deriving DecidableEq, Repr

/-- A PETSc matrix as the builders leave it: the sizes and preallocation given to
`MatCreateAIJ`, the options set, and the `MatSetValues` calls in the order they were made. -/
structure Mat where
  m_local : Int
  n_local : Int
  d_nnz : List Int
  o_nnz : List Int
  block_size : Option Int
  new_nonzero_location_err : Bool
  new_nonzero_allocation_err : Bool
  set_values : List SetValues
deriving DecidableEq, Repr

/-- The block shared by the counting passes of the three Laplace builders, for one grid
point `i` whose DOF index is read through `dof`:
`if (i_lower <= dof_index && dof_index < i_upper) { d_nnz[local_idx] += inc; ... }`
with `inc = 1` in the real builders and `inc = 2` in the complex one. The state is
`(d_nnz, o_nnz)`. -/
def countVisit (NDIM : Nat) (inc : Int) (i_lower i_upper n_local n_total : Int)
    (dof : Index → Int) (i : Index) (nnz : List Int × List Int) : List Int × List Int :=
  let dof_index := dof i
  if i_lower ≤ dof_index ∧ dof_index < i_upper then
    let local_idx := (dof_index - i_lower).toNat
    let nnz := (nnz.1.modify (· + inc) local_idx, nnz.2)
    let nnz := stencilLoop NDIM
      (fun _axis _side stencil_index (nnz : List Int × List Int) =>
        let dof_index := dof (Index.add i ((stencil NDIM).getD stencil_index []))
        if dof_index ≥ i_lower ∧ dof_index < i_upper then
          (nnz.1.modify (· + inc) local_idx, nnz.2)
        else
          (nnz.1, nnz.2.modify (· + inc) local_idx))
      nnz
    (nnz.1.modify (fun x => min n_local x) local_idx,
     nnz.2.modify (fun x => min (n_total - n_local) x) local_idx)
  else nnz

/-- The initial state of a counting pass:
`std::vector<int> d_nnz(n, 0), o_nnz(n, 0)`. -/
def nnzInit (n : Int) : List Int × List Int :=
  (List.replicate n.toNat 0, List.replicate n.toNat 0)

/-- The counting pass of `constructPatchLevelCCLaplaceOp` (`inc = 1`) and of
`constructPatchLevelCCComplexLaplaceOp` (`inc = 2`) on one patch. -/
def ccCountPatch (NDIM : Nat) (inc : Int) (depth : Nat) (i_lower i_upper n_local n_total : Int)
    (nnz : List Int × List Int) (patch : Patch (CellData Int)) :
    Except Failure (List Int × List Int) :=
  let dof_index_data := patch.dof_index_data
  if depth ≠ dof_index_data.depth then .error Failure.assert_cell_depth
  else
    .ok (patch.box.indices.foldl
      (fun nnz i =>
        (List.range depth).foldl
          (fun nnz d =>
            countVisit NDIM inc i_lower i_upper n_local n_total
              (fun j => dof_index_data.data j d) i nnz)
          nnz)
      nnz)

/-- The counting pass of the cell-centred builders over the patches of the level. -/
def ccCountPass (NDIM : Nat) (inc : Int) (depth : Nat) (i_lower i_upper n_local n_total : Int)
    (patch_level : List (Patch (CellData Int))) : Except Failure (List Int × List Int) :=
  patch_level.foldlM (ccCountPatch NDIM inc depth i_lower i_upper n_local n_total)
    (nnzInit n_local)

/-- The fill pass of `constructPatchLevelCCLaplaceOp` for one cell `i` and component `d`.
The state is the buffers `mat_vals`, `mat_cols` and the `MatSetValues` calls made so far. -/
def ccFillVisit (NDIM : Nat) (i_lower i_upper : Int) (matrix_coefs : Index → Nat → ℚ)
    (dof_index_data : CellData Int) (i : Index) (d : Nat)
    (st : List ℚ × List Int × List SetValues) : List ℚ × List Int × List SetValues :=
  let dof_index := dof_index_data.data i d
  if i_lower ≤ dof_index ∧ dof_index < i_upper then
    let offset := d * stencil_sz NDIM
    let mat_vals := st.1.set 0 (matrix_coefs i offset)
    let mat_cols := st.2.1.set 0 dof_index
    let bufs := stencilLoop NDIM
      (fun _axis _side stencil_index (bufs : List ℚ × List Int) =>
        (bufs.1.set stencil_index (matrix_coefs i (offset + stencil_index)),
         bufs.2.set stencil_index
           (dof_index_data.data (Index.add i ((stencil NDIM).getD stencil_index [])) d)))
      (mat_vals, mat_cols)
    (bufs.1, bufs.2, st.2.2 ++ [{ row := dof_index, cols := bufs.2, vals := bufs.1 }])
  else st

/-- The fill pass of `constructPatchLevelCCLaplaceOp` on one patch; `matrix_coefs` is what
`PoissonUtilities::computeCCMatrixCoefficients` stored for the patch. -/
def ccFillPatch (NDIM : Nat) (depth : Nat) (i_lower i_upper : Int)
    (matrix_coefs : Index → Nat → ℚ) (patch : Patch (CellData Int))
    (set_values : List SetValues) : List SetValues :=
  let dof_index_data := patch.dof_index_data
  (patch.box.indices.foldl
    (fun st i =>
      (List.range depth).foldl
        (fun st d => ccFillVisit NDIM i_lower i_upper matrix_coefs dof_index_data i d st)
        st)
    (List.replicate (stencil_sz NDIM) (0 : ℚ), List.replicate (stencil_sz NDIM) (0 : Int),
      set_values)).2.2

/-- The builder `PETScMatUtilities::constructPatchLevelCCLaplaceOp` (the overload taking the list
`bc_coefs`). `computeCCMatrixCoefficients` stands for the routine of `PoissonUtilities`,
which is given the patch, the stencil, `poisson_spec`, `bc_coefs` and `data_time`. -/
def constructPatchLevelCCLaplaceOp (NDIM : Nat) {PS BC : Type}
    (computeCCMatrixCoefficients :
      Patch (CellData Int) → List Index → PS → List BC → ℚ → Index → Nat → ℚ)
    (poisson_spec : PS) (bc_coefs : List BC) (data_time : ℚ)
    (num_dofs_per_proc : List Int) (mpi_rank : Nat)
    (patch_level : List (Patch (CellData Int))) : Except Failure Mat :=
  let depth := bc_coefs.length
  let n_loc := n_local num_dofs_per_proc mpi_rank
  let i_lo := i_lower num_dofs_per_proc mpi_rank
  let i_up := i_upper num_dofs_per_proc mpi_rank
  let n_tot := n_total num_dofs_per_proc
  match ccCountPass NDIM 1 depth i_lo i_up n_loc n_tot patch_level with
  | .error e => .error e
  | .ok nnz =>
    .ok { m_local := n_loc, n_local := n_loc, d_nnz := nnz.1, o_nnz := nnz.2,
          block_size := some (depth : Int),
          new_nonzero_location_err := true, new_nonzero_allocation_err := true,
          set_values := patch_level.foldl
            (fun sets patch =>
              ccFillPatch NDIM depth i_lo i_up
                (computeCCMatrixCoefficients patch (stencil NDIM) poisson_spec bc_coefs
                  data_time)
                patch sets)
            [] }

/-- Whether a DOF index lies in the local range `[i_lower, i_upper)`. -/
def isLocal (i_lower i_upper : Int) (dof_index : Int) : Bool :=
  decide (i_lower ≤ dof_index ∧ dof_index < i_upper)

/-- The DOF indices read at the `2 * NDIM` stencil neighbours of `i`, in stencil order
(`stencil_index = 1, ..., 2 * NDIM`). -/
def neighbourDofs (NDIM : Nat) (dof : Index → Int) (i : Index) : List Int :=
  (List.range (2 * NDIM)).map (fun j => dof (Index.add i ((stencil NDIM).getD (j + 1) [])))

/-- The (patch, cell, component) triples the cell-centred passes visit, in order: patches in
level order, cells in box order, components `0 .. depth - 1`. -/
def ccVisits (depth : Nat) (patch_level : List (Patch (CellData Int))) :
    List (Patch (CellData Int) × Index × Nat) :=
  patch_level.flatMap (fun patch =>
    patch.box.indices.flatMap (fun i => (List.range depth).map (fun d => (patch, i, d))))

/-- The components visited by `for (int d = 0; d < depth; d = d + 2)`. -/
def evenComponents (depth : Nat) : List Nat :=
  (List.range ((depth + 1) / 2)).map (fun k => 2 * k)

/-- The fill pass of `constructPatchLevelCCComplexLaplaceOp` for one cell `i` and the pair
of components `(d, d + 1)`. The state is the four buffers `mat_vals_real`, `mat_cols_real`,
`mat_vals_imag`, `mat_cols_imag` and the `MatSetValues` calls made so far. -/
def ccComplexFillVisit (NDIM : Nat) (i_lower i_upper : Int) (matrix_coefs : Index → Nat → ℚ)
    (dof_index_data : CellData Int) (i : Index) (d : Nat)
    (st : (List ℚ × List Int) × (List ℚ × List Int) × List SetValues) :
    Except Failure ((List ℚ × List Int) × (List ℚ × List Int) × List SetValues) :=
  let sz := stencil_sz NDIM
  let dof_index_real := dof_index_data.data i d
  let dof_index_imag := dof_index_data.data i (d + 1)
  if (i_lower ≤ dof_index_real ∧ dof_index_real < i_upper) ∨
      (i_lower ≤ dof_index_imag ∧ dof_index_imag < i_upper) then
    if ¬ (i_lower ≤ dof_index_real ∧ dof_index_real < i_upper) then
      .error Failure.assert_real_local
    else if ¬ (i_lower ≤ dof_index_imag ∧ dof_index_imag < i_upper) then
      .error Failure.assert_imag_local
    else
      let offset := d * sz * 2
      let mat_vals_real := (st.1.1.set 0 (matrix_coefs i offset)).set sz (matrix_coefs i (offset + sz))
      let mat_cols_real := (st.1.2.set 0 dof_index_real).set sz dof_index_imag
      let mat_vals_imag :=
        (st.2.1.1.set 0 (matrix_coefs i (offset + 2 * sz))).set sz (matrix_coefs i (offset + 3 * sz))
      let mat_cols_imag := (st.2.1.2.set 0 dof_index_real).set sz dof_index_imag
      let bufs := stencilLoop NDIM
        (fun _axis _side stencil_index (bufs : (List ℚ × List Int) × (List ℚ × List Int)) =>
          let nbr := Index.add i ((stencil NDIM).getD stencil_index [])
          (((bufs.1.1.set stencil_index (matrix_coefs i (offset + stencil_index))).set
              (stencil_index + sz) (matrix_coefs i (offset + stencil_index + sz)),
            (bufs.1.2.set stencil_index (dof_index_data.data nbr d)).set
              (stencil_index + sz) (dof_index_data.data nbr (d + 1))),
           ((bufs.2.1.set stencil_index (matrix_coefs i (offset + 2 * sz + stencil_index))).set
              (stencil_index + sz) (matrix_coefs i (offset + stencil_index + 3 * sz)),
            (bufs.2.2.set stencil_index (dof_index_data.data nbr d)).set
              (stencil_index + sz) (dof_index_data.data nbr (d + 1)))))
        ((mat_vals_real, mat_cols_real), (mat_vals_imag, mat_cols_imag))
      .ok (bufs.1, bufs.2,
        st.2.2 ++ [{ row := dof_index_real, cols := bufs.1.2, vals := bufs.1.1 },
                   { row := dof_index_imag, cols := bufs.2.2, vals := bufs.2.1 }])
  else .ok st

/-- The fill pass of `constructPatchLevelCCComplexLaplaceOp` on one patch; `matrix_coefs` is
what `PoissonUtilities::computeCCComplexMatrixCoefficients` stored for the patch. -/
def ccComplexFillPatch (NDIM : Nat) (depth : Nat) (i_lower i_upper : Int)
    (matrix_coefs : Index → Nat → ℚ) (patch : Patch (CellData Int))
    (set_values : List SetValues) : Except Failure (List SetValues) :=
  let dof_index_data := patch.dof_index_data
  let sz := stencil_sz NDIM
  (patch.box.indices.foldlM
    (fun st i =>
      (evenComponents depth).foldlM
        (fun st d => ccComplexFillVisit NDIM i_lower i_upper matrix_coefs dof_index_data i d st)
        st)
    ((List.replicate (2 * sz) (0 : ℚ), List.replicate (2 * sz) (0 : Int)),
     (List.replicate (2 * sz) (0 : ℚ), List.replicate (2 * sz) (0 : Int)),
      set_values)).map (fun st => st.2.2)

/-- The builder `PETScMatUtilities::constructPatchLevelCCComplexLaplaceOp` (the overload
taking the list `bc_coefs`). `computeCCComplexMatrixCoefficients` stands for the routine of
`PoissonUtilities`. -/
def constructPatchLevelCCComplexLaplaceOp (NDIM : Nat) {PS BC : Type}
    (computeCCComplexMatrixCoefficients :
      Patch (CellData Int) → List Index → PS → PS → List BC → ℚ → Index → Nat → ℚ)
    (poisson_spec_real poisson_spec_imag : PS) (bc_coefs : List BC) (data_time : ℚ)
    (num_dofs_per_proc : List Int) (mpi_rank : Nat)
    (patch_level : List (Patch (CellData Int))) : Except Failure Mat :=
  let depth := bc_coefs.length
  let n_loc := n_local num_dofs_per_proc mpi_rank
  let i_lo := i_lower num_dofs_per_proc mpi_rank
  let i_up := i_upper num_dofs_per_proc mpi_rank
  let n_tot := n_total num_dofs_per_proc
  match ccCountPass NDIM 2 depth i_lo i_up n_loc n_tot patch_level with
  | .error e => .error e
  | .ok nnz =>
    match patch_level.foldlM
        (fun sets patch =>
          ccComplexFillPatch NDIM depth i_lo i_up
            (computeCCComplexMatrixCoefficients patch (stencil NDIM) poisson_spec_real
              poisson_spec_imag bc_coefs data_time)
            patch sets)
        [] with
    | .error e => .error e
    | .ok sets =>
      .ok { m_local := n_loc, n_local := n_loc, d_nnz := nnz.1, o_nnz := nnz.2,
            block_size := some (depth : Int),
            new_nonzero_location_err := false, new_nonzero_allocation_err := false,
            set_values := sets }

/-- The sides visited on one patch by
`for (axis = 0; axis < NDIM; ++axis) for (b = SideGeometry::begin(patch_box, axis); ...)`:
for each axis in turn, the indices of the side box of that axis. -/
def sideVisits (NDIM : Nat) (patch_box : Box) : List (Nat × Index) :=
  (List.range NDIM).flatMap (fun axis => (patch_box.toSideBox axis).indices.map (fun i => (axis, i)))

/-- The (patch, axis, side index) triples the side-centred passes visit, in order. -/
def scVisits (NDIM : Nat) (patch_level : List (Patch (SideData Int))) :
    List (Patch (SideData Int) × Nat × Index) :=
  patch_level.flatMap (fun patch => (sideVisits NDIM patch.box).map (fun v => (patch, v.1, v.2)))

/-- The counting pass of `constructPatchLevelSCLaplaceOp` on one patch. -/
def scCountPatch (NDIM : Nat) (i_lower i_upper n_local n_total : Int)
    (nnz : List Int × List Int) (patch : Patch (SideData Int)) :
    Except Failure (List Int × List Int) :=
  let dof_index_data := patch.dof_index_data
  if dof_index_data.depth ≠ 1 then .error Failure.assert_side_depth
  else
    .ok ((List.range NDIM).foldl
      (fun nnz axis =>
        ((patch.box.toSideBox axis).indices).foldl
          (fun nnz i =>
            countVisit NDIM 1 i_lower i_upper n_local n_total
              (fun j => dof_index_data.data axis j 0) i nnz)
          nnz)
      nnz)

/-- The counting pass of `constructPatchLevelSCLaplaceOp` over the patches of the level. -/
def scCountPass (NDIM : Nat) (i_lower i_upper n_local n_total : Int)
    (patch_level : List (Patch (SideData Int))) : Except Failure (List Int × List Int) :=
  patch_level.foldlM (scCountPatch NDIM i_lower i_upper n_local n_total) (nnzInit n_local)

/-- The fill pass of `constructPatchLevelSCLaplaceOp` for one side `(i, axis)`. -/
def scFillVisit (NDIM : Nat) (i_lower i_upper : Int) (matrix_coefs : Nat → Index → Nat → ℚ)
    (dof_index_data : SideData Int) (axis : Nat) (i : Index)
    (st : List ℚ × List Int × List SetValues) : List ℚ × List Int × List SetValues :=
  let dof_index := dof_index_data.data axis i 0
  if i_lower ≤ dof_index ∧ dof_index < i_upper then
    let mat_vals := st.1.set 0 (matrix_coefs axis i 0)
    let mat_cols := st.2.1.set 0 dof_index
    let bufs := stencilLoop NDIM
      (fun _axis _side stencil_index (bufs : List ℚ × List Int) =>
        (bufs.1.set stencil_index (matrix_coefs axis i stencil_index),
         bufs.2.set stencil_index
           (dof_index_data.data axis (Index.add i ((stencil NDIM).getD stencil_index [])) 0)))
      (mat_vals, mat_cols)
    (bufs.1, bufs.2, st.2.2 ++ [{ row := dof_index, cols := bufs.2, vals := bufs.1 }])
  else st

/-- The fill pass of `constructPatchLevelSCLaplaceOp` on one patch; `matrix_coefs` is what
`PoissonUtilities::computeSCMatrixCoefficients` stored for the patch. -/
def scFillPatch (NDIM : Nat) (i_lower i_upper : Int)
    (matrix_coefs : Nat → Index → Nat → ℚ) (patch : Patch (SideData Int))
    (set_values : List SetValues) : List SetValues :=
  let dof_index_data := patch.dof_index_data
  ((List.range NDIM).foldl
    (fun st axis =>
      ((patch.box.toSideBox axis).indices).foldl
        (fun st i => scFillVisit NDIM i_lower i_upper matrix_coefs dof_index_data axis i st)
        st)
    (List.replicate (stencil_sz NDIM) (0 : ℚ), List.replicate (stencil_sz NDIM) (0 : Int),
      set_values)).2.2

/-- The builder `PETScMatUtilities::constructPatchLevelSCLaplaceOp`.
`computeSCMatrixCoefficients` stands for the routine of `PoissonUtilities`. -/
def constructPatchLevelSCLaplaceOp (NDIM : Nat) {PS BC : Type}
    (computeSCMatrixCoefficients :
      Patch (SideData Int) → List Index → PS → List BC → ℚ → Nat → Index → Nat → ℚ)
    (poisson_spec : PS) (bc_coefs : List BC) (data_time : ℚ)
    (num_dofs_per_proc : List Int) (mpi_rank : Nat)
    (patch_level : List (Patch (SideData Int))) : Except Failure Mat :=
  if bc_coefs.length ≠ NDIM then .error Failure.assert_bc_coefs_size
  else
    let n_loc := n_local num_dofs_per_proc mpi_rank
    let i_lo := i_lower num_dofs_per_proc mpi_rank
    let i_up := i_upper num_dofs_per_proc mpi_rank
    let n_tot := n_total num_dofs_per_proc
    match scCountPass NDIM i_lo i_up n_loc n_tot patch_level with
    | .error e => .error e
    | .ok nnz =>
      .ok { m_local := n_loc, n_local := n_loc, d_nnz := nnz.1, o_nnz := nnz.2,
            block_size := none,
            new_nonzero_location_err := false, new_nonzero_allocation_err := false,
            set_values := patch_level.foldl
              (fun sets patch =>
                scFillPatch NDIM i_lo i_up
                  (computeSCMatrixCoefficients patch (stencil NDIM) poisson_spec bc_coefs
                    data_time)
                  patch sets)
              [] }

/-- The PETSc vector `X_vec` as the interpolation builder reads it: `VecGetLocalSize`,
`VecGetOwnershipRange` and `VecGetArray`. -/
structure Vec where
  local_size : Int
  ownership_lower : Int
  ownership_upper : Int
  array : List ℚ

/-- The patch level as the interpolation builder reads it: the grid geometry
(`getXLower`, `getXUpper`, `getDx`), `getRatioToLevelZero`, `getPhysicalDomainArray()[0]`,
the boxes of `getGlobalizedBoxLevel()` with their global ids, and the local patches. -/
structure PatchLevel where
  x_lower : List ℚ
  x_upper : List ℚ
  dx0 : List ℚ
  ratio_to_level_zero : List Int
  domain_boxes : List Box
  level_boxes : List (Int × Box)
  patches : List (Patch (SideData Int))

/-- The largest and smallest `int`, the corners of the empty box `Box(DIM)`. -/
def INT_MAX : Int := 2147483647

/-- The smallest `int`. -/
def INT_MIN : Int := -2147483648

/-- The empty box built by `Box(DIM)`. -/
def Box.emptyBox (dim : Nat) : Box :=
  { lower := List.replicate dim INT_MAX, upper := List.replicate dim INT_MIN }

/-- The test `box.empty()`: some direction has `upper < lower`. -/
def Box.isEmpty (NDIM : Nat) (b : Box) : Bool :=
  (List.range NDIM).any (fun d => decide (Index.comp b.upper d < Index.comp b.lower d))

/-- The test `box.contains(idx)` for an index. -/
def Box.containsIndex (NDIM : Nat) (b : Box) (i : Index) : Bool :=
  (List.range NDIM).all (fun d =>
    decide (Index.comp b.lower d ≤ Index.comp i d ∧ Index.comp i d ≤ Index.comp b.upper d))

/-- The test `box.contains(other)` of SAMRAI: an empty `other` is contained in every box,
otherwise both corners of `other` must lie in the box. -/
def Box.contains (NDIM : Nat) (b other : Box) : Bool :=
  other.isEmpty NDIM || (b.containsIndex NDIM other.lower && b.containsIndex NDIM other.upper)

/-- The test used by `findOverlapBoxes`: the two boxes share a cell. -/
def Box.intersects (NDIM : Nat) (a b : Box) : Bool :=
  (List.range NDIM).all (fun d =>
    decide (max (Index.comp a.lower d) (Index.comp b.lower d)
      ≤ min (Index.comp a.upper d) (Index.comp b.upper d)))

/-- The box after `box.grow(IntVector::getOne(DIM))`. -/
def Box.growOne (b : Box) : Box :=
  { lower := b.lower.map (· - 1), upper := b.upper.map (· + 1) }

/-- The boxes appended by `level_boxes.findOverlapBoxes(overlap_boxes, box)`. -/
def findOverlapBoxes (NDIM : Nat) (level_boxes : List (Int × Box)) (box : Box) :
    List (Int × Box) :=
  level_boxes.filter (fun b => b.2.intersects NDIM box)

/-- The lookup `patch_level->getPatch(id)` among the local patches. -/
def getPatch (patches : List (Patch (SideData Int))) (id : Int) :
    Except Failure (Patch (SideData Int)) :=
  match patches.find? (fun p => decide (p.global_id = id)) with
  | some p => .ok p
  | none => .error Failure.get_patch

/-- The rounding at the top of `constructPatchLevelSCInterpOp`:
`if (interp_stencil % 2 != 0) interp_stencil += 1;`. -/
def roundInterpStencil (interp_stencil : Int) : Int :=
  if interp_stencil.tmod 2 ≠ 0 then interp_stencil + 1 else interp_stencil

/-- The grid spacing of the level, `dx[d] = dx0[d] / ratio(d)`. -/
def levelDx (NDIM : Nat) (dx0 : List ℚ) (ratio_to_level_zero : List Int) : List ℚ :=
  (List.range NDIM).map (fun d => dx0.getD d 0 / ((Index.comp ratio_to_level_zero d : Int) : ℚ))

/-- The centre of the cell `X_idx`:
`X_cell[d] = (double(X_idx(d) - domain_lower(d)) + 0.5) * dx[d] + x_lower[d]`
(written out for `NDIM == 2` and `NDIM == 3` in the source). -/
def cellCentre (NDIM : Nat) (X_idx domain_lower : Index) (dx x_lower : List ℚ) : List ℚ :=
  (List.range NDIM).map (fun d =>
    (((Index.comp X_idx d - Index.comp domain_lower d : Int) : ℚ) + 1 / 2) * dx.getD d 0
      + x_lower.getD d 0)

/-- The stencil box of velocity component `axis` for a sample `X` in cell `X_idx`: the loop
`for (d = 0; d < NDIM; ++d)` over the three branches `d == axis`, `X[d] <= X_cell[d]` and
otherwise, acting on `stencil_box[k][axis]`. -/
def stencilBoxAxis (NDIM : Nat) (interp_stencil : Int) (X X_cell : List ℚ) (X_idx : Index)
    (axis : Nat) (stencil_box_axis : Box) : Box :=
  (List.range NDIM).foldl
    (fun (b : Box) d =>
      if d = axis then
        { lower := b.lower.set d (Index.comp X_idx d - interp_stencil.tdiv 2 + 1),
          upper := b.upper.set d (Index.comp X_idx d + interp_stencil.tdiv 2) }
      else if X.getD d 0 ≤ X_cell.getD d 0 then
        { lower := b.lower.set d (Index.comp X_idx d - interp_stencil.tdiv 2),
          upper := b.upper.set d (Index.comp X_idx d + interp_stencil.tdiv 2 - 1) }
      else
        { lower := b.lower.set d (Index.comp X_idx d - interp_stencil.tdiv 2 + 1),
          upper := b.upper.set d (Index.comp X_idx d + interp_stencil.tdiv 2) })
    stencil_box_axis

/-- The lower end of the stencil box along `d`, as the three branches give it. -/
def stencilLower (s : Int) (X X_cell : List ℚ) (X_idx : Index) (axis d : Nat) : Int :=
  if d = axis then Index.comp X_idx d - s.tdiv 2 + 1
  else if X.getD d 0 ≤ X_cell.getD d 0 then Index.comp X_idx d - s.tdiv 2
  else Index.comp X_idx d - s.tdiv 2 + 1

/-- The upper end of the stencil box along `d`, as the three branches give it. -/
def stencilUpper (s : Int) (X X_cell : List ℚ) (X_idx : Index) (axis d : Nat) : Int :=
  if d = axis then Index.comp X_idx d + s.tdiv 2
  else if X.getD d 0 ≤ X_cell.getD d 0 then Index.comp X_idx d + s.tdiv 2 - 1
  else Index.comp X_idx d + s.tdiv 2

/-- The state of the counting pass of `constructPatchLevelSCInterpOp`: `patch_id`,
`stencil_box`, `d_nnz` and `o_nnz`. -/
structure InterpCount where
  patch_id : List Int
  stencil_box : List (List Box)
  d_nnz : List Int
  o_nnz : List Int
deriving DecidableEq, Repr

/-- The body of `for (int axis = 0; axis < NDIM; ++axis)` in the counting pass of
`constructPatchLevelSCInterpOp`, for sample point `k`. -/
def interpCountAxis (NDIM : Nat) (interp_stencil : Int) (j_lower j_upper n_local n_total : Int)
    (X X_cell : List ℚ) (X_idx : Index) (dof_index_data : SideData Int) (k : Nat)
    (st : InterpCount) (axis : Nat) : Except Failure InterpCount :=
  if interp_stencil.tmod 2 ≠ 0 then .error Failure.error_odd_stencil
  else
    let stencil_box_axis :=
      stencilBoxAxis NDIM interp_stencil X X_cell X_idx axis
        ((st.stencil_box.getD k []).getD axis (Box.emptyBox NDIM))
    let stencil_box := st.stencil_box.modify (fun bs => bs.set axis stencil_box_axis) k
    let local_idx := NDIM * k + axis
    if ¬ (dof_index_data.ghost_box.toSideBox axis).contains NDIM stencil_box_axis then
      .error Failure.assert_ghost_box
    else
      let nnz := stencil_box_axis.indices.foldl
        (fun (nnz : List Int × List Int) b =>
          let dof_index := dof_index_data.data axis b 0
          if dof_index ≥ j_lower ∧ dof_index < j_upper then
            (nnz.1.modify (· + 1) local_idx, nnz.2)
          else
            (nnz.1, nnz.2.modify (· + 1) local_idx))
        (st.d_nnz, st.o_nnz)
      .ok { patch_id := st.patch_id, stencil_box := stencil_box,
            d_nnz := nnz.1.modify (fun x => min n_local x) local_idx,
            o_nnz := nnz.2.modify (fun x => min (n_total - n_local) x) local_idx }

/-- The body of `for (int k = 0; k < n_local_points; ++k)` in the counting pass of
`constructPatchLevelSCInterpOp`. `getCellIndex` stands for `IndexUtilities::getCellIndex`. -/
def interpCountPoint (NDIM : Nat)
    (getCellIndex : List ℚ → List ℚ → List ℚ → List ℚ → Index → Index → Index)
    (interp_stencil : Int) (j_lower j_upper n_local n_total : Int)
    (X_arr : List ℚ) (patch_level : PatchLevel) (dx : List ℚ) (domain_box : Box)
    (st : InterpCount) (k : Nat) : Except Failure InterpCount :=
  let X := X_arr.drop (NDIM * k)
  let X_idx := getCellIndex X patch_level.x_lower patch_level.x_upper dx
    domain_box.lower domain_box.upper
  let X_cell := cellCentre NDIM X_idx domain_box.lower dx patch_level.x_lower
  let box : Box := { lower := X_idx, upper := X_idx }
  let overlap_boxes := findOverlapBoxes NDIM patch_level.level_boxes box
  let overlap_boxes :=
    if overlap_boxes.length = 0 then
      overlap_boxes ++ findOverlapBoxes NDIM patch_level.level_boxes box.growOne
    else overlap_boxes
  match overlap_boxes with
  | [] => .error Failure.assert_overlap_boxes
  | first :: _ =>
    let st := { st with patch_id := st.patch_id.set k first.1 }
    match getPatch patch_level.patches first.1 with
    | .error e => .error e
    | .ok patch =>
      let dof_index_data := patch.dof_index_data
      if dof_index_data.depth ≠ 1 then .error Failure.assert_side_depth
      else
        (List.range NDIM).foldlM
          (interpCountAxis NDIM interp_stencil j_lower j_upper n_local n_total X X_cell X_idx
            dof_index_data k)
          st

/-- The counting pass of `constructPatchLevelSCInterpOp`:
`for (int k = 0; k < n_local_points; ++k)`. -/
def interpCountPass (NDIM : Nat)
    (getCellIndex : List ℚ → List ℚ → List ℚ → List ℚ → Index → Index → Index)
    (interp_stencil : Int) (j_lower j_upper n_local n_total : Int)
    (X_arr : List ℚ) (patch_level : PatchLevel) (dx : List ℚ) (domain_box : Box)
    (n_local_points : Int) (init : InterpCount) : Except Failure InterpCount :=
  (List.range n_local_points.toNat).foldlM
    (interpCountPoint NDIM getCellIndex interp_stencil j_lower j_upper n_local n_total
      X_arr patch_level dx domain_box)
    init

/-- The 1-D weights of one stencil box: the loop `for (d = 0; d < NDIM; ++d)` that calls
`interp_fcn((X[d] - X_stencil_lower) / dx[d], &w[d][0])`. The kernel `interp_fcn` is given
the argument and the buffer `w[d]` and returns the buffer as it leaves it. -/
def interpWeights (NDIM : Nat) (interp_fcn : ℚ → List ℚ → List ℚ) (X : List ℚ)
    (dx x_lower : List ℚ) (domain_lower : Index) (axis : Nat) (stencil_box_lower : Index)
    (w : List (List ℚ)) : List (List ℚ) :=
  (List.range NDIM).foldl
    (fun w d =>
      let i := Index.comp stencil_box_lower d
      let X_stencil_lower : ℚ :=
        (((i - Index.comp domain_lower d : Int) : ℚ) + (if d = axis then 0 else 1 / 2))
          * dx.getD d 0 + x_lower.getD d 0
      w.modify (fun wd => interp_fcn ((X.getD d 0 - X_stencil_lower) / dx.getD d 0) wd) d)
    w

/-- The tensor-product loop over the stencil box: for every point `b` of the box, with the
running counter `stencil_idx`, `stencil_box_vals[stencil_idx] *= w[d][b(d) - lower(d)]` for
every `d` and `stencil_box_cols[stencil_idx] = dof_index_data(SideIndex(b, axis, Lower))`.
The state is `(stencil_box_vals, stencil_box_cols, stencil_idx)`. -/
def interpTensor (NDIM : Nat) (dof_index_data : SideData Int) (axis : Nat)
    (stencil_box_axis : Box) (w : List (List ℚ))
    (st : List ℚ × List Int × Nat) : List ℚ × List Int × Nat :=
  stencil_box_axis.indices.foldl
    (fun (st : List ℚ × List Int × Nat) b =>
      let stencil_idx := st.2.2
      let vals := (List.range NDIM).foldl
        (fun (vals : List ℚ) d =>
          vals.modify
            (fun v => v * (w.getD d []).getD
              (Index.comp b d - Index.comp stencil_box_axis.lower d).toNat 0)
            stencil_idx)
        st.1
      (vals, st.2.1.set stencil_idx (dof_index_data.data axis b 0), stencil_idx + 1))
    st

/-- The body of `for (int k = 0; k < m_local / NDIM; ++k)` in the fill pass of
`constructPatchLevelSCInterpOp`. -/
def interpFillPoint (NDIM : Nat) (interp_fcn : ℚ → List ℚ → List ℚ) (interp_stencil : Int)
    (i_lower : Int) (X_arr : List ℚ) (patch_level : PatchLevel) (dx : List ℚ) (domain_box : Box)
    (count : InterpCount) (set_values : List SetValues) (k : Nat) :
    Except Failure (List SetValues) :=
  let X := X_arr.drop (NDIM * k)
  match getPatch patch_level.patches (count.patch_id.getD k (-1)) with
  | .error e => .error e
  | .ok patch =>
    let dof_index_data := patch.dof_index_data
    if dof_index_data.depth ≠ 1 then .error Failure.assert_side_depth
    else
      let stencil_box_nvals : Int :=
        (List.range NDIM).foldl (fun (n : Int) _ => n * interp_stencil) 1
      if interp_stencil < 0 ∨ stencil_box_nvals < 0 then .error Failure.length_error
      else
        let w : List (List ℚ) :=
          List.replicate NDIM (List.replicate interp_stencil.toNat (0 : ℚ))
        let stencil_box_vals : List ℚ := List.replicate stencil_box_nvals.toNat 0
        let stencil_box_cols : List Int := List.replicate stencil_box_nvals.toNat 0
        .ok ((List.range NDIM).foldl
          (fun (st : List (List ℚ) × List ℚ × List Int × List SetValues) axis =>
            let stencil_box_axis := (count.stencil_box.getD k []).getD axis (Box.emptyBox NDIM)
            let w := interpWeights NDIM interp_fcn X dx patch_level.x_lower domain_box.lower
              axis stencil_box_axis.lower st.1
            let stencil_box_row := i_lower + ((NDIM * k + axis : Nat) : Int)
            let filled : List ℚ := List.replicate st.2.1.length 1
            let t := interpTensor NDIM dof_index_data axis stencil_box_axis w
              (filled, st.2.2.1, 0)
            (w, t.1, t.2.1,
              st.2.2.2 ++ [{ row := stencil_box_row, cols := t.2.1, vals := t.1 }]))
          (w, stencil_box_vals, stencil_box_cols, set_values)).2.2.2

/-- The result of `constructPatchLevelSCInterpOp`: the matrix, and the patch ids and
stencil boxes computed for the sample points on the way. -/
structure InterpOp where
  mat : Mat
  patch_id : List Int
  stencil_box : List (List Box)
deriving DecidableEq, Repr

/-- The builder `PETScMatUtilities::constructPatchLevelSCInterpOp`. `getCellIndex` stands
for `IndexUtilities::getCellIndex`; `interp_fcn` is given its argument and the buffer it
writes to and returns the buffer as it leaves it. -/
def constructPatchLevelSCInterpOp (NDIM : Nat)
    (getCellIndex : List ℚ → List ℚ → List ℚ → List ℚ → Index → Index → Index)
    (interp_fcn : ℚ → List ℚ → List ℚ) (interp_stencil : Int) (X_vec : Vec)
    (num_dofs_per_proc : List Int) (mpi_rank : Nat) (patch_level : PatchLevel) :
    Except Failure InterpOp :=
  let interp_stencil := roundInterpStencil interp_stencil
  let dx := levelDx NDIM patch_level.dx0 patch_level.ratio_to_level_zero
  match patch_level.domain_boxes with
  | [domain_box] =>
    let m_local := X_vec.local_size
    let i_lo := X_vec.ownership_lower
    let n_loc := n_local num_dofs_per_proc mpi_rank
    let j_lower := i_lower num_dofs_per_proc mpi_rank
    let j_upper := j_lower + n_loc
    let n_tot := n_total num_dofs_per_proc
    let n_local_points := m_local.tdiv (NDIM : Int)
    let init : InterpCount :=
      { patch_id := List.replicate n_local_points.toNat (-1),
        stencil_box :=
          List.replicate n_local_points.toNat (List.replicate NDIM (Box.emptyBox NDIM)),
        d_nnz := List.replicate m_local.toNat 0,
        o_nnz := List.replicate m_local.toNat 0 }
    match interpCountPass NDIM getCellIndex interp_stencil j_lower j_upper n_loc n_tot
        X_vec.array patch_level dx domain_box n_local_points init with
    | .error e => .error e
    | .ok count =>
      match (List.range (m_local.tdiv (NDIM : Int)).toNat).foldlM
          (interpFillPoint NDIM interp_fcn interp_stencil i_lo X_vec.array patch_level dx
            domain_box count)
          [] with
      | .error e => .error e
      | .ok sets =>
        .ok { mat :=
                { m_local := m_local, n_local := n_loc, d_nnz := count.d_nnz,
                  o_nnz := count.o_nnz, block_size := none,
                  new_nonzero_location_err := false, new_nonzero_allocation_err := false,
                  set_values := sets },
              patch_id := count.patch_id,
              stencil_box := count.stencil_box }
  | _ => .error Failure.assert_domain_boxes

/-! ### A concrete level for the interpolation builder

A 4 x 4 patch on a unit grid with two ghost cells, whose side DOF indices are
`25 * axis + i + 5 * j` inside `[0, 4] x [0, 4]` and `-1` elsewhere, and one sample point at
`(13/10, 27/10)`. -/

/-- The side DOF indices of the example patch. -/
def exampleSideDofs (axis : Nat) (i : Index) (_ : Nat) : Int :=
  if 0 ≤ Index.comp i 0 ∧ Index.comp i 0 ≤ 4 ∧ 0 ≤ Index.comp i 1 ∧ Index.comp i 1 ≤ 4 then
    (axis : Int) * 25 + Index.comp i 0 + 5 * Index.comp i 1
  else -1

/-- The example patch: box `[0, 3] x [0, 3]`, ghost box `[-2, 5] x [-2, 5]`. -/
def examplePatch : Patch (SideData Int) :=
  { global_id := 7, box := { lower := [0, 0], upper := [3, 3] },
    dof_index_data :=
      { depth := 1, ghost_box := { lower := [-2, -2], upper := [5, 5] },
        data := exampleSideDofs } }

/-- The example level: unit spacing, domain `[0, 4] x [0, 4]`, the single example patch. -/
def exampleLevel : PatchLevel :=
  { x_lower := [0, 0], x_upper := [4, 4], dx0 := [1, 1], ratio_to_level_zero := [1, 1],
    domain_boxes := [{ lower := [0, 0], upper := [3, 3] }],
    level_boxes := [(7, { lower := [0, 0], upper := [3, 3] })],
    patches := [examplePatch] }

/-- A cell lookup for the example: the cell of `X` on the unit grid. -/
def exampleGetCellIndex (X x_lower _x_upper dx : List ℚ) (domain_lower _domain_upper : Index) :
    Index :=
  (List.range 2).map (fun d =>
    Index.comp domain_lower d + Int.floor ((X.getD d 0 - x_lower.getD d 0) / dx.getD d 0))

/-- The two-point linear kernel: it writes `1 - r` and `r`. -/
def exampleKernel (r : ℚ) (w : List ℚ) : List ℚ := (w.set 0 (1 - r)).set 1 r

/-- The position vector of the example: one point `(13/10, 27/10)`. -/
def exampleX : Vec :=
  { local_size := 2, ownership_lower := 0, ownership_upper := 2, array := [13 / 10, 27 / 10] }

/-- The insertion the fill pass of `constructPatchLevelCCLaplaceOp` is to make for cell `i`
and component `d`: row `dof(i, d)`, columns the DOF indices of component `d` at the cell and
at its `2 * NDIM` neighbours in stencil order, values the coefficient components
`d * stencil_sz + k`, `k = 0 .. 2 * NDIM`, at cell `i`. -/
def ccInsertion (NDIM : Nat) (matrix_coefs : Index → Nat → ℚ) (dof_index_data : CellData Int)
    (i : Index) (d : Nat) : SetValues :=
  { row := dof_index_data.data i d,
    cols := dof_index_data.data i d :: neighbourDofs NDIM (fun j => dof_index_data.data j d) i,
    vals := (List.range (stencil_sz NDIM)).map
      (fun k => matrix_coefs i (d * stencil_sz NDIM + k)) }

/-- The insertion the fill pass of `constructPatchLevelSCLaplaceOp` is to make for the side
`(i, axis)`: row the side's DOF index, columns the DOF indices of the sides of the same axis
at `i` and at its `2 * NDIM` neighbours in stencil order, values the coefficient components
`0 .. 2 * NDIM` at the side. -/
def scInsertion (NDIM : Nat) (matrix_coefs : Nat → Index → Nat → ℚ)
    (dof_index_data : SideData Int) (axis : Nat) (i : Index) : SetValues :=
  { row := dof_index_data.data axis i 0,
    cols := dof_index_data.data axis i 0
      :: neighbourDofs NDIM (fun j => dof_index_data.data axis j 0) i,
    vals := (List.range (stencil_sz NDIM)).map (fun k => matrix_coefs axis i k) }

/-- The clamped update of a row's `d_nnz` by one visit of the point `v = (dof, i)`. -/
def dStep (NDIM : Nat) (inc : Int) (i_lower i_upper n_local : Int)
    (v : (Index → Int) × Index) (x : Int) : Int :=
  min n_local
    (x + inc * (1 + ((neighbourDofs NDIM v.1 v.2).countP (isLocal i_lower i_upper) : Int)))

/-- The clamped update of a row's `o_nnz` by one visit of the point `v = (dof, i)`. -/
def oStep (NDIM : Nat) (inc : Int) (i_lower i_upper n_local n_total : Int)
    (v : (Index → Int) × Index) (x : Int) : Int :=
  min (n_total - n_local)
    (x + inc * ((neighbourDofs NDIM v.1 v.2).countP (fun c => !isLocal i_lower i_upper c) : Int))

/-- Whether the point `v = (dof, i)` is locally owned and belongs to the local row `k`. -/
def visitsRow (i_lower i_upper : Int) (k : Nat) (v : (Index → Int) × Index) : Bool :=
  isLocal i_lower i_upper (v.1 v.2) && decide ((v.1 v.2 - i_lower).toNat = k)

/-- The statement that every entry of `d_nnz` lies in `[0, d_bound]` and every entry of
`o_nnz` lies in `[0, o_bound]`. -/
def NnzBounded (d_bound o_bound : Int) (nnz : List Int × List Int) : Prop :=
  (∀ x ∈ nnz.1, 0 ≤ x ∧ x ≤ d_bound) ∧ (∀ x ∈ nnz.2, 0 ≤ x ∧ x ≤ o_bound)

/-! ### A concrete cell-centred level

One 2 x 2 patch in two dimensions with depth 1, whose cells carry the DOF indices
0, 1, 2, 3 and whose ghost cells carry the sentinel `-1`. -/

/-- The cell DOF indices of the example patch. -/
def exampleCellDofs (i : Index) (_ : Nat) : Int :=
  if i = [0, 0] then 0 else if i = [1, 0] then 1 else if i = [0, 1] then 2
  else if i = [1, 1] then 3 else -1

/-- The example cell-centred patch: box `[0, 1] x [0, 1]`. -/
def exampleCellPatch : Patch (CellData Int) :=
  { global_id := 0, box := { lower := [0, 0], upper := [1, 1] },
    dof_index_data := { depth := 1, data := exampleCellDofs } }

/-- The standard second-difference coefficients of `C = 0`, `D = 1` on a uniform grid with
spacings `dx`, named in the hypothesis on the coefficient routine: component 0 (the centre)
is `-(2 / dx_0^2 + ... + 2 / dx_{NDIM-1}^2)` and component `k = 1 + 2 * a + s` (a face
neighbour along axis `a`) is `1 / dx_a^2`. -/
def standardLaplaceCoef (NDIM : Nat) (dx : List ℚ) (k : Nat) : ℚ :=
  if k = 0 then -((List.range NDIM).map (fun a => 2 / (dx.getD a 0) ^ 2)).sum
  else 1 / (dx.getD ((k - 1) / 2) 0) ^ 2

/-! ### A second cell-centred level

One 3 x 3 patch in two dimensions with depth 1, whose cells carry the DOF indices
`i + 3 * j` and whose ghost cells carry the sentinel `-1`; the coefficient routine supplies
the standard coefficients for the spacing `1/2`. -/

/-- The cell DOF indices of the 3 x 3 example patch. -/
def exampleCellDofs3 (i : Index) (_ : Nat) : Int :=
  if 0 ≤ Index.comp i 0 ∧ Index.comp i 0 ≤ 2 ∧ 0 ≤ Index.comp i 1 ∧ Index.comp i 1 ≤ 2 then
    Index.comp i 0 + 3 * Index.comp i 1
  else -1

/-- The 3 x 3 example patch: box `[0, 2] x [0, 2]`. -/
def exampleCellPatch3 : Patch (CellData Int) :=
  { global_id := 0, box := { lower := [0, 0], upper := [2, 2] },
    dof_index_data := { depth := 1, data := exampleCellDofs3 } }

/-- A coefficient routine for the examples: component `k` at every cell is the standard
coefficient `k` for the spacing `1/2` in both directions. -/
def exampleStandardCoefs (_ : Patch (CellData Int)) (_ : List Index) (_ : Unit)
    (_ : List Unit) (_ : ℚ) (_ : Index) (k : Nat) : ℚ :=
  standardLaplaceCoef 2 [1 / 2, 1 / 2] k

/-- A coefficient routine for the examples: component `k` at every cell is `k`. -/
def exampleCoefs (_ : Patch (CellData Int)) (_ : List Index) (_ : Unit) (_ : List Unit)
    (_ : ℚ) (_ : Index) (k : Nat) : ℚ := (k : ℚ)

/-- The matrix the real cell-centred builder returns for the 2 x 2 example patch on the
partition `[4, 4]`, rank 0, with `exampleCoefs`. -/
def exampleCellMat : Mat :=
  { m_local := 4, n_local := 4, d_nnz := [3, 3, 3, 3], o_nnz := [2, 2, 2, 2],
    block_size := some 1, new_nonzero_location_err := true, new_nonzero_allocation_err := true,
    set_values :=
      [{ row := 0, cols := [0, -1, 1, -1, 2], vals := [0, 1, 2, 3, 4] },
       { row := 1, cols := [1, 0, -1, -1, 3], vals := [0, 1, 2, 3, 4] },
       { row := 2, cols := [2, -1, 3, 0, -1], vals := [0, 1, 2, 3, 4] },
       { row := 3, cols := [3, 2, -1, 1, -1], vals := [0, 1, 2, 3, 4] }] }

/-! ### A concrete side-centred level with a shared side

Two abutting 1 x 1 patches in two dimensions, boxes `[0, 0] x [0, 0]` and `[1, 1] x [0, 0]`.
The sides normal to x at `(0, 0)`, `(1, 0)`, `(2, 0)` carry the DOF indices 0, 1, 2 and the
sides normal to y at `(0, 0)`, `(0, 1)`, `(1, 0)`, `(1, 1)` carry 3, 4, 5, 6; every other side
carries the sentinel `-1`. Both patches hold the same index data, so the side `(1, 0)` they
share carries the index 1 in both. -/

/-- The side DOF indices of the two-patch example. -/
def exampleSharedDofs (axis : Nat) (i : Index) (_ : Nat) : Int :=
  if axis = 0 then
    (if i = [0, 0] then 0 else if i = [1, 0] then 1 else if i = [2, 0] then 2 else -1)
  else
    (if i = [0, 0] then 3 else if i = [0, 1] then 4 else if i = [1, 0] then 5
     else if i = [1, 1] then 6 else -1)

/-- The left patch of the two-patch example. -/
def exampleSidePatchA : Patch (SideData Int) :=
  { global_id := 0, box := { lower := [0, 0], upper := [0, 0] },
    dof_index_data :=
      { depth := 1, ghost_box := { lower := [-1, -1], upper := [1, 1] },
        data := exampleSharedDofs } }

/-- The right patch of the two-patch example. -/
def exampleSidePatchB : Patch (SideData Int) :=
  { global_id := 1, box := { lower := [1, 0], upper := [1, 0] },
    dof_index_data :=
      { depth := 1, ghost_box := { lower := [0, -1], upper := [2, 1] },
        data := exampleSharedDofs } }

/-- A side-centred coefficient routine for the examples: component `k` at every side is `k`. -/
def exampleSideCoefs (_ : Patch (SideData Int)) (_ : List Index) (_ : Unit) (_ : List Unit)
    (_ : ℚ) (_ : Nat) (_ : Index) (k : Nat) : ℚ := (k : ℚ)

/-- The matrix the side-centred builder returns for the two-patch example on the partition
`[7, 7]`, rank 0, with `exampleSideCoefs`. -/
def exampleSideMat : Mat :=
  { m_local := 7, n_local := 7, d_nnz := [2, 6, 2, 3, 3, 3, 3], o_nnz := [3, 4, 3, 2, 2, 2, 2],
    block_size := none, new_nonzero_location_err := false,
    new_nonzero_allocation_err := false,
    set_values :=
      [{ row := 0, cols := [0, -1, 1, -1, -1], vals := [0, 1, 2, 3, 4] },
       { row := 1, cols := [1, 0, 2, -1, -1], vals := [0, 1, 2, 3, 4] },
       { row := 3, cols := [3, -1, 5, -1, 4], vals := [0, 1, 2, 3, 4] },
       { row := 4, cols := [4, -1, 6, 3, -1], vals := [0, 1, 2, 3, 4] },
       { row := 1, cols := [1, 0, 2, -1, -1], vals := [0, 1, 2, 3, 4] },
       { row := 2, cols := [2, 1, -1, -1, -1], vals := [0, 1, 2, 3, 4] },
       { row := 5, cols := [5, 3, -1, -1, 6], vals := [0, 1, 2, 3, 4] },
       { row := 6, cols := [6, 4, -1, 5, -1], vals := [0, 1, 2, 3, 4] }] }

/-! ### A concrete complex level with a split pair

One 1 x 1 patch in two dimensions with depth 2: at the cell `(0, 0)` the real component
carries the DOF index 0 and the imaginary component the sentinel `-1`. -/

/-- The DOF indices of the split-pair example. -/
def exampleSplitDofs (i : Index) (d : Nat) : Int :=
  if i = [0, 0] ∧ d = 0 then 0 else -1

/-- The split-pair example patch: box `[0, 0] x [0, 0]`, depth 2. -/
def exampleSplitPatch : Patch (CellData Int) :=
  { global_id := 0, box := { lower := [0, 0], upper := [0, 0] },
    dof_index_data := { depth := 2, data := exampleSplitDofs } }

/-- A complex coefficient routine for the examples: component `k` at every cell is `k`. -/
def exampleComplexCoefs (_ : Patch (CellData Int)) (_ : List Index) (_ : Unit) (_ : Unit)
    (_ : List Unit) (_ : ℚ) (_ : Index) (k : Nat) : ℚ := (k : ℚ)

/-- The cell `X_idx` of sample point `k`, as the counting pass of
`constructPatchLevelSCInterpOp` computes it from `X_arr[NDIM * k]` with
`IndexUtilities::getCellIndex`. -/
def sampleCell (NDIM : Nat)
    (getCellIndex : List ℚ → List ℚ → List ℚ → List ℚ → Index → Index → Index)
    (X_arr : List ℚ) (patch_level : PatchLevel) (dx : List ℚ) (domain_box : Box) (k : Nat) :
    Index :=
  getCellIndex (X_arr.drop (NDIM * k)) patch_level.x_lower patch_level.x_upper dx
    domain_box.lower domain_box.upper

/-! ### Red-black ordering -/

/-- The cells whose values an update of cell `i` reads through the star stencil of the
builders: `i + stencil[stencil_index]` for `stencil_index = 1, ..., 2 * NDIM`. -/
def stencilNeighbours (NDIM : Nat) (i : Index) : List Index :=
  (List.range (2 * NDIM)).map (fun j => Index.add i ((stencil NDIM).getD (j + 1) []))

/-- Modelled from the spec: the colour of a grid point in the checkerboard partition of
red-black Gauss-Seidel ("partition DOFs by parity"), the parity of its coordinate sum,
`0` or `1`. -/
def colour (i : Index) : Int := i.sum % 2

/-- Modelled from the spec: one half-sweep of red-black Gauss-Seidel over the cells `cells`,
visited in order and updated in place: every cell of colour `c` gets the value `relax`
computes from the current values at its stencil neighbours; cells of the other colour are
left alone. -/
def halfSweep (NDIM : Nat) (relax : Index → List ℚ → ℚ) (c : Int) (cells : List Index)
    (u : Index → ℚ) : Index → ℚ :=
  cells.foldl
    (fun (u : Index → ℚ) i =>
      if colour i = c then Function.update u i (relax i ((stencilNeighbours NDIM i).map u))
      else u)
    u

/-- The argument `(X[d] - X_stencil_lower) / dx[d]` handed to `interp_fcn` for direction `d`
of the stencil box of component `axis`, where `X_stencil_lower` is built from
`i = stencil_box_lower(d)`. -/
def interpArg (X dx x_lower : List ℚ) (domain_lower : Index) (axis : Nat)
    (stencil_box_lower : Index) (d : Nat) : ℚ :=
  let i := Index.comp stencil_box_lower d
  let X_stencil_lower : ℚ :=
    (((i - Index.comp domain_lower d : Int) : ℚ) + (if d = axis then 0 else 1 / 2))
      * dx.getD d 0 + x_lower.getD d 0
  (X.getD d 0 - X_stencil_lower) / dx.getD d 0
/-- The state in which the counting pass of the interpolation builder starts on the example:
one sample point, two components. -/
def exampleInterpInit : InterpCount :=
  { patch_id := [-1], stencil_box := [[Box.emptyBox 2, Box.emptyBox 2]],
    d_nnz := [0, 0], o_nnz := [0, 0] }

/-- The state in which the counting pass ends on the example. -/
def exampleInterpCount : InterpCount :=
  { patch_id := [7],
    stencil_box := [[{ lower := [1, 2], upper := [2, 3] }, { lower := [0, 2], upper := [1, 3] }]],
    d_nnz := [4, 4], o_nnz := [0, 0] }

/-- The column list the fill pass of `constructPatchLevelCCComplexLaplaceOp` is to use for
cell `i` and the pair `(d, d + 1)`: the DOF indices of component `d` at the cell and at its
`2 * NDIM` neighbours in stencil order, then those of component `d + 1`. -/
def ccComplexCols (NDIM : Nat) (dof_index_data : CellData Int) (i : Index) (d : Nat) :
    List Int :=
  (dof_index_data.data i d :: neighbourDofs NDIM (fun j => dof_index_data.data j d) i)
    ++ (dof_index_data.data i (d + 1)
      :: neighbourDofs NDIM (fun j => dof_index_data.data j (d + 1)) i)

/-- The insertion for the real row of cell `i` and pair `(d, d + 1)`: the values are the
coefficient components `offset + k` and then `offset + k + stencil_sz`, `k = 0 .. 2 * NDIM`,
with `offset = d * stencil_sz * 2`. -/
def ccComplexInsertionReal (NDIM : Nat) (matrix_coefs : Index → Nat → ℚ)
    (dof_index_data : CellData Int) (i : Index) (d : Nat) : SetValues :=
  { row := dof_index_data.data i d,
    cols := ccComplexCols NDIM dof_index_data i d,
    vals := (List.range (stencil_sz NDIM)).map
        (fun k => matrix_coefs i (d * stencil_sz NDIM * 2 + k))
      ++ (List.range (stencil_sz NDIM)).map
        (fun k => matrix_coefs i (d * stencil_sz NDIM * 2 + k + stencil_sz NDIM)) }

/-- The insertion for the imaginary row of cell `i` and pair `(d, d + 1)`: the values are
the coefficient components `offset + 2 * stencil_sz + k` and then
`offset + k + 3 * stencil_sz`, `k = 0 .. 2 * NDIM`. -/
def ccComplexInsertionImag (NDIM : Nat) (matrix_coefs : Index → Nat → ℚ)
    (dof_index_data : CellData Int) (i : Index) (d : Nat) : SetValues :=
  { row := dof_index_data.data i (d + 1),
    cols := ccComplexCols NDIM dof_index_data i d,
    vals := (List.range (stencil_sz NDIM)).map
        (fun k => matrix_coefs i (d * stencil_sz NDIM * 2 + 2 * stencil_sz NDIM + k))
      ++ (List.range (stencil_sz NDIM)).map
        (fun k => matrix_coefs i (d * stencil_sz NDIM * 2 + k + 3 * stencil_sz NDIM)) }

/-- The (patch, cell, pair) triples the fill pass of the complex builder visits, in order:
patches in level order, cells in box order, `d = 0, 2, ...` below `depth`. -/
def ccComplexVisits (depth : Nat) (patch_level : List (Patch (CellData Int))) :
    List (Patch (CellData Int) × Index × Nat) :=
  patch_level.flatMap (fun patch =>
    patch.box.indices.flatMap (fun i => (evenComponents depth).map (fun d => (patch, i, d))))
/-! ### A concrete complex level

One 1 x 1 patch in two dimensions with depth 2: at the cell `(0, 0)` the real component
carries the DOF index 0 and the imaginary component the DOF index 1; every other cell
carries the sentinel `-1`. -/

/-- The DOF indices of the complex example. -/
def exampleComplexDofs (i : Index) (d : Nat) : Int :=
  if i = [0, 0] then (if d = 0 then 0 else if d = 1 then 1 else -1) else -1

/-- The complex example patch: box `[0, 0] x [0, 0]`, depth 2. -/
def exampleComplexPatch : Patch (CellData Int) :=
  { global_id := 0, box := { lower := [0, 0], upper := [0, 0] },
    dof_index_data := { depth := 2, data := exampleComplexDofs } }

/-- The matrix the complex cell-centred builder returns for the complex example patch on
the partition `[2]`, rank 0, with `exampleComplexCoefs`. -/
def exampleComplexMat : Mat :=
  { m_local := 2, n_local := 2, d_nnz := [2, 2], o_nnz := [0, 0],
    block_size := some 2, new_nonzero_location_err := false,
    new_nonzero_allocation_err := false,
    set_values :=
      [{ row := 0, cols := [0, -1, -1, -1, -1, 1, -1, -1, -1, -1],
         vals := [0, 1, 2, 3, 4, 5, 6, 7, 8, 9] },
       { row := 1, cols := [0, -1, -1, -1, -1, 1, -1, -1, -1, -1],
         vals := [10, 11, 12, 13, 14, 15, 16, 17, 18, 19] }] }

/-- The coefficient components the fill pass of `constructPatchLevelCCComplexLaplaceOp`
reads for the real row of the pair `(d, d + 1)`, in the order of the value buffer:
`offset + k` and then `offset + k + stencil_sz`, `k = 0 .. 2 * NDIM`, with
`offset = d * stencil_sz * 2`. -/
def ccComplexReadsReal (NDIM : Nat) (d : Nat) : List Nat :=
  (List.range (stencil_sz NDIM)).map (fun k => d * stencil_sz NDIM * 2 + k)
    ++ (List.range (stencil_sz NDIM)).map (fun k => d * stencil_sz NDIM * 2 + k + stencil_sz NDIM)

/-- The coefficient components read for the imaginary row of the pair `(d, d + 1)`:
`offset + 2 * stencil_sz + k` and then `offset + k + 3 * stencil_sz`. -/
def ccComplexReadsImag (NDIM : Nat) (d : Nat) : List Nat :=
  (List.range (stencil_sz NDIM)).map (fun k => d * stencil_sz NDIM * 2 + 2 * stencil_sz NDIM + k)
    ++ (List.range (stencil_sz NDIM)).map
      (fun k => d * stencil_sz NDIM * 2 + k + 3 * stencil_sz NDIM)

/-- The points `(dof, i)` visited by a counting pass of the cell-centred builders that are
locally owned and belong to the local row `k`, in visiting order. -/
def ccRowVisits (depth : Nat) (patch_level : List (Patch (CellData Int)))
    (i_lower i_upper : Int) (k : Nat) : List ((Index → Int) × Index) :=
  ((ccVisits depth patch_level).map
    (fun v => ((fun j => v.1.dof_index_data.data j v.2.2), v.2.1))).filter
    (visitsRow i_lower i_upper k)

/-- The total a counting pass with increment `inc` adds to `d_nnz` of a row over the visits
`vs` of that row, clamps left out: `inc` for the centre and `inc` per local neighbour. -/
def unclampedD (NDIM : Nat) (inc : Int) (i_lower i_upper : Int)
    (vs : List ((Index → Int) × Index)) : Int :=
  (vs.map (fun v =>
    inc * (1 + ((neighbourDofs NDIM v.1 v.2).countP (isLocal i_lower i_upper) : Int)))).sum

/-- The total a counting pass with increment `inc` adds to `o_nnz` of a row over the visits
`vs` of that row, clamps left out: `inc` per non-local neighbour. -/
def unclampedO (NDIM : Nat) (inc : Int) (i_lower i_upper : Int)
    (vs : List ((Index → Int) × Index)) : Int :=
  (vs.map (fun v =>
    inc * ((neighbourDofs NDIM v.1 v.2).countP (fun c => !isLocal i_lower i_upper c) : Int))).sum
/-- The matrix the real cell-centred builder returns for the complex example patch (two
components) on the partition `[2, 8]`, rank 0, with `exampleCoefs`. -/
def exampleRealMatWide : Mat :=
  { m_local := 2, n_local := 2, d_nnz := [1, 1], o_nnz := [4, 4],
    block_size := some 2, new_nonzero_location_err := true, new_nonzero_allocation_err := true,
    set_values :=
      [{ row := 0, cols := [0, -1, -1, -1, -1], vals := [0, 1, 2, 3, 4] },
       { row := 1, cols := [1, -1, -1, -1, -1], vals := [5, 6, 7, 8, 9] }] }

/-- The matrix the complex cell-centred builder returns for the complex example patch on
the partition `[2, 8]`, rank 0, with `exampleComplexCoefs`. -/
def exampleComplexMatWide : Mat :=
  { exampleComplexMat with d_nnz := [2, 2], o_nnz := [8, 8] }

/-- The tensor-product weight of the stencil point `b`: the product over the directions `d`
of `w[d][b(d) - stencil_box_lower(d)]`. -/
def weightProd (NDIM : Nat) (w : List (List ℚ)) (stencil_box_lower : Index) (b : Index) : ℚ :=
  ((List.range NDIM).map
    (fun d => (w.getD d []).getD (Index.comp b d - Index.comp stencil_box_lower d).toNat 0)).prod
/-- The 1-D weights in use when the fill pass of `constructPatchLevelSCInterpOp` reaches
component `axis` of a sample point with position `X` and stencil boxes `boxes`: the buffers
`w[d]`, created with `interp_stencil` entries, after the weights loops of the components
`0 .. axis`. -/
def interpWeightsAt (NDIM : Nat) (interp_fcn : ℚ → List ℚ → List ℚ) (interp_stencil : Int)
    (X dx x_lower : List ℚ) (domain_lower : Index) (boxes : List Box) (axis : Nat) :
    List (List ℚ) :=
  (List.range (axis + 1)).foldl
    (fun w a => interpWeights NDIM interp_fcn X dx x_lower domain_lower a
      (boxes.getD a (Box.emptyBox NDIM)).lower w)
    (List.replicate NDIM (List.replicate interp_stencil.toNat (0 : ℚ)))

/-- The row and the values of the insertion the fill pass of `constructPatchLevelSCInterpOp`
is to make for component `axis` of sample point `k`: row `i_lower + NDIM * k + axis`, one
value per point of the stencil box, in box order, the tensor-product weight of the point. -/
def interpRowVals (NDIM : Nat) (interp_fcn : ℚ → List ℚ → List ℚ) (interp_stencil : Int)
    (i_lower : Int) (X dx x_lower : List ℚ) (domain_lower : Index) (boxes : List Box)
    (k axis : Nat) : Int × List ℚ :=
  (i_lower + ((NDIM * k + axis : Nat) : Int),
   (boxes.getD axis (Box.emptyBox NDIM)).indices.map
     (weightProd NDIM
       (interpWeightsAt NDIM interp_fcn interp_stencil X dx x_lower domain_lower boxes axis)
       (boxes.getD axis (Box.emptyBox NDIM)).lower))

/-- The insertion the fill pass of `constructPatchLevelSCInterpOp` is to make for component
`axis` of sample point `k`: the row and values of `interpRowVals`, and as columns the DOF
indices of the sides `(b, axis, Lower)` of the points `b` of the stencil box, in box
order. -/
def interpInsertion (NDIM : Nat) (interp_fcn : ℚ → List ℚ → List ℚ) (interp_stencil : Int)
    (i_lower : Int) (X dx x_lower : List ℚ) (domain_lower : Index)
    (dof_index_data : SideData Int) (boxes : List Box) (k axis : Nat) : SetValues :=
  { row := (interpRowVals NDIM interp_fcn interp_stencil i_lower X dx x_lower domain_lower
      boxes k axis).1,
    cols := (boxes.getD axis (Box.emptyBox NDIM)).indices.map
      (fun b => dof_index_data.data axis b 0),
    vals := (interpRowVals NDIM interp_fcn interp_stencil i_lower X dx x_lower domain_lower
      boxes k axis).2 }
/-- The result of the interpolation builder on the example level with the two-point kernel
and width 2: the counts and boxes of `exampleInterpCount`, and for the components 0 and 1
of the only sample point the insertions `interpInsertion`. -/
def exampleInterpOp : InterpOp :=
  { mat :=
      { m_local := 2, n_local := 50, d_nnz := [4, 4], o_nnz := [0, 0], block_size := none,
        new_nonzero_location_err := false, new_nonzero_allocation_err := false,
        set_values := (List.range 2).map
          (interpInsertion 2 exampleKernel 2 0 [13 / 10, 27 / 10] [1, 1] [0, 0] [0, 0]
            examplePatch.dof_index_data
            [{ lower := [1, 2], upper := [2, 3] }, { lower := [0, 2], upper := [1, 3] }] 0) },
    patch_id := [7],
    stencil_box := [[{ lower := [1, 2], upper := [2, 3] }, { lower := [0, 2], upper := [1, 3] }]] }

/-! ### Vector transfer

The header `StaggeredStokesPETScVecUtilities.h` declares `copyToPatchLevelVec` and
`copyFromPatchLevelVec`. The grid points of the level (patch, variable, index, component)
are an arbitrary type `P`, visited in the order `points`; the values are of an arbitrary
type; the vector is addressed by global DOF index. -/

/-- The points `(dof, i)` visited by the counting pass of `constructPatchLevelSCLaplaceOp`
that are locally owned and belong to the local row `k`, in visiting order. -/
def scRowVisits (NDIM : Nat) (patch_level : List (Patch (SideData Int)))
    (i_lower i_upper : Int) (k : Nat) : List ((Index → Int) × Index) :=
  ((scVisits NDIM patch_level).map
    (fun v => ((fun j => v.1.dof_index_data.data v.2.1 j 0), v.2.2))).filter
    (visitsRow i_lower i_upper k)

/-! ### The overloads taking a single boundary-condition object -/

/-- The overload of `PETScMatUtilities::constructPatchLevelCCLaplaceOp` taking a single
`bc_coef`: it calls the list overload with `std::vector<RobinBcCoefStrategy*>(1, bc_coef)`. -/
def constructPatchLevelCCLaplaceOp_single (NDIM : Nat) {PS BC : Type}
    (computeCCMatrixCoefficients :
      Patch (CellData Int) → List Index → PS → List BC → ℚ → Index → Nat → ℚ)
    (poisson_spec : PS) (bc_coef : BC) (data_time : ℚ)
    (num_dofs_per_proc : List Int) (mpi_rank : Nat)
    (patch_level : List (Patch (CellData Int))) : Except Failure Mat :=
  constructPatchLevelCCLaplaceOp NDIM computeCCMatrixCoefficients poisson_spec
    (List.replicate 1 bc_coef) data_time num_dofs_per_proc mpi_rank patch_level

/-- The overload of `PETScMatUtilities::constructPatchLevelCCComplexLaplaceOp` taking a
single `bc_coef`: it calls the list overload with
`std::vector<RobinBcCoefStrategy*>(2, bc_coef)`. -/
def constructPatchLevelCCComplexLaplaceOp_single (NDIM : Nat) {PS BC : Type}
    (computeCCComplexMatrixCoefficients :
      Patch (CellData Int) → List Index → PS → PS → List BC → ℚ → Index → Nat → ℚ)
    (poisson_spec_real poisson_spec_imag : PS) (bc_coef : BC) (data_time : ℚ)
    (num_dofs_per_proc : List Int) (mpi_rank : Nat)
    (patch_level : List (Patch (CellData Int))) : Except Failure Mat :=
  constructPatchLevelCCComplexLaplaceOp NDIM computeCCComplexMatrixCoefficients
    poisson_spec_real poisson_spec_imag (List.replicate 2 bc_coef) data_time num_dofs_per_proc
    mpi_rank patch_level

/-! ### The matrix handle of the side-centred Laplace builder -/

/-- The reference `Mat& mat` handed to a builder, as the builder finds or leaves it: the
handle (`none` for a null handle) and the matrices given to `MatDestroy` so far. -/
structure MatRef where
  handle : Option Mat
  destroyed : List Mat
deriving DecidableEq, Repr

/-- The builder `PETScMatUtilities::constructPatchLevelSCLaplaceOp` with the reference
`Mat& mat` made explicit: `TBOX_ASSERT(bc_coefs.size() == NDIM)` comes first, then
`if (mat) MatDestroy(&mat)`, which nulls the handle, then the counting pass, `MatCreateAIJ`
into the handle, and the fill pass. The result is the reference as the builder leaves it,
and the failure if the builder aborts. -/
def constructPatchLevelSCLaplaceOp_ref (NDIM : Nat) {PS BC : Type}
    (computeSCMatrixCoefficients :
      Patch (SideData Int) → List Index → PS → List BC → ℚ → Nat → Index → Nat → ℚ)
    (mat : MatRef) (poisson_spec : PS) (bc_coefs : List BC) (data_time : ℚ)
    (num_dofs_per_proc : List Int) (mpi_rank : Nat)
    (patch_level : List (Patch (SideData Int))) : MatRef × Except Failure Unit :=
  if bc_coefs.length ≠ NDIM then (mat, .error Failure.assert_bc_coefs_size)
  else
    let mat : MatRef :=
      match mat.handle with
      | some m => { handle := none, destroyed := mat.destroyed ++ [m] }
      | none => mat
    let n_loc := n_local num_dofs_per_proc mpi_rank
    let i_lo := i_lower num_dofs_per_proc mpi_rank
    let i_up := i_upper num_dofs_per_proc mpi_rank
    let n_tot := n_total num_dofs_per_proc
    match scCountPass NDIM i_lo i_up n_loc n_tot patch_level with
    | .error e => (mat, .error e)
    | .ok nnz =>
      ({ handle := some
           { m_local := n_loc, n_local := n_loc, d_nnz := nnz.1, o_nnz := nnz.2,
             block_size := none,
             new_nonzero_location_err := false, new_nonzero_allocation_err := false,
             set_values := patch_level.foldl
               (fun sets patch =>
                 scFillPatch NDIM i_lo i_up
                   (computeSCMatrixCoefficients patch (stencil NDIM) poisson_spec bc_coefs
                     data_time)
                   patch sets)
               [] },
         destroyed := mat.destroyed }, .ok ())

/-- The body of the tensor-product loop of `constructPatchLevelSCInterpOp` for one point `b`
of the stencil box: with `stencil_idx` the running counter,
`stencil_box_vals[stencil_idx] *= w[d][b(d) - stencil_box_lower(d)]` for every `d`,
`stencil_box_cols[stencil_idx] = dof_index_data(SideIndex(b, axis, Lower))`, and
`++stencil_idx`. -/
def interpTensorStep (NDIM : Nat) (dof_index_data : SideData Int) (axis : Nat)
    (stencil_box_lower : Index) (w : List (List ℚ))
    (st : List ℚ × List Int × Nat) (b : Index) : List ℚ × List Int × Nat :=
  let stencil_idx := st.2.2
  let vals := (List.range NDIM).foldl
    (fun (vals : List ℚ) d =>
      vals.modify
        (fun v => v * (w.getD d []).getD
          (Index.comp b d - Index.comp stencil_box_lower d).toNat 0)
        stencil_idx)
    st.1
  (vals, st.2.1.set stencil_idx (dof_index_data.data axis b 0), stencil_idx + 1)

/-- The two counters of row `j` in a state of the counting pass of the interpolation
builder, if the arrays reach that far. -/
def InterpCount.row (t : InterpCount) (j : Nat) : Option Int × Option Int :=
  (t.d_nnz[j]?, t.o_nnz[j]?)

/-- The statement that a row went from the counters `p` to the counters `q` by one visit that
classified `c` columns: `D` local ones added to `d_nnz` and `O` others added to `o_nnz`,
`D + O = c`, each sum then clamped. -/
def RowCounted (c : Nat) (n_local n_total : Int) (p q : Option Int × Option Int) : Prop :=
  ∃ D O : Nat, D + O = c ∧
    q.1 = p.1.map (fun x => min n_local (x + (D : Int))) ∧
    q.2 = p.2.map (fun x => min (n_total - n_local) (x + (O : Int)))

/-- The statement that every stencil box stored in a state of the counting pass has corners
with `NDIM` components. -/
def BoxesShaped (NDIM : Nat) (t : InterpCount) : Prop :=
  ∀ bs ∈ t.stencil_box, ∀ b ∈ bs, b.lower.length = NDIM ∧ b.upper.length = NDIM

/-! ### Synchronisation of node-centred data

The header `NodeSynchCopyFillPattern.h` declares the fill pattern, one object per axis. A
level of two patches is considered; each patch holds a value of an arbitrary type at every
node of its node box. -/

theorem stencilLoop_aux {σ : Type} (body : Nat → Nat → Nat → σ → σ) (init : σ) (n : Nat) :
    (List.range n).foldl
      (fun (st : σ × Nat) (axis : Nat) =>
        (List.range 2).foldl
          (fun (st : σ × Nat) (side : Nat) => (body axis side st.2 st.1, st.2 + 1)) st)
      (init, 1)
    = ((List.range (2 * n)).foldl (fun s j => body (j / 2) (j % 2) (j + 1) s) init, 2 * n + 1) := by
  have r2 : List.range 2 = [0, 1] := rfl
  simp only [r2, List.foldl_cons, List.foldl_nil]
  induction n with
  | zero => simp
  | succ n ih =>
    have h2 : 2 * (n + 1) = (2 * n + 1) + 1 := by ring
    rw [List.range_succ n, List.foldl_append, ih, h2, List.range_succ (2 * n + 1),
      List.range_succ (2 * n), List.foldl_append, List.foldl_append]
    have e1 : 2 * n / 2 = n := by omega
    have e2 : 2 * n % 2 = 0 := by omega
    have e3 : (2 * n + 1) / 2 = n := by omega
    have e4 : (2 * n + 1) % 2 = 1 := by omega
    simp [e1, e2, e3, e4]

/-- The loop nest visits `stencil_index = j + 1` for `j = 0 .. 2 * NDIM - 1`, with
`axis = j / 2` and `side = j % 2`. -/
theorem stencilLoop_eq {σ : Type} (NDIM : Nat) (body : Nat → Nat → Nat → σ → σ) (init : σ) :
    stencilLoop NDIM body init
      = (List.range (2 * NDIM)).foldl (fun s j => body (j / 2) (j % 2) (j + 1) s) init := by
  unfold stencilLoop
  rw [stencilLoop_aux]

/-! ### Ownership ranges -/

theorem accumulate_eq_sum (xs : List Int) (init : Int) : accumulate xs init = init + xs.sum := by
  unfold accumulate
  induction xs generalizing init with
  | nil => simp
  | cons x xs ih => simp [List.foldl_cons, ih, add_assoc]

theorem i_lower_eq_sum (num_dofs_per_proc : List Int) (r : Nat) :
    i_lower num_dofs_per_proc r = (num_dofs_per_proc.take r).sum := by
  simp [i_lower, accumulate_eq_sum]

theorem n_total_eq_sum (num_dofs_per_proc : List Int) :
    n_total num_dofs_per_proc = num_dofs_per_proc.sum := by
  simp [n_total, accumulate_eq_sum]

theorem i_upper_eq_i_lower_succ (num_dofs_per_proc : List Int) (r : Nat)
    (hr : r < num_dofs_per_proc.length) :
    i_upper num_dofs_per_proc r = i_lower num_dofs_per_proc (r + 1) := by
  unfold i_upper n_local
  rw [i_lower_eq_sum, i_lower_eq_sum, List.sum_take_succ _ _ hr]
  simp [List.getD_eq_getElem?_getD, List.getElem?_eq_getElem hr]

theorem n_local_nonneg (num_dofs_per_proc : List Int) (hnn : ∀ c ∈ num_dofs_per_proc, 0 ≤ c)
    (r : Nat) : 0 ≤ n_local num_dofs_per_proc r := by
  unfold n_local
  by_cases hr : r < num_dofs_per_proc.length
  · simp only [List.getD_eq_getElem?_getD, List.getElem?_eq_getElem hr, Option.getD_some]
    exact hnn _ (List.getElem_mem hr)
  · simp [List.getD_eq_getElem?_getD, List.getElem?_eq_none (Nat.le_of_not_lt hr)]

theorem i_lower_mono (num_dofs_per_proc : List Int) (hnn : ∀ c ∈ num_dofs_per_proc, 0 ≤ c)
    (r s : Nat) (hrs : r ≤ s) :
    i_lower num_dofs_per_proc r ≤ i_lower num_dofs_per_proc s := by
  induction s with
  | zero =>
    have : r = 0 := by omega
    subst this
    exact le_refl _
  | succ s ih =>
    by_cases h : r = s + 1
    · subst h
      exact le_refl _
    · have h1 : i_lower num_dofs_per_proc r ≤ i_lower num_dofs_per_proc s := ih (by omega)
      by_cases hs : s < num_dofs_per_proc.length
      · have h2 := i_upper_eq_i_lower_succ num_dofs_per_proc s hs
        have h3 := n_local_nonneg num_dofs_per_proc hnn s
        unfold i_upper at h2
        omega
      · have h4 : i_lower num_dofs_per_proc (s + 1) = i_lower num_dofs_per_proc s := by
          rw [i_lower_eq_sum, i_lower_eq_sum, List.take_of_length_le (by omega),
            List.take_of_length_le (by omega)]
        omega

theorem i_lower_length (num_dofs_per_proc : List Int) :
    i_lower num_dofs_per_proc num_dofs_per_proc.length = n_total num_dofs_per_proc := by
  rw [i_lower_eq_sum, n_total_eq_sum, List.take_length]

theorem n_local_le_n_total (num_dofs_per_proc : List Int) (hnn : ∀ c ∈ num_dofs_per_proc, 0 ≤ c)
    (r : Nat) : n_local num_dofs_per_proc r ≤ n_total num_dofs_per_proc := by
  by_cases hr : r < num_dofs_per_proc.length
  · have h1 := i_upper_eq_i_lower_succ num_dofs_per_proc r hr
    have h2 := i_lower_mono num_dofs_per_proc hnn 0 r (Nat.zero_le _)
    have h3 := i_lower_mono num_dofs_per_proc hnn (r + 1) num_dofs_per_proc.length (by omega)
    have h4 := i_lower_length num_dofs_per_proc
    have h5 : i_lower num_dofs_per_proc 0 = 0 := by simp [i_lower_eq_sum]
    unfold i_upper at h1
    omega
  · have h1 : n_local num_dofs_per_proc r = 0 := by
      simp [n_local, List.getD_eq_getElem?_getD, List.getElem?_eq_none (Nat.le_of_not_lt hr)]
    have h2 := i_lower_mono num_dofs_per_proc hnn 0 num_dofs_per_proc.length (Nat.zero_le _)
    have h4 := i_lower_length num_dofs_per_proc
    have h5 : i_lower num_dofs_per_proc 0 = 0 := by simp [i_lower_eq_sum]
    omega

theorem ownership_cover_aux (num_dofs_per_proc : List Int) (x : Int) (hx : 0 ≤ x) (k : Nat) :
    k ≤ num_dofs_per_proc.length → x < i_lower num_dofs_per_proc k →
    ∃ r, r < k ∧ i_lower num_dofs_per_proc r ≤ x ∧ x < i_upper num_dofs_per_proc r := by
  induction k with
  | zero =>
    intro _ h
    have h5 : i_lower num_dofs_per_proc 0 = 0 := by simp [i_lower_eq_sum]
    omega
  | succ k ih =>
    intro hk h
    by_cases hlt : x < i_lower num_dofs_per_proc k
    · obtain ⟨r, hr, h1, h2⟩ := ih (by omega) hlt
      exact ⟨r, by omega, h1, h2⟩
    · refine ⟨k, by omega, by omega, ?_⟩
      rw [i_upper_eq_i_lower_succ num_dofs_per_proc k (by omega)]
      exact h

/-- C1: for non-negative per-process counts the ownership ranges
`[i_lower r, i_upper r)` start at 0, abut (`i_upper r = i_lower (r + 1)`), end at
`n_total` on the last rank, are pairwise disjoint, and their union is exactly
`[0, n_total)`. -/
theorem ownership_ranges_partition (num_dofs_per_proc : List Int)
    (hnn : ∀ c ∈ num_dofs_per_proc, 0 ≤ c) :
    i_lower num_dofs_per_proc 0 = 0 ∧
    (∀ r, r < num_dofs_per_proc.length →
      i_upper num_dofs_per_proc r = i_lower num_dofs_per_proc (r + 1)) ∧
    (∀ r, r + 1 = num_dofs_per_proc.length →
      i_upper num_dofs_per_proc r = n_total num_dofs_per_proc) ∧
    (∀ r s, r < num_dofs_per_proc.length → s < num_dofs_per_proc.length → r ≠ s →
      ∀ x : Int, ¬ ((i_lower num_dofs_per_proc r ≤ x ∧ x < i_upper num_dofs_per_proc r) ∧
        (i_lower num_dofs_per_proc s ≤ x ∧ x < i_upper num_dofs_per_proc s))) ∧
    (∀ x : Int, (0 ≤ x ∧ x < n_total num_dofs_per_proc) ↔
      ∃ r, r < num_dofs_per_proc.length ∧
        i_lower num_dofs_per_proc r ≤ x ∧ x < i_upper num_dofs_per_proc r) := by
  have h0 : i_lower num_dofs_per_proc 0 = 0 := by simp [i_lower_eq_sum]
  refine ⟨h0, fun r hr => i_upper_eq_i_lower_succ _ r hr, ?_, ?_, ?_⟩
  · intro r hr
    rw [i_upper_eq_i_lower_succ _ r (by omega), hr, i_lower_length]
  · intro r s hr hs hne x ⟨⟨a1, a2⟩, b1, b2⟩
    rw [i_upper_eq_i_lower_succ _ r hr] at a2
    rw [i_upper_eq_i_lower_succ _ s hs] at b2
    rcases Nat.lt_or_gt_of_ne hne with h | h
    · have := i_lower_mono num_dofs_per_proc hnn (r + 1) s (by omega)
      omega
    · have := i_lower_mono num_dofs_per_proc hnn (s + 1) r (by omega)
      omega
  · intro x
    constructor
    · rintro ⟨hx0, hx1⟩
      rw [← i_lower_length] at hx1
      obtain ⟨r, hr, h1, h2⟩ :=
        ownership_cover_aux num_dofs_per_proc x hx0 num_dofs_per_proc.length (le_refl _) hx1
      exact ⟨r, hr, h1, h2⟩
    · rintro ⟨r, hr, h1, h2⟩
      rw [i_upper_eq_i_lower_succ _ r hr] at h2
      have m1 := i_lower_mono num_dofs_per_proc hnn 0 r (Nat.zero_le _)
      have m2 := i_lower_mono num_dofs_per_proc hnn (r + 1) num_dofs_per_proc.length (by omega)
      rw [i_lower_length] at m2
      omega

/-- Witness for C1 on the partition `[3, 0, 4]`. -/
theorem ownership_ranges_partition_witness :
    (∀ c ∈ [(3 : Int), 0, 4], 0 ≤ c) ∧
    i_lower [3, 0, 4] 0 = 0 ∧
    (∀ r, r < [(3 : Int), 0, 4].length → i_upper [3, 0, 4] r = i_lower [3, 0, 4] (r + 1)) ∧
    (∀ r, r + 1 = [(3 : Int), 0, 4].length → i_upper [3, 0, 4] r = n_total [3, 0, 4]) ∧
    (∀ r s, r < [(3 : Int), 0, 4].length → s < [(3 : Int), 0, 4].length → r ≠ s →
      ∀ x : Int, ¬ ((i_lower [3, 0, 4] r ≤ x ∧ x < i_upper [3, 0, 4] r) ∧
        (i_lower [3, 0, 4] s ≤ x ∧ x < i_upper [3, 0, 4] s))) ∧
    (∀ x : Int, (0 ≤ x ∧ x < n_total [3, 0, 4]) ↔
      ∃ r, r < [(3 : Int), 0, 4].length ∧ i_lower [3, 0, 4] r ≤ x ∧ x < i_upper [3, 0, 4] r) :=
  ⟨by decide, ownership_ranges_partition [3, 0, 4] (by decide)⟩

/-! ### The star stencil -/

theorem foldl_modify_range {α : Type} (f : Nat → α → α) (m : Nat) (L : List α) (k : Nat) :
    ((List.range m).foldl (fun s j => s.modify (f j) (j + 1)) L)[k]?
      = if 1 ≤ k ∧ k ≤ m then (L[k]?).map (f (k - 1)) else L[k]? := by
  induction m with
  | zero =>
    have : ¬ (1 ≤ k ∧ k = 0) := by omega
    simp [this]
  | succ m ih =>
    rw [List.range_succ, List.foldl_append]
    simp only [List.foldl_cons, List.foldl_nil, List.getElem?_modify, ih]
    by_cases hk : m + 1 = k
    · subst hk
      have h1 : ¬ (1 ≤ m + 1 ∧ m + 1 ≤ m) := by omega
      have h2 : 1 ≤ m + 1 ∧ m + 1 ≤ m + 1 := by omega
      simp [h1, h2]
    · by_cases hk2 : 1 ≤ k ∧ k ≤ m
      · have h2 : 1 ≤ k ∧ k ≤ m + 1 := by omega
        simp [hk, hk2, h2]
      · have h2 : ¬ (1 ≤ k ∧ k ≤ m + 1) := by omega
        simp [hk, hk2, h2]

theorem foldl_modify_range_length {α : Type} (f : Nat → α → α) (m : Nat) (L : List α) :
    ((List.range m).foldl (fun s j => s.modify (f j) (j + 1)) L).length = L.length := by
  induction m with
  | zero => simp
  | succ m ih =>
    rw [List.range_succ, List.foldl_append]
    simp [List.length_modify, ih]

theorem stencil_length (NDIM : Nat) : (stencil NDIM).length = 2 * NDIM + 1 := by
  unfold stencil
  rw [stencilLoop_eq, foldl_modify_range_length]
  simp [stencil_sz]

theorem stencil_getElem? (NDIM k : Nat) :
    (stencil NDIM)[k]? =
      if k = 0 then some (Index.getZeroIndex NDIM)
      else if k ≤ 2 * NDIM then
        some ((Index.getZeroIndex NDIM).set ((k - 1) / 2) (if (k - 1) % 2 = 0 then -1 else 1))
      else none := by
  unfold stencil
  rw [stencilLoop_eq, foldl_modify_range]
  by_cases h0 : k = 0
  · subst h0
    simp [stencil_sz]
  · by_cases h1 : k ≤ 2 * NDIM
    · have h2 : 1 ≤ k ∧ k ≤ 2 * NDIM := by omega
      have h3 : k < stencil_sz NDIM := by unfold stencil_sz; omega
      simp [h0, h1, h2, h3, List.getElem?_replicate]
    · have h2 : ¬ (1 ≤ k ∧ k ≤ 2 * NDIM) := by omega
      have h3 : ¬ k < stencil_sz NDIM := by unfold stencil_sz; omega
      simp [h0, h1, h2, h3, List.getElem?_replicate]

theorem zero_set_comp (NDIM a d : Nat) (v : Int) :
    Index.comp ((Index.getZeroIndex NDIM).set a v) d = if d = a ∧ a < NDIM then v else 0 := by
  unfold Index.comp Index.getZeroIndex
  rw [List.getD_eq_getElem?_getD, List.getElem?_set]
  by_cases h : a = d
  · subst h
    by_cases h2 : a < NDIM
    · simp [h2]
    · simp [h2]
  · have h' : ¬ (d = a ∧ a < NDIM) := by omega
    simp only [h, h', if_false]
    by_cases h3 : d < NDIM
    · simp [List.getElem?_replicate, h3]
    · simp [List.getElem?_replicate, h3]

theorem zero_comp (NDIM d : Nat) : Index.comp (Index.getZeroIndex NDIM) d = 0 := by
  unfold Index.comp Index.getZeroIndex
  rw [List.getD_eq_getElem?_getD]
  by_cases h3 : d < NDIM
  · simp [List.getElem?_replicate, h3]
  · simp [List.getElem?_replicate, h3]

theorem stencil_nodup (NDIM : Nat) : (stencil NDIM).Nodup := by
  rw [List.nodup_iff_getElem?_ne_getElem?]
  intro i j hij hj
  rw [stencil_length] at hj
  rw [stencil_getElem?, stencil_getElem?]
  have hj0 : j ≠ 0 := by omega
  have hj1 : j ≤ 2 * NDIM := by omega
  simp only [hj0, hj1, if_true, if_false]
  have haj : (j - 1) / 2 < NDIM := by omega
  by_cases hi0 : i = 0
  · subst hi0
    simp only [if_true]
    intro h
    have h' := congrArg (fun ix : Option Index => Index.comp (ix.getD []) ((j - 1) / 2)) h
    simp only [Option.getD_some, zero_comp, zero_set_comp] at h'
    simp only [haj, and_self, if_true] at h'
    split at h' <;> omega
  · have hi1 : i ≤ 2 * NDIM := by omega
    simp only [hi0, hi1, if_true, if_false]
    intro h
    have h' := congrArg (fun ix : Option Index => Index.comp (ix.getD []) ((j - 1) / 2)) h
    simp only [Option.getD_some, zero_set_comp] at h'
    simp only [haj, and_self, if_true, and_true] at h'
    by_cases hax : (j - 1) / 2 = (i - 1) / 2
    · have hs1 : (i - 1) % 2 = 0 := by omega
      have hs2 : ¬ (j - 1) % 2 = 0 := by omega
      have hai : (i - 1) / 2 < NDIM := by omega
      simp [hax, hs1, hs2, hai] at h'
    · by_cases hs2 : (j - 1) % 2 = 0
      · simp [hax, hs2] at h'
      · simp [hax, hs2] at h'

/-- C5: the stencil has exactly `2 * NDIM + 1` offsets; entry 0 is the zero offset; entry
`1 + 2 * a + s` is the offset with `-1` (`s = 0`) or `+1` (`s = 1`) along axis `a` and 0
along every other axis; and the offsets are pairwise distinct. -/
theorem stencil_star_offsets (NDIM : Nat) :
    (stencil NDIM).length = 2 * NDIM + 1 ∧
    (stencil NDIM)[0]? = some (Index.getZeroIndex NDIM) ∧
    (∀ a s, a < NDIM → s < 2 →
      ∃ off : Index, (stencil NDIM)[1 + 2 * a + s]? = some off ∧ off.length = NDIM ∧
        ∀ d, d < NDIM → Index.comp off d = if d = a then (if s = 0 then -1 else 1) else 0) ∧
    (stencil NDIM).Nodup := by
  refine ⟨stencil_length NDIM, ?_, ?_, stencil_nodup NDIM⟩
  · rw [stencil_getElem?]
    simp
  · intro a s ha hs
    refine ⟨(Index.getZeroIndex NDIM).set a (if s = 0 then -1 else 1), ?_, ?_, ?_⟩
    · rw [stencil_getElem?]
      have h0 : 1 + 2 * a + s ≠ 0 := by omega
      have h1 : 1 + 2 * a + s ≤ 2 * NDIM := by omega
      have h2 : (1 + 2 * a + s - 1) / 2 = a := by omega
      have h3 : (1 + 2 * a + s - 1) % 2 = s := by omega
      simp only [h0, h1, h2, h3, if_true, if_false]
    · simp [Index.getZeroIndex]
    · intro d _
      rw [zero_set_comp]
      by_cases hd : d = a
      · simp [hd, ha]
      · simp [hd]

/-- Witness for C5 in two dimensions: entry `1 + 2 * 1 + 0 = 3` is the offset `(0, -1)`. -/
theorem stencil_star_offsets_witness :
    ∃ off : Index, (stencil 2)[1 + 2 * 1 + 0]? = some off ∧ off.length = 2 ∧
      ∀ d, d < 2 → Index.comp off d = if d = 1 then (if (0 : Nat) = 0 then -1 else 1) else 0 :=
  (stencil_star_offsets 2).2.2.1 1 0 (by decide) (by decide)

/-! ### The interpolation stencil width -/

theorem roundInterpStencil_even (N : Int) : (roundInterpStencil N).tmod 2 = 0 := by
  unfold roundInterpStencil
  by_cases h : N.tmod 2 = 0
  · simp [h]
  · simp only [ne_eq, h, not_false_eq_true, if_true]
    have h1 : ¬ (2 : Int) ∣ N := fun hd => h (Int.tmod_eq_zero_of_dvd hd)
    have h2 : (2 : Int) ∣ N + 1 := by omega
    exact Int.tmod_eq_zero_of_dvd h2

theorem roundInterpStencil_of_even (N : Int) (h : N.tmod 2 = 0) : roundInterpStencil N = N := by
  simp [roundInterpStencil, h]

theorem roundInterpStencil_of_odd (N : Int) (h : N.tmod 2 ≠ 0) :
    roundInterpStencil N = N + 1 := by
  simp [roundInterpStencil, h]

theorem foldlM_ne_error {σ α : Type} (e : Failure) (f : σ → α → Except Failure σ)
    (hf : ∀ s a, f s a ≠ .error e) (l : List α) (s : σ) : l.foldlM f s ≠ .error e := by
  induction l generalizing s with
  | nil =>
    intro h
    simp [List.foldlM_nil, pure, Except.pure] at h
  | cons a l ih =>
    rw [List.foldlM_cons]
    cases h : f s a with
    | error e' =>
      intro h2
      simp only [bind, Except.bind, Except.error.injEq] at h2
      exact hf s a (h2 ▸ h)
    | ok s' =>
      simp only [bind, Except.bind]
      exact ih s'

theorem getPatch_error (patches : List (Patch (SideData Int))) (id : Int) (e : Failure)
    (h : getPatch patches id = .error e) : e = Failure.get_patch := by
  unfold getPatch at h
  split at h
  · cases h
  · cases h
    rfl

theorem interpCountAxis_ne_odd (NDIM : Nat) (s : Int) (hs : s.tmod 2 = 0)
    (j_lower j_upper n_local n_total : Int) (X X_cell : List ℚ) (X_idx : Index)
    (dof_index_data : SideData Int) (k : Nat) (st : InterpCount) (axis : Nat) :
    interpCountAxis NDIM s j_lower j_upper n_local n_total X X_cell X_idx dof_index_data k
      st axis ≠ .error Failure.error_odd_stencil := by
  unfold interpCountAxis
  simp only [ne_eq, hs, not_true_eq_false, if_false]
  split
  · intro h
    cases h
  · intro h
    cases h

theorem interpCountPoint_ne_odd (NDIM : Nat)
    (getCellIndex : List ℚ → List ℚ → List ℚ → List ℚ → Index → Index → Index)
    (s : Int) (hs : s.tmod 2 = 0) (j_lower j_upper n_local n_total : Int)
    (X_arr : List ℚ) (patch_level : PatchLevel) (dx : List ℚ) (domain_box : Box)
    (st : InterpCount) (k : Nat) :
    interpCountPoint NDIM getCellIndex s j_lower j_upper n_local n_total X_arr patch_level dx
      domain_box st k ≠ .error Failure.error_odd_stencil := by
  unfold interpCountPoint
  simp only
  split
  · intro h
    cases h
  · split
    · rename_i e he
      intro h
      have := getPatch_error _ _ _ he
      cases h
      cases this
    · split
      · intro h
        cases h
      · exact foldlM_ne_error _ _
          (fun s' a => interpCountAxis_ne_odd NDIM s hs _ _ _ _ _ _ _ _ _ s' a) _ _

theorem interpFillPoint_ne_odd (NDIM : Nat) (interp_fcn : ℚ → List ℚ → List ℚ) (s : Int)
    (i_lower : Int) (X_arr : List ℚ) (patch_level : PatchLevel) (dx : List ℚ) (domain_box : Box)
    (count : InterpCount) (set_values : List SetValues) (k : Nat) :
    interpFillPoint NDIM interp_fcn s i_lower X_arr patch_level dx domain_box count
      set_values k ≠ .error Failure.error_odd_stencil := by
  unfold interpFillPoint
  simp only
  split
  · rename_i e he
    intro h
    have := getPatch_error _ _ _ he
    cases h
    cases this
  · split
    · intro h
      cases h
    · split
      · intro h
        cases h
      · intro h
        cases h

/-- C9: the width tested inside the per-axis loop is even for every requested width, so
neither the per-axis body run at the rounded width nor the builder as a whole ever takes
the exit "support for odd stencil sizes not currently implemented". -/
theorem interp_odd_stencil_unreachable :
    (∀ N : Int, (roundInterpStencil N).tmod 2 = 0) ∧
    (∀ (NDIM : Nat) (N : Int) (j_lower j_upper n_local n_total : Int) (X X_cell : List ℚ)
      (X_idx : Index) (dof_index_data : SideData Int) (k : Nat) (st : InterpCount) (axis : Nat),
      interpCountAxis NDIM (roundInterpStencil N) j_lower j_upper n_local n_total X X_cell X_idx
        dof_index_data k st axis ≠ .error Failure.error_odd_stencil) ∧
    (∀ (NDIM : Nat)
      (getCellIndex : List ℚ → List ℚ → List ℚ → List ℚ → Index → Index → Index)
      (interp_fcn : ℚ → List ℚ → List ℚ) (N : Int) (X_vec : Vec)
      (num_dofs_per_proc : List Int) (mpi_rank : Nat) (patch_level : PatchLevel),
      constructPatchLevelSCInterpOp NDIM getCellIndex interp_fcn N X_vec num_dofs_per_proc
        mpi_rank patch_level ≠ .error Failure.error_odd_stencil) := by
  refine ⟨roundInterpStencil_even, ?_, ?_⟩
  · intro NDIM N j_lower j_upper n_local n_total X X_cell X_idx dof_index_data k st axis
    exact interpCountAxis_ne_odd NDIM _ (roundInterpStencil_even N) _ _ _ _ _ _ _ _ _ _ _
  · intro NDIM getCellIndex interp_fcn N X_vec num_dofs_per_proc mpi_rank patch_level
    unfold constructPatchLevelSCInterpOp
    simp only
    split
    · split
      · rename_i e he
        intro h
        cases h
        unfold interpCountPass at he
        exact foldlM_ne_error _ _
          (fun s' a => interpCountPoint_ne_odd NDIM getCellIndex _ (roundInterpStencil_even N)
            _ _ _ _ _ _ _ _ s' a) _ _ he
      · split
        · rename_i e he
          intro h
          cases h
          exact foldlM_ne_error _ _
            (fun s' a => interpFillPoint_ne_odd NDIM interp_fcn _ _ _ _ _ _ _ s' a) _ _ he
        · intro h
          cases h
    · intro h
      cases h

/-- C8: an odd requested width `N` gives the same result of the builder (stencil boxes,
predicted counts, rows, columns and values) as the width `N + 1`, and an even requested
width is used unchanged. -/
theorem interp_odd_width_rounds_up (NDIM : Nat)
    (getCellIndex : List ℚ → List ℚ → List ℚ → List ℚ → Index → Index → Index)
    (interp_fcn : ℚ → List ℚ → List ℚ) (X_vec : Vec)
    (num_dofs_per_proc : List Int) (mpi_rank : Nat) (patch_level : PatchLevel) :
    (∀ N : Int, N.tmod 2 ≠ 0 →
      constructPatchLevelSCInterpOp NDIM getCellIndex interp_fcn N X_vec num_dofs_per_proc
          mpi_rank patch_level
        = constructPatchLevelSCInterpOp NDIM getCellIndex interp_fcn (N + 1) X_vec
            num_dofs_per_proc mpi_rank patch_level) ∧
    (∀ N : Int, N.tmod 2 = 0 → roundInterpStencil N = N) := by
  refine ⟨?_, roundInterpStencil_of_even⟩
  intro N hN
  have h1 : roundInterpStencil N = N + 1 := roundInterpStencil_of_odd N hN
  have h2 : roundInterpStencil (N + 1) = N + 1 := by
    have := roundInterpStencil_even N
    rw [h1] at this
    exact roundInterpStencil_of_even _ this
  unfold constructPatchLevelSCInterpOp
  rw [h1, h2]

/-! ### Placement of the interpolation stencil box -/

theorem foldl_set_range {α : Type} (g : Nat → α) (n : Nat) (l : List α) (d : Nat) :
    ((List.range n).foldl (fun l d => l.set d (g d)) l)[d]?
      = if d < n then (l[d]?).map (fun _ => g d) else l[d]? := by
  induction n with
  | zero => simp
  | succ n ih =>
    rw [List.range_succ, List.foldl_append]
    simp only [List.foldl_cons, List.foldl_nil, List.getElem?_set, ih]
    by_cases h : n = d
    · subst h
      have h1 : ¬ n < n := by omega
      have h2 : n < n + 1 := by omega
      have h3 : ((List.range n).foldl (fun l d => l.set d (g d)) l).length = l.length := by
        clear ih
        induction n generalizing l with
        | zero => simp
        | succ m ihm =>
          rw [List.range_succ, List.foldl_append]
          simp only [List.foldl_cons, List.foldl_nil, List.length_set]
          exact ihm l (by omega) (by omega)
      simp only [h2, if_true, h3]
      by_cases hl : n < l.length
      · simp [hl]
      · simp [hl, List.getElem?_eq_none (Nat.le_of_not_lt hl)]
    · by_cases hd : d < n
      · have h2 : d < n + 1 := by omega
        simp [h, hd, h2]
      · have h2 : ¬ d < n + 1 := by omega
        simp [h, hd, h2]

theorem stencilBoxAxis_eq (NDIM : Nat) (s : Int) (X X_cell : List ℚ) (X_idx : Index)
    (axis : Nat) (b : Box) :
    stencilBoxAxis NDIM s X X_cell X_idx axis b =
      { lower := (List.range NDIM).foldl
          (fun l d => l.set d (stencilLower s X X_cell X_idx axis d)) b.lower,
        upper := (List.range NDIM).foldl
          (fun l d => l.set d (stencilUpper s X X_cell X_idx axis d)) b.upper } := by
  unfold stencilBoxAxis
  induction NDIM with
  | zero => simp
  | succ n ih =>
    rw [List.range_succ, List.foldl_append, List.foldl_append, List.foldl_append, ih]
    simp only [List.foldl_cons, List.foldl_nil, stencilLower, stencilUpper]
    by_cases h1 : n = axis
    · simp only [h1, if_true]
    · by_cases h2 : X.getD n 0 ≤ X_cell.getD n 0
      · simp only [h1, h2, if_true, if_false]
      · simp only [h1, h2, if_false]

theorem stencilBoxAxis_comp (NDIM : Nat) (s : Int) (X X_cell : List ℚ) (X_idx : Index)
    (axis : Nat) (b : Box) (hl : b.lower.length = NDIM) (hu : b.upper.length = NDIM)
    (d : Nat) (hd : d < NDIM) :
    Index.comp (stencilBoxAxis NDIM s X X_cell X_idx axis b).lower d
        = stencilLower s X X_cell X_idx axis d ∧
    Index.comp (stencilBoxAxis NDIM s X X_cell X_idx axis b).upper d
        = stencilUpper s X X_cell X_idx axis d := by
  rw [stencilBoxAxis_eq]
  unfold Index.comp
  simp only [List.getD_eq_getElem?_getD, foldl_set_range, hd, if_true]
  have h1 : d < b.lower.length := by omega
  have h2 : d < b.upper.length := by omega
  simp [List.getElem?_eq_getElem h1, List.getElem?_eq_getElem h2]

/-- C10: for a sample `X` in cell `X_idx` and width `s` (the even effective width in
particular), the stencil box of component `axis` spans along `d`:
`[X_idx(d) - s/2 + 1, X_idx(d) + s/2]` when `d = axis`, wherever the sample lies;
`[X_idx(d) - s/2, X_idx(d) + s/2 - 1]` when `d ≠ axis` and `X[d] <= X_cell[d]` (ties
included); and `[X_idx(d) - s/2 + 1, X_idx(d) + s/2]` when `d ≠ axis` and `X[d] > X_cell[d]`.
Here `X_cell` is the cell centre computed by the builder and the box is the one the
counting pass stores in `stencil_box[k][axis]`. -/
theorem stencil_box_placement (NDIM : Nat) (N : Int) (X : List ℚ) (X_idx domain_lower : Index)
    (dx x_lower : List ℚ) (axis d : Nat) (hd : d < NDIM) :
    let s := roundInterpStencil N
    let X_cell := cellCentre NDIM X_idx domain_lower dx x_lower
    let B := stencilBoxAxis NDIM s X X_cell X_idx axis (Box.emptyBox NDIM)
    (d = axis →
      Index.comp B.lower d = Index.comp X_idx d - s.tdiv 2 + 1 ∧
      Index.comp B.upper d = Index.comp X_idx d + s.tdiv 2) ∧
    (d ≠ axis → X.getD d 0 ≤ X_cell.getD d 0 →
      Index.comp B.lower d = Index.comp X_idx d - s.tdiv 2 ∧
      Index.comp B.upper d = Index.comp X_idx d + s.tdiv 2 - 1) ∧
    (d ≠ axis → X_cell.getD d 0 < X.getD d 0 →
      Index.comp B.lower d = Index.comp X_idx d - s.tdiv 2 + 1 ∧
      Index.comp B.upper d = Index.comp X_idx d + s.tdiv 2) ∧
    (∀ (j_lower j_upper n_local n_total : Int) (dof_index_data : SideData Int) (k : Nat)
      (st st' : InterpCount),
      axis < NDIM → k < st.stencil_box.length →
      (st.stencil_box.getD k []).length = NDIM →
      (st.stencil_box.getD k []).getD axis (Box.emptyBox NDIM) = Box.emptyBox NDIM →
      interpCountAxis NDIM s j_lower j_upper n_local n_total X X_cell X_idx dof_index_data k
        st axis = .ok st' →
      (st'.stencil_box.getD k []).getD axis (Box.emptyBox NDIM) = B) := by
  intro s X_cell B
  have hB := stencilBoxAxis_comp NDIM s X X_cell X_idx axis (Box.emptyBox NDIM)
    (by simp [Box.emptyBox]) (by simp [Box.emptyBox]) d hd
  refine ⟨?_, ?_, ?_, ?_⟩
  · intro h
    simp only [stencilLower, stencilUpper, h, if_true] at hB
    simpa only [h] using hB
  · intro h h2
    simp only [stencilLower, stencilUpper, h, h2, if_true, if_false] at hB
    exact hB
  · intro h h2
    have h3 : ¬ X.getD d 0 ≤ X_cell.getD d 0 := not_le.mpr h2
    simp only [stencilLower, stencilUpper, h, h3, if_false] at hB
    exact hB
  · intro j_lower j_upper n_local n_total dof_index_data k st st' hax hk hlen hrow h
    unfold interpCountAxis at h
    have hs : s.tmod 2 = 0 := roundInterpStencil_even N
    simp only [ne_eq, hs, not_true_eq_false, if_false] at h
    split at h
    · cases h
    · cases h
      simp only [hrow]
      rw [List.getD_eq_getElem?_getD, List.getD_eq_getElem?_getD, List.getElem?_modify,
        List.getElem?_eq_getElem hk]
      rw [List.getD_eq_getElem?_getD, List.getElem?_eq_getElem hk] at hlen
      simp only [Option.getD_some] at hlen
      simp [List.getElem?_set, hlen, hax]

/-- Witness for C8 on the example level: the requested width 1 is odd and gives the same
result as the width 2. -/
theorem interp_odd_width_rounds_up_witness :
    (1 : Int).tmod 2 ≠ 0 ∧
    constructPatchLevelSCInterpOp 2 exampleGetCellIndex exampleKernel 1 exampleX [50] 0
        exampleLevel
      = constructPatchLevelSCInterpOp 2 exampleGetCellIndex exampleKernel (1 + 1) exampleX [50] 0
        exampleLevel :=
  ⟨by decide,
   (interp_odd_width_rounds_up 2 exampleGetCellIndex exampleKernel exampleX [50] 0
      exampleLevel).1 1 (by decide)⟩

/-- Witness for C10: the sample `(13/10, 27/10)` in cell `(1, 2)`, component 0, direction 1:
the sample lies above the cell centre `5/2`, so the box spans `[2 - s/2 + 1, 2 + s/2]`. -/
theorem stencil_box_placement_witness :
    (1 < 2) ∧ ((1 : Nat) ≠ 0) ∧
    (cellCentre 2 [1, 2] [0, 0] [1, 1] [0, 0]).getD 1 0
      < ([13 / 10, 27 / 10] : List ℚ).getD 1 0 ∧
    Index.comp (stencilBoxAxis 2 (roundInterpStencil 1) [13 / 10, 27 / 10]
        (cellCentre 2 [1, 2] [0, 0] [1, 1] [0, 0]) [1, 2] 0 (Box.emptyBox 2)).lower 1
      = Index.comp [1, 2] 1 - (roundInterpStencil 1).tdiv 2 + 1 ∧
    Index.comp (stencilBoxAxis 2 (roundInterpStencil 1) [13 / 10, 27 / 10]
        (cellCentre 2 [1, 2] [0, 0] [1, 1] [0, 0]) [1, 2] 0 (Box.emptyBox 2)).upper 1
      = Index.comp [1, 2] 1 + (roundInterpStencil 1).tdiv 2 :=
  ⟨by decide, by decide,
   by norm_num [cellCentre, Index.comp, List.range, List.range.loop],
   (stencil_box_placement 2 1 [13 / 10, 27 / 10] [1, 2] [0, 0] [1, 1] [0, 0] 0 1
      (by decide)).2.2.1 (by decide)
      (by norm_num [cellCentre, Index.comp, List.range, List.range.loop])⟩

/-! ### One visit of a counting pass -/

theorem modify_modify_same {α : Type} (f g : α → α) (k : Nat) (l : List α) :
    (l.modify f k).modify g k = l.modify (fun x => g (f x)) k := by
  apply List.ext_getElem?
  intro n
  simp only [List.getElem?_modify]
  cases l[n]? with
  | none => rfl
  | some a =>
    by_cases h : k = n
    · simp [h]
    · simp [h]

theorem modify_id_congr {α : Type} (f : α → α) (hf : ∀ x, f x = x) (k : Nat) (l : List α) :
    l.modify f k = l := by
  apply List.ext_getElem?
  intro n
  simp only [List.getElem?_modify]
  cases l[n]? with
  | none => rfl
  | some a =>
    by_cases h : k = n
    · simp [h, hf]
    · simp [h]

theorem modify_congr {α : Type} (f g : α → α) (hfg : ∀ x, f x = g x) (k : Nat) (l : List α) :
    l.modify f k = l.modify g k := by
  have : f = g := funext hfg
  rw [this]

/-- Folding the classification step over a list of neighbours adds `inc` to `d_nnz` for
every local neighbour and `inc` to `o_nnz` for every other neighbour. -/
theorem foldl_classify {α : Type} (inc : Int) (k : Nat) (p : α → Bool) (js : List α)
    (nnz : List Int × List Int) :
    js.foldl
      (fun (nnz : List Int × List Int) j =>
        if p j = true then (nnz.1.modify (· + inc) k, nnz.2)
        else (nnz.1, nnz.2.modify (· + inc) k))
      nnz
    = (nnz.1.modify (fun x => x + inc * (js.countP p : Int)) k,
       nnz.2.modify (fun x => x + inc * (js.countP (fun j => !p j) : Int)) k) := by
  induction js generalizing nnz with
  | nil =>
    simp only [List.foldl_nil, List.countP_nil, Nat.cast_zero, mul_zero, add_zero]
    rw [modify_id_congr _ (fun _ => rfl), modify_id_congr _ (fun _ => rfl)]
  | cons j js ih =>
    rw [List.foldl_cons, ih]
    by_cases hp : p j = true
    · simp only [hp, if_true, List.countP_cons_of_pos, Bool.not_true, Bool.false_eq_true,
        not_false_eq_true, List.countP_cons_of_neg]
      rw [modify_modify_same]
      congr 1
      apply modify_congr
      intro x
      push_cast
      ring
    · have hp' : (fun j => !p j) j = true := by simp [hp]
      have hp2 : p j = false := by simpa using hp
      rw [List.countP_cons_of_neg p js hp, List.countP_cons_of_pos (fun j => !p j) js hp']
      simp only [hp2, Bool.false_eq_true, if_false]
      rw [modify_modify_same]
      congr 1
      apply modify_congr
      intro x
      push_cast
      ring

/-- One visit of a counting pass, as a single update of the row's two counters: a point
whose DOF index is local adds `inc * (1 + number of local neighbours)` to `d_nnz` and
`inc * (number of other neighbours)` to `o_nnz` at `local_idx = dof_index - i_lower`, and
each counter is then clamped; any other point leaves the counters alone. -/
theorem countVisit_eq (NDIM : Nat) (inc : Int) (i_lower i_upper n_local n_total : Int)
    (dof : Index → Int) (i : Index) (nnz : List Int × List Int) :
    countVisit NDIM inc i_lower i_upper n_local n_total dof i nnz =
      if isLocal i_lower i_upper (dof i) = true then
        (nnz.1.modify
          (fun x => min n_local
            (x + inc * (1 + ((neighbourDofs NDIM dof i).countP (isLocal i_lower i_upper) : Int))))
          (dof i - i_lower).toNat,
         nnz.2.modify
          (fun x => min (n_total - n_local)
            (x + inc * ((neighbourDofs NDIM dof i).countP
              (fun c => !isLocal i_lower i_upper c) : Int)))
          (dof i - i_lower).toNat)
      else nnz := by
  unfold countVisit
  by_cases hloc : i_lower ≤ dof i ∧ dof i < i_upper
  · have h1 : isLocal i_lower i_upper (dof i) = true := by simp [isLocal, hloc]
    simp only [hloc, and_self, if_true, h1]
    rw [stencilLoop_eq]
    have hfold := foldl_classify inc (dof i - i_lower).toNat
      (fun j => isLocal i_lower i_upper (dof (Index.add i ((stencil NDIM).getD (j + 1) []))))
      (List.range (2 * NDIM)) (nnz.1.modify (· + inc) (dof i - i_lower).toNat, nnz.2)
    simp only [isLocal, decide_eq_true_eq, ge_iff_le] at hfold ⊢
    rw [hfold]
    simp only [modify_modify_same, neighbourDofs, List.countP_map]
    congr 1
    · apply modify_congr
      intro x
      simp only [Function.comp_def, isLocal]
      congr 1
      ring
  · have h1 : isLocal i_lower i_upper (dof i) = false := by simp [isLocal, hloc]
    simp only [hloc, if_false, h1, Bool.false_eq_true]

/-! ### Bounds on the predicted counts -/

theorem modify_forall {α : Type} (P : α → Prop) (f : α → α) (k : Nat) (l : List α)
    (hl : ∀ x ∈ l, P x) (hf : ∀ x, P x → P (f x)) : ∀ x ∈ l.modify f k, P x := by
  intro x hx
  rw [List.mem_iff_getElem?] at hx
  obtain ⟨n, hn⟩ := hx
  rw [List.getElem?_modify] at hn
  cases hln : l[n]? with
  | none => simp [hln] at hn
  | some a =>
    have ha : P a := hl a (List.mem_iff_getElem?.mpr ⟨n, hln⟩)
    simp only [hln, Option.map_eq_map, Option.map_some', Option.some.injEq] at hn
    by_cases h : k = n
    · simp only [h, if_true] at hn
      rw [← hn]
      exact hf a ha
    · simp only [h, if_false] at hn
      rw [← hn]
      exact ha

theorem foldl_invariant {σ α : Type} (P : σ → Prop) (f : σ → α → σ)
    (hf : ∀ s a, P s → P (f s a)) (l : List α) (s : σ) (hs : P s) : P (l.foldl f s) := by
  induction l generalizing s with
  | nil => exact hs
  | cons a l ih => exact ih (f s a) (hf s a hs)

theorem foldlM_invariant {σ α : Type} (P : σ → Prop) (f : σ → α → Except Failure σ)
    (hf : ∀ s a s', P s → f s a = .ok s' → P s') (l : List α) (s s' : σ) (hs : P s)
    (h : l.foldlM f s = .ok s') : P s' := by
  induction l generalizing s with
  | nil =>
    simp only [List.foldlM_nil, pure, Except.pure, Except.ok.injEq] at h
    exact h ▸ hs
  | cons a l ih =>
    rw [List.foldlM_cons] at h
    cases hfa : f s a with
    | error e => simp [hfa, bind, Except.bind] at h
    | ok s1 =>
      simp only [hfa, bind, Except.bind] at h
      exact ih s1 (hf s a s1 hs hfa) h

theorem countVisit_bounded (NDIM : Nat) (inc : Int) (hinc : 0 ≤ inc)
    (i_lower i_upper n_local n_total : Int) (h1 : 0 ≤ n_local) (h2 : 0 ≤ n_total - n_local)
    (dof : Index → Int) (i : Index) (nnz : List Int × List Int)
    (h : NnzBounded n_local (n_total - n_local) nnz) :
    NnzBounded n_local (n_total - n_local)
      (countVisit NDIM inc i_lower i_upper n_local n_total dof i nnz) := by
  rw [countVisit_eq]
  split
  · constructor
    · apply modify_forall _ _ _ _ h.1
      intro x hx
      have hc : 0 ≤ inc * (1 + ((neighbourDofs NDIM dof i).countP (isLocal i_lower i_upper) : Int)) :=
        mul_nonneg hinc (by positivity)
      exact ⟨le_min h1 (by linarith [hx.1]), min_le_left _ _⟩
    · apply modify_forall _ _ _ _ h.2
      intro x hx
      have hc : 0 ≤ inc * ((neighbourDofs NDIM dof i).countP
          (fun c => !isLocal i_lower i_upper c) : Int) :=
        mul_nonneg hinc (by positivity)
      exact ⟨le_min h2 (by linarith [hx.1]), min_le_left _ _⟩
  · exact h

theorem nnzInit_bounded (n d_bound o_bound : Int) (h1 : 0 ≤ d_bound) (h2 : 0 ≤ o_bound) :
    NnzBounded d_bound o_bound (nnzInit n) := by
  constructor
  · intro x hx
    simp only [nnzInit, List.mem_replicate] at hx
    rw [hx.2]
    exact ⟨le_refl _, h1⟩
  · intro x hx
    simp only [nnzInit, List.mem_replicate] at hx
    rw [hx.2]
    exact ⟨le_refl _, h2⟩

theorem ccCountPass_bounded (NDIM : Nat) (inc : Int) (hinc : 0 ≤ inc) (depth : Nat)
    (i_lower i_upper n_local n_total : Int) (h1 : 0 ≤ n_local) (h2 : 0 ≤ n_total - n_local)
    (patch_level : List (Patch (CellData Int))) (nnz : List Int × List Int)
    (h : ccCountPass NDIM inc depth i_lower i_upper n_local n_total patch_level = .ok nnz) :
    NnzBounded n_local (n_total - n_local) nnz := by
  unfold ccCountPass at h
  refine foldlM_invariant (NnzBounded n_local (n_total - n_local)) _ ?_ _ _ _
    (nnzInit_bounded _ _ _ h1 h2) h
  intro s patch s' hs hp
  unfold ccCountPatch at hp
  simp only at hp
  split at hp
  · cases hp
  · cases hp
    apply foldl_invariant _ _ _ _ _ hs
    intro s1 i hs1
    apply foldl_invariant _ _ _ _ _ hs1
    intro s2 d hs2
    exact countVisit_bounded NDIM inc hinc _ _ _ _ h1 h2 _ _ _ hs2

theorem scCountPass_bounded (NDIM : Nat)
    (i_lower i_upper n_local n_total : Int) (h1 : 0 ≤ n_local) (h2 : 0 ≤ n_total - n_local)
    (patch_level : List (Patch (SideData Int))) (nnz : List Int × List Int)
    (h : scCountPass NDIM i_lower i_upper n_local n_total patch_level = .ok nnz) :
    NnzBounded n_local (n_total - n_local) nnz := by
  unfold scCountPass at h
  refine foldlM_invariant (NnzBounded n_local (n_total - n_local)) _ ?_ _ _ _
    (nnzInit_bounded _ _ _ h1 h2) h
  intro s patch s' hs hp
  unfold scCountPatch at hp
  simp only at hp
  split at hp
  · cases hp
  · cases hp
    apply foldl_invariant _ _ _ _ _ hs
    intro s1 axis hs1
    apply foldl_invariant _ _ _ _ _ hs1
    intro s2 i hs2
    exact countVisit_bounded NDIM 1 (by decide) _ _ _ _ h1 h2 _ _ _ hs2

theorem interpCountAxis_bounded (NDIM : Nat) (s : Int)
    (j_lower j_upper n_local n_total : Int) (h1 : 0 ≤ n_local) (h2 : 0 ≤ n_total - n_local)
    (X X_cell : List ℚ) (X_idx : Index) (dof_index_data : SideData Int) (k : Nat)
    (st st' : InterpCount) (axis : Nat)
    (hst : NnzBounded n_local (n_total - n_local) (st.d_nnz, st.o_nnz))
    (h : interpCountAxis NDIM s j_lower j_upper n_local n_total X X_cell X_idx dof_index_data k
      st axis = .ok st') :
    NnzBounded n_local (n_total - n_local) (st'.d_nnz, st'.o_nnz) := by
  unfold interpCountAxis at h
  simp only at h
  split at h
  · cases h
  · split at h
    · cases h
    · cases h
      simp only
      have hfold := foldl_classify 1 (NDIM * k + axis)
        (fun b => decide (dof_index_data.data axis b 0 ≥ j_lower ∧
          dof_index_data.data axis b 0 < j_upper))
        (stencilBoxAxis NDIM s X X_cell X_idx axis
          ((st.stencil_box.getD k []).getD axis (Box.emptyBox NDIM))).indices
        (st.d_nnz, st.o_nnz)
      simp only [decide_eq_true_eq] at hfold
      rw [hfold]
      simp only [modify_modify_same]
      constructor
      · apply modify_forall _ _ _ _ hst.1
        intro x hx
        refine ⟨le_min h1 ?_, min_le_left _ _⟩
        have := hx.1
        positivity
      · apply modify_forall _ _ _ _ hst.2
        intro x hx
        refine ⟨le_min h2 ?_, min_le_left _ _⟩
        have := hx.1
        positivity

theorem interpCountPass_bounded (NDIM : Nat)
    (getCellIndex : List ℚ → List ℚ → List ℚ → List ℚ → Index → Index → Index)
    (s : Int) (j_lower j_upper n_local n_total : Int) (h1 : 0 ≤ n_local)
    (h2 : 0 ≤ n_total - n_local) (X_arr : List ℚ) (patch_level : PatchLevel) (dx : List ℚ)
    (domain_box : Box) (n_local_points : Int) (init count : InterpCount)
    (hinit : NnzBounded n_local (n_total - n_local) (init.d_nnz, init.o_nnz))
    (h : interpCountPass NDIM getCellIndex s j_lower j_upper n_local n_total X_arr patch_level
      dx domain_box n_local_points init = .ok count) :
    NnzBounded n_local (n_total - n_local) (count.d_nnz, count.o_nnz) := by
  unfold interpCountPass at h
  refine foldlM_invariant
    (fun st : InterpCount => NnzBounded n_local (n_total - n_local) (st.d_nnz, st.o_nnz))
    _ ?_ _ _ _ hinit h
  intro st k st' hst hp
  unfold interpCountPoint at hp
  simp only at hp
  split at hp
  · cases hp
  · split at hp
    · cases hp
    · split at hp
      · cases hp
      · refine foldlM_invariant
          (fun st : InterpCount => NnzBounded n_local (n_total - n_local) (st.d_nnz, st.o_nnz))
          _ ?_ _ _ _ (by exact hst) hp
        intro s1 axis s2 hs1 hax
        exact interpCountAxis_bounded NDIM s _ _ _ _ h1 h2 _ _ _ _ _ _ _ _ hs1 hax

/-- C2: for a non-negative partition, after the counting pass of each of the four builders
(and in the matrix the builder returns) every entry of `d_nnz` lies in `[0, n_local]` and
every entry of `o_nnz` lies in `[0, n_total - n_local]`, whatever the DOF index field. -/
theorem predicted_counts_within_bounds (NDIM : Nat) (num_dofs_per_proc : List Int)
    (hnn : ∀ c ∈ num_dofs_per_proc, 0 ≤ c) (mpi_rank : Nat) :
    (∀ (depth : Nat) (patch_level : List (Patch (CellData Int))) (nnz : List Int × List Int),
      ccCountPass NDIM 1 depth (i_lower num_dofs_per_proc mpi_rank)
        (i_upper num_dofs_per_proc mpi_rank) (n_local num_dofs_per_proc mpi_rank)
        (n_total num_dofs_per_proc) patch_level = .ok nnz →
      NnzBounded (n_local num_dofs_per_proc mpi_rank)
        (n_total num_dofs_per_proc - n_local num_dofs_per_proc mpi_rank) nnz) ∧
    (∀ (depth : Nat) (patch_level : List (Patch (CellData Int))) (nnz : List Int × List Int),
      ccCountPass NDIM 2 depth (i_lower num_dofs_per_proc mpi_rank)
        (i_upper num_dofs_per_proc mpi_rank) (n_local num_dofs_per_proc mpi_rank)
        (n_total num_dofs_per_proc) patch_level = .ok nnz →
      NnzBounded (n_local num_dofs_per_proc mpi_rank)
        (n_total num_dofs_per_proc - n_local num_dofs_per_proc mpi_rank) nnz) ∧
    (∀ (patch_level : List (Patch (SideData Int))) (nnz : List Int × List Int),
      scCountPass NDIM (i_lower num_dofs_per_proc mpi_rank)
        (i_upper num_dofs_per_proc mpi_rank) (n_local num_dofs_per_proc mpi_rank)
        (n_total num_dofs_per_proc) patch_level = .ok nnz →
      NnzBounded (n_local num_dofs_per_proc mpi_rank)
        (n_total num_dofs_per_proc - n_local num_dofs_per_proc mpi_rank) nnz) ∧
    (∀ (PS BC : Type)
      (computeCCMatrixCoefficients :
        Patch (CellData Int) → List Index → PS → List BC → ℚ → Index → Nat → ℚ)
      (poisson_spec : PS) (bc_coefs : List BC) (data_time : ℚ)
      (patch_level : List (Patch (CellData Int))) (mat : Mat),
      constructPatchLevelCCLaplaceOp NDIM computeCCMatrixCoefficients poisson_spec bc_coefs
        data_time num_dofs_per_proc mpi_rank patch_level = .ok mat →
      NnzBounded (n_local num_dofs_per_proc mpi_rank)
        (n_total num_dofs_per_proc - n_local num_dofs_per_proc mpi_rank)
        (mat.d_nnz, mat.o_nnz)) ∧
    (∀ (PS BC : Type)
      (computeCCComplexMatrixCoefficients :
        Patch (CellData Int) → List Index → PS → PS → List BC → ℚ → Index → Nat → ℚ)
      (poisson_spec_real poisson_spec_imag : PS) (bc_coefs : List BC) (data_time : ℚ)
      (patch_level : List (Patch (CellData Int))) (mat : Mat),
      constructPatchLevelCCComplexLaplaceOp NDIM computeCCComplexMatrixCoefficients
        poisson_spec_real poisson_spec_imag bc_coefs data_time num_dofs_per_proc mpi_rank
        patch_level = .ok mat →
      NnzBounded (n_local num_dofs_per_proc mpi_rank)
        (n_total num_dofs_per_proc - n_local num_dofs_per_proc mpi_rank)
        (mat.d_nnz, mat.o_nnz)) ∧
    (∀ (PS BC : Type)
      (computeSCMatrixCoefficients :
        Patch (SideData Int) → List Index → PS → List BC → ℚ → Nat → Index → Nat → ℚ)
      (poisson_spec : PS) (bc_coefs : List BC) (data_time : ℚ)
      (patch_level : List (Patch (SideData Int))) (mat : Mat),
      constructPatchLevelSCLaplaceOp NDIM computeSCMatrixCoefficients poisson_spec bc_coefs
        data_time num_dofs_per_proc mpi_rank patch_level = .ok mat →
      NnzBounded (n_local num_dofs_per_proc mpi_rank)
        (n_total num_dofs_per_proc - n_local num_dofs_per_proc mpi_rank)
        (mat.d_nnz, mat.o_nnz)) ∧
    (∀ (getCellIndex : List ℚ → List ℚ → List ℚ → List ℚ → Index → Index → Index)
      (interp_fcn : ℚ → List ℚ → List ℚ) (interp_stencil : Int) (X_vec : Vec)
      (patch_level : PatchLevel) (op : InterpOp),
      constructPatchLevelSCInterpOp NDIM getCellIndex interp_fcn interp_stencil X_vec
        num_dofs_per_proc mpi_rank patch_level = .ok op →
      NnzBounded (n_local num_dofs_per_proc mpi_rank)
        (n_total num_dofs_per_proc - n_local num_dofs_per_proc mpi_rank)
        (op.mat.d_nnz, op.mat.o_nnz)) := by
  have h1 : 0 ≤ n_local num_dofs_per_proc mpi_rank := n_local_nonneg _ hnn _
  have h2 : 0 ≤ n_total num_dofs_per_proc - n_local num_dofs_per_proc mpi_rank := by
    have := n_local_le_n_total num_dofs_per_proc hnn mpi_rank
    omega
  refine ⟨?_, ?_, ?_, ?_, ?_, ?_, ?_⟩
  · intro depth patch_level nnz h
    exact ccCountPass_bounded NDIM 1 (by decide) depth _ _ _ _ h1 h2 patch_level nnz h
  · intro depth patch_level nnz h
    exact ccCountPass_bounded NDIM 2 (by decide) depth _ _ _ _ h1 h2 patch_level nnz h
  · intro patch_level nnz h
    exact scCountPass_bounded NDIM _ _ _ _ h1 h2 patch_level nnz h
  · intro PS BC compute poisson_spec bc_coefs data_time patch_level mat h
    unfold constructPatchLevelCCLaplaceOp at h
    simp only at h
    split at h
    · cases h
    · rename_i nnz hc
      cases h
      exact ccCountPass_bounded NDIM 1 (by decide) _ _ _ _ _ h1 h2 patch_level nnz hc
  · intro PS BC compute ps_real ps_imag bc_coefs data_time patch_level mat h
    unfold constructPatchLevelCCComplexLaplaceOp at h
    simp only at h
    split at h
    · cases h
    · rename_i nnz hc
      split at h
      · cases h
      · cases h
        exact ccCountPass_bounded NDIM 2 (by decide) _ _ _ _ _ h1 h2 patch_level nnz hc
  · intro PS BC compute poisson_spec bc_coefs data_time patch_level mat h
    unfold constructPatchLevelSCLaplaceOp at h
    simp only at h
    split at h
    · cases h
    · split at h
      · cases h
      · rename_i nnz hc
        cases h
        exact scCountPass_bounded NDIM _ _ _ _ h1 h2 patch_level nnz hc
  · intro getCellIndex interp_fcn interp_stencil X_vec patch_level op h
    unfold constructPatchLevelSCInterpOp at h
    simp only at h
    split at h
    · split at h
      · cases h
      · rename_i count hc
        split at h
        · cases h
        · cases h
          refine interpCountPass_bounded NDIM getCellIndex _ _ _ _ _ h1 h2 _ _ _ _ _ _ count ?_ hc
          simp only
          constructor
          · intro x hx
            rw [(List.mem_replicate.mp hx).2]
            exact ⟨le_refl _, h1⟩
          · intro x hx
            rw [(List.mem_replicate.mp hx).2]
            exact ⟨le_refl _, h2⟩
    · cases h

/-- Witness for C2: on the partition `[4, 4]`, rank 0, the counting pass of the real
cell-centred builder on the example patch returns `d_nnz = [3, 3, 3, 3]` and
`o_nnz = [2, 2, 2, 2]`, within `[0, 4]` and `[0, 4]`. -/
theorem predicted_counts_within_bounds_witness :
    (∀ c ∈ [(4 : Int), 4], 0 ≤ c) ∧
    ccCountPass 2 1 1 (i_lower [4, 4] 0) (i_upper [4, 4] 0) (n_local [4, 4] 0) (n_total [4, 4])
      [exampleCellPatch] = .ok ([3, 3, 3, 3], [2, 2, 2, 2]) ∧
    NnzBounded (n_local [4, 4] 0) (n_total [4, 4] - n_local [4, 4] 0)
      ([3, 3, 3, 3], [2, 2, 2, 2]) :=
  ⟨by decide, by rfl,
   (predicted_counts_within_bounds 2 [4, 4] (by decide) 0).1 1 [exampleCellPatch]
     ([3, 3, 3, 3], [2, 2, 2, 2]) (by rfl)⟩

/-! ### The fill passes -/

theorem foldl_prod {A B α : Type} (f : A → α → A) (g : B → α → B) (l : List α) (a : A) (b : B) :
    l.foldl (fun (s : A × B) x => (f s.1 x, g s.2 x)) (a, b) = (l.foldl f a, l.foldl g b) := by
  induction l generalizing a b with
  | nil => rfl
  | cons x l ih => simp only [List.foldl_cons, ih]

theorem foldl_flatMap_eq {σ α β : Type} (f : σ → β → σ) (g : α → List β) (l : List α) (s : σ) :
    (l.flatMap g).foldl f s = l.foldl (fun s a => (g a).foldl f s) s := by
  induction l generalizing s with
  | nil => rfl
  | cons a l ih => simp only [List.flatMap_cons, List.foldl_append, List.foldl_cons, ih]

/-- Writing entry 0 and then the entries `1 .. 2 * NDIM` of a buffer of `2 * NDIM + 1` slots
overwrites all of it. -/
theorem buffer_overwritten {α : Type} (NDIM : Nat) (g : Nat → α) (l : List α)
    (hl : l.length = stencil_sz NDIM) :
    (List.range (2 * NDIM)).foldl (fun l j => l.set (j + 1) (g (j + 1))) (l.set 0 (g 0))
      = (List.range (stencil_sz NDIM)).map g := by
  have hset : (fun (l : List α) j => l.set (j + 1) (g (j + 1)))
      = (fun (l : List α) j => l.modify ((fun j _ => g (j + 1)) j) (j + 1)) := by
    funext l j
    exact List.set_eq_modify _ _ _
  rw [hset]
  apply List.ext_getElem?
  intro n
  rw [foldl_modify_range]
  unfold stencil_sz at hl ⊢
  by_cases h0 : n = 0
  · subst h0
    simp [hl]
  · by_cases h1 : n ≤ 2 * NDIM
    · have h2 : 1 ≤ n ∧ n ≤ 2 * NDIM := by omega
      have h3 : n < l.length := by omega
      have h4 : n - 1 + 1 = n := by omega
      have h5 : n < 2 * NDIM + 1 := by omega
      simp [h2, h3, h4, h5, List.getElem?_set, h0, Ne.symm h0]
    · have h2 : ¬ (1 ≤ n ∧ n ≤ 2 * NDIM) := by omega
      have h3 : l.length ≤ n := by omega
      have h5 : 2 * NDIM + 1 ≤ n := by omega
      simp [h2, h5, List.getElem?_set, Ne.symm h0, List.getElem?_eq_none h3,
        List.getElem?_eq_none (l := List.range (2 * NDIM + 1)) (by simpa using h5)]

/-- The two buffers after the stencil loop of a fill pass. -/
theorem fill_buffers (NDIM : Nat) (gv : Nat → ℚ) (gc : Nat → Int) (v0 : List ℚ) (c0 : List Int)
    (hv : v0.length = stencil_sz NDIM) (hc : c0.length = stencil_sz NDIM) :
    stencilLoop NDIM
      (fun _axis _side stencil_index (bufs : List ℚ × List Int) =>
        (bufs.1.set stencil_index (gv stencil_index), bufs.2.set stencil_index (gc stencil_index)))
      (v0.set 0 (gv 0), c0.set 0 (gc 0))
    = ((List.range (stencil_sz NDIM)).map gv, (List.range (stencil_sz NDIM)).map gc) := by
  rw [stencilLoop_eq]
  rw [foldl_prod (fun (l : List ℚ) j => l.set (j + 1) (gv (j + 1)))
    (fun (l : List Int) j => l.set (j + 1) (gc (j + 1)))]
  rw [buffer_overwritten NDIM gv v0 hv, buffer_overwritten NDIM gc c0 hc]

theorem range_stencil_sz_map {α : Type} (NDIM : Nat) (g : Nat → α) :
    (List.range (stencil_sz NDIM)).map g
      = g 0 :: (List.range (2 * NDIM)).map (fun j => g (j + 1)) := by
  unfold stencil_sz
  rw [List.range_succ_eq_map]
  simp [List.map_map, Function.comp_def]

/-- One visit of the fill pass of `constructPatchLevelCCLaplaceOp`: a locally owned
(cell, component) appends exactly the insertion `ccInsertion`, any other appends nothing;
the buffers keep their length. -/
theorem ccFillVisit_eq (NDIM : Nat) (i_lower i_upper : Int) (matrix_coefs : Index → Nat → ℚ)
    (dof_index_data : CellData Int) (i : Index) (d : Nat)
    (st : List ℚ × List Int × List SetValues)
    (hv : st.1.length = stencil_sz NDIM) (hc : st.2.1.length = stencil_sz NDIM) :
    (ccFillVisit NDIM i_lower i_upper matrix_coefs dof_index_data i d st).1.length
        = stencil_sz NDIM ∧
    (ccFillVisit NDIM i_lower i_upper matrix_coefs dof_index_data i d st).2.1.length
        = stencil_sz NDIM ∧
    (ccFillVisit NDIM i_lower i_upper matrix_coefs dof_index_data i d st).2.2
      = st.2.2 ++
        (if isLocal i_lower i_upper (dof_index_data.data i d) = true then
          [ccInsertion NDIM matrix_coefs dof_index_data i d] else []) := by
  unfold ccFillVisit
  by_cases hloc : i_lower ≤ dof_index_data.data i d ∧ dof_index_data.data i d < i_upper
  · have h1 : isLocal i_lower i_upper (dof_index_data.data i d) = true := by
      simp [isLocal, hloc]
    simp only [hloc, and_self, if_true, h1]
    have hb := fill_buffers NDIM (fun k => matrix_coefs i (d * stencil_sz NDIM + k))
      (fun k => if k = 0 then dof_index_data.data i d
        else dof_index_data.data (Index.add i ((stencil NDIM).getD k [])) d)
      st.1 st.2.1 hv hc
    have hb' : stencilLoop NDIM
        (fun _axis _side stencil_index (bufs : List ℚ × List Int) =>
          (bufs.1.set stencil_index (matrix_coefs i (d * stencil_sz NDIM + stencil_index)),
           bufs.2.set stencil_index
             (dof_index_data.data (Index.add i ((stencil NDIM).getD stencil_index [])) d)))
        (st.1.set 0 (matrix_coefs i (d * stencil_sz NDIM)), st.2.1.set 0 (dof_index_data.data i d))
        = ((List.range (stencil_sz NDIM)).map (fun k => matrix_coefs i (d * stencil_sz NDIM + k)),
           dof_index_data.data i d
             :: neighbourDofs NDIM (fun j => dof_index_data.data j d) i) := by
      rw [stencilLoop_eq] at hb ⊢
      simp only [Nat.add_zero, if_true, Nat.succ_ne_zero, if_false] at hb
      rw [hb, range_stencil_sz_map NDIM (fun k => if k = 0 then dof_index_data.data i d
        else dof_index_data.data (Index.add i ((stencil NDIM).getD k [])) d)]
      simp [neighbourDofs]
    rw [hb']
    simp [ccInsertion, neighbourDofs, stencil_sz]
  · have h1 : isLocal i_lower i_upper (dof_index_data.data i d) = false := by
      simp [isLocal, hloc]
    simp only [hloc, if_false, h1, Bool.false_eq_true, List.append_nil]
    exact ⟨hv, hc, trivial⟩

theorem ccFillVisits_eq (NDIM : Nat) (i_lower i_upper : Int) (matrix_coefs : Index → Nat → ℚ)
    (dof_index_data : CellData Int) (vs : List (Index × Nat))
    (st : List ℚ × List Int × List SetValues)
    (hv : st.1.length = stencil_sz NDIM) (hc : st.2.1.length = stencil_sz NDIM) :
    (vs.foldl (fun st v => ccFillVisit NDIM i_lower i_upper matrix_coefs dof_index_data v.1 v.2 st)
        st).2.2
      = st.2.2 ++
        (vs.filter (fun v => isLocal i_lower i_upper (dof_index_data.data v.1 v.2))).map
          (fun v => ccInsertion NDIM matrix_coefs dof_index_data v.1 v.2) := by
  induction vs generalizing st with
  | nil => simp
  | cons v vs ih =>
    obtain ⟨h1, h2, h3⟩ :=
      ccFillVisit_eq NDIM i_lower i_upper matrix_coefs dof_index_data v.1 v.2 st hv hc
    rw [List.foldl_cons, ih _ h1 h2, h3]
    by_cases hl : isLocal i_lower i_upper (dof_index_data.data v.1 v.2) = true
    · simp [hl, List.filter_cons]
    · simp [hl, List.filter_cons]

/-- The fill pass of `constructPatchLevelCCLaplaceOp` on one patch appends, in visiting
order, one insertion per locally owned (cell, component). -/
theorem ccFillPatch_eq (NDIM : Nat) (depth : Nat) (i_lower i_upper : Int)
    (matrix_coefs : Index → Nat → ℚ) (patch : Patch (CellData Int))
    (set_values : List SetValues) :
    ccFillPatch NDIM depth i_lower i_upper matrix_coefs patch set_values
      = set_values ++
        ((ccVisits depth [patch]).filter
          (fun v => isLocal i_lower i_upper (v.1.dof_index_data.data v.2.1 v.2.2))).map
          (fun v => ccInsertion NDIM matrix_coefs v.1.dof_index_data v.2.1 v.2.2) := by
  unfold ccFillPatch
  simp only
  have hnest : ∀ st0 : List ℚ × List Int × List SetValues,
      patch.box.indices.foldl
        (fun st i =>
          (List.range depth).foldl
            (fun st d =>
              ccFillVisit NDIM i_lower i_upper matrix_coefs patch.dof_index_data i d st) st)
        st0
      = (patch.box.indices.flatMap (fun i => (List.range depth).map (fun d => (i, d)))).foldl
          (fun st v =>
            ccFillVisit NDIM i_lower i_upper matrix_coefs patch.dof_index_data v.1 v.2 st)
          st0 := by
    intro st0
    rw [foldl_flatMap_eq]
    simp only [List.foldl_map]
  rw [hnest, ccFillVisits_eq NDIM i_lower i_upper matrix_coefs patch.dof_index_data _ _
    (by simp) (by simp)]
  simp only [ccVisits, List.flatMap_cons, List.flatMap_nil, List.append_nil]
  congr 1
  have hmap : patch.box.indices.flatMap (fun i => (List.range depth).map (fun d => (patch, i, d)))
      = (patch.box.indices.flatMap (fun i => (List.range depth).map (fun d => (i, d)))).map
          (fun v => (patch, v.1, v.2)) := by
    rw [List.map_flatMap]
    simp only [List.map_map, Function.comp_def]
  rw [hmap, List.filter_map, List.map_map]
  rfl

/-- The fill pass of `constructPatchLevelCCLaplaceOp` over the level appends, in visiting
order, one insertion per locally owned (patch, cell, component). -/
theorem ccFillLevel_eq (NDIM : Nat) (depth : Nat) (i_lower i_upper : Int)
    (coefs : Patch (CellData Int) → Index → Nat → ℚ)
    (patch_level : List (Patch (CellData Int))) (set_values : List SetValues) :
    patch_level.foldl
        (fun sets patch => ccFillPatch NDIM depth i_lower i_upper (coefs patch) patch sets)
        set_values
      = set_values ++
        ((ccVisits depth patch_level).filter
          (fun v => isLocal i_lower i_upper (v.1.dof_index_data.data v.2.1 v.2.2))).map
          (fun v => ccInsertion NDIM (coefs v.1) v.1.dof_index_data v.2.1 v.2.2) := by
  induction patch_level generalizing set_values with
  | nil => simp [ccVisits]
  | cons patch rest ih =>
    rw [List.foldl_cons, ih, ccFillPatch_eq]
    have hv : ccVisits depth (patch :: rest) = ccVisits depth [patch] ++ ccVisits depth rest := by
      simp [ccVisits]
    rw [hv, List.filter_append, List.map_append, List.append_assoc]
    congr 2
    apply List.map_congr_left
    intro v hv'
    have hp : v.1 = patch := by
      have := (List.mem_filter.mp hv').1
      simp only [ccVisits, List.flatMap_cons, List.flatMap_nil, List.append_nil,
        List.mem_flatMap, List.mem_map] at this
      obtain ⟨i, _, d, _, hvd⟩ := this
      rw [← hvd]
    rw [hp]

theorem index_add_zero (NDIM : Nat) (i : Index) (hi : i.length = NDIM) :
    Index.add i (Index.getZeroIndex NDIM) = i := by
  unfold Index.add Index.getZeroIndex
  subst hi
  induction i with
  | nil => rfl
  | cons x xs ih =>
    simp only [List.length_cons, List.replicate_succ, List.zipWith_cons_cons, add_zero]
    rw [ih]

theorem neighbourDofs_getElem? (NDIM : Nat) (dof : Index → Int) (i : Index) (k : Nat)
    (h1 : 1 ≤ k) (h2 : k ≤ 2 * NDIM) :
    (dof i :: neighbourDofs NDIM dof i)[k]?
      = some (dof (Index.add i ((stencil NDIM).getD k []))) := by
  obtain ⟨j, rfl⟩ : ∃ j, k = j + 1 := ⟨k - 1, by omega⟩
  have hj : j < 2 * NDIM := by omega
  simp [neighbourDofs, List.getElem?_map, List.getElem?_range hj]

/-- The `MatSetValues` calls recorded in the matrix `constructPatchLevelCCLaplaceOp` returns:
one `ccInsertion` per locally owned (patch, cell, component), in visiting order. -/
theorem ccLaplaceOp_set_values (NDIM : Nat) {PS BC : Type}
    (computeCCMatrixCoefficients :
      Patch (CellData Int) → List Index → PS → List BC → ℚ → Index → Nat → ℚ)
    (poisson_spec : PS) (bc_coefs : List BC) (data_time : ℚ)
    (num_dofs_per_proc : List Int) (mpi_rank : Nat)
    (patch_level : List (Patch (CellData Int))) (mat : Mat)
    (h : constructPatchLevelCCLaplaceOp NDIM computeCCMatrixCoefficients poisson_spec bc_coefs
      data_time num_dofs_per_proc mpi_rank patch_level = .ok mat) :
    mat.set_values
      = ((ccVisits bc_coefs.length patch_level).filter
          (fun v => isLocal (i_lower num_dofs_per_proc mpi_rank)
            (i_upper num_dofs_per_proc mpi_rank) (v.1.dof_index_data.data v.2.1 v.2.2))).map
          (fun v => ccInsertion NDIM
            (computeCCMatrixCoefficients v.1 (stencil NDIM) poisson_spec bc_coefs data_time)
            v.1.dof_index_data v.2.1 v.2.2) := by
  unfold constructPatchLevelCCLaplaceOp at h
  simp only at h
  split at h
  · cases h
  · cases h
    simp only
    rw [ccFillLevel_eq NDIM bc_coefs.length _ _
      (fun patch => computeCCMatrixCoefficients patch (stencil NDIM) poisson_spec bc_coefs
        data_time)]
    simp

/-- C6: the fill pass of `constructPatchLevelCCLaplaceOp` makes, in visiting order, exactly
one insertion per locally owned (cell, component): its row is `dof(i, d)`, its `k`-th column
is the DOF index of component `d` at cell `i + stencil[k]`, its `k`-th value is coefficient
component `d * (2 * NDIM + 1) + k` at cell `i`, and column 0 is the row's own index. -/
theorem cc_fill_pass_insertions (NDIM : Nat) {PS BC : Type}
    (computeCCMatrixCoefficients :
      Patch (CellData Int) → List Index → PS → List BC → ℚ → Index → Nat → ℚ)
    (poisson_spec : PS) (bc_coefs : List BC) (data_time : ℚ)
    (num_dofs_per_proc : List Int) (mpi_rank : Nat)
    (patch_level : List (Patch (CellData Int))) (mat : Mat)
    (h : constructPatchLevelCCLaplaceOp NDIM computeCCMatrixCoefficients poisson_spec bc_coefs
      data_time num_dofs_per_proc mpi_rank patch_level = .ok mat) :
    mat.set_values
      = ((ccVisits bc_coefs.length patch_level).filter
          (fun v => isLocal (i_lower num_dofs_per_proc mpi_rank)
            (i_upper num_dofs_per_proc mpi_rank) (v.1.dof_index_data.data v.2.1 v.2.2))).map
          (fun v => ccInsertion NDIM
            (computeCCMatrixCoefficients v.1 (stencil NDIM) poisson_spec bc_coefs data_time)
            v.1.dof_index_data v.2.1 v.2.2) ∧
    ∀ (matrix_coefs : Index → Nat → ℚ) (dof_index_data : CellData Int) (i : Index) (d : Nat),
      (ccInsertion NDIM matrix_coefs dof_index_data i d).row = dof_index_data.data i d ∧
      (ccInsertion NDIM matrix_coefs dof_index_data i d).cols.length = 2 * NDIM + 1 ∧
      (ccInsertion NDIM matrix_coefs dof_index_data i d).vals.length = 2 * NDIM + 1 ∧
      (ccInsertion NDIM matrix_coefs dof_index_data i d).cols[0]?
        = some (ccInsertion NDIM matrix_coefs dof_index_data i d).row ∧
      (∀ k, 1 ≤ k → k ≤ 2 * NDIM →
        (ccInsertion NDIM matrix_coefs dof_index_data i d).cols[k]?
          = some (dof_index_data.data (Index.add i ((stencil NDIM).getD k [])) d)) ∧
      (i.length = NDIM → ∀ k, k ≤ 2 * NDIM →
        (ccInsertion NDIM matrix_coefs dof_index_data i d).cols[k]?
          = some (dof_index_data.data (Index.add i ((stencil NDIM).getD k [])) d)) ∧
      (∀ k, k ≤ 2 * NDIM →
        (ccInsertion NDIM matrix_coefs dof_index_data i d).vals[k]?
          = some (matrix_coefs i (d * (2 * NDIM + 1) + k))) := by
  constructor
  · exact ccLaplaceOp_set_values NDIM computeCCMatrixCoefficients poisson_spec bc_coefs
      data_time num_dofs_per_proc mpi_rank patch_level mat h
  · intro matrix_coefs dof_index_data i d
    refine ⟨rfl, ?_, ?_, ?_, ?_, ?_, ?_⟩
    · simp [ccInsertion, neighbourDofs]
    · simp [ccInsertion, stencil_sz]
    · simp [ccInsertion]
    · intro k h1 h2
      exact neighbourDofs_getElem? NDIM (fun j => dof_index_data.data j d) i k h1 h2
    · intro hi k h2
      by_cases h0 : k = 0
      · subst h0
        have hz : (stencil NDIM).getD 0 [] = Index.getZeroIndex NDIM := by
          rw [List.getD_eq_getElem?_getD, stencil_getElem?]
          simp
        rw [hz, index_add_zero NDIM i hi]
        simp [ccInsertion]
      · exact neighbourDofs_getElem? NDIM (fun j => dof_index_data.data j d) i k (by omega) h2
    · intro k h2
      have hk : k < 2 * NDIM + 1 := by omega
      simp [ccInsertion, List.getElem?_map, List.getElem?_range hk, stencil_sz]

/-- Witness for C6: the builder on the 2 x 2 example patch returns `exampleCellMat`, whose
insertions are the four `ccInsertion`s of the locally owned cells. -/
theorem cc_fill_pass_insertions_witness :
    constructPatchLevelCCLaplaceOp 2 exampleCoefs () [()] 0 [4, 4] 0 [exampleCellPatch]
      = .ok exampleCellMat ∧
    exampleCellMat.set_values
      = ((ccVisits [()].length [exampleCellPatch]).filter
          (fun v => isLocal (i_lower [4, 4] 0) (i_upper [4, 4] 0)
            (v.1.dof_index_data.data v.2.1 v.2.2))).map
          (fun v => ccInsertion 2 (exampleCoefs v.1 (stencil 2) () [()] 0)
            v.1.dof_index_data v.2.1 v.2.2) :=
  ⟨by rfl,
   (cc_fill_pass_insertions 2 exampleCoefs () [()] 0 [4, 4] 0 [exampleCellPatch] exampleCellMat
      (by rfl)).1⟩

theorem mem_ccVisits (depth : Nat) (patch_level : List (Patch (CellData Int)))
    (patch : Patch (CellData Int)) (hp : patch ∈ patch_level) (i : Index)
    (hi : i ∈ patch.box.indices) (d : Nat) (hd : d < depth) :
    (patch, i, d) ∈ ccVisits depth patch_level := by
  unfold ccVisits
  rw [List.mem_flatMap]
  refine ⟨patch, hp, ?_⟩
  rw [List.mem_flatMap]
  refine ⟨i, hi, ?_⟩
  rw [List.mem_map]
  exact ⟨d, List.mem_range.mpr hd, rfl⟩

/-- C7: when the coefficient routine supplies the standard second-difference coefficients
(`C = 0`, `D = 1`, uniform spacings `dx`) at a locally owned cell whose `2 * NDIM` face
neighbours have distinct DOF indices, the builder inserts for that cell a row of exactly
`2 * NDIM + 1` entries: the centre coefficient at the cell's own DOF column and the
coefficient `1 / dx_a^2` at the DOF column of each face neighbour along axis `a`; with one
spacing `hx` in every direction these are `-2 * NDIM / hx^2` and `1 / hx^2`. -/
theorem cc_interior_row_is_laplacian (NDIM : Nat) {PS BC : Type}
    (computeCCMatrixCoefficients :
      Patch (CellData Int) → List Index → PS → List BC → ℚ → Index → Nat → ℚ)
    (poisson_spec : PS) (bc_coefs : List BC) (data_time : ℚ)
    (num_dofs_per_proc : List Int) (mpi_rank : Nat)
    (patch_level : List (Patch (CellData Int))) (mat : Mat)
    (h : constructPatchLevelCCLaplaceOp NDIM computeCCMatrixCoefficients poisson_spec bc_coefs
      data_time num_dofs_per_proc mpi_rank patch_level = .ok mat)
    (dx : List ℚ) (patch : Patch (CellData Int)) (hp : patch ∈ patch_level) (i : Index)
    (hi : i ∈ patch.box.indices) (d : Nat) (hd : d < bc_coefs.length)
    (hloc : isLocal (i_lower num_dofs_per_proc mpi_rank) (i_upper num_dofs_per_proc mpi_rank)
      (patch.dof_index_data.data i d) = true)
    (hcoef : ∀ k, k ≤ 2 * NDIM →
      computeCCMatrixCoefficients patch (stencil NDIM) poisson_spec bc_coefs data_time i
        (d * (2 * NDIM + 1) + k) = standardLaplaceCoef NDIM dx k)
    (hdist : (neighbourDofs NDIM (fun j => patch.dof_index_data.data j d) i).Nodup) :
    ∃ sv, sv ∈ mat.set_values ∧
      sv.row = patch.dof_index_data.data i d ∧
      sv.cols.length = 2 * NDIM + 1 ∧ sv.vals.length = 2 * NDIM + 1 ∧
      sv.cols = patch.dof_index_data.data i d
        :: neighbourDofs NDIM (fun j => patch.dof_index_data.data j d) i ∧
      sv.vals = (-((List.range NDIM).map (fun a => 2 / (dx.getD a 0) ^ 2)).sum)
        :: (List.range (2 * NDIM)).map (fun j => 1 / (dx.getD (j / 2) 0) ^ 2) ∧
      sv.cols.tail.Nodup ∧
      (patch.dof_index_data.data i d
          ∉ neighbourDofs NDIM (fun j => patch.dof_index_data.data j d) i → sv.cols.Nodup) ∧
      (∀ hx : ℚ, (∀ a, a < NDIM → dx.getD a 0 = hx) →
        sv.vals = (-(2 * (NDIM : ℚ) / hx ^ 2)) :: List.replicate (2 * NDIM) (1 / hx ^ 2)) := by
  have hset := ccLaplaceOp_set_values NDIM computeCCMatrixCoefficients poisson_spec bc_coefs
    data_time num_dofs_per_proc mpi_rank patch_level mat h
  have hvals : (ccInsertion NDIM
      (computeCCMatrixCoefficients patch (stencil NDIM) poisson_spec bc_coefs data_time)
      patch.dof_index_data i d).vals
      = (-((List.range NDIM).map (fun a => 2 / (dx.getD a 0) ^ 2)).sum)
        :: (List.range (2 * NDIM)).map (fun j => 1 / (dx.getD (j / 2) 0) ^ 2) := by
    simp only [ccInsertion]
    rw [range_stencil_sz_map]
    have e0 := hcoef 0 (Nat.zero_le _)
    simp only [stencil_sz, Nat.add_zero] at e0 ⊢
    rw [e0]
    have hc0 : standardLaplaceCoef NDIM dx 0
        = -((List.range NDIM).map (fun a => 2 / (dx.getD a 0) ^ 2)).sum := by
      simp [standardLaplaceCoef]
    rw [hc0]
    congr 1
    apply List.map_congr_left
    intro j hj
    have hj' : j < 2 * NDIM := List.mem_range.mp hj
    rw [hcoef (j + 1) (by omega)]
    simp [standardLaplaceCoef]
  refine ⟨ccInsertion NDIM
    (computeCCMatrixCoefficients patch (stencil NDIM) poisson_spec bc_coefs data_time)
    patch.dof_index_data i d, ?_, rfl, ?_, ?_, rfl, hvals, ?_, ?_, ?_⟩
  · rw [hset, List.mem_map]
    refine ⟨(patch, i, d), ?_, rfl⟩
    rw [List.mem_filter]
    exact ⟨mem_ccVisits _ _ patch hp i hi d hd, hloc⟩
  · simp [ccInsertion, neighbourDofs]
  · simp [ccInsertion, stencil_sz]
  · simpa [ccInsertion] using hdist
  · intro hnot
    simp only [ccInsertion, List.nodup_cons]
    exact ⟨hnot, hdist⟩
  · intro hx hdx
    rw [hvals]
    congr 1
    · have : (List.range NDIM).map (fun a => 2 / (dx.getD a 0) ^ 2)
          = List.replicate NDIM (2 / hx ^ 2) := by
        rw [List.eq_replicate_iff]
        refine ⟨by simp, ?_⟩
        intro b hb
        rw [List.mem_map] at hb
        obtain ⟨a, ha, rfl⟩ := hb
        rw [hdx a (List.mem_range.mp ha)]
      rw [this, List.sum_replicate]
      simp only [nsmul_eq_mul]
      ring
    · rw [List.eq_replicate_iff]
      refine ⟨by simp, ?_⟩
      intro b hb
      rw [List.mem_map] at hb
      obtain ⟨j, hj, rfl⟩ := hb
      have hj' : j < 2 * NDIM := List.mem_range.mp hj
      rw [hdx (j / 2) (by omega)]

/-- Witness for C7: on the 3 x 3 example patch with spacing `1/2` the row inserted for the
centre cell `(1, 1)` is the 5-point Laplacian: columns `4, 3, 5, 1, 7` with values
`-16, 4, 4, 4, 4`. -/
theorem cc_interior_row_is_laplacian_witness :
    ∃ mat,
      constructPatchLevelCCLaplaceOp 2 exampleStandardCoefs () [()] 0 [9] 0 [exampleCellPatch3]
        = .ok mat ∧
      ∃ sv, sv ∈ mat.set_values ∧ sv.row = 4 ∧ sv.cols = [4, 3, 5, 1, 7] ∧
        sv.vals = [-16, 4, 4, 4, 4] := by
  have h : constructPatchLevelCCLaplaceOp 2 exampleStandardCoefs () [()] 0 [9] 0
      [exampleCellPatch3]
      = .ok { m_local := 9, n_local := 9, d_nnz := [3, 4, 3, 4, 5, 4, 3, 4, 3],
              o_nnz := [0, 0, 0, 0, 0, 0, 0, 0, 0], block_size := some 1,
              new_nonzero_location_err := true, new_nonzero_allocation_err := true,
              set_values := [exampleCellPatch3].foldl
                (fun sets patch =>
                  ccFillPatch 2 [()].length (i_lower [9] 0) (i_upper [9] 0)
                    (exampleStandardCoefs patch (stencil 2) () [()] 0) patch sets)
                [] } := by rfl
  obtain ⟨sv, hmem, hrow, _, _, hcols, hvals, _⟩ :=
    cc_interior_row_is_laplacian 2 exampleStandardCoefs () [()] 0 [9] 0 [exampleCellPatch3] _ h
      [1 / 2, 1 / 2] exampleCellPatch3 (List.mem_singleton.mpr rfl) [1, 1] (by decide) 0
      (by decide) (by rfl) (by intro k _; simp [exampleStandardCoefs]) (by decide)
  refine ⟨_, h, sv, hmem, ?_, ?_, ?_⟩
  · rw [hrow]
    rfl
  · rw [hcols]
    rfl
  · rw [hvals]
    norm_num [List.range, List.range.loop]

/-! ### The counting passes, row by row -/

/-- After a sequence of visits, the counters of local row `k` are the initial ones updated,
in order, by the visits that belong to row `k` (add, then clamp, at every visit). -/
theorem countVisits_row (NDIM : Nat) (inc : Int) (i_lower i_upper n_local n_total : Int)
    (vs : List ((Index → Int) × Index)) (nnz : List Int × List Int) (k : Nat) :
    (vs.foldl (fun nnz v => countVisit NDIM inc i_lower i_upper n_local n_total v.1 v.2 nnz)
        nnz).1[k]?
      = (nnz.1[k]?).map (fun x0 =>
          (vs.filter (visitsRow i_lower i_upper k)).foldl
            (fun x v => dStep NDIM inc i_lower i_upper n_local v x) x0) ∧
    (vs.foldl (fun nnz v => countVisit NDIM inc i_lower i_upper n_local n_total v.1 v.2 nnz)
        nnz).2[k]?
      = (nnz.2[k]?).map (fun x0 =>
          (vs.filter (visitsRow i_lower i_upper k)).foldl
            (fun x v => oStep NDIM inc i_lower i_upper n_local n_total v x) x0) := by
  induction vs generalizing nnz with
  | nil =>
    simp only [List.foldl_nil, List.filter_nil]
    constructor
    · generalize nnz.1[k]? = o
      cases o <;> rfl
    · generalize nnz.2[k]? = o
      cases o <;> rfl
  | cons v vs ih =>
    rw [List.foldl_cons]
    obtain ⟨ih1, ih2⟩ := ih (countVisit NDIM inc i_lower i_upper n_local n_total v.1 v.2 nnz)
    rw [ih1, ih2, countVisit_eq]
    by_cases hloc : isLocal i_lower i_upper (v.1 v.2) = true
    · by_cases hk : (v.1 v.2 - i_lower).toNat = k
      · have hsel : visitsRow i_lower i_upper k v = true := by simp [visitsRow, hloc, hk]
        simp only [hloc, if_true, List.getElem?_modify, hk, List.filter_cons, hsel,
          List.foldl_cons]
        constructor
        · generalize nnz.1[k]? = o
          cases o <;> simp [dStep]
        · generalize nnz.2[k]? = o
          cases o <;> simp [oStep]
      · have hsel : visitsRow i_lower i_upper k v = false := by simp [visitsRow, hk]
        simp only [hloc, if_true, List.getElem?_modify, hk, if_false, List.filter_cons, hsel,
          Bool.false_eq_true]
        constructor
        · generalize nnz.1[k]? = o
          cases o <;> simp
        · generalize nnz.2[k]? = o
          cases o <;> simp
    · have hsel : visitsRow i_lower i_upper k v = false := by simp [visitsRow, hloc]
      simp only [hloc, if_false, List.filter_cons, hsel, Bool.false_eq_true]
      exact ⟨trivial, trivial⟩

/-- A counting pass of the cell-centred builders that completes has folded `countVisit`
over the (patch, cell, component) triples of the level in visiting order. -/
theorem ccCountPass_eq_fold (NDIM : Nat) (inc : Int) (depth : Nat)
    (i_lower i_upper n_local n_total : Int) (patch_level : List (Patch (CellData Int)))
    (init nnz : List Int × List Int)
    (h : patch_level.foldlM (ccCountPatch NDIM inc depth i_lower i_upper n_local n_total) init
      = .ok nnz) :
    nnz = ((ccVisits depth patch_level).map
        (fun v => ((fun j => v.1.dof_index_data.data j v.2.2), v.2.1))).foldl
      (fun nnz v => countVisit NDIM inc i_lower i_upper n_local n_total v.1 v.2 nnz) init := by
  induction patch_level generalizing init with
  | nil =>
    simp only [List.foldlM_nil, pure, Except.pure, Except.ok.injEq] at h
    simp [ccVisits, h]
  | cons patch rest ih =>
    rw [List.foldlM_cons] at h
    cases hp : ccCountPatch NDIM inc depth i_lower i_upper n_local n_total init patch with
    | error e => simp [hp, bind, Except.bind] at h
    | ok s1 =>
      simp only [hp, bind, Except.bind] at h
      rw [ih s1 h]
      unfold ccCountPatch at hp
      simp only at hp
      split at hp
      · cases hp
      · cases hp
        simp only [ccVisits, List.flatMap_cons, List.map_append, List.foldl_append]
        congr 1
        rw [List.foldl_map, foldl_flatMap_eq]
        simp only [List.foldl_map]

theorem visitsRow_iff (i_lower i_upper g : Int) (hg : isLocal i_lower i_upper g = true)
    (v : (Index → Int) × Index) :
    visitsRow i_lower i_upper (g - i_lower).toNat v = decide (v.1 v.2 = g) := by
  simp only [isLocal, decide_eq_true_eq] at hg
  by_cases hv : v.1 v.2 = g
  · simp [visitsRow, isLocal, hv, hg]
  · simp only [visitsRow, isLocal, hv, decide_False, Bool.and_eq_false_imp, decide_eq_true_eq,
      decide_eq_false_iff_not]
    intro h1 h2
    omega

theorem nnzInit_getElem? (n : Int) (k : Nat) (hk : (k : Int) < n) :
    (nnzInit n).1[k]? = some 0 ∧ (nnzInit n).2[k]? = some 0 := by
  have : k < n.toNat := by omega
  simp [nnzInit, List.getElem?_replicate, this]

theorem countP_add_countP_not {α : Type} (p : α → Bool) (l : List α) :
    l.countP p + l.countP (fun c => !p c) = l.length := by
  induction l with
  | nil => rfl
  | cons a l ih =>
    by_cases h : p a = true
    · have h' : ¬ ((fun c => !p c) a = true) := by simp [h]
      rw [List.countP_cons_of_pos p l h, List.countP_cons_of_neg (fun c => !p c) l h',
        List.length_cons]
      omega
    · have h' : (fun c => !p c) a = true := by simpa using h
      rw [List.countP_cons_of_neg p l h, List.countP_cons_of_pos (fun c => !p c) l h',
        List.length_cons]
      omega

theorem neighbourDofs_length (NDIM : Nat) (dof : Index → Int) (i : Index) :
    (neighbourDofs NDIM dof i).length = 2 * NDIM := by
  simp [neighbourDofs]

/-- C3: in `constructPatchLevelCCLaplaceOp` a visit of a locally owned (cell, component) adds
to the row's `d_nnz` exactly 1 plus the number of stencil neighbours with a local DOF index
and to `o_nnz` the number of the other neighbours (each counter is then clamped); these are
the numbers of local and non-local entries of the `2 * NDIM + 1` columns the fill pass
inserts for the row. Hence, for a local row held by exactly one (cell, component) of the
level and with neither clamp binding, `d_nnz` and `o_nnz` of the returned matrix equal the
numbers of local and non-local columns of the one insertion made for that row, and their sum
is the number of entries inserted. -/
theorem cc_predicted_counts_match (NDIM : Nat) {PS BC : Type}
    (computeCCMatrixCoefficients :
      Patch (CellData Int) → List Index → PS → List BC → ℚ → Index → Nat → ℚ)
    (poisson_spec : PS) (bc_coefs : List BC) (data_time : ℚ)
    (num_dofs_per_proc : List Int) (mpi_rank : Nat)
    (patch_level : List (Patch (CellData Int))) (mat : Mat)
    (h : constructPatchLevelCCLaplaceOp NDIM computeCCMatrixCoefficients poisson_spec bc_coefs
      data_time num_dofs_per_proc mpi_rank patch_level = .ok mat) :
    (∀ (dof : Index → Int) (i : Index) (nnz : List Int × List Int),
      isLocal (i_lower num_dofs_per_proc mpi_rank) (i_upper num_dofs_per_proc mpi_rank) (dof i)
        = true →
      countVisit NDIM 1 (i_lower num_dofs_per_proc mpi_rank) (i_upper num_dofs_per_proc mpi_rank)
          (n_local num_dofs_per_proc mpi_rank) (n_total num_dofs_per_proc) dof i nnz
        = (nnz.1.modify
            (fun x => min (n_local num_dofs_per_proc mpi_rank)
              (x + (1 + ((neighbourDofs NDIM dof i).countP
                (isLocal (i_lower num_dofs_per_proc mpi_rank)
                  (i_upper num_dofs_per_proc mpi_rank)) : Int))))
            (dof i - i_lower num_dofs_per_proc mpi_rank).toNat,
           nnz.2.modify
            (fun x => min (n_total num_dofs_per_proc - n_local num_dofs_per_proc mpi_rank)
              (x + ((neighbourDofs NDIM dof i).countP
                (fun c => !isLocal (i_lower num_dofs_per_proc mpi_rank)
                  (i_upper num_dofs_per_proc mpi_rank) c) : Int)))
            (dof i - i_lower num_dofs_per_proc mpi_rank).toNat)) ∧
    (∀ (matrix_coefs : Index → Nat → ℚ) (dof_index_data : CellData Int) (i : Index) (d : Nat),
      isLocal (i_lower num_dofs_per_proc mpi_rank) (i_upper num_dofs_per_proc mpi_rank)
        (dof_index_data.data i d) = true →
      (ccInsertion NDIM matrix_coefs dof_index_data i d).cols.countP
          (isLocal (i_lower num_dofs_per_proc mpi_rank) (i_upper num_dofs_per_proc mpi_rank))
        = 1 + (neighbourDofs NDIM (fun j => dof_index_data.data j d) i).countP
          (isLocal (i_lower num_dofs_per_proc mpi_rank) (i_upper num_dofs_per_proc mpi_rank)) ∧
      (ccInsertion NDIM matrix_coefs dof_index_data i d).cols.countP
          (fun c => !isLocal (i_lower num_dofs_per_proc mpi_rank)
            (i_upper num_dofs_per_proc mpi_rank) c)
        = (neighbourDofs NDIM (fun j => dof_index_data.data j d) i).countP
          (fun c => !isLocal (i_lower num_dofs_per_proc mpi_rank)
            (i_upper num_dofs_per_proc mpi_rank) c) ∧
      (ccInsertion NDIM matrix_coefs dof_index_data i d).cols.length = 2 * NDIM + 1) ∧
    (∀ (g : Int) (v : Patch (CellData Int) × Index × Nat),
      isLocal (i_lower num_dofs_per_proc mpi_rank) (i_upper num_dofs_per_proc mpi_rank) g = true →
      (ccVisits bc_coefs.length patch_level).filter
        (fun u => decide (u.1.dof_index_data.data u.2.1 u.2.2 = g)) = [v] →
      ((ccInsertion NDIM
          (computeCCMatrixCoefficients v.1 (stencil NDIM) poisson_spec bc_coefs data_time)
          v.1.dof_index_data v.2.1 v.2.2).cols.countP
            (isLocal (i_lower num_dofs_per_proc mpi_rank) (i_upper num_dofs_per_proc mpi_rank))
          : Int) ≤ n_local num_dofs_per_proc mpi_rank →
      ((ccInsertion NDIM
          (computeCCMatrixCoefficients v.1 (stencil NDIM) poisson_spec bc_coefs data_time)
          v.1.dof_index_data v.2.1 v.2.2).cols.countP
            (fun c => !isLocal (i_lower num_dofs_per_proc mpi_rank)
              (i_upper num_dofs_per_proc mpi_rank) c) : Int)
        ≤ n_total num_dofs_per_proc - n_local num_dofs_per_proc mpi_rank →
      mat.set_values.filter (fun sv => decide (sv.row = g))
        = [ccInsertion NDIM
            (computeCCMatrixCoefficients v.1 (stencil NDIM) poisson_spec bc_coefs data_time)
            v.1.dof_index_data v.2.1 v.2.2] ∧
      mat.d_nnz[(g - i_lower num_dofs_per_proc mpi_rank).toNat]?
        = some (((ccInsertion NDIM
            (computeCCMatrixCoefficients v.1 (stencil NDIM) poisson_spec bc_coefs data_time)
            v.1.dof_index_data v.2.1 v.2.2).cols.countP
              (isLocal (i_lower num_dofs_per_proc mpi_rank)
                (i_upper num_dofs_per_proc mpi_rank)) : Nat) : Int) ∧
      mat.o_nnz[(g - i_lower num_dofs_per_proc mpi_rank).toNat]?
        = some (((ccInsertion NDIM
            (computeCCMatrixCoefficients v.1 (stencil NDIM) poisson_spec bc_coefs data_time)
            v.1.dof_index_data v.2.1 v.2.2).cols.countP
              (fun c => !isLocal (i_lower num_dofs_per_proc mpi_rank)
                (i_upper num_dofs_per_proc mpi_rank) c) : Nat) : Int) ∧
      (ccInsertion NDIM
          (computeCCMatrixCoefficients v.1 (stencil NDIM) poisson_spec bc_coefs data_time)
          v.1.dof_index_data v.2.1 v.2.2).cols.countP
            (isLocal (i_lower num_dofs_per_proc mpi_rank) (i_upper num_dofs_per_proc mpi_rank))
        + (ccInsertion NDIM
          (computeCCMatrixCoefficients v.1 (stencil NDIM) poisson_spec bc_coefs data_time)
          v.1.dof_index_data v.2.1 v.2.2).cols.countP
            (fun c => !isLocal (i_lower num_dofs_per_proc mpi_rank)
              (i_upper num_dofs_per_proc mpi_rank) c)
        = 2 * NDIM + 1) := by
  have hcols : ∀ (matrix_coefs : Index → Nat → ℚ) (dof_index_data : CellData Int) (i : Index)
      (d : Nat),
      isLocal (i_lower num_dofs_per_proc mpi_rank) (i_upper num_dofs_per_proc mpi_rank)
        (dof_index_data.data i d) = true →
      (ccInsertion NDIM matrix_coefs dof_index_data i d).cols.countP
          (isLocal (i_lower num_dofs_per_proc mpi_rank) (i_upper num_dofs_per_proc mpi_rank))
        = 1 + (neighbourDofs NDIM (fun j => dof_index_data.data j d) i).countP
          (isLocal (i_lower num_dofs_per_proc mpi_rank) (i_upper num_dofs_per_proc mpi_rank)) ∧
      (ccInsertion NDIM matrix_coefs dof_index_data i d).cols.countP
          (fun c => !isLocal (i_lower num_dofs_per_proc mpi_rank)
            (i_upper num_dofs_per_proc mpi_rank) c)
        = (neighbourDofs NDIM (fun j => dof_index_data.data j d) i).countP
          (fun c => !isLocal (i_lower num_dofs_per_proc mpi_rank)
            (i_upper num_dofs_per_proc mpi_rank) c) ∧
      (ccInsertion NDIM matrix_coefs dof_index_data i d).cols.length = 2 * NDIM + 1 := by
    intro matrix_coefs dof_index_data i d hloc
    refine ⟨?_, ?_, ?_⟩
    · simp only [ccInsertion]
      rw [List.countP_cons_of_pos _ _ hloc]
      omega
    · simp only [ccInsertion]
      rw [List.countP_cons_of_neg _ _ (by simp [hloc])]
    · simp [ccInsertion, neighbourDofs]
  refine ⟨?_, hcols, ?_⟩
  · intro dof i nnz hloc
    rw [countVisit_eq]
    simp only [hloc, if_true, one_mul]
  · intro g v hg huniq hd ho
    have hset := ccLaplaceOp_set_values NDIM computeCCMatrixCoefficients poisson_spec bc_coefs
      data_time num_dofs_per_proc mpi_rank patch_level mat h
    have hvg : v.1.dof_index_data.data v.2.1 v.2.2 = g := by
      have hm : v ∈ (ccVisits bc_coefs.length patch_level).filter
          (fun u => decide (u.1.dof_index_data.data u.2.1 u.2.2 = g)) := by
        rw [huniq]
        exact List.mem_singleton.mpr rfl
      simpa using (List.mem_filter.mp hm).2
    have hvloc : isLocal (i_lower num_dofs_per_proc mpi_rank)
        (i_upper num_dofs_per_proc mpi_rank) (v.1.dof_index_data.data v.2.1 v.2.2) = true := by
      rw [hvg]
      exact hg
    obtain ⟨hc1, hc2, hc3⟩ := hcols
      (computeCCMatrixCoefficients v.1 (stencil NDIM) poisson_spec bc_coefs data_time)
      v.1.dof_index_data v.2.1 v.2.2 hvloc
    have hgk : ((g - i_lower num_dofs_per_proc mpi_rank).toNat : Int)
        < n_local num_dofs_per_proc mpi_rank := by
      simp only [isLocal, decide_eq_true_eq, i_upper] at hg
      omega
    unfold constructPatchLevelCCLaplaceOp at h
    simp only at h
    split at h
    · cases h
    · rename_i nnz hcount
      cases h
      simp only at hset ⊢
      unfold ccCountPass at hcount
      have hfold := ccCountPass_eq_fold NDIM 1 bc_coefs.length _ _ _ _ patch_level _ nnz hcount
      obtain ⟨hr1, hr2⟩ := countVisits_row NDIM 1 (i_lower num_dofs_per_proc mpi_rank)
        (i_upper num_dofs_per_proc mpi_rank) (n_local num_dofs_per_proc mpi_rank)
        (n_total num_dofs_per_proc)
        ((ccVisits bc_coefs.length patch_level).map
          (fun v => ((fun j => v.1.dof_index_data.data j v.2.2), v.2.1)))
        (nnzInit (n_local num_dofs_per_proc mpi_rank))
        (g - i_lower num_dofs_per_proc mpi_rank).toNat
      rw [← hfold] at hr1 hr2
      obtain ⟨hi1, hi2⟩ := nnzInit_getElem? (n_local num_dofs_per_proc mpi_rank) _ hgk
      have hfilt : ((ccVisits bc_coefs.length patch_level).map
          (fun v => ((fun j => v.1.dof_index_data.data j v.2.2), v.2.1))).filter
            (visitsRow (i_lower num_dofs_per_proc mpi_rank) (i_upper num_dofs_per_proc mpi_rank)
              (g - i_lower num_dofs_per_proc mpi_rank).toNat)
          = [((fun j => v.1.dof_index_data.data j v.2.2), v.2.1)] := by
        rw [List.filter_map]
        have : (visitsRow (i_lower num_dofs_per_proc mpi_rank)
            (i_upper num_dofs_per_proc mpi_rank)
            (g - i_lower num_dofs_per_proc mpi_rank).toNat ∘
              fun (v : Patch (CellData Int) × Index × Nat) =>
                ((fun j => v.1.dof_index_data.data j v.2.2), v.2.1))
            = fun u => decide (u.1.dof_index_data.data u.2.1 u.2.2 = g) := by
          funext u
          simp only [Function.comp_apply]
          rw [visitsRow_iff _ _ g hg]
        rw [this, huniq]
        rfl
      rw [hfilt, hi1] at hr1
      rw [hfilt, hi2] at hr2
      simp only [List.foldl_cons, List.foldl_nil, Option.map_some', dStep, oStep, zero_add,
        one_mul] at hr1 hr2
      refine ⟨?_, ?_, ?_, ?_⟩
      · rw [hset, List.filter_map]
        have : ((fun (sv : SetValues) => decide (sv.row = g)) ∘
            fun (v : Patch (CellData Int) × Index × Nat) =>
              ccInsertion NDIM
                (computeCCMatrixCoefficients v.1 (stencil NDIM) poisson_spec bc_coefs data_time)
                v.1.dof_index_data v.2.1 v.2.2)
            = fun u => decide (u.1.dof_index_data.data u.2.1 u.2.2 = g) := by
          funext u
          rfl
        rw [this, List.filter_filter]
        have h2 : (fun (a : Patch (CellData Int) × Index × Nat) =>
            (decide (a.1.dof_index_data.data a.2.1 a.2.2 = g) &&
              isLocal (i_lower num_dofs_per_proc mpi_rank) (i_upper num_dofs_per_proc mpi_rank)
                (a.1.dof_index_data.data a.2.1 a.2.2)))
            = fun u => decide (u.1.dof_index_data.data u.2.1 u.2.2 = g) := by
          funext u
          by_cases hu : u.1.dof_index_data.data u.2.1 u.2.2 = g
          · simp [hu, hg]
          · simp [hu]
        rw [h2, huniq]
        rfl
      · rw [hr1, hc1]
        rw [hc1] at hd
        congr 1
        push_cast at hd ⊢
        exact min_eq_right hd
      · rw [hr2, hc2]
        rw [hc2] at ho
        congr 1
        exact min_eq_right ho
      · rw [hc1, hc2]
        have := countP_add_countP_not
          (isLocal (i_lower num_dofs_per_proc mpi_rank) (i_upper num_dofs_per_proc mpi_rank))
          (neighbourDofs NDIM (fun j => v.1.dof_index_data.data j v.2.2) v.2.1)
        rw [neighbourDofs_length] at this
        omega

/-- Witness for C3: on the 2 x 2 example patch, partition `[4, 4]`, rank 0, row 0 is held by
the cell `(0, 0)` alone; its insertion has 3 local and 2 non-local columns, and the matrix
has `d_nnz[0] = 3`, `o_nnz[0] = 2`. -/
theorem cc_predicted_counts_match_witness :
    constructPatchLevelCCLaplaceOp 2 exampleCoefs () [()] 0 [4, 4] 0 [exampleCellPatch]
      = .ok exampleCellMat ∧
    exampleCellMat.set_values.filter (fun sv => decide (sv.row = 0))
      = [ccInsertion 2 (exampleCoefs exampleCellPatch (stencil 2) () [()] 0)
          exampleCellPatch.dof_index_data [0, 0] 0] ∧
    exampleCellMat.d_nnz[(0 - i_lower [4, 4] 0).toNat]?
      = some (((ccInsertion 2 (exampleCoefs exampleCellPatch (stencil 2) () [()] 0)
          exampleCellPatch.dof_index_data [0, 0] 0).cols.countP
            (isLocal (i_lower [4, 4] 0) (i_upper [4, 4] 0)) : Nat) : Int) ∧
    exampleCellMat.o_nnz[(0 - i_lower [4, 4] 0).toNat]?
      = some (((ccInsertion 2 (exampleCoefs exampleCellPatch (stencil 2) () [()] 0)
          exampleCellPatch.dof_index_data [0, 0] 0).cols.countP
            (fun c => !isLocal (i_lower [4, 4] 0) (i_upper [4, 4] 0) c) : Nat) : Int) ∧
    (ccInsertion 2 (exampleCoefs exampleCellPatch (stencil 2) () [()] 0)
        exampleCellPatch.dof_index_data [0, 0] 0).cols.countP
          (isLocal (i_lower [4, 4] 0) (i_upper [4, 4] 0))
      + (ccInsertion 2 (exampleCoefs exampleCellPatch (stencil 2) () [()] 0)
        exampleCellPatch.dof_index_data [0, 0] 0).cols.countP
          (fun c => !isLocal (i_lower [4, 4] 0) (i_upper [4, 4] 0) c)
      = 2 * 2 + 1 :=
  ⟨by rfl,
   (cc_predicted_counts_match 2 exampleCoefs () [()] 0 [4, 4] 0 [exampleCellPatch]
      exampleCellMat (by rfl)).2.2 0 (exampleCellPatch, [0, 0], 0) (by rfl) (by rfl)
      (by decide) (by decide)⟩

/-! ### The side-centred Laplace builder -/

/-- One visit of the fill pass of `constructPatchLevelSCLaplaceOp`: a locally owned side
appends exactly the insertion `scInsertion`, any other appends nothing; the buffers keep
their length. -/
theorem scFillVisit_eq (NDIM : Nat) (i_lower i_upper : Int)
    (matrix_coefs : Nat → Index → Nat → ℚ) (dof_index_data : SideData Int) (axis : Nat)
    (i : Index) (st : List ℚ × List Int × List SetValues)
    (hv : st.1.length = stencil_sz NDIM) (hc : st.2.1.length = stencil_sz NDIM) :
    (scFillVisit NDIM i_lower i_upper matrix_coefs dof_index_data axis i st).1.length
        = stencil_sz NDIM ∧
    (scFillVisit NDIM i_lower i_upper matrix_coefs dof_index_data axis i st).2.1.length
        = stencil_sz NDIM ∧
    (scFillVisit NDIM i_lower i_upper matrix_coefs dof_index_data axis i st).2.2
      = st.2.2 ++
        (if isLocal i_lower i_upper (dof_index_data.data axis i 0) = true then
          [scInsertion NDIM matrix_coefs dof_index_data axis i] else []) := by
  unfold scFillVisit
  by_cases hloc : i_lower ≤ dof_index_data.data axis i 0 ∧ dof_index_data.data axis i 0 < i_upper
  · have h1 : isLocal i_lower i_upper (dof_index_data.data axis i 0) = true := by
      simp [isLocal, hloc]
    simp only [hloc, and_self, if_true, h1]
    have hb := fill_buffers NDIM (fun k => matrix_coefs axis i k)
      (fun k => if k = 0 then dof_index_data.data axis i 0
        else dof_index_data.data axis (Index.add i ((stencil NDIM).getD k [])) 0)
      st.1 st.2.1 hv hc
    have hb' : stencilLoop NDIM
        (fun _axis _side stencil_index (bufs : List ℚ × List Int) =>
          (bufs.1.set stencil_index (matrix_coefs axis i stencil_index),
           bufs.2.set stencil_index
             (dof_index_data.data axis (Index.add i ((stencil NDIM).getD stencil_index [])) 0)))
        (st.1.set 0 (matrix_coefs axis i 0), st.2.1.set 0 (dof_index_data.data axis i 0))
        = ((List.range (stencil_sz NDIM)).map (fun k => matrix_coefs axis i k),
           dof_index_data.data axis i 0
             :: neighbourDofs NDIM (fun j => dof_index_data.data axis j 0) i) := by
      rw [stencilLoop_eq] at hb ⊢
      simp only [if_true, Nat.succ_ne_zero, if_false] at hb
      rw [hb, range_stencil_sz_map NDIM (fun k => if k = 0 then dof_index_data.data axis i 0
        else dof_index_data.data axis (Index.add i ((stencil NDIM).getD k [])) 0)]
      simp [neighbourDofs]
    rw [hb']
    simp [scInsertion, neighbourDofs, stencil_sz]
  · have h1 : isLocal i_lower i_upper (dof_index_data.data axis i 0) = false := by
      simp [isLocal, hloc]
    simp only [hloc, if_false, h1, Bool.false_eq_true, List.append_nil]
    exact ⟨hv, hc, trivial⟩

theorem scFillVisits_eq (NDIM : Nat) (i_lower i_upper : Int)
    (matrix_coefs : Nat → Index → Nat → ℚ) (dof_index_data : SideData Int)
    (vs : List (Nat × Index)) (st : List ℚ × List Int × List SetValues)
    (hv : st.1.length = stencil_sz NDIM) (hc : st.2.1.length = stencil_sz NDIM) :
    (vs.foldl (fun st v => scFillVisit NDIM i_lower i_upper matrix_coefs dof_index_data v.1 v.2 st)
        st).2.2
      = st.2.2 ++
        (vs.filter (fun v => isLocal i_lower i_upper (dof_index_data.data v.1 v.2 0))).map
          (fun v => scInsertion NDIM matrix_coefs dof_index_data v.1 v.2) := by
  induction vs generalizing st with
  | nil => simp
  | cons v vs ih =>
    obtain ⟨h1, h2, h3⟩ :=
      scFillVisit_eq NDIM i_lower i_upper matrix_coefs dof_index_data v.1 v.2 st hv hc
    rw [List.foldl_cons, ih _ h1 h2, h3]
    by_cases hl : isLocal i_lower i_upper (dof_index_data.data v.1 v.2 0) = true
    · simp [hl, List.filter_cons]
    · simp [hl, List.filter_cons]

/-- The fill pass of `constructPatchLevelSCLaplaceOp` on one patch appends, in visiting
order, one insertion per locally owned side of the patch's side boxes. -/
theorem scFillPatch_eq (NDIM : Nat) (i_lower i_upper : Int)
    (matrix_coefs : Nat → Index → Nat → ℚ) (patch : Patch (SideData Int))
    (set_values : List SetValues) :
    scFillPatch NDIM i_lower i_upper matrix_coefs patch set_values
      = set_values ++
        ((scVisits NDIM [patch]).filter
          (fun v => isLocal i_lower i_upper (v.1.dof_index_data.data v.2.1 v.2.2 0))).map
          (fun v => scInsertion NDIM matrix_coefs v.1.dof_index_data v.2.1 v.2.2) := by
  unfold scFillPatch
  simp only
  have hnest : ∀ st0 : List ℚ × List Int × List SetValues,
      (List.range NDIM).foldl
        (fun st axis =>
          ((patch.box.toSideBox axis).indices).foldl
            (fun st i =>
              scFillVisit NDIM i_lower i_upper matrix_coefs patch.dof_index_data axis i st) st)
        st0
      = (sideVisits NDIM patch.box).foldl
          (fun st v =>
            scFillVisit NDIM i_lower i_upper matrix_coefs patch.dof_index_data v.1 v.2 st)
          st0 := by
    intro st0
    unfold sideVisits
    rw [foldl_flatMap_eq]
    simp only [List.foldl_map]
  rw [hnest, scFillVisits_eq NDIM i_lower i_upper matrix_coefs patch.dof_index_data _ _
    (by simp) (by simp)]
  simp only [scVisits, List.flatMap_cons, List.flatMap_nil, List.append_nil]
  congr 1
  rw [List.filter_map, List.map_map]
  rfl

/-- The fill pass of `constructPatchLevelSCLaplaceOp` over the level appends, in visiting
order, one insertion per locally owned (patch, axis, side). -/
theorem scFillLevel_eq (NDIM : Nat) (i_lower i_upper : Int)
    (coefs : Patch (SideData Int) → Nat → Index → Nat → ℚ)
    (patch_level : List (Patch (SideData Int))) (set_values : List SetValues) :
    patch_level.foldl
        (fun sets patch => scFillPatch NDIM i_lower i_upper (coefs patch) patch sets)
        set_values
      = set_values ++
        ((scVisits NDIM patch_level).filter
          (fun v => isLocal i_lower i_upper (v.1.dof_index_data.data v.2.1 v.2.2 0))).map
          (fun v => scInsertion NDIM (coefs v.1) v.1.dof_index_data v.2.1 v.2.2) := by
  induction patch_level generalizing set_values with
  | nil => simp [scVisits]
  | cons patch rest ih =>
    rw [List.foldl_cons, ih, scFillPatch_eq]
    have hv : scVisits NDIM (patch :: rest) = scVisits NDIM [patch] ++ scVisits NDIM rest := by
      simp [scVisits]
    rw [hv, List.filter_append, List.map_append, List.append_assoc]
    congr 2
    apply List.map_congr_left
    intro v hv'
    have hp : v.1 = patch := by
      have := (List.mem_filter.mp hv').1
      simp only [scVisits, List.flatMap_cons, List.flatMap_nil, List.append_nil,
        List.mem_map] at this
      obtain ⟨u, _, hvu⟩ := this
      rw [← hvu]
    rw [hp]

/-- A counting pass of `constructPatchLevelSCLaplaceOp` that completes has folded
`countVisit` over the (patch, axis, side) triples of the level in visiting order. -/
theorem scCountPass_eq_fold (NDIM : Nat)
    (i_lower i_upper n_local n_total : Int) (patch_level : List (Patch (SideData Int)))
    (init nnz : List Int × List Int)
    (h : patch_level.foldlM (scCountPatch NDIM i_lower i_upper n_local n_total) init
      = .ok nnz) :
    nnz = ((scVisits NDIM patch_level).map
        (fun v => ((fun j => v.1.dof_index_data.data v.2.1 j 0), v.2.2))).foldl
      (fun nnz v => countVisit NDIM 1 i_lower i_upper n_local n_total v.1 v.2 nnz) init := by
  induction patch_level generalizing init with
  | nil =>
    simp only [List.foldlM_nil, pure, Except.pure, Except.ok.injEq] at h
    simp [scVisits, h]
  | cons patch rest ih =>
    rw [List.foldlM_cons] at h
    cases hp : scCountPatch NDIM i_lower i_upper n_local n_total init patch with
    | error e => simp [hp, bind, Except.bind] at h
    | ok s1 =>
      simp only [hp, bind, Except.bind] at h
      rw [ih s1 h]
      unfold scCountPatch at hp
      simp only at hp
      split at hp
      · cases hp
      · cases hp
        simp only [scVisits, List.flatMap_cons, List.map_append, List.foldl_append]
        congr 1
        unfold sideVisits
        rw [List.foldl_map, List.foldl_map, foldl_flatMap_eq]
        simp only [List.foldl_map]

theorem foldl_clamp_sum {α : Type} (b : Int) (c : α → Int) (hc : ∀ v, 0 ≤ c v) (vs : List α)
    (x0 : Int) (h : x0 + (vs.map c).sum ≤ b) :
    vs.foldl (fun x v => min b (x + c v)) x0 = x0 + (vs.map c).sum := by
  induction vs generalizing x0 with
  | nil => simp
  | cons v vs ih =>
    simp only [List.map_cons, List.sum_cons] at h
    have hrest : 0 ≤ (vs.map c).sum := by
      apply List.sum_nonneg
      intro x hx
      rw [List.mem_map] at hx
      obtain ⟨u, _, rfl⟩ := hx
      exact hc u
    have hmin : min b (x0 + c v) = x0 + c v := min_eq_right (by linarith)
    rw [List.foldl_cons, hmin, ih (x0 + c v) (by linarith)]
    simp only [List.map_cons, List.sum_cons]
    ring

theorem scInsertion_counts (NDIM : Nat) (i_lower i_upper : Int)
    (matrix_coefs : Nat → Index → Nat → ℚ) (dof_index_data : SideData Int) (axis : Nat)
    (i : Index) (hloc : isLocal i_lower i_upper (dof_index_data.data axis i 0) = true) :
    (scInsertion NDIM matrix_coefs dof_index_data axis i).cols.countP (isLocal i_lower i_upper)
      = 1 + (neighbourDofs NDIM (fun j => dof_index_data.data axis j 0) i).countP
          (isLocal i_lower i_upper) ∧
    (scInsertion NDIM matrix_coefs dof_index_data axis i).cols.countP
        (fun c => !isLocal i_lower i_upper c)
      = (neighbourDofs NDIM (fun j => dof_index_data.data axis j 0) i).countP
          (fun c => !isLocal i_lower i_upper c) ∧
    (scInsertion NDIM matrix_coefs dof_index_data axis i).cols.length = 2 * NDIM + 1 ∧
    (scInsertion NDIM matrix_coefs dof_index_data axis i).cols.countP (isLocal i_lower i_upper)
      + (scInsertion NDIM matrix_coefs dof_index_data axis i).cols.countP
        (fun c => !isLocal i_lower i_upper c) = 2 * NDIM + 1 := by
  have h3 : (scInsertion NDIM matrix_coefs dof_index_data axis i).cols.length = 2 * NDIM + 1 := by
    simp [scInsertion, neighbourDofs]
  refine ⟨?_, ?_, h3, ?_⟩
  · simp only [scInsertion]
    rw [List.countP_cons_of_pos _ _ hloc]
    omega
  · simp only [scInsertion]
    rw [List.countP_cons_of_neg _ _ (by simp [hloc])]
  · rw [countP_add_countP_not, h3]

theorem sum_map_add_const {α : Type} (f g : α → Int) (c : Int) (l : List α)
    (h : ∀ v ∈ l, f v + g v = c) :
    (l.map f).sum + (l.map g).sum = c * (l.length : Int) := by
  induction l with
  | nil => simp
  | cons a l ih =>
    have h1 := h a (List.mem_cons_self a l)
    have h2 := ih (fun v hv => h v (List.mem_cons_of_mem a hv))
    simp only [List.map_cons, List.sum_cons, List.length_cons, Nat.cast_add, Nat.cast_one]
    linarith [mul_add c (l.length : Int) 1]

/-- C4 (amended): in `constructPatchLevelSCLaplaceOp`, for every locally owned row `g`, the
insertions made for the row are one per visit of a side carrying the DOF index `g` by the
side loops of the local patches, each with `2 * NDIM + 1` columns; and when the clamps do not
bind, `d_nnz` and `o_nnz` of the row are the total numbers of local and non-local columns over
all these visits, so that `d_nnz + o_nnz` is `2 * NDIM + 1` times the number of visits: it is
`2 * NDIM + 1` for a side visited once and `2 * (2 * NDIM + 1)` for a side visited twice. -/
theorem sc_predicted_counts_per_visit (NDIM : Nat) {PS BC : Type}
    (computeSCMatrixCoefficients :
      Patch (SideData Int) → List Index → PS → List BC → ℚ → Nat → Index → Nat → ℚ)
    (poisson_spec : PS) (bc_coefs : List BC) (data_time : ℚ)
    (num_dofs_per_proc : List Int) (mpi_rank : Nat)
    (patch_level : List (Patch (SideData Int))) (mat : Mat)
    (h : constructPatchLevelSCLaplaceOp NDIM computeSCMatrixCoefficients poisson_spec bc_coefs
      data_time num_dofs_per_proc mpi_rank patch_level = .ok mat)
    (g : Int)
    (hg : isLocal (i_lower num_dofs_per_proc mpi_rank) (i_upper num_dofs_per_proc mpi_rank) g
      = true) :
    mat.set_values.filter (fun sv => decide (sv.row = g))
      = ((scVisits NDIM patch_level).filter
          (fun u => decide (u.1.dof_index_data.data u.2.1 u.2.2 0 = g))).map
          (fun v => scInsertion NDIM
            (computeSCMatrixCoefficients v.1 (stencil NDIM) poisson_spec bc_coefs data_time)
            v.1.dof_index_data v.2.1 v.2.2) ∧
    (∀ sv ∈ mat.set_values.filter (fun sv => decide (sv.row = g)),
      sv.cols.length = 2 * NDIM + 1) ∧
    ((((mat.set_values.filter (fun sv => decide (sv.row = g))).map
          (fun sv => (sv.cols.countP (isLocal (i_lower num_dofs_per_proc mpi_rank)
            (i_upper num_dofs_per_proc mpi_rank)) : Int))).sum
        ≤ n_local num_dofs_per_proc mpi_rank) →
     (((mat.set_values.filter (fun sv => decide (sv.row = g))).map
          (fun sv => (sv.cols.countP (fun c => !isLocal (i_lower num_dofs_per_proc mpi_rank)
            (i_upper num_dofs_per_proc mpi_rank) c) : Int))).sum
        ≤ n_total num_dofs_per_proc - n_local num_dofs_per_proc mpi_rank) →
     ∃ dg og : Int,
      mat.d_nnz[(g - i_lower num_dofs_per_proc mpi_rank).toNat]? = some dg ∧
      mat.o_nnz[(g - i_lower num_dofs_per_proc mpi_rank).toNat]? = some og ∧
      dg = ((mat.set_values.filter (fun sv => decide (sv.row = g))).map
          (fun sv => (sv.cols.countP (isLocal (i_lower num_dofs_per_proc mpi_rank)
            (i_upper num_dofs_per_proc mpi_rank)) : Int))).sum ∧
      og = ((mat.set_values.filter (fun sv => decide (sv.row = g))).map
          (fun sv => (sv.cols.countP (fun c => !isLocal (i_lower num_dofs_per_proc mpi_rank)
            (i_upper num_dofs_per_proc mpi_rank) c) : Int))).sum ∧
      dg + og = (2 * (NDIM : Int) + 1) *
        (((scVisits NDIM patch_level).filter
          (fun u => decide (u.1.dof_index_data.data u.2.1 u.2.2 0 = g))).length : Int)) := by
  unfold constructPatchLevelSCLaplaceOp at h
  simp only at h
  split at h
  · cases h
  · split at h
    · cases h
    · rename_i nnz hcount
      cases h
      simp only
      have hfiltset : (patch_level.foldl
          (fun sets patch =>
            scFillPatch NDIM (i_lower num_dofs_per_proc mpi_rank)
              (i_upper num_dofs_per_proc mpi_rank)
              (computeSCMatrixCoefficients patch (stencil NDIM) poisson_spec bc_coefs data_time)
              patch sets)
          []).filter (fun sv => decide (sv.row = g))
          = ((scVisits NDIM patch_level).filter
              (fun u => decide (u.1.dof_index_data.data u.2.1 u.2.2 0 = g))).map
              (fun v => scInsertion NDIM
                (computeSCMatrixCoefficients v.1 (stencil NDIM) poisson_spec bc_coefs data_time)
                v.1.dof_index_data v.2.1 v.2.2) := by
        rw [scFillLevel_eq NDIM _ _
          (fun patch => computeSCMatrixCoefficients patch (stencil NDIM) poisson_spec bc_coefs
            data_time)]
        rw [List.nil_append, List.filter_map]
        have : ((fun (sv : SetValues) => decide (sv.row = g)) ∘
            fun (v : Patch (SideData Int) × Nat × Index) =>
              scInsertion NDIM
                (computeSCMatrixCoefficients v.1 (stencil NDIM) poisson_spec bc_coefs data_time)
                v.1.dof_index_data v.2.1 v.2.2)
            = fun u => decide (u.1.dof_index_data.data u.2.1 u.2.2 0 = g) := by
          funext u
          rfl
        rw [this, List.filter_filter]
        have h2 : (fun (a : Patch (SideData Int) × Nat × Index) =>
            (decide (a.1.dof_index_data.data a.2.1 a.2.2 0 = g) &&
              isLocal (i_lower num_dofs_per_proc mpi_rank) (i_upper num_dofs_per_proc mpi_rank)
                (a.1.dof_index_data.data a.2.1 a.2.2 0)))
            = fun u => decide (u.1.dof_index_data.data u.2.1 u.2.2 0 = g) := by
          funext u
          by_cases hu : u.1.dof_index_data.data u.2.1 u.2.2 0 = g
          · simp [hu, hg]
          · simp [hu]
        rw [h2]
      have hmem : ∀ v ∈ (scVisits NDIM patch_level).filter
          (fun u => decide (u.1.dof_index_data.data u.2.1 u.2.2 0 = g)),
          isLocal (i_lower num_dofs_per_proc mpi_rank) (i_upper num_dofs_per_proc mpi_rank)
            (v.1.dof_index_data.data v.2.1 v.2.2 0) = true := by
        intro v hv
        have : v.1.dof_index_data.data v.2.1 v.2.2 0 = g := by
          simpa using (List.mem_filter.mp hv).2
        rw [this]
        exact hg
      refine ⟨hfiltset, ?_, ?_⟩
      · intro sv hsv
        rw [hfiltset, List.mem_map] at hsv
        obtain ⟨v, _, rfl⟩ := hsv
        simp [scInsertion, neighbourDofs]
      · rw [hfiltset, List.map_map, List.map_map]
        have hD : ((scVisits NDIM patch_level).filter
            (fun u => decide (u.1.dof_index_data.data u.2.1 u.2.2 0 = g))).map
            ((fun (sv : SetValues) => (sv.cols.countP
              (isLocal (i_lower num_dofs_per_proc mpi_rank)
                (i_upper num_dofs_per_proc mpi_rank)) : Int)) ∘
              fun v => scInsertion NDIM
                (computeSCMatrixCoefficients v.1 (stencil NDIM) poisson_spec bc_coefs data_time)
                v.1.dof_index_data v.2.1 v.2.2)
            = ((scVisits NDIM patch_level).filter
                (fun u => decide (u.1.dof_index_data.data u.2.1 u.2.2 0 = g))).map
              (fun v => 1 * (1 + ((neighbourDofs NDIM
                (fun j => v.1.dof_index_data.data v.2.1 j 0) v.2.2).countP
                  (isLocal (i_lower num_dofs_per_proc mpi_rank)
                    (i_upper num_dofs_per_proc mpi_rank)) : Int))) := by
          apply List.map_congr_left
          intro v hv
          simp only [Function.comp_apply]
          rw [(scInsertion_counts NDIM _ _ _ v.1.dof_index_data v.2.1 v.2.2 (hmem v hv)).1]
          push_cast
          ring
        have hO : ((scVisits NDIM patch_level).filter
            (fun u => decide (u.1.dof_index_data.data u.2.1 u.2.2 0 = g))).map
            ((fun (sv : SetValues) => (sv.cols.countP
              (fun c => !isLocal (i_lower num_dofs_per_proc mpi_rank)
                (i_upper num_dofs_per_proc mpi_rank) c) : Int)) ∘
              fun v => scInsertion NDIM
                (computeSCMatrixCoefficients v.1 (stencil NDIM) poisson_spec bc_coefs data_time)
                v.1.dof_index_data v.2.1 v.2.2)
            = ((scVisits NDIM patch_level).filter
                (fun u => decide (u.1.dof_index_data.data u.2.1 u.2.2 0 = g))).map
              (fun v => 1 * ((neighbourDofs NDIM
                (fun j => v.1.dof_index_data.data v.2.1 j 0) v.2.2).countP
                  (fun c => !isLocal (i_lower num_dofs_per_proc mpi_rank)
                    (i_upper num_dofs_per_proc mpi_rank) c) : Int)) := by
          apply List.map_congr_left
          intro v hv
          simp only [Function.comp_apply]
          rw [(scInsertion_counts NDIM _ _ _ v.1.dof_index_data v.2.1 v.2.2 (hmem v hv)).2.1]
          ring
        rw [hD, hO]
        intro hd ho
        have hgk : ((g - i_lower num_dofs_per_proc mpi_rank).toNat : Int)
            < n_local num_dofs_per_proc mpi_rank := by
          simp only [isLocal, decide_eq_true_eq, i_upper] at hg
          omega
        unfold scCountPass at hcount
        have hfold := scCountPass_eq_fold NDIM _ _ _ _ patch_level _ nnz hcount
        obtain ⟨hr1, hr2⟩ := countVisits_row NDIM 1 (i_lower num_dofs_per_proc mpi_rank)
          (i_upper num_dofs_per_proc mpi_rank) (n_local num_dofs_per_proc mpi_rank)
          (n_total num_dofs_per_proc)
          ((scVisits NDIM patch_level).map
            (fun v => ((fun j => v.1.dof_index_data.data v.2.1 j 0), v.2.2)))
          (nnzInit (n_local num_dofs_per_proc mpi_rank))
          (g - i_lower num_dofs_per_proc mpi_rank).toNat
        rw [← hfold] at hr1 hr2
        obtain ⟨hi1, hi2⟩ := nnzInit_getElem? (n_local num_dofs_per_proc mpi_rank) _ hgk
        have hfilt : ((scVisits NDIM patch_level).map
            (fun v => ((fun j => v.1.dof_index_data.data v.2.1 j 0), v.2.2))).filter
              (visitsRow (i_lower num_dofs_per_proc mpi_rank)
                (i_upper num_dofs_per_proc mpi_rank)
                (g - i_lower num_dofs_per_proc mpi_rank).toNat)
            = ((scVisits NDIM patch_level).filter
                (fun u => decide (u.1.dof_index_data.data u.2.1 u.2.2 0 = g))).map
              (fun v => ((fun j => v.1.dof_index_data.data v.2.1 j 0), v.2.2)) := by
          rw [List.filter_map]
          have : (visitsRow (i_lower num_dofs_per_proc mpi_rank)
              (i_upper num_dofs_per_proc mpi_rank)
              (g - i_lower num_dofs_per_proc mpi_rank).toNat ∘
                fun (v : Patch (SideData Int) × Nat × Index) =>
                  ((fun j => v.1.dof_index_data.data v.2.1 j 0), v.2.2))
              = fun u => decide (u.1.dof_index_data.data u.2.1 u.2.2 0 = g) := by
            funext u
            simp only [Function.comp_apply]
            rw [visitsRow_iff _ _ g hg]
          rw [this]
        rw [hfilt, hi1] at hr1
        rw [hfilt, hi2] at hr2
        simp only [Option.map_some'] at hr1 hr2
        rw [List.foldl_map] at hr1 hr2
        simp only [dStep, oStep] at hr1 hr2
        rw [foldl_clamp_sum _ _ (fun v => by positivity) _ _ (by simpa using hd)] at hr1
        rw [foldl_clamp_sum _ _ (fun v => by positivity) _ _ (by simpa using ho)] at hr2
        refine ⟨_, _, hr1, hr2, by simp, by simp, ?_⟩
        simp only [zero_add]
        apply sum_map_add_const
        intro v _
        have := countP_add_countP_not
          (isLocal (i_lower num_dofs_per_proc mpi_rank) (i_upper num_dofs_per_proc mpi_rank))
          (neighbourDofs NDIM (fun j => v.1.dof_index_data.data v.2.1 j 0) v.2.2)
        rw [neighbourDofs_length] at this
        have h' : ((List.countP (isLocal (i_lower num_dofs_per_proc mpi_rank)
            (i_upper num_dofs_per_proc mpi_rank))
            (neighbourDofs NDIM (fun j => v.1.dof_index_data.data v.2.1 j 0) v.2.2) : Nat) : Int)
            + ((List.countP (fun c => !isLocal (i_lower num_dofs_per_proc mpi_rank)
            (i_upper num_dofs_per_proc mpi_rank) c)
            (neighbourDofs NDIM (fun j => v.1.dof_index_data.data v.2.1 j 0) v.2.2) : Nat) : Int)
            = 2 * (NDIM : Int) := by
          exact_mod_cast this
        linarith

/-- Witness for the amended C4 on the two-patch example: row 1, the side shared by the two
patches, is visited twice and its clamps do not bind, so `d_nnz + o_nnz` is `5 * 2`. -/
theorem sc_predicted_counts_per_visit_witness :
    ∃ dg og : Int,
      exampleSideMat.d_nnz[(1 - i_lower [7, 7] 0).toNat]? = some dg ∧
      exampleSideMat.o_nnz[(1 - i_lower [7, 7] 0).toNat]? = some og ∧
      dg = ((exampleSideMat.set_values.filter (fun sv => decide (sv.row = 1))).map
          (fun sv => (sv.cols.countP (isLocal (i_lower [7, 7] 0) (i_upper [7, 7] 0)) : Int))).sum ∧
      og = ((exampleSideMat.set_values.filter (fun sv => decide (sv.row = 1))).map
          (fun sv => (sv.cols.countP
            (fun c => !isLocal (i_lower [7, 7] 0) (i_upper [7, 7] 0) c) : Int))).sum ∧
      dg + og = (2 * ((2 : Nat) : Int) + 1) *
        (((scVisits 2 [exampleSidePatchA, exampleSidePatchB]).filter
          (fun u => decide (u.1.dof_index_data.data u.2.1 u.2.2 0 = 1))).length : Int) :=
  (sc_predicted_counts_per_visit 2 exampleSideCoefs () [(), ()] 0 [7, 7] 0
    [exampleSidePatchA, exampleSidePatchB] exampleSideMat (by rfl) 1 (by rfl)).2.2
    (by decide) (by decide)

/-- Counterexample to C4 as stated: on the two-patch example the side `(1, 0)` normal to x is
in the side box of both patches and carries the DOF index 1 in both; the builder completes;
row 1 is local and its predicted counts are `d_nnz = 6` and `o_nnz = 4`, both below their
clamps 7 and 7, while every insertion into row 1 has the 5 columns `1, 0, 2, -1, -1`; and
`6 + 4` is not `2 * 2 + 1`. -/
theorem sc_shared_side_counted_twice :
    constructPatchLevelSCLaplaceOp 2 exampleSideCoefs () [(), ()] 0 [7, 7] 0
      [exampleSidePatchA, exampleSidePatchB] = .ok exampleSideMat ∧
    (0, [1, 0]) ∈ sideVisits 2 exampleSidePatchA.box ∧
    (0, [1, 0]) ∈ sideVisits 2 exampleSidePatchB.box ∧
    exampleSidePatchA.dof_index_data.data 0 [1, 0] 0 = 1 ∧
    exampleSidePatchB.dof_index_data.data 0 [1, 0] 0 = 1 ∧
    isLocal (i_lower [7, 7] 0) (i_upper [7, 7] 0) 1 = true ∧
    exampleSideMat.d_nnz[1]? = some 6 ∧
    exampleSideMat.o_nnz[1]? = some 4 ∧
    (6 : Int) < n_local [7, 7] 0 ∧
    (4 : Int) < n_total [7, 7] - n_local [7, 7] 0 ∧
    (∀ sv ∈ exampleSideMat.set_values, sv.row = 1 → sv.cols = [1, 0, 2, -1, -1]) ∧
    (6 : Int) + 4 ≠ 2 * 2 + 1 :=
  ⟨by rfl, by decide, by decide, by rfl, by rfl, by rfl, by rfl, by rfl, by decide, by decide,
   by decide, by decide⟩

/-! ### The depth check of the cell-centred builders -/

/-- The counting pass of the cell-centred builders fails exactly when some patch has an index
field whose depth is not the expected one, and then with the depth assertion. -/
theorem ccCountPatches_cases (NDIM : Nat) (inc : Int) (depth : Nat)
    (i_lower i_upper n_local n_total : Int) (patch_level : List (Patch (CellData Int)))
    (init : List Int × List Int) :
    ((∀ patch ∈ patch_level, patch.dof_index_data.depth = depth) ∧
      ∃ nnz, patch_level.foldlM (ccCountPatch NDIM inc depth i_lower i_upper n_local n_total)
        init = .ok nnz) ∨
    ((∃ patch ∈ patch_level, patch.dof_index_data.depth ≠ depth) ∧
      patch_level.foldlM (ccCountPatch NDIM inc depth i_lower i_upper n_local n_total) init
        = .error Failure.assert_cell_depth) := by
  induction patch_level generalizing init with
  | nil =>
    left
    exact ⟨by simp, init, rfl⟩
  | cons patch rest ih =>
    rw [List.foldlM_cons]
    by_cases hd : depth = patch.dof_index_data.depth
    · have hstep : ∃ s1, ccCountPatch NDIM inc depth i_lower i_upper n_local n_total init patch
          = .ok s1 := by
        unfold ccCountPatch
        simp only [ne_eq, hd, not_true_eq_false, if_false]
        exact ⟨_, rfl⟩
      obtain ⟨s1, hs1⟩ := hstep
      simp only [hs1, bind, Except.bind]
      rcases ih s1 with ⟨hall, hok⟩ | ⟨hex, herr⟩
      · left
        refine ⟨?_, hok⟩
        intro p hp
        rcases List.mem_cons.mp hp with rfl | hp'
        · exact hd.symm
        · exact hall p hp'
      · right
        obtain ⟨p, hp, hne⟩ := hex
        exact ⟨⟨p, List.mem_cons_of_mem _ hp, hne⟩, herr⟩
    · right
      refine ⟨⟨patch, List.mem_cons_self _ _, fun h => hd h.symm⟩, ?_⟩
      have hstep : ccCountPatch NDIM inc depth i_lower i_upper n_local n_total init patch
          = .error Failure.assert_cell_depth := by
        unfold ccCountPatch
        simp only [ne_eq, hd, not_false_eq_true, if_true]
      simp only [hstep, bind, Except.bind]

theorem ccCountPass_error_iff (NDIM : Nat) (inc : Int) (depth : Nat)
    (i_lower i_upper n_local n_total : Int) (patch_level : List (Patch (CellData Int)))
    (e : Failure) :
    ccCountPass NDIM inc depth i_lower i_upper n_local n_total patch_level = .error e ↔
      (e = Failure.assert_cell_depth ∧
        ∃ patch ∈ patch_level, patch.dof_index_data.depth ≠ depth) := by
  unfold ccCountPass
  rcases ccCountPatches_cases NDIM inc depth i_lower i_upper n_local n_total patch_level
      (nnzInit n_local) with ⟨hall, nnz, hok⟩ | ⟨hex, herr⟩
  · rw [hok]
    constructor
    · intro h
      cases h
    · rintro ⟨_, p, hp, hne⟩
      exact absurd (hall p hp) hne
  · rw [herr]
    constructor
    · intro h
      cases h
      exact ⟨rfl, hex⟩
    · rintro ⟨he, _⟩
      rw [he]

theorem ccComplexFillVisit_error (NDIM : Nat) (i_lower i_upper : Int)
    (matrix_coefs : Index → Nat → ℚ) (dof_index_data : CellData Int) (i : Index) (d : Nat)
    (st : (List ℚ × List Int) × (List ℚ × List Int) × List SetValues) (e : Failure)
    (h : ccComplexFillVisit NDIM i_lower i_upper matrix_coefs dof_index_data i d st = .error e) :
    e = Failure.assert_real_local ∨ e = Failure.assert_imag_local := by
  unfold ccComplexFillVisit at h
  simp only at h
  split at h
  · split at h
    · cases h
      left
      rfl
    · split at h
      · cases h
        right
        rfl
      · cases h
  · cases h

theorem foldlM_error_of {σ α : Type} (P : Failure → Prop) (f : σ → α → Except Failure σ)
    (hf : ∀ s a e, f s a = .error e → P e) (l : List α) (s : σ) (e : Failure)
    (h : l.foldlM f s = .error e) : P e := by
  induction l generalizing s with
  | nil => simp [List.foldlM_nil, pure, Except.pure] at h
  | cons a l ih =>
    rw [List.foldlM_cons] at h
    cases hfa : f s a with
    | error e' =>
      simp only [hfa, bind, Except.bind, Except.error.injEq] at h
      exact h ▸ hf s a e' hfa
    | ok s1 =>
      simp only [hfa, bind, Except.bind] at h
      exact ih s1 h

theorem ccComplexFillPatch_error (NDIM : Nat) (depth : Nat) (i_lower i_upper : Int)
    (matrix_coefs : Index → Nat → ℚ) (patch : Patch (CellData Int))
    (set_values : List SetValues) (e : Failure)
    (h : ccComplexFillPatch NDIM depth i_lower i_upper matrix_coefs patch set_values = .error e) :
    e = Failure.assert_real_local ∨ e = Failure.assert_imag_local := by
  unfold ccComplexFillPatch at h
  simp only at h
  cases hf : patch.box.indices.foldlM
      (fun st i =>
        (evenComponents depth).foldlM
          (fun st d =>
            ccComplexFillVisit NDIM i_lower i_upper matrix_coefs patch.dof_index_data i d st)
          st)
      ((List.replicate (2 * stencil_sz NDIM) (0 : ℚ), List.replicate (2 * stencil_sz NDIM) (0 : Int)),
       (List.replicate (2 * stencil_sz NDIM) (0 : ℚ), List.replicate (2 * stencil_sz NDIM) (0 : Int)),
        set_values) with
  | ok st =>
    rw [hf] at h
    cases h
  | error e' =>
    rw [hf] at h
    simp only [Except.map] at h
    cases h
    refine foldlM_error_of
      (fun e => e = Failure.assert_real_local ∨ e = Failure.assert_imag_local) _ ?_ _ _ _ hf
    intro s i e1 h1
    refine foldlM_error_of
      (fun e => e = Failure.assert_real_local ∨ e = Failure.assert_imag_local) _ ?_ _ _ _ h1
    intro s2 d e2 h2
    exact ccComplexFillVisit_error _ _ _ _ _ _ _ _ _ h2

/-- C14 (amended): `constructPatchLevelCCLaplaceOp` aborts if and only if the depth of the DOF
index field on some patch differs from `bc_coefs.size()`, and then with the depth assertion
of the counting pass. `constructPatchLevelCCComplexLaplaceOp` fails that depth assertion under
the same condition, returning the failure of its counting pass, before any matrix is
allocated or any entry inserted; when no depth differs, the only aborts left to it are the
two locality assertions of its fill pass. -/
theorem cc_depth_check (NDIM : Nat) {PS BC : Type} (bc_coefs : List BC) (data_time : ℚ)
    (num_dofs_per_proc : List Int) (mpi_rank : Nat)
    (patch_level : List (Patch (CellData Int))) :
    (∀ (computeCCMatrixCoefficients :
        Patch (CellData Int) → List Index → PS → List BC → ℚ → Index → Nat → ℚ)
      (poisson_spec : PS) (e : Failure),
      constructPatchLevelCCLaplaceOp NDIM computeCCMatrixCoefficients poisson_spec bc_coefs
          data_time num_dofs_per_proc mpi_rank patch_level = .error e ↔
        (e = Failure.assert_cell_depth ∧
          ∃ patch ∈ patch_level, patch.dof_index_data.depth ≠ bc_coefs.length)) ∧
    (∀ (computeCCComplexMatrixCoefficients :
        Patch (CellData Int) → List Index → PS → PS → List BC → ℚ → Index → Nat → ℚ)
      (poisson_spec_real poisson_spec_imag : PS),
      (constructPatchLevelCCComplexLaplaceOp NDIM computeCCComplexMatrixCoefficients
          poisson_spec_real poisson_spec_imag bc_coefs data_time num_dofs_per_proc mpi_rank
          patch_level = .error Failure.assert_cell_depth ↔
        ∃ patch ∈ patch_level, patch.dof_index_data.depth ≠ bc_coefs.length) ∧
      (constructPatchLevelCCComplexLaplaceOp NDIM computeCCComplexMatrixCoefficients
          poisson_spec_real poisson_spec_imag bc_coefs data_time num_dofs_per_proc mpi_rank
          patch_level = .error Failure.assert_cell_depth ↔
        ccCountPass NDIM 2 bc_coefs.length (i_lower num_dofs_per_proc mpi_rank)
          (i_upper num_dofs_per_proc mpi_rank) (n_local num_dofs_per_proc mpi_rank)
          (n_total num_dofs_per_proc) patch_level = .error Failure.assert_cell_depth) ∧
      (∀ e : Failure,
        constructPatchLevelCCComplexLaplaceOp NDIM computeCCComplexMatrixCoefficients
          poisson_spec_real poisson_spec_imag bc_coefs data_time num_dofs_per_proc mpi_rank
          patch_level = .error e →
        (∀ patch ∈ patch_level, patch.dof_index_data.depth = bc_coefs.length) →
        e = Failure.assert_real_local ∨ e = Failure.assert_imag_local)) := by
  constructor
  · intro compute poisson_spec e
    unfold constructPatchLevelCCLaplaceOp
    simp only
    split
    · rename_i e' he
      rw [← ccCountPass_error_iff NDIM 1 _ _ _ _ _ patch_level e]
      constructor
      · intro h
        cases h
        exact he
      · intro h
        rw [h] at he
        cases he
        rfl
    · rename_i nnz hok
      constructor
      · intro h
        cases h
      · intro h
        rw [← ccCountPass_error_iff NDIM 1 _ _ _ _ _ patch_level e] at h
        rw [h] at hok
        cases hok
  · intro compute ps_real ps_imag
    have hmain : ∀ e : Failure,
        constructPatchLevelCCComplexLaplaceOp NDIM compute ps_real ps_imag bc_coefs data_time
          num_dofs_per_proc mpi_rank patch_level = .error e →
        (ccCountPass NDIM 2 bc_coefs.length (i_lower num_dofs_per_proc mpi_rank)
          (i_upper num_dofs_per_proc mpi_rank) (n_local num_dofs_per_proc mpi_rank)
          (n_total num_dofs_per_proc) patch_level = .error e) ∨
        ((∀ patch ∈ patch_level, patch.dof_index_data.depth = bc_coefs.length) ∧
          (e = Failure.assert_real_local ∨ e = Failure.assert_imag_local)) := by
      intro e h
      unfold constructPatchLevelCCComplexLaplaceOp at h
      simp only at h
      split at h
      · rename_i e' he
        cases h
        left
        exact he
      · rename_i nnz hok
        right
        constructor
        · intro p hp
          by_contra hne
          have := (ccCountPass_error_iff NDIM 2 bc_coefs.length
            (i_lower num_dofs_per_proc mpi_rank) (i_upper num_dofs_per_proc mpi_rank)
            (n_local num_dofs_per_proc mpi_rank) (n_total num_dofs_per_proc) patch_level
            Failure.assert_cell_depth).mpr ⟨rfl, p, hp, hne⟩
          rw [this] at hok
          cases hok
        · split at h
          · rename_i e' he
            cases h
            refine foldlM_error_of
              (fun e => e = Failure.assert_real_local ∨ e = Failure.assert_imag_local) _ ?_
              _ _ _ he
            intro s p e1 h1
            exact ccComplexFillPatch_error _ _ _ _ _ _ _ _ h1
          · cases h
    have hcount : ccCountPass NDIM 2 bc_coefs.length (i_lower num_dofs_per_proc mpi_rank)
          (i_upper num_dofs_per_proc mpi_rank) (n_local num_dofs_per_proc mpi_rank)
          (n_total num_dofs_per_proc) patch_level = .error Failure.assert_cell_depth →
        constructPatchLevelCCComplexLaplaceOp NDIM compute ps_real ps_imag bc_coefs data_time
          num_dofs_per_proc mpi_rank patch_level = .error Failure.assert_cell_depth := by
      intro h
      unfold constructPatchLevelCCComplexLaplaceOp
      simp only [h]
    have hb : constructPatchLevelCCComplexLaplaceOp NDIM compute ps_real ps_imag bc_coefs
          data_time num_dofs_per_proc mpi_rank patch_level = .error Failure.assert_cell_depth ↔
        ccCountPass NDIM 2 bc_coefs.length (i_lower num_dofs_per_proc mpi_rank)
          (i_upper num_dofs_per_proc mpi_rank) (n_local num_dofs_per_proc mpi_rank)
          (n_total num_dofs_per_proc) patch_level = .error Failure.assert_cell_depth := by
      constructor
      · intro h
        rcases hmain _ h with hc | ⟨_, h1 | h1⟩
        · exact hc
        · cases h1
        · cases h1
      · exact hcount
    refine ⟨?_, hb, ?_⟩
    · rw [hb, ccCountPass_error_iff]
      simp
    · intro e h hall
      rcases hmain e h with hc | ⟨_, h1⟩
      · obtain ⟨_, p, hp, hne⟩ := (ccCountPass_error_iff _ _ _ _ _ _ _ _ _).mp hc
        exact absurd (hall p hp) hne
      · exact h1

/-- Counterexample to C14 as stated: on the split-pair example the depth of the index field
is 2 on the only patch, equal to the number of boundary-condition objects, and yet
`constructPatchLevelCCComplexLaplaceOp` aborts, on the fill-pass assertion that the imaginary
DOF index is local. -/
theorem cc_complex_aborts_without_depth_mismatch :
    (∀ patch ∈ [exampleSplitPatch], patch.dof_index_data.depth = [(), ()].length) ∧
    [exampleSplitPatch] ≠ [] ∧
    constructPatchLevelCCComplexLaplaceOp 2 exampleComplexCoefs () () [(), ()] 0 [1] 0
      [exampleSplitPatch] = .error Failure.assert_imag_local := by
  refine ⟨?_, by simp, by rfl⟩
  intro patch hp
  rw [List.mem_singleton.mp hp]
  rfl

/-- Witness for C14: with a single boundary-condition object the depth-2 example patch has a
mismatching depth, and the complex builder fails the depth assertion. -/
theorem cc_depth_check_witness :
    (∃ patch ∈ [exampleSplitPatch], patch.dof_index_data.depth ≠ [()].length) ∧
    constructPatchLevelCCComplexLaplaceOp 2 exampleComplexCoefs () () [()] 0 [1] 0
      [exampleSplitPatch] = .error Failure.assert_cell_depth :=
  ⟨⟨exampleSplitPatch, List.mem_singleton.mpr rfl, by decide⟩,
   ((cc_depth_check 2 [()] 0 [1] 0 [exampleSplitPatch]).2 exampleComplexCoefs () ()).1.mpr
     ⟨exampleSplitPatch, List.mem_singleton.mpr rfl, by decide⟩⟩

/-! ### The patch lookup of the interpolation builder -/

/-- What `interpCountPoint` does once the list of overlapping boxes is known. -/
theorem interpCountPoint_eq (NDIM : Nat)
    (getCellIndex : List ℚ → List ℚ → List ℚ → List ℚ → Index → Index → Index)
    (s : Int) (j_lower j_upper n_local n_total : Int)
    (X_arr : List ℚ) (patch_level : PatchLevel) (dx : List ℚ) (domain_box : Box)
    (st : InterpCount) (k : Nat) :
    interpCountPoint NDIM getCellIndex s j_lower j_upper n_local n_total X_arr patch_level dx
      domain_box st k =
    match (if (findOverlapBoxes NDIM patch_level.level_boxes
            { lower := getCellIndex (X_arr.drop (NDIM * k)) patch_level.x_lower
                patch_level.x_upper dx domain_box.lower domain_box.upper,
              upper := getCellIndex (X_arr.drop (NDIM * k)) patch_level.x_lower
                patch_level.x_upper dx domain_box.lower domain_box.upper }) = [] then
          findOverlapBoxes NDIM patch_level.level_boxes
            (Box.growOne
              { lower := getCellIndex (X_arr.drop (NDIM * k)) patch_level.x_lower
                  patch_level.x_upper dx domain_box.lower domain_box.upper,
                upper := getCellIndex (X_arr.drop (NDIM * k)) patch_level.x_lower
                  patch_level.x_upper dx domain_box.lower domain_box.upper })
        else findOverlapBoxes NDIM patch_level.level_boxes
            { lower := getCellIndex (X_arr.drop (NDIM * k)) patch_level.x_lower
                patch_level.x_upper dx domain_box.lower domain_box.upper,
              upper := getCellIndex (X_arr.drop (NDIM * k)) patch_level.x_lower
                patch_level.x_upper dx domain_box.lower domain_box.upper }) with
    | [] => .error Failure.assert_overlap_boxes
    | first :: _ =>
      match getPatch patch_level.patches first.1 with
      | .error e => .error e
      | .ok patch =>
        if patch.dof_index_data.depth ≠ 1 then .error Failure.assert_side_depth
        else
          (List.range NDIM).foldlM
            (interpCountAxis NDIM s j_lower j_upper n_local n_total (X_arr.drop (NDIM * k))
              (cellCentre NDIM
                (getCellIndex (X_arr.drop (NDIM * k)) patch_level.x_lower patch_level.x_upper dx
                  domain_box.lower domain_box.upper)
                domain_box.lower dx patch_level.x_lower)
              (getCellIndex (X_arr.drop (NDIM * k)) patch_level.x_lower patch_level.x_upper dx
                domain_box.lower domain_box.upper)
              patch.dof_index_data k)
            { st with patch_id := st.patch_id.set k first.1 } := by
  unfold interpCountPoint
  simp only [List.length_eq_zero]
  by_cases h0 : findOverlapBoxes NDIM patch_level.level_boxes
      { lower := getCellIndex (X_arr.drop (NDIM * k)) patch_level.x_lower
          patch_level.x_upper dx domain_box.lower domain_box.upper,
        upper := getCellIndex (X_arr.drop (NDIM * k)) patch_level.x_lower
          patch_level.x_upper dx domain_box.lower domain_box.upper } = []
  · simp only [h0, if_true, List.nil_append]
  · simp only [h0, if_false]

/-- The cell of the example sample `(13/10, 27/10)` is `(1, 2)`. -/
theorem exampleSampleCell :
    sampleCell 2 exampleGetCellIndex exampleX.array exampleLevel [1, 1]
      { lower := [0, 0], upper := [3, 3] } 0 = [1, 2] := by
  have h1 : Int.floor ((13 : ℚ) / 10) = 1 := by
    rw [Int.floor_eq_iff]; norm_num
  have h2 : Int.floor ((27 : ℚ) / 10) = 2 := by
    rw [Int.floor_eq_iff]; norm_num
  simp [sampleCell, exampleGetCellIndex, exampleX, exampleLevel, List.range, List.range.loop,
    Index.comp, h1, h2]

/-- The coordinate sum of a sum of two indices of equal length. -/
theorem index_add_sum (i s : Index) (h : i.length = s.length) :
    (Index.add i s).sum = i.sum + s.sum := by
  unfold Index.add
  induction i generalizing s with
  | nil =>
    cases s with
    | nil => simp
    | cons y ys => simp at h
  | cons x xs ih =>
    cases s with
    | nil => simp at h
    | cons y ys =>
      simp only [List.length_cons, add_left_inj] at h
      simp only [List.zipWith_cons_cons, List.sum_cons, ih ys h]
      ring

/-- The coordinate sum of a zero index with one component set. -/
theorem zero_set_sum (NDIM a : Nat) (v : Int) (ha : a < NDIM) :
    ((Index.getZeroIndex NDIM).set a v).sum = v := by
  unfold Index.getZeroIndex
  induction NDIM generalizing a with
  | zero => omega
  | succ n ih =>
    cases a with
    | zero => simp [List.replicate_succ]
    | succ a =>
      have ha2 : a < n := by omega
      simp [List.replicate_succ, List.set_cons_succ, ih a ha2]

/-- Each non-zero stencil offset has length `NDIM` and coordinate sum `-1` or `1`. -/
theorem stencil_offset_sum (NDIM k : Nat) (h1 : 1 ≤ k) (h2 : k ≤ 2 * NDIM) :
    ((stencil NDIM).getD k []).length = NDIM ∧
    (((stencil NDIM).getD k []).sum = -1 ∨ ((stencil NDIM).getD k []).sum = 1) := by
  have hk : k ≠ 0 := by omega
  rw [List.getD_eq_getElem?_getD, stencil_getElem?]
  simp only [hk, h2, if_true, if_false, Option.getD_some]
  have ha : (k - 1) / 2 < NDIM := by omega
  constructor
  · simp [Index.getZeroIndex]
  · rw [zero_set_sum NDIM _ _ ha]
    by_cases h : (k - 1) % 2 = 0
    · simp [h]
    · simp [h]

/-- The colour of a stencil neighbour differs from the colour of the cell. -/
theorem colour_neighbour (NDIM : Nat) (i : Index) (hi : i.length = NDIM) (k : Nat)
    (h1 : 1 ≤ k) (h2 : k ≤ 2 * NDIM) :
    colour (Index.add i ((stencil NDIM).getD k [])) ≠ colour i := by
  obtain ⟨hlen, hsum⟩ := stencil_offset_sum NDIM k h1 h2
  unfold colour
  rw [index_add_sum i _ (by rw [hi, hlen])]
  rcases hsum with hs | hs
  · rw [hs]
    omega
  · rw [hs]
    omega

/-- Every stencil neighbour of a cell has the other colour. -/
theorem colour_stencilNeighbours (NDIM : Nat) (i : Index) (hi : i.length = NDIM) (j : Index)
    (hj : j ∈ stencilNeighbours NDIM i) : colour j ≠ colour i := by
  unfold stencilNeighbours at hj
  rw [List.mem_map] at hj
  obtain ⟨m, hm, rfl⟩ := hj
  rw [List.mem_range] at hm
  exact colour_neighbour NDIM i hi (m + 1) (by omega) (by omega)

/-- A half-sweep over colour `c` equals the simultaneous update of the cells of colour `c`
from the values before the sweep. -/
theorem halfSweep_eq (NDIM : Nat) (relax : Index → List ℚ → ℚ) (c : Int) (cells : List Index)
    (hcells : ∀ i ∈ cells, i.length = NDIM) (u : Index → ℚ) :
    (∀ j, colour j ≠ c → halfSweep NDIM relax c cells u j = u j) ∧
    (∀ j, j ∉ cells → halfSweep NDIM relax c cells u j = u j) ∧
    (∀ i ∈ cells, colour i = c →
      halfSweep NDIM relax c cells u i = relax i ((stencilNeighbours NDIM i).map u)) := by
  unfold halfSweep
  induction cells using List.reverseRecOn with
  | nil =>
    refine ⟨fun _ _ => rfl, fun _ _ => rfl, ?_⟩
    intro i hi
    cases hi
  | append_singleton cells a ih =>
    have ih' := ih (fun i hi => hcells i (List.mem_append_left _ hi))
    obtain ⟨ih1, ih2, ih3⟩ := ih'
    have ha : a.length = NDIM := hcells a (by simp)
    rw [List.foldl_append]
    simp only [List.foldl_cons, List.foldl_nil]
    generalize cells.foldl
      (fun (u : Index → ℚ) i =>
        if colour i = c then Function.update u i (relax i ((stencilNeighbours NDIM i).map u))
        else u) u = v at ih1 ih2 ih3 ⊢
    by_cases hc : colour a = c
    · simp only [hc, if_true]
      have hmap : (stencilNeighbours NDIM a).map v = (stencilNeighbours NDIM a).map u := by
        apply List.map_congr_left
        intro j hj
        apply ih1
        rw [← hc]
        exact colour_stencilNeighbours NDIM a ha j hj
      rw [hmap]
      refine ⟨?_, ?_, ?_⟩
      · intro j hj
        have hne : j ≠ a := by
          intro h
          rw [h] at hj
          exact hj hc
        rw [Function.update_noteq hne]
        exact ih1 j hj
      · intro j hj
        have hne : j ≠ a := by
          intro h
          apply hj
          simp [h]
        rw [Function.update_noteq hne]
        apply ih2
        intro h
        exact hj (List.mem_append_left _ h)
      · intro i hi hci
        by_cases hia : i = a
        · rw [hia, Function.update_same]
        · rw [Function.update_noteq hia]
          rw [List.mem_append] at hi
          rcases hi with hi | hi
          · exact ih3 i hi hci
          · simp at hi
            exact absurd hi hia
    · simp only [hc, if_false]
      refine ⟨ih1, ?_, ?_⟩
      · intro j hj
        apply ih2
        intro h
        exact hj (List.mem_append_left _ h)
      · intro i hi hci
        rw [List.mem_append] at hi
        rcases hi with hi | hi
        · exact ih3 i hi hci
        · simp at hi
          rw [hi] at hci
          exact absurd hci hc

/-- C19: for every cell `i` with `NDIM` coordinates and every one of the `2 * NDIM` non-zero
offsets of the star stencil built by the builders, the parity of the coordinate sum of
`i + s` differs from that of `i`. Hence two cells of the same colour are never
stencil-adjacent, and a half-sweep over one colour, done in place cell after cell, gives
every cell of that colour the value computed from the neighbour values before the sweep and
leaves every other cell unchanged: no update of the half-sweep reads a value that the same
half-sweep writes. -/
theorem red_black_stencil_compatible (NDIM : Nat) :
    (∀ (i : Index) (k : Nat), i.length = NDIM → 1 ≤ k → k ≤ 2 * NDIM →
      (Index.add i ((stencil NDIM).getD k [])).sum % 2 ≠ i.sum % 2 ∧
      colour (Index.add i ((stencil NDIM).getD k [])) ≠ colour i) ∧
    (∀ i j : Index, i.length = NDIM → j.length = NDIM → colour i = colour j →
      j ∉ stencilNeighbours NDIM i ∧ i ∉ stencilNeighbours NDIM j) ∧
    (∀ (relax : Index → List ℚ → ℚ) (c : Int) (cells : List Index) (u : Index → ℚ),
      (∀ i ∈ cells, i.length = NDIM) →
      (∀ i ∈ cells, colour i = c →
        (∀ j ∈ stencilNeighbours NDIM i, halfSweep NDIM relax c cells u j = u j) ∧
        halfSweep NDIM relax c cells u i = relax i ((stencilNeighbours NDIM i).map u)) ∧
      (∀ j, (colour j ≠ c ∨ j ∉ cells) → halfSweep NDIM relax c cells u j = u j)) := by
  refine ⟨?_, ?_, ?_⟩
  · intro i k hi h1 h2
    have h := colour_neighbour NDIM i hi k h1 h2
    exact ⟨h, h⟩
  · intro i j hi hj hc
    constructor
    · intro h
      exact colour_stencilNeighbours NDIM i hi j h hc.symm
    · intro h
      exact colour_stencilNeighbours NDIM j hj i h hc
  · intro relax c cells u hcells
    obtain ⟨h1, h2, h3⟩ := halfSweep_eq NDIM relax c cells hcells u
    constructor
    · intro i hi hci
      refine ⟨?_, h3 i hi hci⟩
      intro j hj
      apply h1
      rw [← hci]
      exact colour_stencilNeighbours NDIM i (hcells i hi) j hj
    · intro j hj
      rcases hj with hj | hj
      · exact h1 j hj
      · exact h2 j hj

/-- Witness for C19 in two dimensions: the cell `(1, 2)` and its left neighbour `(0, 2)` have
different colours. -/
theorem red_black_stencil_compatible_witness :
    ([1, 2] : Index).length = 2 ∧
    colour (Index.add [1, 2] ((stencil 2).getD 1 [])) ≠ colour [1, 2] :=
  ⟨rfl, ((red_black_stencil_compatible 2).1 [1, 2] 1 rfl (by decide) (by decide)).2⟩

/-! ### The stencil boxes stored by the counting pass of the interpolation builder -/

/-- Folding `modify (f j) j` over `j = 0 .. m - 1` applies `f k` at every position `k < m`. -/
theorem foldl_modify_self_range {α : Type} (f : Nat → α → α) (m : Nat) (L : List α) (k : Nat) :
    ((List.range m).foldl (fun s j => s.modify (f j) j) L)[k]?
      = if k < m then (L[k]?).map (f k) else L[k]? := by
  induction m with
  | zero => simp
  | succ m ih =>
    rw [List.range_succ, List.foldl_append]
    simp only [List.foldl_cons, List.foldl_nil, List.getElem?_modify, ih]
    by_cases h1 : k < m
    · have h2 : m ≠ k := by omega
      have h3 : k < m + 1 := by omega
      simp [h1, h2, h3]
    · by_cases h2 : m = k
      · subst h2
        simp
      · have h3 : ¬ k < m + 1 := by omega
        simp [h1, h2, h3]

/-- Writing at `a` a value computed from the entry at `a` is a `modify`. -/
theorem set_getD_eq_modify {α : Type} (G : α → α) (d : α) (a : Nat) (l : List α) :
    l.set a (G (l.getD a d)) = l.modify G a := by
  apply List.ext_getElem?
  intro n
  rw [List.getElem?_set, List.getElem?_modify, List.getD_eq_getElem?_getD]
  by_cases h : a = n
  · subst h
    by_cases h2 : a < l.length
    · simp [h2, List.getElem?_eq_getElem h2]
    · have : l[a]? = none := List.getElem?_eq_none (by omega)
      simp [h2, this]
  · simp [h]

/-- A `modify` at `k` whose function also reads the entry at `k`. -/
theorem modify_getD_self {α : Type} (F : α → α → α) (d : α) (k : Nat) (l : List α) :
    l.modify (fun x => F (l.getD k d) x) k = l.modify (fun x => F x x) k := by
  apply List.ext_getElem?
  intro n
  rw [List.getElem?_modify, List.getElem?_modify, List.getD_eq_getElem?_getD]
  by_cases h : k = n
  · subst h
    cases hl : l[k]? with
    | none => rfl
    | some a => simp
  · simp [h]

/-- A fold of `modify`s at one position is one `modify` by the folded function. -/
theorem foldl_modify_same {α β : Type} (F : β → α → α) (k : Nat) (l : List β) (sb : List α) :
    l.foldl (fun sb a => sb.modify (F a) k) sb
      = sb.modify (fun bs => l.foldl (fun bs a => F a bs) bs) k := by
  induction l generalizing sb with
  | nil =>
    simp only [List.foldl_nil]
    exact (modify_id_congr _ (fun _ => rfl) k sb).symm
  | cons a l ih =>
    simp only [List.foldl_cons]
    rw [ih, modify_modify_same]

/-- A successful monadic fold whose steps act on a projection of the state by a pure
function acts on the projection by the pure fold. -/
theorem foldlM_proj {σ α β : Type} (proj : σ → β) (g : β → α → β)
    (f : σ → α → Except Failure σ)
    (hf : ∀ s a s', f s a = .ok s' → proj s' = g (proj s) a) (l : List α) (s s' : σ)
    (h : l.foldlM f s = .ok s') : proj s' = l.foldl g (proj s) := by
  induction l generalizing s with
  | nil =>
    simp only [List.foldlM_nil, pure, Except.pure] at h
    cases h
    rfl
  | cons a l ih =>
    rw [List.foldlM_cons] at h
    cases hs1 : f s a with
    | error e =>
      simp only [hs1, bind, Except.bind] at h
      cases h
    | ok s1 =>
      simp only [hs1, bind, Except.bind] at h
      rw [List.foldl_cons, ← hf s a s1 hs1]
      exact ih s1 h

/-- The per-axis body of the counting pass rewrites the box of component `axis` of sample
`k` by the three-branch loop. -/
theorem interpCountAxis_stencil_box (NDIM : Nat) (s : Int)
    (j_lower j_upper n_local n_total : Int) (X X_cell : List ℚ) (X_idx : Index)
    (dof_index_data : SideData Int) (k : Nat) (st st' : InterpCount) (axis : Nat)
    (h : interpCountAxis NDIM s j_lower j_upper n_local n_total X X_cell X_idx dof_index_data k
      st axis = .ok st') :
    st'.stencil_box = st.stencil_box.modify
      (fun bs => bs.modify (stencilBoxAxis NDIM s X X_cell X_idx axis) axis) k := by
  unfold interpCountAxis at h
  split at h
  · cases h
  · simp only at h
    split at h
    · cases h
    · cases h
      simp only
      rw [modify_getD_self
        (fun row bs => bs.set axis
          (stencilBoxAxis NDIM s X X_cell X_idx axis (row.getD axis (Box.emptyBox NDIM))))
        [] k st.stencil_box]
      apply modify_congr
      intro bs
      exact set_getD_eq_modify _ _ _ _

/-- A successful visit of sample `k` by the counting pass rewrites the boxes of sample `k`,
component by component, and no other. -/
theorem interpCountPoint_stencil_box (NDIM : Nat)
    (getCellIndex : List ℚ → List ℚ → List ℚ → List ℚ → Index → Index → Index)
    (s : Int) (j_lower j_upper n_local n_total : Int)
    (X_arr : List ℚ) (patch_level : PatchLevel) (dx : List ℚ) (domain_box : Box)
    (st st' : InterpCount) (k : Nat)
    (h : interpCountPoint NDIM getCellIndex s j_lower j_upper n_local n_total X_arr patch_level
      dx domain_box st k = .ok st') :
    st'.stencil_box = st.stencil_box.modify
      (fun bs => (List.range NDIM).foldl
        (fun bs axis => bs.modify
          (stencilBoxAxis NDIM s (X_arr.drop (NDIM * k))
            (cellCentre NDIM (sampleCell NDIM getCellIndex X_arr patch_level dx domain_box k)
              domain_box.lower dx patch_level.x_lower)
            (sampleCell NDIM getCellIndex X_arr patch_level dx domain_box k) axis) axis)
        bs) k := by
  rw [interpCountPoint_eq] at h
  unfold sampleCell
  generalize getCellIndex (X_arr.drop (NDIM * k)) patch_level.x_lower patch_level.x_upper dx
    domain_box.lower domain_box.upper = c at h ⊢
  split at h
  · cases h
  · rename_i first rest hov
    split at h
    · cases h
    · rename_i patch hp
      split at h
      · cases h
      · have := foldlM_proj (fun t : InterpCount => t.stencil_box)
          (fun sb axis => sb.modify
            (fun bs => bs.modify
              (stencilBoxAxis NDIM s (X_arr.drop (NDIM * k))
                (cellCentre NDIM c domain_box.lower dx patch_level.x_lower) c axis) axis) k)
          _ (fun t a t' hta => interpCountAxis_stencil_box _ _ _ _ _ _ _ _ _ _ _ _ _ _ hta)
          _ _ _ h
        simp only at this
        rw [this]
        exact foldl_modify_same
          (fun axis (bs : List Box) => bs.modify
            (stencilBoxAxis NDIM s (X_arr.drop (NDIM * k))
              (cellCentre NDIM c domain_box.lower dx patch_level.x_lower) c axis) axis)
          k (List.range NDIM) st.stencil_box

/-- After a successful counting pass started from empty boxes, the box stored for sample `k`
and component `axis` is the one the three-branch loop builds from the empty box. -/
theorem interpCountPass_stencil_box (NDIM : Nat)
    (getCellIndex : List ℚ → List ℚ → List ℚ → List ℚ → Index → Index → Index)
    (s : Int) (j_lower j_upper n_local n_total : Int)
    (X_arr : List ℚ) (patch_level : PatchLevel) (dx : List ℚ) (domain_box : Box)
    (n_local_points : Int) (init count : InterpCount)
    (hinit : init.stencil_box
      = List.replicate n_local_points.toNat (List.replicate NDIM (Box.emptyBox NDIM)))
    (h : interpCountPass NDIM getCellIndex s j_lower j_upper n_local n_total X_arr patch_level
      dx domain_box n_local_points init = .ok count)
    (k : Nat) (hk : k < n_local_points.toNat) (axis : Nat) (haxis : axis < NDIM) :
    (count.stencil_box.getD k []).getD axis (Box.emptyBox NDIM)
      = stencilBoxAxis NDIM s (X_arr.drop (NDIM * k))
          (cellCentre NDIM (sampleCell NDIM getCellIndex X_arr patch_level dx domain_box k)
            domain_box.lower dx patch_level.x_lower)
          (sampleCell NDIM getCellIndex X_arr patch_level dx domain_box k) axis
          (Box.emptyBox NDIM) := by
  unfold interpCountPass at h
  have hp := foldlM_proj (fun t : InterpCount => t.stencil_box)
    (fun sb k => sb.modify
      (fun bs => (List.range NDIM).foldl
        (fun bs axis => bs.modify
          (stencilBoxAxis NDIM s (X_arr.drop (NDIM * k))
            (cellCentre NDIM (sampleCell NDIM getCellIndex X_arr patch_level dx domain_box k)
              domain_box.lower dx patch_level.x_lower)
            (sampleCell NDIM getCellIndex X_arr patch_level dx domain_box k) axis) axis)
        bs) k)
    _ (fun t a t' hta => interpCountPoint_stencil_box _ _ _ _ _ _ _ _ _ _ _ _ _ _ hta)
    _ _ _ h
  simp only at hp
  rw [hp, hinit]
  simp only [List.getD_eq_getElem?_getD]
  rw [foldl_modify_self_range
    (fun k (bs : List Box) => (List.range NDIM).foldl
      (fun bs axis => bs.modify
        (stencilBoxAxis NDIM s (X_arr.drop (NDIM * k))
          (cellCentre NDIM (sampleCell NDIM getCellIndex X_arr patch_level dx domain_box k)
            domain_box.lower dx patch_level.x_lower)
          (sampleCell NDIM getCellIndex X_arr patch_level dx domain_box k) axis) axis)
      bs)]
  simp only [hk, if_true, List.getElem?_replicate, Option.map_some', Option.getD_some]
  rw [foldl_modify_self_range
    (fun axis => stencilBoxAxis NDIM s (X_arr.drop (NDIM * k))
      (cellCentre NDIM (sampleCell NDIM getCellIndex X_arr patch_level dx domain_box k)
        domain_box.lower dx patch_level.x_lower)
      (sampleCell NDIM getCellIndex X_arr patch_level dx domain_box k) axis)]
  simp only [haxis, if_true, List.getElem?_replicate, Option.map_some', Option.getD_some]

/-! ### The counting pass of the interpolation builder on the example -/

/-- The box of component 0 of the example sample. -/
theorem exampleStencilBox0 :
    stencilBoxAxis 2 2 [13 / 10, 27 / 10] (cellCentre 2 [1, 2] [0, 0] [1, 1] [0, 0]) [1, 2] 0
      (Box.emptyBox 2) = { lower := [1, 2], upper := [2, 3] } := by
  have h : (2 : Int).tdiv 2 = 1 := rfl
  norm_num [stencilBoxAxis, cellCentre, Index.comp, List.range, List.range.loop, Box.emptyBox, h]
  constructor <;> rfl

/-- The box of component 1 of the example sample. -/
theorem exampleStencilBox1 :
    stencilBoxAxis 2 2 [13 / 10, 27 / 10] (cellCentre 2 [1, 2] [0, 0] [1, 1] [0, 0]) [1, 2] 1
      (Box.emptyBox 2) = { lower := [0, 2], upper := [1, 3] } := by
  have h : (2 : Int).tdiv 2 = 1 := rfl
  norm_num [stencilBoxAxis, cellCentre, Index.comp, List.range, List.range.loop, Box.emptyBox, h]
  constructor <;> rfl

/-- The counting pass on the example, component 0. -/
theorem exampleCountAxis0 :
    interpCountAxis 2 2 0 50 50 50 [13 / 10, 27 / 10] (cellCentre 2 [1, 2] [0, 0] [1, 1] [0, 0])
      [1, 2] examplePatch.dof_index_data 0
      { patch_id := [7], stencil_box := [[Box.emptyBox 2, Box.emptyBox 2]],
        d_nnz := [0, 0], o_nnz := [0, 0] } 0
    = .ok { patch_id := [7],
            stencil_box := [[{ lower := [1, 2], upper := [2, 3] }, Box.emptyBox 2]],
            d_nnz := [4, 0], o_nnz := [0, 0] } := by
  unfold interpCountAxis
  have h2 : (2 : Int).tmod 2 = 0 := rfl
  simp only [h2, ne_eq, not_true_eq_false, if_false, List.getD_cons_zero, exampleStencilBox0]
  rfl

/-- The counting pass on the example, component 1. -/
theorem exampleCountAxis1 :
    interpCountAxis 2 2 0 50 50 50 [13 / 10, 27 / 10] (cellCentre 2 [1, 2] [0, 0] [1, 1] [0, 0])
      [1, 2] examplePatch.dof_index_data 0
      { patch_id := [7],
        stencil_box := [[{ lower := [1, 2], upper := [2, 3] }, Box.emptyBox 2]],
        d_nnz := [4, 0], o_nnz := [0, 0] } 1
    = .ok exampleInterpCount := by
  unfold interpCountAxis
  have h2 : (2 : Int).tmod 2 = 0 := rfl
  simp only [h2, ne_eq, not_true_eq_false, if_false, List.getD_cons_zero, List.getD_cons_succ,
    exampleStencilBox1]
  rfl

/-- The counting pass on the example succeeds. -/
theorem exampleCountPass :
    interpCountPass 2 exampleGetCellIndex 2 0 50 50 50 exampleX.array exampleLevel [1, 1]
      { lower := [0, 0], upper := [3, 3] } 1 exampleInterpInit = .ok exampleInterpCount := by
  unfold interpCountPass
  have hr : List.range (1 : Int).toNat = [0] := rfl
  rw [hr, List.foldlM_cons, interpCountPoint_eq]
  have hc := exampleSampleCell
  unfold sampleCell at hc
  rw [hc]
  have hov : findOverlapBoxes 2 exampleLevel.level_boxes { lower := [1, 2], upper := [1, 2] }
      = [(7, { lower := [0, 0], upper := [3, 3] })] := rfl
  have hp : getPatch exampleLevel.patches 7 = .ok examplePatch := rfl
  simp only [hov, reduceCtorEq, if_false, hp]
  have hd : examplePatch.dof_index_data.depth = 1 := rfl
  simp only [hd, ne_eq, not_true_eq_false, if_false]
  have hr2 : List.range 2 = [0, 1] := rfl
  have hx : List.drop (2 * 0) exampleX.array = [13 / 10, 27 / 10] := rfl
  have hl : exampleLevel.x_lower = [0, 0] := rfl
  rw [hr2, hx, hl]
  simp only [exampleInterpInit, List.set_cons_zero, List.foldlM_cons, List.foldlM_nil,
    exampleCountAxis0, exampleCountAxis1, bind, Except.bind, pure, Except.pure]

/-! ### Centring of the interpolation stencil -/

/-- The weights loop hands `interp_fcn` the argument `interpArg` in every direction. -/
theorem interpWeights_eq (NDIM : Nat) (interp_fcn : ℚ → List ℚ → List ℚ) (X : List ℚ)
    (dx x_lower : List ℚ) (domain_lower : Index) (axis : Nat) (stencil_box_lower : Index)
    (w : List (List ℚ)) :
    interpWeights NDIM interp_fcn X dx x_lower domain_lower axis stencil_box_lower w
      = (List.range NDIM).foldl
          (fun w d => w.modify
            (interp_fcn (interpArg X dx x_lower domain_lower axis stencil_box_lower d)) d)
          w := rfl

/-- The component `d < NDIM` of the cell centre. -/
theorem cellCentre_getD (NDIM : Nat) (X_idx domain_lower : Index) (dx x_lower : List ℚ)
    (d : Nat) (hd : d < NDIM) :
    (cellCentre NDIM X_idx domain_lower dx x_lower).getD d 0
      = (((Index.comp X_idx d - Index.comp domain_lower d : Int) : ℚ) + 1 / 2) * dx.getD d 0
        + x_lower.getD d 0 := by
  unfold cellCentre
  rw [List.getD_eq_getElem?_getD, List.getElem?_map, List.getElem?_range hd]
  rfl

/-- For an even width the truncating half is the exact half. -/
theorem tdiv_two_of_even (s : Int) (hs : s.tmod 2 = 0) : ((s.tdiv 2 : Int) : ℚ) = (s : ℚ) / 2 := by
  have h := Int.tmod_add_tdiv s 2
  rw [hs] at h
  have h2 : (s : ℚ) = 2 * ((s.tdiv 2 : Int) : ℚ) := by
    have : s = 2 * s.tdiv 2 := by omega
    exact_mod_cast this
  rw [h2]
  ring

/-- The kernel argument for the box the three-branch loop builds: for a sample in its cell
it lies between `s / 2 - 1` and `s / 2`. -/
theorem interpArg_bounds (NDIM : Nat) (s : Int) (hs : s.tmod 2 = 0) (X : List ℚ)
    (X_idx domain_lower : Index) (dx x_lower : List ℚ) (axis d : Nat) (hd : d < NDIM)
    (hdx : 0 < dx.getD d 0)
    (hlo : x_lower.getD d 0
        + ((Index.comp X_idx d - Index.comp domain_lower d : Int) : ℚ) * dx.getD d 0
      ≤ X.getD d 0)
    (hhi : X.getD d 0
      ≤ x_lower.getD d 0
        + (((Index.comp X_idx d - Index.comp domain_lower d : Int) : ℚ) + 1) * dx.getD d 0) :
    (s : ℚ) / 2 - 1
      ≤ interpArg X dx x_lower domain_lower axis
          (stencilBoxAxis NDIM s X (cellCentre NDIM X_idx domain_lower dx x_lower) X_idx axis
            (Box.emptyBox NDIM)).lower d ∧
    interpArg X dx x_lower domain_lower axis
        (stencilBoxAxis NDIM s X (cellCentre NDIM X_idx domain_lower dx x_lower) X_idx axis
          (Box.emptyBox NDIM)).lower d
      ≤ (s : ℚ) / 2 := by
  have hcomp := (stencilBoxAxis_comp NDIM s X (cellCentre NDIM X_idx domain_lower dx x_lower)
    X_idx axis (Box.emptyBox NDIM) (by simp [Box.emptyBox]) (by simp [Box.emptyBox]) d hd).1
  unfold interpArg
  simp only
  rw [hcomp]
  unfold stencilLower
  rw [cellCentre_getD NDIM X_idx domain_lower dx x_lower d hd, ← tdiv_two_of_even s hs]
  generalize s.tdiv 2 = h
  generalize Index.comp X_idx d = c at hlo hhi ⊢
  generalize Index.comp domain_lower d = l at hlo hhi ⊢
  generalize X.getD d 0 = x at hlo hhi ⊢
  generalize dx.getD d 0 = δ at hdx hlo hhi ⊢
  generalize x_lower.getD d 0 = x0 at hlo hhi ⊢
  push_cast at hlo hhi
  by_cases hax : d = axis
  · simp only [hax, if_true]
    rw [le_div_iff₀ hdx, div_le_iff₀ hdx]
    push_cast
    constructor
    · nlinarith
    · nlinarith
  · simp only [hax, if_false]
    by_cases hle : x ≤ ((c - l : Int) + 1 / 2 : ℚ) * δ + x0
    · simp only [hle, if_true]
      rw [le_div_iff₀ hdx, div_le_iff₀ hdx]
      push_cast at hle ⊢
      constructor
      · nlinarith
      · nlinarith
    · simp only [hle, if_false]
      rw [le_div_iff₀ hdx, div_le_iff₀ hdx]
      push_cast at hle ⊢
      constructor
      · nlinarith
      · nlinarith

/-- C11: the interpolation stencil is centred on the sample. For every even width `s`, after
a successful counting pass, for every sample point `k` lying in its cell `X_idx`, every
component `axis` and every direction `d` with positive spacing, the weights loop of the fill
pass hands `interp_fcn` the argument `r = (X[d] - X_stencil_lower) / dx[d]` built from the
stored stencil box, and `s / 2 - 1 <= r <= s / 2` in exact arithmetic. -/
theorem interp_stencil_centred (NDIM : Nat)
    (getCellIndex : List ℚ → List ℚ → List ℚ → List ℚ → Index → Index → Index)
    (interp_fcn : ℚ → List ℚ → List ℚ) (s : Int) (hs : s.tmod 2 = 0)
    (j_lower j_upper n_local n_total : Int)
    (X_arr : List ℚ) (patch_level : PatchLevel) (dx : List ℚ) (domain_box : Box)
    (n_local_points : Int) (init count : InterpCount)
    (hinit : init.stencil_box
      = List.replicate n_local_points.toNat (List.replicate NDIM (Box.emptyBox NDIM)))
    (hpass : interpCountPass NDIM getCellIndex s j_lower j_upper n_local n_total X_arr
      patch_level dx domain_box n_local_points init = .ok count)
    (k : Nat) (hk : k < n_local_points.toNat) (axis : Nat) (haxis : axis < NDIM)
    (d : Nat) (hd : d < NDIM) (hdx : 0 < dx.getD d 0)
    (hlo : patch_level.x_lower.getD d 0
        + ((Index.comp (sampleCell NDIM getCellIndex X_arr patch_level dx domain_box k) d
            - Index.comp domain_box.lower d : Int) : ℚ) * dx.getD d 0
      ≤ (X_arr.drop (NDIM * k)).getD d 0)
    (hhi : (X_arr.drop (NDIM * k)).getD d 0
      ≤ patch_level.x_lower.getD d 0
        + (((Index.comp (sampleCell NDIM getCellIndex X_arr patch_level dx domain_box k) d
            - Index.comp domain_box.lower d : Int) : ℚ) + 1) * dx.getD d 0)
    (w : List (List ℚ)) :
    interpWeights NDIM interp_fcn (X_arr.drop (NDIM * k)) dx patch_level.x_lower
        domain_box.lower axis
        ((count.stencil_box.getD k []).getD axis (Box.emptyBox NDIM)).lower w
      = (List.range NDIM).foldl
          (fun w d => w.modify
            (interp_fcn (interpArg (X_arr.drop (NDIM * k)) dx patch_level.x_lower
              domain_box.lower axis
              ((count.stencil_box.getD k []).getD axis (Box.emptyBox NDIM)).lower d)) d)
          w ∧
    (s : ℚ) / 2 - 1
      ≤ interpArg (X_arr.drop (NDIM * k)) dx patch_level.x_lower domain_box.lower axis
          ((count.stencil_box.getD k []).getD axis (Box.emptyBox NDIM)).lower d ∧
    interpArg (X_arr.drop (NDIM * k)) dx patch_level.x_lower domain_box.lower axis
        ((count.stencil_box.getD k []).getD axis (Box.emptyBox NDIM)).lower d
      ≤ (s : ℚ) / 2 := by
  refine ⟨interpWeights_eq _ _ _ _ _ _ _ _ _, ?_⟩
  rw [interpCountPass_stencil_box NDIM getCellIndex s j_lower j_upper n_local n_total X_arr
    patch_level dx domain_box n_local_points init count hinit hpass k hk axis haxis]
  exact interpArg_bounds NDIM s hs _ _ _ _ _ axis d hd hdx hlo hhi

/-- Witness for C11 on the example level (width 2, sample `(13/10, 27/10)` in cell `(1, 2)`,
component 0, direction 1): the kernel argument lies in `[0, 1]`. -/
theorem interp_stencil_centred_witness :
    (2 : Int).tmod 2 = 0 ∧
    interpCountPass 2 exampleGetCellIndex 2 0 50 50 50 exampleX.array exampleLevel [1, 1]
      { lower := [0, 0], upper := [3, 3] } 1 exampleInterpInit = .ok exampleInterpCount ∧
    ((2 : Int) : ℚ) / 2 - 1
      ≤ interpArg (exampleX.array.drop (2 * 0)) [1, 1] exampleLevel.x_lower
          ({ lower := [0, 0], upper := [3, 3] } : Box).lower 0
          ((exampleInterpCount.stencil_box.getD 0 []).getD 0 (Box.emptyBox 2)).lower 1 ∧
    interpArg (exampleX.array.drop (2 * 0)) [1, 1] exampleLevel.x_lower
        ({ lower := [0, 0], upper := [3, 3] } : Box).lower 0
        ((exampleInterpCount.stencil_box.getD 0 []).getD 0 (Box.emptyBox 2)).lower 1
      ≤ ((2 : Int) : ℚ) / 2 :=
  ⟨rfl, exampleCountPass,
   (interp_stencil_centred 2 exampleGetCellIndex exampleKernel 2 rfl 0 50 50 50 exampleX.array
      exampleLevel [1, 1] { lower := [0, 0], upper := [3, 3] } 1 exampleInterpInit
      exampleInterpCount rfl exampleCountPass 0 (by decide) 0 (by decide) 1 (by decide)
      (by norm_num)
      (by rw [exampleSampleCell]; norm_num [exampleLevel, exampleX, Index.comp])
      (by rw [exampleSampleCell]; norm_num [exampleLevel, exampleX, Index.comp])
      []).2⟩

/-! ### The fill pass of the complex cell-centred builder -/

/-- Reading a list after one `set`. -/
theorem getElem?_set_map {α : Type} (l : List α) (i k : Nat) (a : α) :
    (l.set i a)[k]? = if i = k then (l[k]?).map (fun _ => a) else l[k]? := by
  rw [List.getElem?_set]
  by_cases h : i = k
  · subst h
    by_cases hl : i < l.length
    · simp [hl, List.getElem?_eq_getElem hl]
    · simp [hl, List.getElem?_eq_none (Nat.le_of_not_lt hl)]
  · simp [h]

/-- Folding the two writes at `j + 1` and `j + 1 + c` over `j = 0 .. m - 1`, for `m <= c`. -/
theorem foldl_set_twice_range {α : Type} (a b : Nat → α) (c m : Nat) (hm : m ≤ c)
    (L : List α) (k : Nat) :
    ((List.range m).foldl
        (fun l j => (l.set (j + 1) (a (j + 1))).set (j + 1 + c) (b (j + 1))) L)[k]?
      = if 1 ≤ k ∧ k ≤ m then (L[k]?).map (fun _ => a k)
        else if c + 1 ≤ k ∧ k ≤ c + m then (L[k]?).map (fun _ => b (k - c))
        else L[k]? := by
  induction m with
  | zero =>
    have h1 : ¬ (1 ≤ k ∧ k ≤ 0) := by omega
    have h2 : ¬ (c + 1 ≤ k ∧ k ≤ c + 0) := by omega
    rw [if_neg h1, if_neg h2]
    rfl
  | succ m ih =>
    rw [List.range_succ, List.foldl_append]
    simp only [List.foldl_cons, List.foldl_nil, getElem?_set_map, ih (by omega)]
    cases hL : L[k]? with
    | none =>
      simp only [Option.map_none']
      split_ifs <;> rfl
    | some v =>
      simp only [Option.map_some']
      split_ifs <;> (try subst_vars) <;>
        first
        | rfl
        | (exfalso; omega)
        | (simp only [Option.map_some']; congr 2; omega)

/-- Writing the entries `0` and `stencil_sz` and then, in the stencil loop, the entries
`stencil_index` and `stencil_index + stencil_sz` overwrites a buffer of `2 * stencil_sz`
slots completely: the first half holds what was written at `stencil_index`, the second
half what was written at `stencil_index + stencil_sz`. -/
theorem buffer_overwritten_twice {α : Type} (NDIM : Nat) (a b : Nat → α) (l : List α)
    (hl : l.length = 2 * stencil_sz NDIM) :
    (List.range (2 * NDIM)).foldl
        (fun l j => (l.set (j + 1) (a (j + 1))).set (j + 1 + stencil_sz NDIM) (b (j + 1)))
        ((l.set 0 (a 0)).set (stencil_sz NDIM) (b 0))
      = (List.range (stencil_sz NDIM)).map a ++ (List.range (stencil_sz NDIM)).map b := by
  apply List.ext_getElem?
  intro n
  rw [foldl_set_twice_range a b (stencil_sz NDIM) (2 * NDIM) (by unfold stencil_sz; omega),
    getElem?_set_map, getElem?_set_map]
  unfold stencil_sz at hl ⊢
  by_cases hn : n < l.length
  · rw [List.getElem?_eq_getElem hn]
    simp only [Option.map_some']
    by_cases h1 : n < 2 * NDIM + 1
    · rw [List.getElem?_append_left (by simpa using h1), List.getElem?_map,
        List.getElem?_range h1]
      simp only [Option.map_some']
      split_ifs <;> (try subst_vars) <;>
        first
        | rfl
        | (exfalso; omega)
    · have h2 : n - (2 * NDIM + 1) < 2 * NDIM + 1 := by omega
      rw [List.getElem?_append_right (by simpa using h1)]
      simp only [List.length_map, List.length_range]
      rw [List.getElem?_map, List.getElem?_range h2]
      simp only [Option.map_some']
      split_ifs <;> (try subst_vars) <;>
        first
        | rfl
        | (exfalso; omega)
        | (simp only [Option.map_some']; congr 2; omega)
  · have h1 : l[n]? = none := List.getElem?_eq_none (by omega)
    have h2 : ((List.range (2 * NDIM + 1)).map a ++ (List.range (2 * NDIM + 1)).map b)[n]?
        = none := List.getElem?_eq_none (by simp; omega)
    rw [h1, h2]
    simp only [Option.map_none']
    split_ifs <;> rfl

/-- The four buffers after the stencil loop of the complex fill pass. -/
theorem fill_buffers_twice (NDIM : Nat) (av bv av' bv' : Nat → ℚ) (ac bc : Nat → Int)
    (v0 v1 : List ℚ) (c0 c1 : List Int)
    (hv0 : v0.length = 2 * stencil_sz NDIM) (hc0 : c0.length = 2 * stencil_sz NDIM)
    (hv1 : v1.length = 2 * stencil_sz NDIM) (hc1 : c1.length = 2 * stencil_sz NDIM) :
    stencilLoop NDIM
      (fun _axis _side stencil_index (bufs : (List ℚ × List Int) × (List ℚ × List Int)) =>
        (((bufs.1.1.set stencil_index (av stencil_index)).set
            (stencil_index + stencil_sz NDIM) (bv stencil_index),
          (bufs.1.2.set stencil_index (ac stencil_index)).set
            (stencil_index + stencil_sz NDIM) (bc stencil_index)),
         ((bufs.2.1.set stencil_index (av' stencil_index)).set
            (stencil_index + stencil_sz NDIM) (bv' stencil_index),
          (bufs.2.2.set stencil_index (ac stencil_index)).set
            (stencil_index + stencil_sz NDIM) (bc stencil_index))))
      (((v0.set 0 (av 0)).set (stencil_sz NDIM) (bv 0),
        (c0.set 0 (ac 0)).set (stencil_sz NDIM) (bc 0)),
       ((v1.set 0 (av' 0)).set (stencil_sz NDIM) (bv' 0),
        (c1.set 0 (ac 0)).set (stencil_sz NDIM) (bc 0)))
    = (((List.range (stencil_sz NDIM)).map av ++ (List.range (stencil_sz NDIM)).map bv,
        (List.range (stencil_sz NDIM)).map ac ++ (List.range (stencil_sz NDIM)).map bc),
       ((List.range (stencil_sz NDIM)).map av' ++ (List.range (stencil_sz NDIM)).map bv',
        (List.range (stencil_sz NDIM)).map ac ++ (List.range (stencil_sz NDIM)).map bc)) := by
  rw [stencilLoop_eq]
  rw [foldl_prod
    (fun (p : List ℚ × List Int) j =>
      ((p.1.set (j + 1) (av (j + 1))).set (j + 1 + stencil_sz NDIM) (bv (j + 1)),
       (p.2.set (j + 1) (ac (j + 1))).set (j + 1 + stencil_sz NDIM) (bc (j + 1))))
    (fun (p : List ℚ × List Int) j =>
      ((p.1.set (j + 1) (av' (j + 1))).set (j + 1 + stencil_sz NDIM) (bv' (j + 1)),
       (p.2.set (j + 1) (ac (j + 1))).set (j + 1 + stencil_sz NDIM) (bc (j + 1))))]
  rw [foldl_prod
    (fun (l : List ℚ) j =>
      (l.set (j + 1) (av (j + 1))).set (j + 1 + stencil_sz NDIM) (bv (j + 1)))
    (fun (l : List Int) j =>
      (l.set (j + 1) (ac (j + 1))).set (j + 1 + stencil_sz NDIM) (bc (j + 1)))]
  rw [foldl_prod
    (fun (l : List ℚ) j =>
      (l.set (j + 1) (av' (j + 1))).set (j + 1 + stencil_sz NDIM) (bv' (j + 1)))
    (fun (l : List Int) j =>
      (l.set (j + 1) (ac (j + 1))).set (j + 1 + stencil_sz NDIM) (bc (j + 1)))]
  rw [buffer_overwritten_twice NDIM av bv v0 hv0, buffer_overwritten_twice NDIM ac bc c0 hc0,
    buffer_overwritten_twice NDIM av' bv' v1 hv1, buffer_overwritten_twice NDIM ac bc c1 hc1]

/-- One visit of the fill pass of `constructPatchLevelCCComplexLaplaceOp` whose two DOF
indices are local appends exactly the real and the imaginary insertion, in this order, and
leaves four buffers of `2 * stencil_sz` slots. -/
theorem ccComplexFillVisit_local (NDIM : Nat) (i_lower i_upper : Int)
    (matrix_coefs : Index → Nat → ℚ) (dof_index_data : CellData Int) (i : Index) (d : Nat)
    (st : (List ℚ × List Int) × (List ℚ × List Int) × List SetValues)
    (hv0 : st.1.1.length = 2 * stencil_sz NDIM) (hc0 : st.1.2.length = 2 * stencil_sz NDIM)
    (hv1 : st.2.1.1.length = 2 * stencil_sz NDIM) (hc1 : st.2.1.2.length = 2 * stencil_sz NDIM)
    (hr : isLocal i_lower i_upper (dof_index_data.data i d) = true)
    (hi : isLocal i_lower i_upper (dof_index_data.data i (d + 1)) = true) :
    ∃ b1 b2 : List ℚ × List Int,
      ccComplexFillVisit NDIM i_lower i_upper matrix_coefs dof_index_data i d st
        = .ok (b1, b2, st.2.2 ++
          [ccComplexInsertionReal NDIM matrix_coefs dof_index_data i d,
           ccComplexInsertionImag NDIM matrix_coefs dof_index_data i d]) ∧
      b1.1.length = 2 * stencil_sz NDIM ∧ b1.2.length = 2 * stencil_sz NDIM ∧
      b2.1.length = 2 * stencil_sz NDIM ∧ b2.2.length = 2 * stencil_sz NDIM := by
  have hr' : i_lower ≤ dof_index_data.data i d ∧ dof_index_data.data i d < i_upper := by
    simpa [isLocal] using hr
  have hi' : i_lower ≤ dof_index_data.data i (d + 1) ∧ dof_index_data.data i (d + 1) < i_upper := by
    simpa [isLocal] using hi
  have hb := fill_buffers_twice NDIM
    (fun k => matrix_coefs i (d * stencil_sz NDIM * 2 + k))
    (fun k => matrix_coefs i (d * stencil_sz NDIM * 2 + k + stencil_sz NDIM))
    (fun k => matrix_coefs i (d * stencil_sz NDIM * 2 + 2 * stencil_sz NDIM + k))
    (fun k => matrix_coefs i (d * stencil_sz NDIM * 2 + k + 3 * stencil_sz NDIM))
    (fun k => if k = 0 then dof_index_data.data i d
      else dof_index_data.data (Index.add i ((stencil NDIM).getD k [])) d)
    (fun k => if k = 0 then dof_index_data.data i (d + 1)
      else dof_index_data.data (Index.add i ((stencil NDIM).getD k [])) (d + 1))
    st.1.1 st.2.1.1 st.1.2 st.2.1.2 hv0 hc0 hv1 hc1
  rw [stencilLoop_eq] at hb
  simp only [Nat.add_zero, if_true, Nat.succ_ne_zero, if_false] at hb
  have hcols : (List.range (stencil_sz NDIM)).map
        (fun k => if k = 0 then dof_index_data.data i d
          else dof_index_data.data (Index.add i ((stencil NDIM).getD k [])) d)
      ++ (List.range (stencil_sz NDIM)).map
        (fun k => if k = 0 then dof_index_data.data i (d + 1)
          else dof_index_data.data (Index.add i ((stencil NDIM).getD k [])) (d + 1))
      = ccComplexCols NDIM dof_index_data i d := by
    rw [range_stencil_sz_map, range_stencil_sz_map]
    simp [ccComplexCols, neighbourDofs]
  unfold ccComplexFillVisit
  simp only [hr', hi', and_self, true_or, not_true_eq_false, if_true, if_false]
  rw [stencilLoop_eq, hb]
  simp only [hcols]
  refine ⟨_, _, rfl, ?_, ?_, ?_, ?_⟩
  · simp only [List.length_append, List.length_map, List.length_range]
    omega
  · rw [← hcols]
    simp only [List.length_append, List.length_map, List.length_range]
    omega
  · simp only [List.length_append, List.length_map, List.length_range]
    omega
  · rw [← hcols]
    simp only [List.length_append, List.length_map, List.length_range]
    omega

/-- One visit of the complex fill pass with neither DOF index local changes nothing; with
exactly one of them local it fails. -/
theorem ccComplexFillVisit_other (NDIM : Nat) (i_lower i_upper : Int)
    (matrix_coefs : Index → Nat → ℚ) (dof_index_data : CellData Int) (i : Index) (d : Nat)
    (st : (List ℚ × List Int) × (List ℚ × List Int) × List SetValues) :
    (isLocal i_lower i_upper (dof_index_data.data i d) = false →
      isLocal i_lower i_upper (dof_index_data.data i (d + 1)) = false →
      ccComplexFillVisit NDIM i_lower i_upper matrix_coefs dof_index_data i d st = .ok st) ∧
    (isLocal i_lower i_upper (dof_index_data.data i d) = false →
      isLocal i_lower i_upper (dof_index_data.data i (d + 1)) = true →
      ccComplexFillVisit NDIM i_lower i_upper matrix_coefs dof_index_data i d st
        = .error Failure.assert_real_local) ∧
    (isLocal i_lower i_upper (dof_index_data.data i d) = true →
      isLocal i_lower i_upper (dof_index_data.data i (d + 1)) = false →
      ccComplexFillVisit NDIM i_lower i_upper matrix_coefs dof_index_data i d st
        = .error Failure.assert_imag_local) := by
  refine ⟨?_, ?_, ?_⟩
  · intro hr hi
    have hr' : ¬ (i_lower ≤ dof_index_data.data i d ∧ dof_index_data.data i d < i_upper) := by
      simpa [isLocal] using hr
    have hi' : ¬ (i_lower ≤ dof_index_data.data i (d + 1)
        ∧ dof_index_data.data i (d + 1) < i_upper) := by
      simpa [isLocal] using hi
    unfold ccComplexFillVisit
    simp only [hr', hi', or_self, if_false]
  · intro hr hi
    have hr' : ¬ (i_lower ≤ dof_index_data.data i d ∧ dof_index_data.data i d < i_upper) := by
      simpa [isLocal] using hr
    have hi' : i_lower ≤ dof_index_data.data i (d + 1)
        ∧ dof_index_data.data i (d + 1) < i_upper := by
      simpa [isLocal] using hi
    unfold ccComplexFillVisit
    simp only [hr', hi', and_self, or_true, not_false_eq_true, if_true]
  · intro hr hi
    have hr' : i_lower ≤ dof_index_data.data i d ∧ dof_index_data.data i d < i_upper := by
      simpa [isLocal] using hr
    have hi' : ¬ (i_lower ≤ dof_index_data.data i (d + 1)
        ∧ dof_index_data.data i (d + 1) < i_upper) := by
      simpa [isLocal] using hi
    unfold ccComplexFillVisit
    simp only [hr', hi', and_self, true_or, not_true_eq_false, not_false_eq_true, if_true,
      if_false]

/-- A successful run of the complex fill pass over a list of (cell, pair) visits appends, in
visiting order, the real and the imaginary insertion of every visit whose real DOF index is
local; on every visit the two DOF indices are both local or both not. -/
theorem ccComplexFillVisits_eq (NDIM : Nat) (i_lower i_upper : Int)
    (matrix_coefs : Index → Nat → ℚ) (dof_index_data : CellData Int)
    (vs : List (Index × Nat))
    (st st' : (List ℚ × List Int) × (List ℚ × List Int) × List SetValues)
    (hv0 : st.1.1.length = 2 * stencil_sz NDIM) (hc0 : st.1.2.length = 2 * stencil_sz NDIM)
    (hv1 : st.2.1.1.length = 2 * stencil_sz NDIM) (hc1 : st.2.1.2.length = 2 * stencil_sz NDIM)
    (h : vs.foldlM
      (fun st v => ccComplexFillVisit NDIM i_lower i_upper matrix_coefs dof_index_data v.1 v.2 st)
      st = .ok st') :
    st'.2.2 = st.2.2 ++
      (vs.filter (fun v => isLocal i_lower i_upper (dof_index_data.data v.1 v.2))).flatMap
        (fun v => [ccComplexInsertionReal NDIM matrix_coefs dof_index_data v.1 v.2,
                   ccComplexInsertionImag NDIM matrix_coefs dof_index_data v.1 v.2]) ∧
    ∀ v ∈ vs, isLocal i_lower i_upper (dof_index_data.data v.1 v.2)
      = isLocal i_lower i_upper (dof_index_data.data v.1 (v.2 + 1)) := by
  induction vs generalizing st with
  | nil =>
    simp only [List.foldlM_nil, pure, Except.pure] at h
    cases h
    simp
  | cons v vs ih =>
    rw [List.foldlM_cons] at h
    obtain ⟨hnone, hreal, himag⟩ := ccComplexFillVisit_other NDIM i_lower i_upper matrix_coefs
      dof_index_data v.1 v.2 st
    cases hr : isLocal i_lower i_upper (dof_index_data.data v.1 v.2) with
    | false =>
      cases hi : isLocal i_lower i_upper (dof_index_data.data v.1 (v.2 + 1)) with
      | false =>
        rw [hnone hr hi] at h
        simp only [bind, Except.bind] at h
        obtain ⟨ih1, ih2⟩ := ih st hv0 hc0 hv1 hc1 h
        refine ⟨?_, ?_⟩
        · rw [ih1, List.filter_cons_of_neg (by simp [hr])]
        · intro w hw
          rcases List.mem_cons.mp hw with hw | hw
          · rw [hw, hr, hi]
          · exact ih2 w hw
      | true =>
        rw [hreal hr hi] at h
        simp only [bind, Except.bind] at h
        cases h
    | true =>
      cases hi : isLocal i_lower i_upper (dof_index_data.data v.1 (v.2 + 1)) with
      | false =>
        rw [himag hr hi] at h
        simp only [bind, Except.bind] at h
        cases h
      | true =>
        obtain ⟨b1, b2, hvis, l1, l2, l3, l4⟩ := ccComplexFillVisit_local NDIM i_lower i_upper
          matrix_coefs dof_index_data v.1 v.2 st hv0 hc0 hv1 hc1 hr hi
        rw [hvis] at h
        simp only [bind, Except.bind] at h
        obtain ⟨ih1, ih2⟩ := ih _ l1 l2 l3 l4 h
        refine ⟨?_, ?_⟩
        · rw [ih1, List.filter_cons_of_pos (by simp [hr])]
          simp only [List.flatMap_cons, List.append_assoc]
        · intro w hw
          rcases List.mem_cons.mp hw with hw | hw
          · rw [hw, hr, hi]
          · exact ih2 w hw

/-- A monadic fold over a `flatMap` is the nested monadic fold. -/
theorem foldlM_flatMap_eq {σ α β : Type} (f : σ → β → Except Failure σ) (g : α → List β)
    (l : List α) (s : σ) :
    (l.flatMap g).foldlM f s = l.foldlM (fun s a => (g a).foldlM f s) s := by
  induction l generalizing s with
  | nil => rfl
  | cons a l ih =>
    rw [List.flatMap_cons, List.foldlM_append, List.foldlM_cons]
    cases h : (g a).foldlM f s with
    | error e => rfl
    | ok s1 =>
      simp only [bind, Except.bind]
      exact ih s1

/-- A monadic fold over a `map`. -/
theorem foldlM_map_eq {σ α β : Type} (f : σ → β → Except Failure σ) (g : α → β)
    (l : List α) (s : σ) :
    (l.map g).foldlM f s = l.foldlM (fun s a => f s (g a)) s := by
  induction l generalizing s with
  | nil => rfl
  | cons a l ih =>
    rw [List.map_cons, List.foldlM_cons, List.foldlM_cons]
    cases h : f s (g a) with
    | error e => rfl
    | ok s1 =>
      simp only [bind, Except.bind]
      exact ih s1

/-- A successful fill pass of the complex builder on one patch. -/
theorem ccComplexFillPatch_eq (NDIM : Nat) (depth : Nat) (i_lower i_upper : Int)
    (matrix_coefs : Index → Nat → ℚ) (patch : Patch (CellData Int))
    (set_values sets : List SetValues)
    (h : ccComplexFillPatch NDIM depth i_lower i_upper matrix_coefs patch set_values
      = .ok sets) :
    sets = set_values ++
      ((ccComplexVisits depth [patch]).filter
        (fun v => isLocal i_lower i_upper (v.1.dof_index_data.data v.2.1 v.2.2))).flatMap
        (fun v => [ccComplexInsertionReal NDIM matrix_coefs v.1.dof_index_data v.2.1 v.2.2,
                   ccComplexInsertionImag NDIM matrix_coefs v.1.dof_index_data v.2.1 v.2.2]) ∧
    ∀ v ∈ ccComplexVisits depth [patch],
      isLocal i_lower i_upper (v.1.dof_index_data.data v.2.1 v.2.2)
        = isLocal i_lower i_upper (v.1.dof_index_data.data v.2.1 (v.2.2 + 1)) := by
  unfold ccComplexFillPatch at h
  simp only at h
  cases hf : patch.box.indices.foldlM
      (fun st i =>
        (evenComponents depth).foldlM
          (fun st d =>
            ccComplexFillVisit NDIM i_lower i_upper matrix_coefs patch.dof_index_data i d st) st)
      ((List.replicate (2 * stencil_sz NDIM) (0 : ℚ), List.replicate (2 * stencil_sz NDIM) (0 : Int)),
       (List.replicate (2 * stencil_sz NDIM) (0 : ℚ), List.replicate (2 * stencil_sz NDIM) (0 : Int)),
        set_values) with
  | error e =>
    rw [hf] at h
    simp only [Except.map] at h
    cases h
  | ok st' =>
    rw [hf] at h
    simp only [Except.map] at h
    cases h
    have hnest : patch.box.indices.foldlM
        (fun st i =>
          (evenComponents depth).foldlM
            (fun st d =>
              ccComplexFillVisit NDIM i_lower i_upper matrix_coefs patch.dof_index_data i d st)
            st)
        ((List.replicate (2 * stencil_sz NDIM) (0 : ℚ),
          List.replicate (2 * stencil_sz NDIM) (0 : Int)),
         (List.replicate (2 * stencil_sz NDIM) (0 : ℚ),
          List.replicate (2 * stencil_sz NDIM) (0 : Int)),
          set_values)
        = (patch.box.indices.flatMap
            (fun i => (evenComponents depth).map (fun d => (i, d)))).foldlM
          (fun st v =>
            ccComplexFillVisit NDIM i_lower i_upper matrix_coefs patch.dof_index_data v.1 v.2 st)
          ((List.replicate (2 * stencil_sz NDIM) (0 : ℚ),
            List.replicate (2 * stencil_sz NDIM) (0 : Int)),
           (List.replicate (2 * stencil_sz NDIM) (0 : ℚ),
            List.replicate (2 * stencil_sz NDIM) (0 : Int)),
            set_values) := by
      rw [foldlM_flatMap_eq]
      simp only [foldlM_map_eq]
    rw [hnest] at hf
    obtain ⟨h1, h2⟩ := ccComplexFillVisits_eq NDIM i_lower i_upper matrix_coefs
      patch.dof_index_data _ _ _ (by simp) (by simp) (by simp) (by simp) hf
    have hmap : ccComplexVisits depth [patch]
        = (patch.box.indices.flatMap
            (fun i => (evenComponents depth).map (fun d => (i, d)))).map
          (fun v => (patch, v.1, v.2)) := by
      simp only [ccComplexVisits, List.flatMap_cons, List.flatMap_nil, List.append_nil]
      rw [List.map_flatMap]
      simp only [List.map_map, Function.comp_def]
    constructor
    · rw [h1, hmap, List.filter_map, List.flatMap_map]
      rfl
    · intro v hv
      rw [hmap, List.mem_map] at hv
      obtain ⟨w, hw, rfl⟩ := hv
      exact h2 w hw

/-- A successful fill pass of the complex builder over the level appends, in visiting order,
the real and the imaginary insertion of every visited (patch, cell, pair) whose real DOF
index is local; on every visit the two DOF indices are both local or both not. -/
theorem ccComplexFillLevel_eq (NDIM : Nat) (depth : Nat) (i_lower i_upper : Int)
    (coefs : Patch (CellData Int) → Index → Nat → ℚ)
    (patch_level : List (Patch (CellData Int))) (set_values sets : List SetValues)
    (h : patch_level.foldlM
      (fun sets patch => ccComplexFillPatch NDIM depth i_lower i_upper (coefs patch) patch sets)
      set_values = .ok sets) :
    sets = set_values ++
      ((ccComplexVisits depth patch_level).filter
        (fun v => isLocal i_lower i_upper (v.1.dof_index_data.data v.2.1 v.2.2))).flatMap
        (fun v => [ccComplexInsertionReal NDIM (coefs v.1) v.1.dof_index_data v.2.1 v.2.2,
                   ccComplexInsertionImag NDIM (coefs v.1) v.1.dof_index_data v.2.1 v.2.2]) ∧
    ∀ v ∈ ccComplexVisits depth patch_level,
      isLocal i_lower i_upper (v.1.dof_index_data.data v.2.1 v.2.2)
        = isLocal i_lower i_upper (v.1.dof_index_data.data v.2.1 (v.2.2 + 1)) := by
  induction patch_level generalizing set_values with
  | nil =>
    simp only [List.foldlM_nil, pure, Except.pure] at h
    cases h
    simp [ccComplexVisits]
  | cons patch rest ih =>
    rw [List.foldlM_cons] at h
    cases hp : ccComplexFillPatch NDIM depth i_lower i_upper (coefs patch) patch set_values with
    | error e =>
      rw [hp] at h
      simp only [bind, Except.bind] at h
      cases h
    | ok s1 =>
      rw [hp] at h
      simp only [bind, Except.bind] at h
      obtain ⟨p1, p2⟩ := ccComplexFillPatch_eq NDIM depth i_lower i_upper (coefs patch) patch
        set_values s1 hp
      obtain ⟨r1, r2⟩ := ih s1 h
      have hv : ccComplexVisits depth (patch :: rest)
          = ccComplexVisits depth [patch] ++ ccComplexVisits depth rest := by
        simp [ccComplexVisits]
      constructor
      · rw [r1, p1, hv, List.filter_append, List.flatMap_append, List.append_assoc]
        congr 2
        apply List.flatMap_congr
        intro v hv'
        have hpv : v.1 = patch := by
          have := (List.mem_filter.mp hv').1
          simp only [ccComplexVisits, List.flatMap_cons, List.flatMap_nil, List.append_nil,
            List.mem_flatMap, List.mem_map] at this
          obtain ⟨i, _, d, _, hvd⟩ := this
          rw [← hvd]
        rw [hpv]
      · intro v hv'
        rw [hv, List.mem_append] at hv'
        rcases hv' with hv' | hv'
        · exact p2 v hv'
        · exact r2 v hv'

/-- What a successful run of `constructPatchLevelCCComplexLaplaceOp` returns: the counts of
its counting pass and the insertions of its fill pass. -/
theorem ccComplexLaplaceOp_ok (NDIM : Nat) {PS BC : Type}
    (computeCCComplexMatrixCoefficients :
      Patch (CellData Int) → List Index → PS → PS → List BC → ℚ → Index → Nat → ℚ)
    (poisson_spec_real poisson_spec_imag : PS) (bc_coefs : List BC) (data_time : ℚ)
    (num_dofs_per_proc : List Int) (mpi_rank : Nat)
    (patch_level : List (Patch (CellData Int))) (mat : Mat)
    (h : constructPatchLevelCCComplexLaplaceOp NDIM computeCCComplexMatrixCoefficients
      poisson_spec_real poisson_spec_imag bc_coefs data_time num_dofs_per_proc mpi_rank
      patch_level = .ok mat) :
    ccCountPass NDIM 2 bc_coefs.length (i_lower num_dofs_per_proc mpi_rank)
        (i_upper num_dofs_per_proc mpi_rank) (n_local num_dofs_per_proc mpi_rank)
        (n_total num_dofs_per_proc) patch_level = .ok (mat.d_nnz, mat.o_nnz) ∧
    mat.set_values =
      ((ccComplexVisits bc_coefs.length patch_level).filter
        (fun v => isLocal (i_lower num_dofs_per_proc mpi_rank)
          (i_upper num_dofs_per_proc mpi_rank)
          (v.1.dof_index_data.data v.2.1 v.2.2))).flatMap
        (fun v =>
          [ccComplexInsertionReal NDIM
             (computeCCComplexMatrixCoefficients v.1 (stencil NDIM) poisson_spec_real
               poisson_spec_imag bc_coefs data_time) v.1.dof_index_data v.2.1 v.2.2,
           ccComplexInsertionImag NDIM
             (computeCCComplexMatrixCoefficients v.1 (stencil NDIM) poisson_spec_real
               poisson_spec_imag bc_coefs data_time) v.1.dof_index_data v.2.1 v.2.2]) ∧
    ∀ v ∈ ccComplexVisits bc_coefs.length patch_level,
      isLocal (i_lower num_dofs_per_proc mpi_rank) (i_upper num_dofs_per_proc mpi_rank)
          (v.1.dof_index_data.data v.2.1 v.2.2)
        = isLocal (i_lower num_dofs_per_proc mpi_rank) (i_upper num_dofs_per_proc mpi_rank)
          (v.1.dof_index_data.data v.2.1 (v.2.2 + 1)) := by
  unfold constructPatchLevelCCComplexLaplaceOp at h
  simp only at h
  split at h
  · cases h
  · rename_i nnz hnnz
    split at h
    · cases h
    · rename_i sets hsets
      cases h
      obtain ⟨h1, h2⟩ := ccComplexFillLevel_eq NDIM bc_coefs.length
        (i_lower num_dofs_per_proc mpi_rank) (i_upper num_dofs_per_proc mpi_rank)
        (fun patch => computeCCComplexMatrixCoefficients patch (stencil NDIM) poisson_spec_real
          poisson_spec_imag bc_coefs data_time)
        patch_level [] sets hsets
      refine ⟨hnnz, ?_, h2⟩
      simp only [h1, List.nil_append]

/-- The members of `ccComplexVisits`. -/
theorem mem_ccComplexVisits (depth : Nat) (patch_level : List (Patch (CellData Int)))
    (patch : Patch (CellData Int)) (hp : patch ∈ patch_level) (i : Index)
    (hi : i ∈ patch.box.indices) (d : Nat) (hd : d ∈ evenComponents depth) :
    (patch, i, d) ∈ ccComplexVisits depth patch_level := by
  unfold ccComplexVisits
  simp only [List.mem_flatMap, List.mem_map]
  exact ⟨patch, hp, i, hi, d, hd, rfl⟩

/-- The column list of a complex insertion: its length, its two halves, and the positions
of the two diagonal columns. -/
theorem ccComplexCols_shape (NDIM : Nat) (dof_index_data : CellData Int) (i : Index)
    (d : Nat) :
    (ccComplexCols NDIM dof_index_data i d).length = 2 * (2 * NDIM + 1) ∧
    (ccComplexCols NDIM dof_index_data i d).take (2 * NDIM + 1)
      = dof_index_data.data i d :: neighbourDofs NDIM (fun j => dof_index_data.data j d) i ∧
    (ccComplexCols NDIM dof_index_data i d).drop (2 * NDIM + 1)
      = dof_index_data.data i (d + 1)
        :: neighbourDofs NDIM (fun j => dof_index_data.data j (d + 1)) i ∧
    (ccComplexCols NDIM dof_index_data i d)[0]? = some (dof_index_data.data i d) ∧
    (ccComplexCols NDIM dof_index_data i d)[2 * NDIM + 1]?
      = some (dof_index_data.data i (d + 1)) := by
  have hlen : (dof_index_data.data i d
      :: neighbourDofs NDIM (fun j => dof_index_data.data j d) i).length = 2 * NDIM + 1 := by
    simp [neighbourDofs_length]
  unfold ccComplexCols
  refine ⟨?_, ?_, ?_, ?_, ?_⟩
  · simp only [List.length_append, List.length_cons, neighbourDofs_length]
    omega
  · rw [List.take_append_of_le_length (by rw [hlen]), List.take_of_length_le (by rw [hlen])]
  · rw [List.drop_append_of_le_length (by rw [hlen]), List.drop_of_length_le (by rw [hlen])]
    rfl
  · simp
  · rw [List.getElem?_append_right (by rw [hlen]), hlen]
    simp

/-- C16: in a successful run of `constructPatchLevelCCComplexLaplaceOp` the insertions made
are, in visiting order, for every visited cell and pair `(d, d + 1)` whose DOF indices are
local, exactly two: one with row the real DOF index and one with row the imaginary DOF
index (and on every visit the two indices are both local or both not). Both use the same
column list of `2 * (2 * NDIM + 1)` entries, whose first `2 * NDIM + 1` entries are the
component-`d` DOF indices of the cell and its neighbours in stencil order and whose last
`2 * NDIM + 1` entries are the component-`(d + 1)` DOF indices in the same order; the real
row's own column is entry `0` and the imaginary row's own column is entry `2 * NDIM + 1`. -/
theorem cc_complex_fill_pass_insertions (NDIM : Nat) {PS BC : Type}
    (computeCCComplexMatrixCoefficients :
      Patch (CellData Int) → List Index → PS → PS → List BC → ℚ → Index → Nat → ℚ)
    (poisson_spec_real poisson_spec_imag : PS) (bc_coefs : List BC) (data_time : ℚ)
    (num_dofs_per_proc : List Int) (mpi_rank : Nat)
    (patch_level : List (Patch (CellData Int))) (mat : Mat)
    (h : constructPatchLevelCCComplexLaplaceOp NDIM computeCCComplexMatrixCoefficients
      poisson_spec_real poisson_spec_imag bc_coefs data_time num_dofs_per_proc mpi_rank
      patch_level = .ok mat) :
    mat.set_values =
      ((ccComplexVisits bc_coefs.length patch_level).filter
        (fun v => isLocal (i_lower num_dofs_per_proc mpi_rank)
          (i_upper num_dofs_per_proc mpi_rank)
          (v.1.dof_index_data.data v.2.1 v.2.2))).flatMap
        (fun v =>
          [ccComplexInsertionReal NDIM
             (computeCCComplexMatrixCoefficients v.1 (stencil NDIM) poisson_spec_real
               poisson_spec_imag bc_coefs data_time) v.1.dof_index_data v.2.1 v.2.2,
           ccComplexInsertionImag NDIM
             (computeCCComplexMatrixCoefficients v.1 (stencil NDIM) poisson_spec_real
               poisson_spec_imag bc_coefs data_time) v.1.dof_index_data v.2.1 v.2.2]) ∧
    (∀ patch ∈ patch_level, ∀ i ∈ patch.box.indices, ∀ d ∈ evenComponents bc_coefs.length,
      isLocal (i_lower num_dofs_per_proc mpi_rank) (i_upper num_dofs_per_proc mpi_rank)
          (patch.dof_index_data.data i d)
        = isLocal (i_lower num_dofs_per_proc mpi_rank) (i_upper num_dofs_per_proc mpi_rank)
          (patch.dof_index_data.data i (d + 1))) ∧
    (∀ (matrix_coefs : Index → Nat → ℚ) (dof_index_data : CellData Int) (i : Index) (d : Nat),
      (ccComplexInsertionReal NDIM matrix_coefs dof_index_data i d).row
        = dof_index_data.data i d ∧
      (ccComplexInsertionImag NDIM matrix_coefs dof_index_data i d).row
        = dof_index_data.data i (d + 1) ∧
      (ccComplexInsertionImag NDIM matrix_coefs dof_index_data i d).cols
        = (ccComplexInsertionReal NDIM matrix_coefs dof_index_data i d).cols ∧
      (ccComplexInsertionReal NDIM matrix_coefs dof_index_data i d).cols.length
        = 2 * (2 * NDIM + 1) ∧
      (ccComplexInsertionReal NDIM matrix_coefs dof_index_data i d).cols.take (2 * NDIM + 1)
        = dof_index_data.data i d
          :: neighbourDofs NDIM (fun j => dof_index_data.data j d) i ∧
      (ccComplexInsertionReal NDIM matrix_coefs dof_index_data i d).cols.drop (2 * NDIM + 1)
        = dof_index_data.data i (d + 1)
          :: neighbourDofs NDIM (fun j => dof_index_data.data j (d + 1)) i ∧
      (ccComplexInsertionReal NDIM matrix_coefs dof_index_data i d).cols[0]?
        = some (ccComplexInsertionReal NDIM matrix_coefs dof_index_data i d).row ∧
      (ccComplexInsertionImag NDIM matrix_coefs dof_index_data i d).cols[2 * NDIM + 1]?
        = some (ccComplexInsertionImag NDIM matrix_coefs dof_index_data i d).row ∧
      (ccComplexInsertionReal NDIM matrix_coefs dof_index_data i d).vals.length
        = 2 * (2 * NDIM + 1) ∧
      (ccComplexInsertionImag NDIM matrix_coefs dof_index_data i d).vals.length
        = 2 * (2 * NDIM + 1)) := by
  obtain ⟨_, h2, h3⟩ := ccComplexLaplaceOp_ok NDIM computeCCComplexMatrixCoefficients
    poisson_spec_real poisson_spec_imag bc_coefs data_time num_dofs_per_proc mpi_rank
    patch_level mat h
  refine ⟨h2, ?_, ?_⟩
  · intro patch hp i hi d hd
    exact h3 (patch, i, d) (mem_ccComplexVisits _ _ patch hp i hi d hd)
  · intro matrix_coefs dof_index_data i d
    obtain ⟨c1, c2, c3, c4, c5⟩ := ccComplexCols_shape NDIM dof_index_data i d
    refine ⟨rfl, rfl, rfl, c1, c2, c3, c4, c5, ?_, ?_⟩
    · simp [ccComplexInsertionReal, stencil_sz]
      omega
    · simp [ccComplexInsertionImag, stencil_sz]
      omega

/-- Witness for C16: the complex builder on the complex example patch returns
`exampleComplexMat`, whose two insertions are those of the only visited pair. -/
theorem cc_complex_fill_pass_insertions_witness :
    constructPatchLevelCCComplexLaplaceOp 2 exampleComplexCoefs () () [(), ()] 0 [2] 0
        [exampleComplexPatch] = .ok exampleComplexMat ∧
    exampleComplexMat.set_values =
      ((ccComplexVisits [(), ()].length [exampleComplexPatch]).filter
        (fun v => isLocal (i_lower [2] 0) (i_upper [2] 0)
          (v.1.dof_index_data.data v.2.1 v.2.2))).flatMap
        (fun v =>
          [ccComplexInsertionReal 2 (exampleComplexCoefs v.1 (stencil 2) () () [(), ()] 0)
             v.1.dof_index_data v.2.1 v.2.2,
           ccComplexInsertionImag 2 (exampleComplexCoefs v.1 (stencil 2) () () [(), ()] 0)
             v.1.dof_index_data v.2.1 v.2.2]) :=
  ⟨by rfl,
   (cc_complex_fill_pass_insertions 2 exampleComplexCoefs () () [(), ()] 0 [2] 0
      [exampleComplexPatch] exampleComplexMat (by rfl)).1⟩

/-! ### The coefficient components read by the complex fill pass -/

/-- Two consecutive blocks of consecutive numbers form one block. -/
theorem range_blocks_append (c a : Nat) (f g : Nat → Nat)
    (hf : ∀ k, k < a → f k = c + k) (hg : ∀ k, k < a → g k = c + a + k) :
    (List.range a).map f ++ (List.range a).map g = (List.range (2 * a)).map (fun k => c + k) := by
  have h2 : 2 * a = a + a := by omega
  rw [h2, List.range_add, List.map_append, List.map_map]
  congr 1
  · apply List.map_congr_left
    intro k hk
    exact hf k (List.mem_range.mp hk)
  · apply List.map_congr_left
    intro k hk
    rw [hg k (List.mem_range.mp hk)]
    simp only [Function.comp_def]
    omega

/-- The components read for the real row are `2 * d * sz + k`, `k = 0 .. 2 * sz - 1`. -/
theorem ccComplexReadsReal_eq (NDIM d : Nat) :
    ccComplexReadsReal NDIM d
      = (List.range (2 * stencil_sz NDIM)).map (fun k => 2 * d * stencil_sz NDIM + k) := by
  unfold ccComplexReadsReal
  apply range_blocks_append
  · intro k _
    have : d * stencil_sz NDIM * 2 = 2 * d * stencil_sz NDIM := by ring
    omega
  · intro k _
    have : d * stencil_sz NDIM * 2 = 2 * d * stencil_sz NDIM := by ring
    omega

/-- The components read for the imaginary row are `2 * d * sz + 2 * sz + k`,
`k = 0 .. 2 * sz - 1`. -/
theorem ccComplexReadsImag_eq (NDIM d : Nat) :
    ccComplexReadsImag NDIM d
      = (List.range (2 * stencil_sz NDIM)).map
          (fun k => 2 * d * stencil_sz NDIM + 2 * stencil_sz NDIM + k) := by
  unfold ccComplexReadsImag
  apply range_blocks_append
  · intro k _
    have : d * stencil_sz NDIM * 2 = 2 * d * stencil_sz NDIM := by ring
    omega
  · intro k _
    have : d * stencil_sz NDIM * 2 = 2 * d * stencil_sz NDIM := by ring
    omega

/-- The values of the two insertions are the coefficient components listed by
`ccComplexReadsReal` and `ccComplexReadsImag`. -/
theorem ccComplexInsertion_vals (NDIM : Nat) (matrix_coefs : Index → Nat → ℚ)
    (dof_index_data : CellData Int) (i : Index) (d : Nat) :
    (ccComplexInsertionReal NDIM matrix_coefs dof_index_data i d).vals
      = (ccComplexReadsReal NDIM d).map (matrix_coefs i) ∧
    (ccComplexInsertionImag NDIM matrix_coefs dof_index_data i d).vals
      = (ccComplexReadsImag NDIM d).map (matrix_coefs i) := by
  constructor
  · simp only [ccComplexInsertionReal, ccComplexReadsReal, List.map_append, List.map_map,
      Function.comp_def]
  · simp only [ccComplexInsertionImag, ccComplexReadsImag, List.map_append, List.map_map,
      Function.comp_def]

/-- Consecutive blocks of `c` consecutive numbers, `m` of them, list `0 .. c * m - 1`. -/
theorem flatMap_blocks (c m : Nat) :
    (List.range m).flatMap (fun k => (List.range c).map (fun j => c * k + j))
      = List.range (c * m) := by
  induction m with
  | zero => simp
  | succ m ih =>
    rw [List.range_succ, List.flatMap_append, ih, Nat.mul_succ, List.range_add]
    simp

/-- For an even depth the pairs visited are `d = 2 * k`, `k < depth / 2`. -/
theorem evenComponents_even (depth : Nat) (h : depth % 2 = 0) :
    evenComponents depth = (List.range (depth / 2)).map (fun k => 2 * k) := by
  unfold evenComponents
  have : (depth + 1) / 2 = depth / 2 := by omega
  rw [this]

/-- Over the pairs of an even depth, the components read list `0 .. 2 * sz * depth - 1`. -/
theorem ccComplexReads_cover (NDIM depth : Nat) (h : depth % 2 = 0) :
    (evenComponents depth).flatMap
        (fun d => ccComplexReadsReal NDIM d ++ ccComplexReadsImag NDIM d)
      = List.range (2 * stencil_sz NDIM * depth) := by
  rw [evenComponents_even depth h, List.flatMap_map]
  have hblock : ∀ k, ccComplexReadsReal NDIM (2 * k) ++ ccComplexReadsImag NDIM (2 * k)
      = (List.range (4 * stencil_sz NDIM)).map (fun j => 4 * stencil_sz NDIM * k + j) := by
    intro k
    rw [ccComplexReadsReal_eq, ccComplexReadsImag_eq]
    have h4 : 4 * stencil_sz NDIM = 2 * (2 * stencil_sz NDIM) := by omega
    rw [h4]
    apply range_blocks_append
    · intro j _
      have : 2 * (2 * k) * stencil_sz NDIM = 2 * (2 * stencil_sz NDIM) * k := by ring
      omega
    · intro j _
      have : 2 * (2 * k) * stencil_sz NDIM = 2 * (2 * stencil_sz NDIM) * k := by ring
      omega
  simp only [hblock]
  rw [flatMap_blocks]
  congr 1
  have : depth = 2 * (depth / 2) := by omega
  calc 4 * stencil_sz NDIM * (depth / 2) = 2 * stencil_sz NDIM * (2 * (depth / 2)) := by ring
    _ = 2 * stencil_sz NDIM * depth := by rw [← this]

/-- C18: in the fill pass of `constructPatchLevelCCComplexLaplaceOp`, with `sz = 2 * NDIM + 1`,
a visit of a local pair `(d, d + 1)` inserts for the real row the coefficient components
`2 * d * sz .. 2 * d * sz + 2 * sz - 1` and for the imaginary row the components
`2 * d * sz + 2 * sz .. 2 * d * sz + 4 * sz - 1`, in this order. For an even depth the pairs
visited start at the even `d <= depth - 2`, and the components read over all pairs and both
rows list `0 .. 2 * sz * depth - 1` without repetition: every index read is below the
allocated depth `2 * sz * depth`, the blocks are pairwise disjoint, they cover the whole
range, and each component is read exactly once per cell. -/
theorem cc_complex_coefficient_blocks (NDIM depth : Nat) (hdepth : depth % 2 = 0) :
    (∀ (i_lower i_upper : Int) (matrix_coefs : Index → Nat → ℚ) (dof_index_data : CellData Int)
      (i : Index) (d : Nat)
      (st : (List ℚ × List Int) × (List ℚ × List Int) × List SetValues),
      st.1.1.length = 2 * stencil_sz NDIM → st.1.2.length = 2 * stencil_sz NDIM →
      st.2.1.1.length = 2 * stencil_sz NDIM → st.2.1.2.length = 2 * stencil_sz NDIM →
      isLocal i_lower i_upper (dof_index_data.data i d) = true →
      isLocal i_lower i_upper (dof_index_data.data i (d + 1)) = true →
      ∃ b1 b2 : List ℚ × List Int,
        ccComplexFillVisit NDIM i_lower i_upper matrix_coefs dof_index_data i d st
          = .ok (b1, b2, st.2.2 ++
            [{ row := dof_index_data.data i d,
               cols := ccComplexCols NDIM dof_index_data i d,
               vals := (ccComplexReadsReal NDIM d).map (matrix_coefs i) },
             { row := dof_index_data.data i (d + 1),
               cols := ccComplexCols NDIM dof_index_data i d,
               vals := (ccComplexReadsImag NDIM d).map (matrix_coefs i) }])) ∧
    (∀ d : Nat,
      ccComplexReadsReal NDIM d
        = (List.range (2 * (2 * NDIM + 1))).map (fun k => 2 * d * (2 * NDIM + 1) + k) ∧
      ccComplexReadsImag NDIM d
        = (List.range (2 * (2 * NDIM + 1))).map
            (fun k => 2 * d * (2 * NDIM + 1) + 2 * (2 * NDIM + 1) + k)) ∧
    (∀ d ∈ evenComponents depth, d % 2 = 0 ∧ d + 2 ≤ depth ∧
      ∀ c ∈ ccComplexReadsReal NDIM d ++ ccComplexReadsImag NDIM d,
        c < 2 * (2 * NDIM + 1) * depth) ∧
    (evenComponents depth).flatMap
        (fun d => ccComplexReadsReal NDIM d ++ ccComplexReadsImag NDIM d)
      = List.range (2 * (2 * NDIM + 1) * depth) ∧
    ((evenComponents depth).flatMap
        (fun d => ccComplexReadsReal NDIM d ++ ccComplexReadsImag NDIM d)).Nodup ∧
    (∀ c, c < 2 * (2 * NDIM + 1) * depth →
      ((evenComponents depth).flatMap
        (fun d => ccComplexReadsReal NDIM d ++ ccComplexReadsImag NDIM d)).count c = 1) := by
  have hcover := ccComplexReads_cover NDIM depth hdepth
  have hsz : stencil_sz NDIM = 2 * NDIM + 1 := rfl
  rw [hsz] at hcover
  refine ⟨?_, ?_, ?_, hcover, ?_, ?_⟩
  · intro i_lower i_upper matrix_coefs dof_index_data i d st hv0 hc0 hv1 hc1 hr hi
    obtain ⟨b1, b2, hvis, _⟩ := ccComplexFillVisit_local NDIM i_lower i_upper matrix_coefs
      dof_index_data i d st hv0 hc0 hv1 hc1 hr hi
    obtain ⟨e1, e2⟩ := ccComplexInsertion_vals NDIM matrix_coefs dof_index_data i d
    refine ⟨b1, b2, ?_⟩
    rw [hvis, ← e1, ← e2]
    rfl
  · intro d
    exact ⟨ccComplexReadsReal_eq NDIM d, ccComplexReadsImag_eq NDIM d⟩
  · intro d hd
    have hmem := hd
    rw [evenComponents_even depth hdepth, List.mem_map] at hmem
    obtain ⟨k, hk, rfl⟩ := hmem
    rw [List.mem_range] at hk
    refine ⟨by omega, by omega, ?_⟩
    intro c hc
    have : c ∈ (evenComponents depth).flatMap
        (fun d => ccComplexReadsReal NDIM d ++ ccComplexReadsImag NDIM d) :=
      List.mem_flatMap.mpr ⟨2 * k, hd, hc⟩
    rw [hcover] at this
    exact List.mem_range.mp this
  · rw [hcover]
    exact List.nodup_range _
  · intro c hc
    rw [hcover]
    exact List.count_eq_one_of_mem (List.nodup_range _) (List.mem_range.mpr hc)

/-- Witness for C18 with `NDIM = 2` and depth 2: the only pair reads the components
`0 .. 19`. -/
theorem cc_complex_coefficient_blocks_witness :
    2 % 2 = 0 ∧
    (evenComponents 2).flatMap (fun d => ccComplexReadsReal 2 d ++ ccComplexReadsImag 2 d)
      = List.range (2 * (2 * 2 + 1) * 2) :=
  ⟨rfl, (cc_complex_coefficient_blocks 2 2 rfl).2.2.2.1⟩

/-! ### The counting passes of the real and the complex cell-centred builder -/

/-- A row of the result of a counting pass of the cell-centred builders: the clamped steps
of the visits of that row, folded from 0. -/
theorem ccCountPass_row (NDIM : Nat) (inc : Int) (depth : Nat)
    (i_lower i_upper n_local n_total : Int) (patch_level : List (Patch (CellData Int)))
    (nnz : List Int × List Int)
    (h : ccCountPass NDIM inc depth i_lower i_upper n_local n_total patch_level = .ok nnz)
    (k : Nat) (hk : (k : Int) < n_local) :
    nnz.1[k]? = some ((ccRowVisits depth patch_level i_lower i_upper k).foldl
      (fun x v => dStep NDIM inc i_lower i_upper n_local v x) 0) ∧
    nnz.2[k]? = some ((ccRowVisits depth patch_level i_lower i_upper k).foldl
      (fun x v => oStep NDIM inc i_lower i_upper n_local n_total v x) 0) := by
  unfold ccCountPass at h
  have hfold := ccCountPass_eq_fold NDIM inc depth i_lower i_upper n_local n_total patch_level
    _ nnz h
  obtain ⟨hr1, hr2⟩ := countVisits_row NDIM inc i_lower i_upper n_local n_total
    ((ccVisits depth patch_level).map
      (fun v => ((fun j => v.1.dof_index_data.data j v.2.2), v.2.1)))
    (nnzInit n_local) k
  rw [← hfold] at hr1 hr2
  obtain ⟨hi1, hi2⟩ := nnzInit_getElem? n_local k hk
  rw [hi1] at hr1
  rw [hi2] at hr2
  exact ⟨hr1, hr2⟩

/-- The unclamped totals are non-negative for a non-negative increment. -/
theorem unclamped_nonneg (NDIM : Nat) (inc : Int) (hinc : 0 ≤ inc) (i_lower i_upper : Int)
    (vs : List ((Index → Int) × Index)) :
    0 ≤ unclampedD NDIM inc i_lower i_upper vs ∧ 0 ≤ unclampedO NDIM inc i_lower i_upper vs := by
  unfold unclampedD unclampedO
  constructor
  · apply List.sum_nonneg
    intro x hx
    rw [List.mem_map] at hx
    obtain ⟨v, _, rfl⟩ := hx
    positivity
  · apply List.sum_nonneg
    intro x hx
    rw [List.mem_map] at hx
    obtain ⟨v, _, rfl⟩ := hx
    positivity

/-- Where the clamps do not bind, a row of the result of a counting pass holds the unclamped
totals of the row. -/
theorem ccCountPass_row_unclamped (NDIM : Nat) (inc : Int) (hinc : 0 ≤ inc) (depth : Nat)
    (i_lower i_upper n_local n_total : Int) (patch_level : List (Patch (CellData Int)))
    (nnz : List Int × List Int)
    (h : ccCountPass NDIM inc depth i_lower i_upper n_local n_total patch_level = .ok nnz)
    (k : Nat) (hk : (k : Int) < n_local) :
    (unclampedD NDIM inc i_lower i_upper (ccRowVisits depth patch_level i_lower i_upper k)
        ≤ n_local →
      nnz.1[k]? = some (unclampedD NDIM inc i_lower i_upper
        (ccRowVisits depth patch_level i_lower i_upper k))) ∧
    (unclampedO NDIM inc i_lower i_upper (ccRowVisits depth patch_level i_lower i_upper k)
        ≤ n_total - n_local →
      nnz.2[k]? = some (unclampedO NDIM inc i_lower i_upper
        (ccRowVisits depth patch_level i_lower i_upper k))) := by
  obtain ⟨h1, h2⟩ := ccCountPass_row NDIM inc depth i_lower i_upper n_local n_total patch_level
    nnz h k hk
  constructor
  · intro hb
    rw [h1]
    congr 1
    have := foldl_clamp_sum n_local
      (fun (v : (Index → Int) × Index) =>
        inc * (1 + ((neighbourDofs NDIM v.1 v.2).countP (isLocal i_lower i_upper) : Int)))
      (fun v => by positivity) (ccRowVisits depth patch_level i_lower i_upper k) 0
      (by simpa [unclampedD] using hb)
    simpa [dStep, unclampedD] using this
  · intro hb
    rw [h2]
    congr 1
    have := foldl_clamp_sum (n_total - n_local)
      (fun (v : (Index → Int) × Index) =>
        inc * ((neighbourDofs NDIM v.1 v.2).countP (fun c => !isLocal i_lower i_upper c) : Int))
      (fun v => by positivity) (ccRowVisits depth patch_level i_lower i_upper k) 0
      (by simpa [unclampedO] using hb)
    simpa [oStep, unclampedO] using this

/-- The unclamped totals for the increment 2 are twice those for the increment 1. -/
theorem unclamped_two (NDIM : Nat) (i_lower i_upper : Int) (vs : List ((Index → Int) × Index)) :
    unclampedD NDIM 2 i_lower i_upper vs = 2 * unclampedD NDIM 1 i_lower i_upper vs ∧
    unclampedO NDIM 2 i_lower i_upper vs = 2 * unclampedO NDIM 1 i_lower i_upper vs := by
  unfold unclampedD unclampedO
  constructor
  · induction vs with
    | nil => simp
    | cons v vs ih =>
      simp only [List.map_cons, List.sum_cons, ih]
      ring
  · induction vs with
    | nil => simp
    | cons v vs ih =>
      simp only [List.map_cons, List.sum_cons, ih]
      ring

/-- The counts in the matrix `constructPatchLevelCCLaplaceOp` returns are those of its
counting pass. -/
theorem ccLaplaceOp_counts (NDIM : Nat) {PS BC : Type}
    (computeCCMatrixCoefficients :
      Patch (CellData Int) → List Index → PS → List BC → ℚ → Index → Nat → ℚ)
    (poisson_spec : PS) (bc_coefs : List BC) (data_time : ℚ)
    (num_dofs_per_proc : List Int) (mpi_rank : Nat)
    (patch_level : List (Patch (CellData Int))) (mat : Mat)
    (h : constructPatchLevelCCLaplaceOp NDIM computeCCMatrixCoefficients poisson_spec bc_coefs
      data_time num_dofs_per_proc mpi_rank patch_level = .ok mat) :
    ccCountPass NDIM 1 bc_coefs.length (i_lower num_dofs_per_proc mpi_rank)
        (i_upper num_dofs_per_proc mpi_rank) (n_local num_dofs_per_proc mpi_rank)
        (n_total num_dofs_per_proc) patch_level = .ok (mat.d_nnz, mat.o_nnz) := by
  unfold constructPatchLevelCCLaplaceOp at h
  simp only at h
  split at h
  · cases h
  · rename_i nnz hnnz
    cases h
    exact hnnz

/-- C15: for the same partition, patch level and DOF index field, a visit of a locally owned
(cell, component) in the counting pass of `constructPatchLevelCCComplexLaplaceOp` adds twice
what the same visit adds in `constructPatchLevelCCLaplaceOp`: 2 for the centre and 2 per
stencil neighbour, classified local or non-local by the same test, before the same clamps.
The two counting passes fail together. For two successful runs and every local row the
unclamped totals of the complex pass are twice those of the real pass, so wherever the
clamps of the complex pass do not bind its `d_nnz` and `o_nnz` are exactly double the real
builder's. Every insertion of the complex builder carries `2 * (2 * NDIM + 1)` columns and
every insertion of the real builder `2 * NDIM + 1`. -/
theorem cc_complex_counts_double (NDIM : Nat) {PS BC : Type}
    (computeCCMatrixCoefficients :
      Patch (CellData Int) → List Index → PS → List BC → ℚ → Index → Nat → ℚ)
    (computeCCComplexMatrixCoefficients :
      Patch (CellData Int) → List Index → PS → PS → List BC → ℚ → Index → Nat → ℚ)
    (poisson_spec poisson_spec_real poisson_spec_imag : PS) (bc_coefs : List BC)
    (data_time : ℚ) (num_dofs_per_proc : List Int) (mpi_rank : Nat)
    (patch_level : List (Patch (CellData Int))) :
    (∀ (dof : Index → Int) (i : Index) (nnz : List Int × List Int),
      isLocal (i_lower num_dofs_per_proc mpi_rank) (i_upper num_dofs_per_proc mpi_rank) (dof i)
        = true →
      countVisit NDIM 1 (i_lower num_dofs_per_proc mpi_rank) (i_upper num_dofs_per_proc mpi_rank)
          (n_local num_dofs_per_proc mpi_rank) (n_total num_dofs_per_proc) dof i nnz
        = (nnz.1.modify
            (fun x => min (n_local num_dofs_per_proc mpi_rank)
              (x + (1 + ((neighbourDofs NDIM dof i).countP
                (isLocal (i_lower num_dofs_per_proc mpi_rank)
                  (i_upper num_dofs_per_proc mpi_rank)) : Int))))
            (dof i - i_lower num_dofs_per_proc mpi_rank).toNat,
           nnz.2.modify
            (fun x => min (n_total num_dofs_per_proc - n_local num_dofs_per_proc mpi_rank)
              (x + ((neighbourDofs NDIM dof i).countP
                (fun c => !isLocal (i_lower num_dofs_per_proc mpi_rank)
                  (i_upper num_dofs_per_proc mpi_rank) c) : Int)))
            (dof i - i_lower num_dofs_per_proc mpi_rank).toNat) ∧
      countVisit NDIM 2 (i_lower num_dofs_per_proc mpi_rank) (i_upper num_dofs_per_proc mpi_rank)
          (n_local num_dofs_per_proc mpi_rank) (n_total num_dofs_per_proc) dof i nnz
        = (nnz.1.modify
            (fun x => min (n_local num_dofs_per_proc mpi_rank)
              (x + 2 * (1 + ((neighbourDofs NDIM dof i).countP
                (isLocal (i_lower num_dofs_per_proc mpi_rank)
                  (i_upper num_dofs_per_proc mpi_rank)) : Int))))
            (dof i - i_lower num_dofs_per_proc mpi_rank).toNat,
           nnz.2.modify
            (fun x => min (n_total num_dofs_per_proc - n_local num_dofs_per_proc mpi_rank)
              (x + 2 * ((neighbourDofs NDIM dof i).countP
                (fun c => !isLocal (i_lower num_dofs_per_proc mpi_rank)
                  (i_upper num_dofs_per_proc mpi_rank) c) : Int)))
            (dof i - i_lower num_dofs_per_proc mpi_rank).toNat)) ∧
    (∀ (dof : Index → Int) (i : Index) (nnz : List Int × List Int),
      isLocal (i_lower num_dofs_per_proc mpi_rank) (i_upper num_dofs_per_proc mpi_rank) (dof i)
        = false →
      countVisit NDIM 1 (i_lower num_dofs_per_proc mpi_rank) (i_upper num_dofs_per_proc mpi_rank)
          (n_local num_dofs_per_proc mpi_rank) (n_total num_dofs_per_proc) dof i nnz = nnz ∧
      countVisit NDIM 2 (i_lower num_dofs_per_proc mpi_rank) (i_upper num_dofs_per_proc mpi_rank)
          (n_local num_dofs_per_proc mpi_rank) (n_total num_dofs_per_proc) dof i nnz = nnz) ∧
    (∀ e : Failure,
      ccCountPass NDIM 1 bc_coefs.length (i_lower num_dofs_per_proc mpi_rank)
          (i_upper num_dofs_per_proc mpi_rank) (n_local num_dofs_per_proc mpi_rank)
          (n_total num_dofs_per_proc) patch_level = .error e ↔
        ccCountPass NDIM 2 bc_coefs.length (i_lower num_dofs_per_proc mpi_rank)
          (i_upper num_dofs_per_proc mpi_rank) (n_local num_dofs_per_proc mpi_rank)
          (n_total num_dofs_per_proc) patch_level = .error e) ∧
    (∀ mat_real mat_complex : Mat,
      constructPatchLevelCCLaplaceOp NDIM computeCCMatrixCoefficients poisson_spec bc_coefs
        data_time num_dofs_per_proc mpi_rank patch_level = .ok mat_real →
      constructPatchLevelCCComplexLaplaceOp NDIM computeCCComplexMatrixCoefficients
        poisson_spec_real poisson_spec_imag bc_coefs data_time num_dofs_per_proc mpi_rank
        patch_level = .ok mat_complex →
      (∀ k : Nat, (k : Int) < n_local num_dofs_per_proc mpi_rank →
        unclampedD NDIM 2 (i_lower num_dofs_per_proc mpi_rank)
            (i_upper num_dofs_per_proc mpi_rank)
            (ccRowVisits bc_coefs.length patch_level (i_lower num_dofs_per_proc mpi_rank)
              (i_upper num_dofs_per_proc mpi_rank) k)
          = 2 * unclampedD NDIM 1 (i_lower num_dofs_per_proc mpi_rank)
            (i_upper num_dofs_per_proc mpi_rank)
            (ccRowVisits bc_coefs.length patch_level (i_lower num_dofs_per_proc mpi_rank)
              (i_upper num_dofs_per_proc mpi_rank) k) ∧
        unclampedO NDIM 2 (i_lower num_dofs_per_proc mpi_rank)
            (i_upper num_dofs_per_proc mpi_rank)
            (ccRowVisits bc_coefs.length patch_level (i_lower num_dofs_per_proc mpi_rank)
              (i_upper num_dofs_per_proc mpi_rank) k)
          = 2 * unclampedO NDIM 1 (i_lower num_dofs_per_proc mpi_rank)
            (i_upper num_dofs_per_proc mpi_rank)
            (ccRowVisits bc_coefs.length patch_level (i_lower num_dofs_per_proc mpi_rank)
              (i_upper num_dofs_per_proc mpi_rank) k) ∧
        (unclampedD NDIM 2 (i_lower num_dofs_per_proc mpi_rank)
            (i_upper num_dofs_per_proc mpi_rank)
            (ccRowVisits bc_coefs.length patch_level (i_lower num_dofs_per_proc mpi_rank)
              (i_upper num_dofs_per_proc mpi_rank) k)
          ≤ n_local num_dofs_per_proc mpi_rank →
          ∃ x : Int, mat_real.d_nnz[k]? = some x ∧ mat_complex.d_nnz[k]? = some (2 * x)) ∧
        (unclampedO NDIM 2 (i_lower num_dofs_per_proc mpi_rank)
            (i_upper num_dofs_per_proc mpi_rank)
            (ccRowVisits bc_coefs.length patch_level (i_lower num_dofs_per_proc mpi_rank)
              (i_upper num_dofs_per_proc mpi_rank) k)
          ≤ n_total num_dofs_per_proc - n_local num_dofs_per_proc mpi_rank →
          ∃ x : Int, mat_real.o_nnz[k]? = some x ∧ mat_complex.o_nnz[k]? = some (2 * x))) ∧
      (∀ sv ∈ mat_real.set_values, sv.cols.length = 2 * NDIM + 1) ∧
      (∀ sv ∈ mat_complex.set_values, sv.cols.length = 2 * (2 * NDIM + 1))) := by
  refine ⟨?_, ?_, ?_, ?_⟩
  · intro dof i nnz hloc
    rw [countVisit_eq, countVisit_eq]
    simp only [hloc, if_true, one_mul]
    exact ⟨trivial, trivial⟩
  · intro dof i nnz hloc
    rw [countVisit_eq, countVisit_eq]
    simp only [hloc, Bool.false_eq_true, if_false]
    exact ⟨trivial, trivial⟩
  · intro e
    rw [ccCountPass_error_iff, ccCountPass_error_iff]
  · intro mat_real mat_complex hreal hcomplex
    have hc1 := ccLaplaceOp_counts NDIM computeCCMatrixCoefficients poisson_spec bc_coefs
      data_time num_dofs_per_proc mpi_rank patch_level mat_real hreal
    obtain ⟨hc2, hs2, _⟩ := ccComplexLaplaceOp_ok NDIM computeCCComplexMatrixCoefficients
      poisson_spec_real poisson_spec_imag bc_coefs data_time num_dofs_per_proc mpi_rank
      patch_level mat_complex hcomplex
    have hs1 := ccLaplaceOp_set_values NDIM computeCCMatrixCoefficients poisson_spec bc_coefs
      data_time num_dofs_per_proc mpi_rank patch_level mat_real hreal
    refine ⟨?_, ?_, ?_⟩
    · intro k hk
      obtain ⟨t1, t2⟩ := unclamped_two NDIM (i_lower num_dofs_per_proc mpi_rank)
        (i_upper num_dofs_per_proc mpi_rank)
        (ccRowVisits bc_coefs.length patch_level (i_lower num_dofs_per_proc mpi_rank)
          (i_upper num_dofs_per_proc mpi_rank) k)
      obtain ⟨n1, n2⟩ := unclamped_nonneg NDIM 1 (by decide)
        (i_lower num_dofs_per_proc mpi_rank) (i_upper num_dofs_per_proc mpi_rank)
        (ccRowVisits bc_coefs.length patch_level (i_lower num_dofs_per_proc mpi_rank)
          (i_upper num_dofs_per_proc mpi_rank) k)
      obtain ⟨r1, r2⟩ := ccCountPass_row_unclamped NDIM 1 (by decide) bc_coefs.length _ _ _ _
        patch_level _ hc1 k hk
      obtain ⟨c1, c2⟩ := ccCountPass_row_unclamped NDIM 2 (by decide) bc_coefs.length _ _ _ _
        patch_level _ hc2 k hk
      refine ⟨t1, t2, ?_, ?_⟩
      · intro hb
        refine ⟨_, r1 (by rw [t1] at hb; omega), ?_⟩
        rw [c1 hb, t1]
      · intro hb
        refine ⟨_, r2 (by rw [t2] at hb; omega), ?_⟩
        rw [c2 hb, t2]
    · intro sv hsv
      rw [hs1, List.mem_map] at hsv
      obtain ⟨v, _, rfl⟩ := hsv
      simp [ccInsertion, neighbourDofs_length]
    · intro sv hsv
      rw [hs2, List.mem_flatMap] at hsv
      obtain ⟨v, _, hsv⟩ := hsv
      have hlen := (ccComplexCols_shape NDIM v.1.dof_index_data v.2.1 v.2.2).1
      simp only [List.mem_cons, List.mem_singleton, List.not_mem_nil, or_false] at hsv
      rcases hsv with rfl | rfl
      · exact hlen
      · exact hlen

/-- Witness for C15: on the complex example patch, partition `[2, 8]`, rank 0, both builders
succeed; for row 0 no clamp binds, and the complex counts `d_nnz[0] = 2`, `o_nnz[0] = 8` are
twice the real counts 1 and 4. -/
theorem cc_complex_counts_double_witness :
    constructPatchLevelCCLaplaceOp 2 exampleCoefs () [(), ()] 0 [2, 8] 0 [exampleComplexPatch]
      = .ok exampleRealMatWide ∧
    constructPatchLevelCCComplexLaplaceOp 2 exampleComplexCoefs () () [(), ()] 0 [2, 8] 0
      [exampleComplexPatch] = .ok exampleComplexMatWide ∧
    ((0 : Nat) : Int) < n_local [2, 8] 0 ∧
    unclampedD 2 2 (i_lower [2, 8] 0) (i_upper [2, 8] 0)
        (ccRowVisits [(), ()].length [exampleComplexPatch] (i_lower [2, 8] 0)
          (i_upper [2, 8] 0) 0)
      ≤ n_local [2, 8] 0 ∧
    unclampedO 2 2 (i_lower [2, 8] 0) (i_upper [2, 8] 0)
        (ccRowVisits [(), ()].length [exampleComplexPatch] (i_lower [2, 8] 0)
          (i_upper [2, 8] 0) 0)
      ≤ n_total [2, 8] - n_local [2, 8] 0 ∧
    (∃ x : Int, exampleRealMatWide.d_nnz[0]? = some x ∧
      exampleComplexMatWide.d_nnz[0]? = some (2 * x)) ∧
    (∃ x : Int, exampleRealMatWide.o_nnz[0]? = some x ∧
      exampleComplexMatWide.o_nnz[0]? = some (2 * x)) :=
  ⟨by rfl, by rfl, by decide, by decide, by decide,
   (((cc_complex_counts_double 2 exampleCoefs exampleComplexCoefs () () () [(), ()] 0 [2, 8] 0
      [exampleComplexPatch]).2.2.2 exampleRealMatWide exampleComplexMatWide (by rfl)
      (by rfl)).1 0 (by decide)).2.2.1 (by decide),
   (((cc_complex_counts_double 2 exampleCoefs exampleComplexCoefs () () () [(), ()] 0 [2, 8] 0
      [exampleComplexPatch]).2.2.2 exampleRealMatWide exampleComplexMatWide (by rfl)
      (by rfl)).1 0 (by decide)).2.2.2 (by decide)⟩

/-! ### Predicted counts and inserted columns of the complex cell-centred builder -/

/-- The members of `ccVisits`. -/
theorem mem_ccVisits_iff (depth : Nat) (patch_level : List (Patch (CellData Int)))
    (v : Patch (CellData Int) × Index × Nat) :
    v ∈ ccVisits depth patch_level ↔
      v.1 ∈ patch_level ∧ v.2.1 ∈ v.1.box.indices ∧ v.2.2 < depth := by
  unfold ccVisits
  simp only [List.mem_flatMap, List.mem_map, List.mem_range]
  constructor
  · rintro ⟨patch, hp, i, hi, d, hd, rfl⟩
    exact ⟨hp, hi, hd⟩
  · rintro ⟨hp, hi, hd⟩
    exact ⟨v.1, hp, v.2.1, hi, v.2.2, hd, rfl⟩

/-- The members of `ccComplexVisits`. -/
theorem mem_ccComplexVisits_iff (depth : Nat) (patch_level : List (Patch (CellData Int)))
    (v : Patch (CellData Int) × Index × Nat) :
    v ∈ ccComplexVisits depth patch_level ↔
      v.1 ∈ patch_level ∧ v.2.1 ∈ v.1.box.indices ∧ v.2.2 ∈ evenComponents depth := by
  unfold ccComplexVisits
  simp only [List.mem_flatMap, List.mem_map]
  constructor
  · rintro ⟨patch, hp, i, hi, d, hd, rfl⟩
    exact ⟨hp, hi, hd⟩
  · rintro ⟨hp, hi, hd⟩
    exact ⟨v.1, hp, v.2.1, hi, v.2.2, hd, rfl⟩

/-- The local and non-local columns of a complex insertion when, at the cell and at its
stencil neighbours, the two components are both local or both not: twice the count of
either component, and `2 * (2 * NDIM + 1)` in all. -/
theorem ccComplexCols_counts (NDIM : Nat) (i_lower i_upper : Int)
    (dof_index_data : CellData Int) (i : Index) (c : Nat) (hc : c = 0 ∨ c = 1)
    (hpair : ∀ j : Index, isLocal i_lower i_upper (dof_index_data.data j 0)
      = isLocal i_lower i_upper (dof_index_data.data j 1))
    (hloc : isLocal i_lower i_upper (dof_index_data.data i c) = true) :
    ((ccComplexCols NDIM dof_index_data i 0).countP (isLocal i_lower i_upper) : Int)
      = 2 * (1 + ((neighbourDofs NDIM (fun j => dof_index_data.data j c) i).countP
          (isLocal i_lower i_upper) : Int)) ∧
    ((ccComplexCols NDIM dof_index_data i 0).countP
        (fun x => !isLocal i_lower i_upper x) : Int)
      = 2 * ((neighbourDofs NDIM (fun j => dof_index_data.data j c) i).countP
          (fun x => !isLocal i_lower i_upper x) : Int) ∧
    (ccComplexCols NDIM dof_index_data i 0).countP (isLocal i_lower i_upper)
      + (ccComplexCols NDIM dof_index_data i 0).countP (fun x => !isLocal i_lower i_upper x)
      = 2 * (2 * NDIM + 1) := by
  have h0 : isLocal i_lower i_upper (dof_index_data.data i 0) = true := by
    rcases hc with rfl | rfl
    · exact hloc
    · rw [hpair]
      exact hloc
  have h1 : isLocal i_lower i_upper (dof_index_data.data i 1) = true := by
    rw [← hpair]
    exact h0
  have hL1 : (neighbourDofs NDIM (fun j => dof_index_data.data j 0) i).countP
        (isLocal i_lower i_upper)
      = (neighbourDofs NDIM (fun j => dof_index_data.data j 1) i).countP
        (isLocal i_lower i_upper) := by
    unfold neighbourDofs
    rw [List.countP_map, List.countP_map]
    congr 1
    funext j
    simp only [Function.comp_apply, hpair]
  have hL2 : (neighbourDofs NDIM (fun j => dof_index_data.data j 0) i).countP
        (fun x => !isLocal i_lower i_upper x)
      = (neighbourDofs NDIM (fun j => dof_index_data.data j 1) i).countP
        (fun x => !isLocal i_lower i_upper x) := by
    unfold neighbourDofs
    rw [List.countP_map, List.countP_map]
    congr 1
    funext j
    simp only [Function.comp_apply, hpair]
  have hLc1 : (neighbourDofs NDIM (fun j => dof_index_data.data j c) i).countP
        (isLocal i_lower i_upper)
      = (neighbourDofs NDIM (fun j => dof_index_data.data j 0) i).countP
        (isLocal i_lower i_upper) := by
    rcases hc with rfl | rfl
    · rfl
    · exact hL1.symm
  have hLc2 : (neighbourDofs NDIM (fun j => dof_index_data.data j c) i).countP
        (fun x => !isLocal i_lower i_upper x)
      = (neighbourDofs NDIM (fun j => dof_index_data.data j 0) i).countP
        (fun x => !isLocal i_lower i_upper x) := by
    rcases hc with rfl | rfl
    · rfl
    · exact hL2.symm
  have hd : (ccComplexCols NDIM dof_index_data i 0).countP (isLocal i_lower i_upper)
      = 2 * (1 + (neighbourDofs NDIM (fun j => dof_index_data.data j 0) i).countP
          (isLocal i_lower i_upper)) := by
    unfold ccComplexCols
    rw [List.countP_append, List.countP_cons_of_pos _ _ h0, List.countP_cons_of_pos _ _ h1,
      ← hL1]
    omega
  have ho : (ccComplexCols NDIM dof_index_data i 0).countP
        (fun x => !isLocal i_lower i_upper x)
      = 2 * (neighbourDofs NDIM (fun j => dof_index_data.data j 0) i).countP
          (fun x => !isLocal i_lower i_upper x) := by
    unfold ccComplexCols
    rw [List.countP_append, List.countP_cons_of_neg _ _ (by simp [h0]),
      List.countP_cons_of_neg _ _ (by simp [h1]), ← hL2]
    omega
  refine ⟨?_, ?_, ?_⟩
  · rw [hd, hLc1]
    push_cast
    ring
  · rw [ho, hLc2]
    push_cast
    ring
  · have := countP_add_countP_not (isLocal i_lower i_upper)
      (neighbourDofs NDIM (fun j => dof_index_data.data j 0) i)
    rw [neighbourDofs_length] at this
    rw [hd, ho]
    omega

/-- C17: in a successful run of `constructPatchLevelCCComplexLaplaceOp` with depth 2, if at
every cell (ghost cells included) the real and the imaginary DOF index are both in
`[i_lower, i_upper)` or both outside it, then for every local row `g` held by exactly one
(cell, component) of the level an insertion is made for the row, and for every insertion
made for the row the unclamped predicted `d_nnz` of the row equals the number `D` of entries
of the inserted column list lying in `[i_lower, i_upper)`, the unclamped `o_nnz` equals the
number `O` lying outside, and the two sum to `2 * (2 * NDIM + 1)`. These are the counts of
the counting pass: its visit of the holder of the row adds `D` to `d_nnz` and `O` to `o_nnz`
of the row before the clamps, the matrix is created with `d_nnz = min(n_local, D)` and
`o_nnz = min(n_total - n_local, O)` for the row, and with `D` and `O` themselves wherever the
clamps do not bind. -/
theorem cc_complex_predicted_counts_match (NDIM : Nat) {PS BC : Type}
    (computeCCComplexMatrixCoefficients :
      Patch (CellData Int) → List Index → PS → PS → List BC → ℚ → Index → Nat → ℚ)
    (poisson_spec_real poisson_spec_imag : PS) (bc_coefs : List BC) (data_time : ℚ)
    (num_dofs_per_proc : List Int) (mpi_rank : Nat)
    (patch_level : List (Patch (CellData Int))) (mat : Mat)
    (hdepth : bc_coefs.length = 2)
    (h : constructPatchLevelCCComplexLaplaceOp NDIM computeCCComplexMatrixCoefficients
      poisson_spec_real poisson_spec_imag bc_coefs data_time num_dofs_per_proc mpi_rank
      patch_level = .ok mat)
    (hpair : ∀ patch ∈ patch_level, ∀ j : Index,
      isLocal (i_lower num_dofs_per_proc mpi_rank) (i_upper num_dofs_per_proc mpi_rank)
          (patch.dof_index_data.data j 0)
        = isLocal (i_lower num_dofs_per_proc mpi_rank) (i_upper num_dofs_per_proc mpi_rank)
          (patch.dof_index_data.data j 1))
    (g : Int) (v : Patch (CellData Int) × Index × Nat)
    (hg : isLocal (i_lower num_dofs_per_proc mpi_rank) (i_upper num_dofs_per_proc mpi_rank) g
      = true)
    (huniq : (ccVisits 2 patch_level).filter
      (fun u => decide (u.1.dof_index_data.data u.2.1 u.2.2 = g)) = [v]) :
    (∃ sv ∈ mat.set_values, sv.row = g) ∧
    ∀ sv ∈ mat.set_values, sv.row = g →
      sv.cols = ccComplexCols NDIM v.1.dof_index_data v.2.1 0 ∧
      unclampedD NDIM 2 (i_lower num_dofs_per_proc mpi_rank)
          (i_upper num_dofs_per_proc mpi_rank)
          (ccRowVisits 2 patch_level (i_lower num_dofs_per_proc mpi_rank)
            (i_upper num_dofs_per_proc mpi_rank)
            (g - i_lower num_dofs_per_proc mpi_rank).toNat)
        = (sv.cols.countP (isLocal (i_lower num_dofs_per_proc mpi_rank)
            (i_upper num_dofs_per_proc mpi_rank)) : Int) ∧
      unclampedO NDIM 2 (i_lower num_dofs_per_proc mpi_rank)
          (i_upper num_dofs_per_proc mpi_rank)
          (ccRowVisits 2 patch_level (i_lower num_dofs_per_proc mpi_rank)
            (i_upper num_dofs_per_proc mpi_rank)
            (g - i_lower num_dofs_per_proc mpi_rank).toNat)
        = (sv.cols.countP (fun c => !isLocal (i_lower num_dofs_per_proc mpi_rank)
            (i_upper num_dofs_per_proc mpi_rank) c) : Int) ∧
      sv.cols.countP (isLocal (i_lower num_dofs_per_proc mpi_rank)
          (i_upper num_dofs_per_proc mpi_rank))
        + sv.cols.countP (fun c => !isLocal (i_lower num_dofs_per_proc mpi_rank)
          (i_upper num_dofs_per_proc mpi_rank) c)
        = 2 * (2 * NDIM + 1) ∧
      (∀ nnz : List Int × List Int,
        countVisit NDIM 2 (i_lower num_dofs_per_proc mpi_rank) (i_upper num_dofs_per_proc mpi_rank)
            (n_local num_dofs_per_proc mpi_rank) (n_total num_dofs_per_proc)
            (fun j => v.1.dof_index_data.data j v.2.2) v.2.1 nnz
          = (nnz.1.modify
              (fun x => min (n_local num_dofs_per_proc mpi_rank) (x +
                (sv.cols.countP (isLocal (i_lower num_dofs_per_proc mpi_rank)
            (i_upper num_dofs_per_proc mpi_rank)) : Int)))
              (g - i_lower num_dofs_per_proc mpi_rank).toNat,
             nnz.2.modify
              (fun x => min (n_total num_dofs_per_proc - n_local num_dofs_per_proc mpi_rank) (x +
                (sv.cols.countP (fun c => !isLocal (i_lower num_dofs_per_proc mpi_rank)
            (i_upper num_dofs_per_proc mpi_rank) c) : Int)))
              (g - i_lower num_dofs_per_proc mpi_rank).toNat)) ∧
      mat.d_nnz[(g - i_lower num_dofs_per_proc mpi_rank).toNat]?
        = some (min (n_local num_dofs_per_proc mpi_rank)
          (sv.cols.countP (isLocal (i_lower num_dofs_per_proc mpi_rank)
            (i_upper num_dofs_per_proc mpi_rank)) : Int)) ∧
      mat.o_nnz[(g - i_lower num_dofs_per_proc mpi_rank).toNat]?
        = some (min (n_total num_dofs_per_proc - n_local num_dofs_per_proc mpi_rank)
          (sv.cols.countP (fun c => !isLocal (i_lower num_dofs_per_proc mpi_rank)
            (i_upper num_dofs_per_proc mpi_rank) c) : Int)) ∧
      ((sv.cols.countP (isLocal (i_lower num_dofs_per_proc mpi_rank)
            (i_upper num_dofs_per_proc mpi_rank)) : Int)
          ≤ n_local num_dofs_per_proc mpi_rank →
        mat.d_nnz[(g - i_lower num_dofs_per_proc mpi_rank).toNat]?
          = some (sv.cols.countP (isLocal (i_lower num_dofs_per_proc mpi_rank)
            (i_upper num_dofs_per_proc mpi_rank)) : Int)) ∧
      ((sv.cols.countP (fun c => !isLocal (i_lower num_dofs_per_proc mpi_rank)
            (i_upper num_dofs_per_proc mpi_rank) c) : Int)
          ≤ n_total num_dofs_per_proc - n_local num_dofs_per_proc mpi_rank →
        mat.o_nnz[(g - i_lower num_dofs_per_proc mpi_rank).toNat]?
          = some (sv.cols.countP (fun c => !isLocal (i_lower num_dofs_per_proc mpi_rank)
            (i_upper num_dofs_per_proc mpi_rank) c) : Int)) := by
  obtain ⟨hcount, hset, _⟩ := ccComplexLaplaceOp_ok NDIM computeCCComplexMatrixCoefficients
    poisson_spec_real poisson_spec_imag bc_coefs data_time num_dofs_per_proc mpi_rank
    patch_level mat h
  rw [hdepth] at hset hcount
  have hk : (((g - i_lower num_dofs_per_proc mpi_rank).toNat : Nat) : Int)
      < n_local num_dofs_per_proc mpi_rank := by
    have hg' := hg
    simp only [isLocal, i_upper, decide_eq_true_eq] at hg'
    omega
  obtain ⟨hrd, hro⟩ := ccCountPass_row NDIM 2 2 (i_lower num_dofs_per_proc mpi_rank)
    (i_upper num_dofs_per_proc mpi_rank) (n_local num_dofs_per_proc mpi_rank)
    (n_total num_dofs_per_proc) patch_level (mat.d_nnz, mat.o_nnz) hcount
    (g - i_lower num_dofs_per_proc mpi_rank).toNat hk
  simp only at hrd hro
  generalize i_lower num_dofs_per_proc mpi_rank = il at hset hpair hg hrd hro ⊢
  generalize i_upper num_dofs_per_proc mpi_rank = iu at hset hpair hg hrd hro ⊢
  have heven : evenComponents 2 = [0] := rfl
  -- the holder of the row
  have hvmem : v ∈ (ccVisits 2 patch_level).filter
      (fun u => decide (u.1.dof_index_data.data u.2.1 u.2.2 = g)) := by
    rw [huniq]
    exact List.mem_singleton.mpr rfl
  have hvg : v.1.dof_index_data.data v.2.1 v.2.2 = g := by
    simpa using (List.mem_filter.mp hvmem).2
  obtain ⟨hvp, hvi, hvd⟩ := (mem_ccVisits_iff 2 patch_level v).mp (List.mem_filter.mp hvmem).1
  have hc : v.2.2 = 0 ∨ v.2.2 = 1 := by omega
  have hvloc : isLocal il iu (v.1.dof_index_data.data v.2.1 v.2.2) = true := by
    rw [hvg]
    exact hg
  have honly : ∀ u : Patch (CellData Int) × Index × Nat, u ∈ ccVisits 2 patch_level →
      u.1.dof_index_data.data u.2.1 u.2.2 = g → u = v := by
    intro u hu hug
    have : u ∈ (ccVisits 2 patch_level).filter
        (fun u => decide (u.1.dof_index_data.data u.2.1 u.2.2 = g)) :=
      List.mem_filter.mpr ⟨hu, by simpa using hug⟩
    rw [huniq] at this
    exact List.mem_singleton.mp this
  -- the visits of the row in the counting pass
  have hrow : ccRowVisits 2 patch_level il iu (g - il).toNat
      = [((fun j => v.1.dof_index_data.data j v.2.2), v.2.1)] := by
    unfold ccRowVisits
    rw [List.filter_map]
    have : (visitsRow il iu (g - il).toNat ∘
          fun (v : Patch (CellData Int) × Index × Nat) =>
            ((fun j => v.1.dof_index_data.data j v.2.2), v.2.1))
        = fun u => decide (u.1.dof_index_data.data u.2.1 u.2.2 = g) := by
      funext u
      simp only [Function.comp_apply]
      rw [visitsRow_iff _ _ g hg]
    rw [this, huniq]
    rfl
  obtain ⟨k1, k2, k3⟩ := ccComplexCols_counts NDIM il iu v.1.dof_index_data v.2.1 v.2.2 hc
    (hpair v.1 hvp) hvloc
  constructor
  · -- an insertion is made for the row
    have h0loc : isLocal il iu (v.1.dof_index_data.data v.2.1 0) = true := by
      rcases hc with h0 | h1
      · rw [← h0]
        exact hvloc
      · rw [hpair v.1 hvp, ← h1]
        exact hvloc
    have hw : (v.1, v.2.1, 0) ∈ (ccComplexVisits 2 patch_level).filter
        (fun v => isLocal il iu (v.1.dof_index_data.data v.2.1 v.2.2)) := by
      refine List.mem_filter.mpr ⟨?_, h0loc⟩
      rw [mem_ccComplexVisits_iff, heven]
      exact ⟨hvp, hvi, List.mem_singleton.mpr rfl⟩
    rcases hc with h0 | h1
    · refine ⟨ccComplexInsertionReal NDIM
        (computeCCComplexMatrixCoefficients v.1 (stencil NDIM) poisson_spec_real
          poisson_spec_imag bc_coefs data_time) v.1.dof_index_data v.2.1 0, ?_, ?_⟩
      · rw [hset]
        exact List.mem_flatMap.mpr ⟨(v.1, v.2.1, 0), hw, List.mem_cons_self _ _⟩
      · simp only [ccComplexInsertionReal]
        rw [← h0]
        exact hvg
    · refine ⟨ccComplexInsertionImag NDIM
        (computeCCComplexMatrixCoefficients v.1 (stencil NDIM) poisson_spec_real
          poisson_spec_imag bc_coefs data_time) v.1.dof_index_data v.2.1 0, ?_, ?_⟩
      · rw [hset]
        exact List.mem_flatMap.mpr
          ⟨(v.1, v.2.1, 0), hw, List.mem_cons_of_mem _ (List.mem_singleton.mpr rfl)⟩
      · simp only [ccComplexInsertionImag]
        rw [← hvg, h1]
  · intro sv hsv hrowg
    rw [hset, List.mem_flatMap] at hsv
    obtain ⟨w, hw, hsvw⟩ := hsv
    obtain ⟨hwv, _⟩ := List.mem_filter.mp hw
    obtain ⟨hwp, hwi, hwd⟩ := (mem_ccComplexVisits_iff 2 patch_level w).mp hwv
    rw [heven, List.mem_singleton] at hwd
    have hcols : sv.cols = ccComplexCols NDIM v.1.dof_index_data v.2.1 0 := by
      simp only [List.mem_cons, List.mem_singleton, List.not_mem_nil, or_false] at hsvw
      rcases hsvw with rfl | rfl
      · have hu : w = v := by
          apply honly w
          · rw [mem_ccVisits_iff]
            exact ⟨hwp, hwi, by omega⟩
          · exact hrowg
        simp only [ccComplexInsertionReal]
        rw [hwd, hu]
      · have hu : (w.1, w.2.1, w.2.2 + 1) = v := by
          apply honly (w.1, w.2.1, w.2.2 + 1)
          · rw [mem_ccVisits_iff]
            exact ⟨hwp, hwi, by simp only; omega⟩
          · exact hrowg
        simp only [ccComplexInsertionImag]
        rw [hwd, ← hu]
    have hd1 : mat.d_nnz[(g - il).toNat]?
        = some (min (n_local num_dofs_per_proc mpi_rank)
          ((ccComplexCols NDIM v.1.dof_index_data v.2.1 0).countP (isLocal il iu) : Int)) := by
      rw [hrd, hrow, k1]
      simp [dStep]
    have ho1 : mat.o_nnz[(g - il).toNat]?
        = some (min (n_total num_dofs_per_proc - n_local num_dofs_per_proc mpi_rank)
          ((ccComplexCols NDIM v.1.dof_index_data v.2.1 0).countP
            (fun c => !isLocal il iu c) : Int)) := by
      rw [hro, hrow, k2]
      simp [oStep]
    rw [hcols, hrow]
    refine ⟨rfl, ?_, ?_, k3, ?_, hd1, ho1, ?_, ?_⟩
    · rw [k1]
      simp [unclampedD]
    · rw [k2]
      simp [unclampedO]
    · intro nnz
      rw [k1, k2]
      have hloc : il ≤ g ∧ g < iu := by
        simpa only [isLocal, decide_eq_true_eq] using hg
      unfold countVisit
      simp only [hvg, hloc, and_self, if_true]
      rw [stencilLoop_eq]
      have hfold := foldl_classify 2 (g - il).toNat
        (fun j => isLocal il iu
          (v.1.dof_index_data.data (Index.add v.2.1 ((stencil NDIM).getD (j + 1) [])) v.2.2))
        (List.range (2 * NDIM)) (nnz.1.modify (· + 2) (g - il).toNat, nnz.2)
      simp only [isLocal, decide_eq_true_eq, ge_iff_le] at hfold ⊢
      rw [hfold]
      simp only [modify_modify_same, neighbourDofs, List.countP_map]
      congr 1
      · apply modify_congr
        intro x
        simp only [Function.comp_def, isLocal]
        congr 1
        ring
    · intro hle
      rw [hd1, min_eq_right hle]
    · intro hle
      rw [ho1, min_eq_right hle]

/-- On the complex example the two components are local together at every cell. -/
theorem exampleComplex_paired (patch : Patch (CellData Int))
    (hp : patch ∈ [exampleComplexPatch]) (j : Index) :
    isLocal (i_lower [2] 0) (i_upper [2] 0) (patch.dof_index_data.data j 0)
      = isLocal (i_lower [2] 0) (i_upper [2] 0) (patch.dof_index_data.data j 1) := by
  rw [List.mem_singleton.mp hp]
  have hl : i_lower [2] 0 = 0 := rfl
  have hu : i_upper [2] 0 = 2 := rfl
  rw [hl, hu]
  by_cases hj : j = [0, 0]
  · subst hj
    rfl
  · simp [exampleComplexPatch, exampleComplexDofs, hj, isLocal]

/-- On the complex example the two components are local together at every cell, also on
the partition `[2, 8]`. -/
theorem exampleComplex_paired_wide (patch : Patch (CellData Int))
    (hp : patch ∈ [exampleComplexPatch]) (j : Index) :
    isLocal (i_lower [2, 8] 0) (i_upper [2, 8] 0) (patch.dof_index_data.data j 0)
      = isLocal (i_lower [2, 8] 0) (i_upper [2, 8] 0) (patch.dof_index_data.data j 1) := by
  rw [List.mem_singleton.mp hp]
  have hl : i_lower [2, 8] 0 = 0 := rfl
  have hu : i_upper [2, 8] 0 = 2 := rfl
  rw [hl, hu]
  by_cases hj : j = [0, 0]
  · subst hj
    rfl
  · simp [exampleComplexPatch, exampleComplexDofs, hj, isLocal]

/-- Witness for C17: on the complex example patch, partition `[2]`, rank 0, row 0 is held
by the real component of the cell `(0, 0)` alone; an insertion is made for it, and for the
first insertion of the matrix the unclamped counts 2 and 8 are the numbers of local and
non-local columns, and the matrix is created with `d_nnz = min(2, 2)` for the row. On the
partition `[2, 8]` the clamp of `o_nnz` does not bind and the matrix is created with
`o_nnz = 8`, the number of non-local columns. -/
theorem cc_complex_predicted_counts_match_witness :
    [(), ()].length = 2 ∧
    constructPatchLevelCCComplexLaplaceOp 2 exampleComplexCoefs () () [(), ()] 0 [2] 0
        [exampleComplexPatch] = .ok exampleComplexMat ∧
    (ccVisits 2 [exampleComplexPatch]).filter
        (fun u => decide (u.1.dof_index_data.data u.2.1 u.2.2 = 0))
      = [(exampleComplexPatch, [0, 0], 0)] ∧
    (∃ sv ∈ exampleComplexMat.set_values, sv.row = 0) ∧
    unclampedD 2 2 (i_lower [2] 0) (i_upper [2] 0)
        (ccRowVisits 2 [exampleComplexPatch] (i_lower [2] 0) (i_upper [2] 0)
          (0 - i_lower [2] 0).toNat)
      = ((([0, -1, -1, -1, -1, 1, -1, -1, -1, -1] : List Int).countP
          (isLocal (i_lower [2] 0) (i_upper [2] 0)) : Nat) : Int) ∧
    exampleComplexMat.d_nnz[(0 - i_lower [2] 0).toNat]?
      = some (min (n_local [2] 0)
          ((([0, -1, -1, -1, -1, 1, -1, -1, -1, -1] : List Int).countP
            (isLocal (i_lower [2] 0) (i_upper [2] 0)) : Nat) : Int)) ∧
    constructPatchLevelCCComplexLaplaceOp 2 exampleComplexCoefs () () [(), ()] 0 [2, 8] 0
        [exampleComplexPatch] = .ok exampleComplexMatWide ∧
    exampleComplexMatWide.o_nnz[(0 - i_lower [2, 8] 0).toNat]?
      = some ((([0, -1, -1, -1, -1, 1, -1, -1, -1, -1] : List Int).countP
          (fun c => !isLocal (i_lower [2, 8] 0) (i_upper [2, 8] 0) c) : Nat) : Int) :=
  ⟨rfl, by rfl, by rfl,
   (cc_complex_predicted_counts_match 2 exampleComplexCoefs () () [(), ()] 0 [2] 0
      [exampleComplexPatch] exampleComplexMat rfl (by rfl) exampleComplex_paired 0
      (exampleComplexPatch, [0, 0], 0) (by rfl) (by rfl)).1,
   ((cc_complex_predicted_counts_match 2 exampleComplexCoefs () () [(), ()] 0 [2] 0
      [exampleComplexPatch] exampleComplexMat rfl (by rfl) exampleComplex_paired 0
      (exampleComplexPatch, [0, 0], 0) (by rfl) (by rfl)).2
      { row := 0, cols := [0, -1, -1, -1, -1, 1, -1, -1, -1, -1],
        vals := [0, 1, 2, 3, 4, 5, 6, 7, 8, 9] }
      (List.mem_cons_self _ _) rfl).2.1,
   ((cc_complex_predicted_counts_match 2 exampleComplexCoefs () () [(), ()] 0 [2] 0
      [exampleComplexPatch] exampleComplexMat rfl (by rfl) exampleComplex_paired 0
      (exampleComplexPatch, [0, 0], 0) (by rfl) (by rfl)).2
      { row := 0, cols := [0, -1, -1, -1, -1, 1, -1, -1, -1, -1],
        vals := [0, 1, 2, 3, 4, 5, 6, 7, 8, 9] }
      (List.mem_cons_self _ _) rfl).2.2.2.2.2.1,
   by rfl,
   ((cc_complex_predicted_counts_match 2 exampleComplexCoefs () () [(), ()] 0 [2, 8] 0
      [exampleComplexPatch] exampleComplexMatWide rfl (by rfl) exampleComplex_paired_wide 0
      (exampleComplexPatch, [0, 0], 0) (by rfl) (by rfl)).2
      { row := 0, cols := [0, -1, -1, -1, -1, 1, -1, -1, -1, -1],
        vals := [0, 1, 2, 3, 4, 5, 6, 7, 8, 9] }
      (List.mem_cons_self _ _) rfl).2.2.2.2.2.2.2.2 (by decide)⟩

/-! ### The tensor-product weights of the interpolation builder -/

/-- Multiplying a value by a list of factors one after the other. -/
theorem foldl_mul_eq_prod {α : Type} (f : α → ℚ) (l : List α) (v : ℚ) :
    l.foldl (fun v d => v * f d) v = v * (l.map f).prod := by
  induction l generalizing v with
  | nil => simp
  | cons a l ih =>
    simp only [List.foldl_cons, List.map_cons, List.prod_cons, ih]
    ring

/-- The loop over the points of a stencil box, with the running counter: entry
`idx + m` of the value buffer is multiplied by the weight of the `m`-th point and entry
`idx + m` of the column buffer is overwritten by its column. -/
theorem tensor_fold (g : Index → ℚ) (c : Index → Int) (bs : List Index) (vals : List ℚ)
    (cols : List Int) (idx : Nat) :
    (bs.foldl
        (fun (st : List ℚ × List Int × Nat) b =>
          (st.1.modify (fun v => v * g b) st.2.2, st.2.1.set st.2.2 (c b), st.2.2 + 1))
        (vals, cols, idx)).2.2 = idx + bs.length ∧
    (∀ m, (bs.foldl
        (fun (st : List ℚ × List Int × Nat) b =>
          (st.1.modify (fun v => v * g b) st.2.2, st.2.1.set st.2.2 (c b), st.2.2 + 1))
        (vals, cols, idx)).1[m]?
      = if idx ≤ m ∧ m < idx + bs.length then
          (vals[m]?).map (fun v => v * g (bs.getD (m - idx) []))
        else vals[m]?) ∧
    (∀ m, (bs.foldl
        (fun (st : List ℚ × List Int × Nat) b =>
          (st.1.modify (fun v => v * g b) st.2.2, st.2.1.set st.2.2 (c b), st.2.2 + 1))
        (vals, cols, idx)).2.1[m]?
      = if idx ≤ m ∧ m < idx + bs.length then
          (cols[m]?).map (fun _ => c (bs.getD (m - idx) []))
        else cols[m]?) := by
  induction bs generalizing vals cols idx with
  | nil =>
    refine ⟨rfl, ?_, ?_⟩
    · intro m
      have : ¬ (idx ≤ m ∧ m < idx + 0) := by omega
      simp only [List.foldl_nil, List.length_nil, this, if_false]
    · intro m
      have : ¬ (idx ≤ m ∧ m < idx + 0) := by omega
      simp only [List.foldl_nil, List.length_nil, this, if_false]
  | cons b rest ih =>
    obtain ⟨h1, h2, h3⟩ := ih (vals.modify (fun v => v * g b) idx) (cols.set idx (c b)) (idx + 1)
    simp only [List.foldl_cons, List.length_cons]
    refine ⟨by rw [h1]; omega, ?_, ?_⟩
    · intro m
      rw [h2 m, List.getElem?_modify]
      cases hv : vals[m]? with
      | none =>
        simp only [Option.map_none', Functor.map]
        split_ifs <;> rfl
      | some v =>
        simp only [Option.map_some', Functor.map, Option.map]
        by_cases hm : idx = m
        · subst hm
          have a1 : ¬ (idx + 1 ≤ idx ∧ idx < idx + 1 + rest.length) := by omega
          have a2 : idx ≤ idx ∧ idx < idx + (rest.length + 1) := by omega
          simp only [a1, a2, if_false, if_true, and_self, Nat.sub_self, List.getD_cons_zero]
        · by_cases hr : idx + 1 ≤ m ∧ m < idx + 1 + rest.length
          · have a2 : idx ≤ m ∧ m < idx + (rest.length + 1) := by omega
            have a3 : m - idx = (m - (idx + 1)) + 1 := by omega
            simp only [hr, a2, hm, if_false, if_true, and_self, a3, List.getD_cons_succ]
          · have a2 : ¬ (idx ≤ m ∧ m < idx + (rest.length + 1)) := by omega
            simp only [hr, a2, hm, if_false]
    · intro m
      rw [h3 m, getElem?_set_map]
      cases hv : cols[m]? with
      | none =>
        simp only [Option.map_none']
        split_ifs <;> rfl
      | some v =>
        simp only [Option.map_some']
        by_cases hm : idx = m
        · subst hm
          have a1 : ¬ (idx + 1 ≤ idx ∧ idx < idx + 1 + rest.length) := by omega
          have a2 : idx ≤ idx ∧ idx < idx + (rest.length + 1) := by omega
          simp only [a1, a2, if_false, if_true, and_self, Nat.sub_self, List.getD_cons_zero]
        · by_cases hr : idx + 1 ≤ m ∧ m < idx + 1 + rest.length
          · have a2 : idx ≤ m ∧ m < idx + (rest.length + 1) := by omega
            have a3 : m - idx = (m - (idx + 1)) + 1 := by omega
            simp only [hr, a2, hm, if_false, if_true, and_self, a3, List.getD_cons_succ,
              Option.map_some']
          · have a2 : ¬ (idx ≤ m ∧ m < idx + (rest.length + 1)) := by omega
            simp only [hr, a2, hm, if_false]

/-- The tensor-product loop over a stencil box whose number of points is the size of the
buffers: the value buffer ends up holding the tensor-product weights of the points and the
column buffer their DOF indices, in box order. -/
theorem interpTensor_eq (NDIM : Nat) (dof_index_data : SideData Int) (axis : Nat)
    (stencil_box_axis : Box) (w : List (List ℚ)) (n : Nat) (cols : List Int)
    (hn : stencil_box_axis.indices.length = n) (hcols : cols.length = n) :
    (interpTensor NDIM dof_index_data axis stencil_box_axis w (List.replicate n 1, cols, 0)).1
      = stencil_box_axis.indices.map (weightProd NDIM w stencil_box_axis.lower) ∧
    (interpTensor NDIM dof_index_data axis stencil_box_axis w
        (List.replicate n 1, cols, 0)).2.1
      = stencil_box_axis.indices.map (fun b => dof_index_data.data axis b 0) := by
  have hstep : interpTensor NDIM dof_index_data axis stencil_box_axis w
        (List.replicate n 1, cols, 0)
      = stencil_box_axis.indices.foldl
        (fun (st : List ℚ × List Int × Nat) b =>
          (st.1.modify (fun v => v * weightProd NDIM w stencil_box_axis.lower b) st.2.2,
           st.2.1.set st.2.2 (dof_index_data.data axis b 0), st.2.2 + 1))
        (List.replicate n 1, cols, 0) := by
    unfold interpTensor
    congr 1
    funext st b
    simp only
    rw [foldl_modify_same
      (fun d (v : ℚ) => v * (w.getD d []).getD
        (Index.comp b d - Index.comp stencil_box_axis.lower d).toNat 0)
      st.2.2 (List.range NDIM) st.1]
    congr 2
    funext v
    rw [foldl_mul_eq_prod]
    rfl
  obtain ⟨_, h2, h3⟩ := tensor_fold (weightProd NDIM w stencil_box_axis.lower)
    (fun b => dof_index_data.data axis b 0) stencil_box_axis.indices (List.replicate n 1)
    cols 0
  rw [hstep]
  constructor
  · apply List.ext_getElem?
    intro m
    rw [h2 m, List.getElem?_map, List.getElem?_replicate]
    by_cases hm : m < n
    · have a1 : 0 ≤ m ∧ m < 0 + stencil_box_axis.indices.length := by omega
      have a2 : m < stencil_box_axis.indices.length := by omega
      simp only [a1, and_self, if_true, hm, Option.map_some', one_mul, Nat.sub_zero,
        List.getD_eq_getElem?_getD, List.getElem?_eq_getElem a2, Option.getD_some]
    · have a1 : ¬ (0 ≤ m ∧ m < 0 + stencil_box_axis.indices.length) := by omega
      have a2 : stencil_box_axis.indices[m]? = none := List.getElem?_eq_none (by omega)
      simp only [a1, if_false, hm, a2, Option.map_none']
  · apply List.ext_getElem?
    intro m
    rw [h3 m, List.getElem?_map]
    by_cases hm : m < n
    · have a1 : 0 ≤ m ∧ m < 0 + stencil_box_axis.indices.length := by omega
      have a2 : m < stencil_box_axis.indices.length := by omega
      have a3 : m < cols.length := by omega
      simp only [a1, and_self, if_true, Option.map_some', Nat.sub_zero,
        List.getD_eq_getElem?_getD, List.getElem?_eq_getElem a2, List.getElem?_eq_getElem a3,
        Option.getD_some]
    · have a1 : ¬ (0 ≤ m ∧ m < 0 + stencil_box_axis.indices.length) := by omega
      have a2 : stencil_box_axis.indices[m]? = none := List.getElem?_eq_none (by omega)
      have a3 : cols[m]? = none := List.getElem?_eq_none (by omega)
      simp only [a1, if_false, a2, a3, Option.map_none']

/-- The sum over a `flatMap` of the kind that builds box indices. -/
theorem sum_flatMap_cons (G : Index → ℚ) (xs : List Int) (L : List Index) :
    ((L.flatMap (fun rest => xs.map (fun x => x :: rest))).map G).sum
      = (L.map (fun rest => (xs.map (fun x => G (x :: rest))).sum)).sum := by
  induction L with
  | nil => simp
  | cons a L ih =>
    simp only [List.flatMap_cons, List.map_append, List.sum_append, List.map_cons,
      List.sum_cons, ih, List.map_map, Function.comp_def]

/-- The sum over the points of a box of a product of one factor per direction is the product
over the directions of the sums of the factors. -/
theorem sum_boxIndices_prod (lo up : List Int) (F : Nat → Int → ℚ)
    (hlen : lo.length = up.length) :
    ((boxIndices lo up).map
        (fun b => ((List.range lo.length).map (fun d => F d (b.getD d 0))).prod)).sum
      = ((List.range lo.length).map
          (fun d => ((intRange (lo.getD d 0) (up.getD d 0)).map (F d)).sum)).prod := by
  induction lo generalizing up F with
  | nil =>
    cases up with
    | nil => simp [boxIndices]
    | cons u us => simp at hlen
  | cons l ls ih =>
    cases up with
    | nil => simp at hlen
    | cons u us =>
      simp only [List.length_cons, add_left_inj] at hlen
      have hih := ih us (fun d => F (d + 1)) hlen
      simp only [boxIndices, List.length_cons]
      rw [sum_flatMap_cons, List.range_succ_eq_map]
      simp only [List.map_cons, List.prod_cons, List.map_map, Function.comp_def,
        List.getD_cons_zero, List.getD_cons_succ]
      have hinner : ∀ rest : Index,
          ((intRange l u).map (fun x =>
            F 0 x * ((List.range ls.length).map
              (fun d => F (d + 1) (rest.getD d 0))).prod)).sum
          = ((intRange l u).map (F 0)).sum
            * ((List.range ls.length).map (fun d => F (d + 1) (rest.getD d 0))).prod := by
        intro rest
        rw [List.sum_map_mul_right]
      simp only [hinner]
      rw [List.sum_map_mul_left, hih]

/-- The integers of a range, as a list mapped from the naturals. -/
theorem intRange_eq (lo hi : Int) :
    intRange lo hi = (List.range (hi + 1 - lo).toNat).map (fun k : Nat => lo + (k : Int)) := by
  unfold intRange
  generalize List.range (hi + 1 - lo).toNat = l
  induction l with
  | nil => rfl
  | cons a l ih =>
    simp only [List.map_cons] at ih ⊢
    rw [← ih]
    rfl

/-- The number of points of a box. -/
theorem boxIndices_length (lo up : List Int) (hlen : lo.length = up.length) :
    (boxIndices lo up).length
      = ((List.range lo.length).map
          (fun d => (up.getD d 0 + 1 - lo.getD d 0).toNat)).prod := by
  induction lo generalizing up with
  | nil =>
    cases up with
    | nil => simp [boxIndices]
    | cons u us => simp at hlen
  | cons l ls ih =>
    cases up with
    | nil => simp at hlen
    | cons u us =>
      simp only [List.length_cons, add_left_inj] at hlen
      have hih := ih us hlen
      simp only [boxIndices, List.length_cons]
      rw [List.range_succ_eq_map]
      simp only [List.map_cons, List.prod_cons, List.map_map, Function.comp_def,
        List.getD_cons_zero, List.getD_cons_succ, ← hih]
      have hxs : (intRange l u).length = (u + 1 - l).toNat := by
        rw [intRange_eq]
        simp
      generalize intRange l u = xs at hxs
      generalize boxIndices ls us = L
      induction L with
      | nil => simp
      | cons a L ihL =>
        simp only [List.flatMap_cons, List.length_append, List.length_map, ihL,
          List.length_cons, hxs]
        ring

/-- The three-branch loop keeps the lengths of the corners of the box. -/
theorem stencilBoxAxis_lengths (NDIM : Nat) (s : Int) (X X_cell : List ℚ) (X_idx : Index)
    (axis : Nat) (b : Box) :
    (stencilBoxAxis NDIM s X X_cell X_idx axis b).lower.length = b.lower.length ∧
    (stencilBoxAxis NDIM s X X_cell X_idx axis b).upper.length = b.upper.length := by
  unfold stencilBoxAxis
  refine foldl_invariant
    (fun (c : Box) => c.lower.length = b.lower.length ∧ c.upper.length = b.upper.length)
    _ ?_ _ _ ⟨rfl, rfl⟩
  intro c d hc
  dsimp only
  split_ifs <;> simpa using hc

/-- For an even width every side of the stencil box has `s` points. -/
theorem stencilBox_width (NDIM : Nat) (s : Int) (hs : s.tmod 2 = 0) (X X_cell : List ℚ)
    (X_idx : Index) (axis d : Nat) (hd : d < NDIM) :
    Index.comp (stencilBoxAxis NDIM s X X_cell X_idx axis (Box.emptyBox NDIM)).upper d + 1
      - Index.comp (stencilBoxAxis NDIM s X X_cell X_idx axis (Box.emptyBox NDIM)).lower d
      = s := by
  obtain ⟨h1, h2⟩ := stencilBoxAxis_comp NDIM s X X_cell X_idx axis (Box.emptyBox NDIM)
    (by simp [Box.emptyBox]) (by simp [Box.emptyBox]) d hd
  rw [h1, h2]
  have h := Int.tmod_add_tdiv s 2
  rw [hs] at h
  unfold stencilLower stencilUpper
  split
  · omega
  · split
    · omega
    · omega

/-- For an even non-negative width the stencil box has `s ^ NDIM` points. -/
theorem stencilBox_card (NDIM : Nat) (s : Int) (hs : s.tmod 2 = 0) (X X_cell : List ℚ)
    (X_idx : Index) (axis : Nat) :
    (stencilBoxAxis NDIM s X X_cell X_idx axis (Box.emptyBox NDIM)).indices.length
      = s.toNat ^ NDIM := by
  obtain ⟨l1, l2⟩ := stencilBoxAxis_lengths NDIM s X X_cell X_idx axis (Box.emptyBox NDIM)
  have e1 : (Box.emptyBox NDIM).lower.length = NDIM := by simp [Box.emptyBox]
  have e2 : (Box.emptyBox NDIM).upper.length = NDIM := by simp [Box.emptyBox]
  rw [e1] at l1
  rw [e2] at l2
  unfold Box.indices
  rw [boxIndices_length _ _ (by rw [l1, l2]), l1]
  have hmap : (List.range NDIM).map
        (fun d => ((stencilBoxAxis NDIM s X X_cell X_idx axis (Box.emptyBox NDIM)).upper.getD d 0
          + 1
          - (stencilBoxAxis NDIM s X X_cell X_idx axis (Box.emptyBox NDIM)).lower.getD d 0).toNat)
      = (List.range NDIM).map (fun _ => s.toNat) := by
    apply List.map_congr_left
    intro d hd
    have := stencilBox_width NDIM s hs X X_cell X_idx axis d (List.mem_range.mp hd)
    unfold Index.comp at this
    rw [this]
  rw [hmap]
  simp [List.prod_replicate]

/-- The buffer size `stencil_box_nvals` computed by the fill pass is `s ^ NDIM`. -/
theorem stencil_box_nvals_eq (NDIM : Nat) (s : Int) (hs : 0 ≤ s) :
    ((List.range NDIM).foldl (fun (n : Int) _ => n * s) 1).toNat = s.toNat ^ NDIM := by
  have h : ∀ m : Nat, (List.range m).foldl (fun (n : Int) _ => n * s) 1 = s ^ m := by
    intro m
    induction m with
    | zero => simp
    | succ m ih =>
      rw [List.range_succ, List.foldl_append, ih]
      simp [pow_succ]
  rw [h]
  have hs' : s = ((s.toNat : Nat) : Int) := by omega
  rw [hs']
  simp only [Int.toNat_ofNat]
  exact_mod_cast Int.toNat_ofNat (s.toNat ^ NDIM)

/-- Reading a list entry by entry gives the list back. -/
theorem map_getD_range (l : List ℚ) : (List.range l.length).map (fun j => l.getD j 0) = l := by
  apply List.ext_getElem?
  intro m
  rw [List.getElem?_map]
  by_cases hm : m < l.length
  · rw [List.getElem?_range hm]
    simp [List.getD_eq_getElem?_getD, List.getElem?_eq_getElem hm]
  · rw [List.getElem?_eq_none (by simpa using hm), List.getElem?_eq_none (by omega)]
    rfl

/-- The sum of the tensor-product weights over a box is the product over the directions of
the sums of the 1-D weights over the width of the box. -/
theorem sum_weightProd (NDIM : Nat) (w : List (List ℚ)) (box : Box)
    (hl : box.lower.length = NDIM) (hu : box.upper.length = NDIM) :
    (box.indices.map (weightProd NDIM w box.lower)).sum
      = ((List.range NDIM).map
          (fun d => ((List.range
              (Index.comp box.upper d + 1 - Index.comp box.lower d).toNat).map
            (fun j => (w.getD d []).getD j 0)).sum)).prod := by
  have h := sum_boxIndices_prod box.lower box.upper
    (fun d x => (w.getD d []).getD (x - Index.comp box.lower d).toNat 0) (by rw [hl, hu])
  rw [hl] at h
  unfold Box.indices weightProd
  unfold Index.comp at h ⊢
  rw [h]
  congr 1
  apply List.map_congr_left
  intro d _
  rw [intRange_eq, List.map_map]
  congr 1
  apply List.map_congr_left
  intro j _
  simp only [Function.comp_apply]
  congr 1
  omega

/-- A fold that appends. -/
theorem foldl_append_flatMap {α β : Type} (f : α → List β) (l : List α) (init : List β) :
    l.foldl (fun acc k => acc ++ f k) init = init ++ l.flatMap f := by
  induction l generalizing init with
  | nil => simp
  | cons a l ih =>
    simp only [List.foldl_cons, List.flatMap_cons, ih, List.append_assoc]

/-- The loop over the components in the fill pass of the interpolation builder, for one
sample point whose stencil boxes all have as many points as the buffers have slots. -/
theorem interpFill_axes (NDIM : Nat) (interp_fcn : ℚ → List ℚ → List ℚ) (s : Int)
    (i_lower : Int) (X dx x_lower : List ℚ) (domain_lower : Index)
    (dof_index_data : SideData Int) (boxes : List Box) (k n : Nat)
    (hbox : ∀ axis, axis < NDIM → (boxes.getD axis (Box.emptyBox NDIM)).indices.length = n)
    (vals0 : List ℚ) (cols0 : List Int) (hv : vals0.length = n) (hc : cols0.length = n)
    (sets : List SetValues) (m : Nat) (hm : m ≤ NDIM) :
    ∃ (W : List (List ℚ)) (V : List ℚ) (C : List Int) (S : List SetValues),
      (List.range m).foldl
        (fun (st : List (List ℚ) × List ℚ × List Int × List SetValues) axis =>
          (interpWeights NDIM interp_fcn X dx x_lower domain_lower axis
              (boxes.getD axis (Box.emptyBox NDIM)).lower st.1,
            (interpTensor NDIM dof_index_data axis (boxes.getD axis (Box.emptyBox NDIM))
              (interpWeights NDIM interp_fcn X dx x_lower domain_lower axis
                (boxes.getD axis (Box.emptyBox NDIM)).lower st.1)
              (List.replicate st.2.1.length 1, st.2.2.1, 0)).1,
            (interpTensor NDIM dof_index_data axis (boxes.getD axis (Box.emptyBox NDIM))
              (interpWeights NDIM interp_fcn X dx x_lower domain_lower axis
                (boxes.getD axis (Box.emptyBox NDIM)).lower st.1)
              (List.replicate st.2.1.length 1, st.2.2.1, 0)).2.1,
            st.2.2.2 ++
              [{ row := i_lower + ((NDIM * k + axis : Nat) : Int),
                 cols := (interpTensor NDIM dof_index_data axis
                   (boxes.getD axis (Box.emptyBox NDIM))
                   (interpWeights NDIM interp_fcn X dx x_lower domain_lower axis
                     (boxes.getD axis (Box.emptyBox NDIM)).lower st.1)
                   (List.replicate st.2.1.length 1, st.2.2.1, 0)).2.1,
                 vals := (interpTensor NDIM dof_index_data axis
                   (boxes.getD axis (Box.emptyBox NDIM))
                   (interpWeights NDIM interp_fcn X dx x_lower domain_lower axis
                     (boxes.getD axis (Box.emptyBox NDIM)).lower st.1)
                   (List.replicate st.2.1.length 1, st.2.2.1, 0)).1 }]))
        (List.replicate NDIM (List.replicate s.toNat (0 : ℚ)), vals0, cols0, sets)
        = (W, V, C, S) ∧
      W = (List.range m).foldl
        (fun w a => interpWeights NDIM interp_fcn X dx x_lower domain_lower a
          (boxes.getD a (Box.emptyBox NDIM)).lower w)
        (List.replicate NDIM (List.replicate s.toNat (0 : ℚ))) ∧
      V.length = n ∧ C.length = n ∧
      S = sets ++ (List.range m).map
        (interpInsertion NDIM interp_fcn s i_lower X dx x_lower domain_lower dof_index_data
          boxes k) := by
  induction m with
  | zero =>
    exact ⟨_, _, _, _, rfl, rfl, hv, hc, by simp⟩
  | succ m ih =>
    obtain ⟨W, V, C, S, hfold, hW, hV, hC, hS⟩ := ih (by omega)
    rw [List.range_succ, List.foldl_append, hfold]
    simp only [List.foldl_cons, List.foldl_nil]
    obtain ⟨t1, t2⟩ := interpTensor_eq NDIM dof_index_data m
      (boxes.getD m (Box.emptyBox NDIM))
      (interpWeights NDIM interp_fcn X dx x_lower domain_lower m
        (boxes.getD m (Box.emptyBox NDIM)).lower W)
      n C (hbox m (by omega)) hC
    rw [hV, t1, t2]
    refine ⟨_, _, _, _, rfl, ?_, ?_, ?_, ?_⟩
    · rw [List.foldl_append, ← hW]
      rfl
    · rw [List.length_map]
      exact hbox m (by omega)
    · rw [List.length_map]
      exact hbox m (by omega)
    · rw [hS, List.map_append, List.append_assoc]
      congr 1
      congr 1
      simp only [List.map_cons, List.map_nil, interpInsertion, interpRowVals, interpWeightsAt]
      rw [List.range_succ, List.foldl_append, ← hW]
      rfl

/-- The fill pass at sample point `k`, once the patch is found with depth 1 and the width is
non-negative: it appends, component by component, the insertions `interpInsertion`. -/
theorem interpFillPoint_ok (NDIM : Nat) (interp_fcn : ℚ → List ℚ → List ℚ) (s : Int)
    (i_lower : Int) (X_arr : List ℚ) (patch_level : PatchLevel) (dx : List ℚ) (domain_box : Box)
    (count : InterpCount) (set_values : List SetValues) (k : Nat)
    (patch : Patch (SideData Int))
    (hp : getPatch patch_level.patches (count.patch_id.getD k (-1)) = .ok patch)
    (hdepth : patch.dof_index_data.depth = 1) (hs0 : 0 ≤ s)
    (hbox : ∀ axis, axis < NDIM →
      ((count.stencil_box.getD k []).getD axis (Box.emptyBox NDIM)).indices.length
        = s.toNat ^ NDIM) :
    interpFillPoint NDIM interp_fcn s i_lower X_arr patch_level dx domain_box count
        set_values k
      = .ok (set_values ++ (List.range NDIM).map
          (interpInsertion NDIM interp_fcn s i_lower (X_arr.drop (NDIM * k)) dx
            patch_level.x_lower domain_box.lower patch.dof_index_data
            (count.stencil_box.getD k []) k)) := by
  have hn := stencil_box_nvals_eq NDIM s hs0
  have hpow : ∀ m : Nat, (0 : Int) ≤ (List.range m).foldl (fun (n : Int) _ => n * s) 1 := by
    intro m
    induction m with
    | zero => simp
    | succ m ih =>
      rw [List.range_succ, List.foldl_append]
      simp only [List.foldl_cons, List.foldl_nil]
      positivity
  have hneg : ¬ (s < 0 ∨ (List.range NDIM).foldl (fun (n : Int) _ => n * s) 1 < 0) := by
    have := hpow NDIM
    omega
  unfold interpFillPoint
  simp only [hp, hdepth, ne_eq, not_true_eq_false, if_false, hneg]
  obtain ⟨W, V, C, S, hfold, _, _, _, hS⟩ := interpFill_axes NDIM interp_fcn s i_lower
    (X_arr.drop (NDIM * k)) dx patch_level.x_lower domain_box.lower patch.dof_index_data
    (count.stencil_box.getD k []) k (s.toNat ^ NDIM) hbox
    (List.replicate ((List.range NDIM).foldl (fun (n : Int) _ => n * s) 1).toNat 0)
    (List.replicate ((List.range NDIM).foldl (fun (n : Int) _ => n * s) 1).toNat 0)
    (by rw [List.length_replicate, hn]) (by rw [List.length_replicate, hn])
    set_values NDIM (le_refl _)
  rw [hfold, hS]

/-- A successful visit of sample point `k` by the fill pass appends, component by component,
the insertions whose rows and values are `interpRowVals`. -/
theorem interpFillPoint_vals (NDIM : Nat) (interp_fcn : ℚ → List ℚ → List ℚ) (s : Int)
    (i_lower : Int) (X_arr : List ℚ) (patch_level : PatchLevel) (dx : List ℚ) (domain_box : Box)
    (count : InterpCount) (set_values sets : List SetValues) (k : Nat)
    (hbox : ∀ axis, axis < NDIM →
      ((count.stencil_box.getD k []).getD axis (Box.emptyBox NDIM)).indices.length
        = s.toNat ^ NDIM)
    (h : interpFillPoint NDIM interp_fcn s i_lower X_arr patch_level dx domain_box count
      set_values k = .ok sets) :
    sets.map (fun sv => (sv.row, sv.vals))
      = set_values.map (fun sv => (sv.row, sv.vals))
        ++ (List.range NDIM).map
          (interpRowVals NDIM interp_fcn s i_lower (X_arr.drop (NDIM * k)) dx
            patch_level.x_lower domain_box.lower (count.stencil_box.getD k []) k) := by
  have h' := h
  unfold interpFillPoint at h'
  simp only at h'
  split at h'
  · cases h'
  · rename_i patch hp
    split at h'
    · cases h'
    · rename_i hdepth
      split at h'
      · cases h'
      · rename_i hneg
        have hs0 : 0 ≤ s := by
          by_contra hc
          exact hneg (Or.inl (by omega))
        have hd1 : patch.dof_index_data.depth = 1 := by
          by_contra hc
          exact hdepth hc
        rw [interpFillPoint_ok NDIM interp_fcn s i_lower X_arr patch_level dx domain_box count
          set_values k patch hp hd1 hs0 hbox] at h
        cases h
        rw [List.map_append, List.map_map]
        rfl

/-- A successful monadic fold whose steps, at the members of the list, act on a projection of
the state by a pure function acts on the projection by the pure fold. -/
theorem foldlM_proj_mem {σ α β : Type} (proj : σ → β) (g : β → α → β)
    (f : σ → α → Except Failure σ) (l : List α)
    (hf : ∀ s a s', a ∈ l → f s a = .ok s' → proj s' = g (proj s) a) (s s' : σ)
    (h : l.foldlM f s = .ok s') : proj s' = l.foldl g (proj s) := by
  induction l generalizing s with
  | nil =>
    simp only [List.foldlM_nil, pure, Except.pure] at h
    cases h
    rfl
  | cons a l ih =>
    rw [List.foldlM_cons] at h
    cases hs1 : f s a with
    | error e =>
      simp only [hs1, bind, Except.bind] at h
      cases h
    | ok s1 =>
      simp only [hs1, bind, Except.bind] at h
      rw [List.foldl_cons, ← hf s a s1 (List.mem_cons_self _ _) hs1]
      exact ih (fun s a s' ha => hf s a s' (List.mem_cons_of_mem _ ha)) s1 h

/-- The rows and values of the insertions recorded by a successful fill pass of the
interpolation builder, sample point by sample point and component by component. -/
theorem interpFillPass_vals (NDIM : Nat) (interp_fcn : ℚ → List ℚ → List ℚ) (s : Int)
    (i_lower : Int) (X_arr : List ℚ) (patch_level : PatchLevel) (dx : List ℚ) (domain_box : Box)
    (count : InterpCount) (n : Nat) (sets : List SetValues)
    (hbox : ∀ k axis, k < n → axis < NDIM →
      ((count.stencil_box.getD k []).getD axis (Box.emptyBox NDIM)).indices.length
        = s.toNat ^ NDIM)
    (h : (List.range n).foldlM
      (interpFillPoint NDIM interp_fcn s i_lower X_arr patch_level dx domain_box count) []
      = .ok sets) :
    sets.map (fun sv => (sv.row, sv.vals))
      = (List.range n).flatMap (fun k =>
          (List.range NDIM).map
            (interpRowVals NDIM interp_fcn s i_lower (X_arr.drop (NDIM * k)) dx
              patch_level.x_lower domain_box.lower (count.stencil_box.getD k []) k)) := by
  have hp := foldlM_proj_mem (fun (S : List SetValues) => S.map (fun sv => (sv.row, sv.vals)))
    (fun acc k => acc ++ (List.range NDIM).map
      (interpRowVals NDIM interp_fcn s i_lower (X_arr.drop (NDIM * k)) dx
        patch_level.x_lower domain_box.lower (count.stencil_box.getD k []) k))
    (interpFillPoint NDIM interp_fcn s i_lower X_arr patch_level dx domain_box count)
    (List.range n)
    (fun S k S' hkm hk => interpFillPoint_vals NDIM interp_fcn s i_lower X_arr patch_level dx
      domain_box count S S' k (fun axis => hbox k axis (List.mem_range.mp hkm)) hk)
    [] sets h
  simp only at hp
  rw [hp, foldl_append_flatMap]
  simp

/-- The weights loop keeps the number of buffers and replaces buffer `d` by what
`interp_fcn` returns for it. -/
theorem interpWeights_getD (NDIM : Nat) (interp_fcn : ℚ → List ℚ → List ℚ) (X : List ℚ)
    (dx x_lower : List ℚ) (domain_lower : Index) (axis : Nat) (stencil_box_lower : Index)
    (w : List (List ℚ)) (hw : w.length = NDIM) :
    (interpWeights NDIM interp_fcn X dx x_lower domain_lower axis stencil_box_lower w).length
      = NDIM ∧
    ∀ d, d < NDIM →
      (interpWeights NDIM interp_fcn X dx x_lower domain_lower axis stencil_box_lower w).getD d []
        = interp_fcn (interpArg X dx x_lower domain_lower axis stencil_box_lower d)
            (w.getD d []) := by
  rw [interpWeights_eq]
  constructor
  · refine foldl_invariant (fun (v : List (List ℚ)) => v.length = NDIM) _ ?_ _ _ hw
    intro v d hv
    simp only [List.length_modify]
    exact hv
  · intro d hd
    rw [List.getD_eq_getElem?_getD,
      foldl_modify_self_range
        (fun d => interp_fcn (interpArg X dx x_lower domain_lower axis stencil_box_lower d))]
    have hd' : d < w.length := by omega
    simp only [hd, if_true, List.getElem?_eq_getElem hd', Option.map_some', Option.getD_some,
      List.getD_eq_getElem?_getD]

/-- The weights in use at a component are outputs of `interp_fcn`; if `interp_fcn` keeps the
length of a buffer of `s` entries, they are outputs for buffers of `s` entries and have `s`
entries themselves. -/
theorem interpWeightsAt_kernel (NDIM : Nat) (interp_fcn : ℚ → List ℚ → List ℚ) (s : Int)
    (X dx x_lower : List ℚ) (domain_lower : Index) (boxes : List Box) (axis : Nat)
    (hlen : ∀ r w0, w0.length = s.toNat → (interp_fcn r w0).length = s.toNat)
    (d : Nat) (hd : d < NDIM) :
    ((interpWeightsAt NDIM interp_fcn s X dx x_lower domain_lower boxes axis).getD d []).length
      = s.toNat ∧
    ∃ r w0, w0.length = s.toNat ∧
      (interpWeightsAt NDIM interp_fcn s X dx x_lower domain_lower boxes axis).getD d []
        = interp_fcn r w0 := by
  have hall : ∀ m : Nat,
      ((List.range m).foldl
        (fun w a => interpWeights NDIM interp_fcn X dx x_lower domain_lower a
          (boxes.getD a (Box.emptyBox NDIM)).lower w)
        (List.replicate NDIM (List.replicate s.toNat (0 : ℚ)))).length = NDIM ∧
      ∀ d, d < NDIM →
        (((List.range m).foldl
          (fun w a => interpWeights NDIM interp_fcn X dx x_lower domain_lower a
            (boxes.getD a (Box.emptyBox NDIM)).lower w)
          (List.replicate NDIM (List.replicate s.toNat (0 : ℚ)))).getD d []).length
          = s.toNat := by
    intro m
    induction m with
    | zero =>
      refine ⟨by simp, ?_⟩
      intro d hd
      simp [List.getD_eq_getElem?_getD, List.getElem?_replicate, hd]
    | succ m ih =>
      obtain ⟨h1, h2⟩ := ih
      rw [List.range_succ, List.foldl_append]
      simp only [List.foldl_cons, List.foldl_nil]
      obtain ⟨g1, g2⟩ := interpWeights_getD NDIM interp_fcn X dx x_lower domain_lower m
        (boxes.getD m (Box.emptyBox NDIM)).lower _ h1
      refine ⟨g1, ?_⟩
      intro d hd
      rw [g2 d hd]
      exact hlen _ _ (h2 d hd)
  obtain ⟨a1, a2⟩ := hall axis
  unfold interpWeightsAt
  rw [List.range_succ, List.foldl_append]
  simp only [List.foldl_cons, List.foldl_nil]
  obtain ⟨_, g2⟩ := interpWeights_getD NDIM interp_fcn X dx x_lower domain_lower axis
    (boxes.getD axis (Box.emptyBox NDIM)).lower _ a1
  rw [g2 d hd]
  exact ⟨hlen _ _ (a2 d hd), _, _, a2 d hd, rfl⟩

/-- What a successful run of `constructPatchLevelSCInterpOp` went through: one domain box, a
successful counting pass started from empty boxes, and a successful fill pass. -/
theorem interpOp_ok (NDIM : Nat)
    (getCellIndex : List ℚ → List ℚ → List ℚ → List ℚ → Index → Index → Index)
    (interp_fcn : ℚ → List ℚ → List ℚ) (N : Int) (X_vec : Vec)
    (num_dofs_per_proc : List Int) (mpi_rank : Nat) (patch_level : PatchLevel) (op : InterpOp)
    (h : constructPatchLevelSCInterpOp NDIM getCellIndex interp_fcn N X_vec num_dofs_per_proc
      mpi_rank patch_level = .ok op) :
    ∃ (domain_box : Box) (init count : InterpCount),
      patch_level.domain_boxes = [domain_box] ∧
      init.stencil_box = List.replicate (X_vec.local_size.tdiv (NDIM : Int)).toNat
        (List.replicate NDIM (Box.emptyBox NDIM)) ∧
      interpCountPass NDIM getCellIndex (roundInterpStencil N)
        (i_lower num_dofs_per_proc mpi_rank)
        (i_lower num_dofs_per_proc mpi_rank + n_local num_dofs_per_proc mpi_rank)
        (n_local num_dofs_per_proc mpi_rank) (n_total num_dofs_per_proc) X_vec.array
        patch_level (levelDx NDIM patch_level.dx0 patch_level.ratio_to_level_zero) domain_box
        (X_vec.local_size.tdiv (NDIM : Int)) init = .ok count ∧
      (List.range (X_vec.local_size.tdiv (NDIM : Int)).toNat).foldlM
        (interpFillPoint NDIM interp_fcn (roundInterpStencil N) X_vec.ownership_lower
          X_vec.array patch_level
          (levelDx NDIM patch_level.dx0 patch_level.ratio_to_level_zero) domain_box count) []
        = .ok op.mat.set_values ∧
      op.stencil_box = count.stencil_box ∧ op.patch_id = count.patch_id ∧
      op.mat.d_nnz = count.d_nnz ∧ op.mat.o_nnz = count.o_nnz := by
  unfold constructPatchLevelSCInterpOp at h
  simp only at h
  split at h
  · rename_i domain_box hdom
    split at h
    · cases h
    · rename_i count hcount
      split at h
      · cases h
      · rename_i sets hsets
        cases h
        exact ⟨domain_box, _, count, hdom, rfl, hcount, hsets, rfl, rfl, rfl, rfl⟩
  · cases h

/-- The grid spacing of the example level. -/
theorem exampleLevelDx :
    levelDx 2 exampleLevel.dx0 exampleLevel.ratio_to_level_zero = [1, 1] := by
  norm_num [levelDx, exampleLevel, Index.comp, List.range, List.range.loop]

/-- The interpolation builder on the example level returns `exampleInterpOp`. -/
theorem exampleInterpOp_ok :
    constructPatchLevelSCInterpOp 2 exampleGetCellIndex exampleKernel 2 exampleX [50] 0
      exampleLevel = .ok exampleInterpOp := by
  unfold constructPatchLevelSCInterpOp
  have hr : roundInterpStencil 2 = 2 := rfl
  have hdom : exampleLevel.domain_boxes = [{ lower := [0, 0], upper := [3, 3] }] := rfl
  simp only [hr, exampleLevelDx, hdom]
  have hcount : interpCountPass 2 exampleGetCellIndex 2 (i_lower [50] 0)
      (i_lower [50] 0 + n_local [50] 0) (n_local [50] 0) (n_total [50]) exampleX.array
      exampleLevel [1, 1] { lower := [0, 0], upper := [3, 3] }
      (exampleX.local_size.tdiv ((2 : Nat) : Int))
      { patch_id := List.replicate (exampleX.local_size.tdiv ((2 : Nat) : Int)).toNat (-1),
        stencil_box := List.replicate (exampleX.local_size.tdiv ((2 : Nat) : Int)).toNat
          (List.replicate 2 (Box.emptyBox 2)),
        d_nnz := List.replicate exampleX.local_size.toNat 0,
        o_nnz := List.replicate exampleX.local_size.toNat 0 }
      = .ok exampleInterpCount := exampleCountPass
  rw [hcount]
  simp only
  have hfill := interpFillPoint_ok 2 exampleKernel 2 exampleX.ownership_lower exampleX.array
    exampleLevel [1, 1] { lower := [0, 0], upper := [3, 3] } exampleInterpCount [] 0
    examplePatch rfl rfl (by decide) (by
      intro axis haxis
      have : axis = 0 ∨ axis = 1 := by omega
      rcases this with rfl | rfl
      · rfl
      · rfl)
  have hrange : List.range (exampleX.local_size.tdiv ((2 : Nat) : Int)).toNat = [0] := rfl
  rw [hrange, List.foldlM_cons, hfill]
  rfl

/-- The values of one insertion of the interpolation builder, for a stencil box built by
the three-branch loop at an even width `s`: their sum is the product over the directions
of the sums of the first `s` entries of the 1-D weight buffers. -/
theorem interpRowVals_sum (NDIM : Nat) (interp_fcn : ℚ → List ℚ → List ℚ) (s : Int)
    (hs : s.tmod 2 = 0) (i_lower : Int) (X dx x_lower : List ℚ) (domain_lower : Index)
    (boxes : List Box) (k axis : Nat) (Y Y_cell : List ℚ) (Y_idx : Index)
    (hbox : boxes.getD axis (Box.emptyBox NDIM)
      = stencilBoxAxis NDIM s Y Y_cell Y_idx axis (Box.emptyBox NDIM)) :
    (interpRowVals NDIM interp_fcn s i_lower X dx x_lower domain_lower boxes k axis).2.sum
      = ((List.range NDIM).map
          (fun d => ((List.range s.toNat).map
            (fun j => ((interpWeightsAt NDIM interp_fcn s X dx x_lower domain_lower boxes
              axis).getD d []).getD j 0)).sum)).prod := by
  obtain ⟨l1, l2⟩ := stencilBoxAxis_lengths NDIM s Y Y_cell Y_idx axis (Box.emptyBox NDIM)
  have e1 : (Box.emptyBox NDIM).lower.length = NDIM := by simp [Box.emptyBox]
  have e2 : (Box.emptyBox NDIM).upper.length = NDIM := by simp [Box.emptyBox]
  rw [e1] at l1
  rw [e2] at l2
  unfold interpRowVals
  simp only
  rw [sum_weightProd NDIM _ _ (by rw [hbox]; exact l1) (by rw [hbox]; exact l2)]
  congr 1
  apply List.map_congr_left
  intro d hd
  rw [hbox, stencilBox_width NDIM s hs Y Y_cell Y_idx axis d (List.mem_range.mp hd)]

/-- C12: in a successful run of `constructPatchLevelSCInterpOp` the insertions are, sample
point by sample point and component by component, one per stencil box, and every value
inserted for a stencil point `b` is the product over the `NDIM` directions `d` of the 1-D
weight `w[d][b(d) - stencil_box_lower(d)]`. Consequently the sum of the values of one row
is the product over `d` of the sums of the `s` entries of the 1-D weight buffers; it is the
product of the sums of the weight vectors when `interp_fcn` keeps the buffer length, and it
equals 1 when moreover the weights of each 1-D kernel sum to 1. -/
theorem interp_tensor_product_weights (NDIM : Nat)
    (getCellIndex : List ℚ → List ℚ → List ℚ → List ℚ → Index → Index → Index)
    (interp_fcn : ℚ → List ℚ → List ℚ) (N : Int) (X_vec : Vec)
    (num_dofs_per_proc : List Int) (mpi_rank : Nat) (patch_level : PatchLevel) (op : InterpOp)
    (h : constructPatchLevelSCInterpOp NDIM getCellIndex interp_fcn N X_vec num_dofs_per_proc
      mpi_rank patch_level = .ok op)
    (domain_box : Box) (hdomain : patch_level.domain_boxes = [domain_box]) :
      op.mat.set_values.map (fun sv => (sv.row, sv.vals))
        = (List.range (X_vec.local_size.tdiv (NDIM : Int)).toNat).flatMap (fun k =>
            (List.range NDIM).map
              (interpRowVals NDIM interp_fcn (roundInterpStencil N) X_vec.ownership_lower
                (X_vec.array.drop (NDIM * k))
                (levelDx NDIM patch_level.dx0 patch_level.ratio_to_level_zero)
                patch_level.x_lower domain_box.lower (op.stencil_box.getD k []) k)) ∧
      ∀ k axis, k < (X_vec.local_size.tdiv (NDIM : Int)).toNat → axis < NDIM →
        (interpRowVals NDIM interp_fcn (roundInterpStencil N) X_vec.ownership_lower
            (X_vec.array.drop (NDIM * k))
            (levelDx NDIM patch_level.dx0 patch_level.ratio_to_level_zero)
            patch_level.x_lower domain_box.lower (op.stencil_box.getD k []) k axis).2
          = ((op.stencil_box.getD k []).getD axis (Box.emptyBox NDIM)).indices.map
              (fun b => ((List.range NDIM).map
                (fun d => ((interpWeightsAt NDIM interp_fcn (roundInterpStencil N)
                    (X_vec.array.drop (NDIM * k))
                    (levelDx NDIM patch_level.dx0 patch_level.ratio_to_level_zero)
                    patch_level.x_lower domain_box.lower (op.stencil_box.getD k [])
                    axis).getD d []).getD
                  (Index.comp b d
                    - Index.comp ((op.stencil_box.getD k []).getD axis
                        (Box.emptyBox NDIM)).lower d).toNat 0)).prod) ∧
        (interpRowVals NDIM interp_fcn (roundInterpStencil N) X_vec.ownership_lower
            (X_vec.array.drop (NDIM * k))
            (levelDx NDIM patch_level.dx0 patch_level.ratio_to_level_zero)
            patch_level.x_lower domain_box.lower (op.stencil_box.getD k []) k axis).2.sum
          = ((List.range NDIM).map
              (fun d => ((List.range (roundInterpStencil N).toNat).map
                (fun j => ((interpWeightsAt NDIM interp_fcn (roundInterpStencil N)
                    (X_vec.array.drop (NDIM * k))
                    (levelDx NDIM patch_level.dx0 patch_level.ratio_to_level_zero)
                    patch_level.x_lower domain_box.lower (op.stencil_box.getD k [])
                    axis).getD d []).getD j 0)).sum)).prod ∧
        ((∀ r w0, w0.length = (roundInterpStencil N).toNat →
            (interp_fcn r w0).length = (roundInterpStencil N).toNat) →
          (interpRowVals NDIM interp_fcn (roundInterpStencil N) X_vec.ownership_lower
              (X_vec.array.drop (NDIM * k))
              (levelDx NDIM patch_level.dx0 patch_level.ratio_to_level_zero)
              patch_level.x_lower domain_box.lower (op.stencil_box.getD k []) k axis).2.sum
            = ((List.range NDIM).map
                (fun d => ((interpWeightsAt NDIM interp_fcn (roundInterpStencil N)
                    (X_vec.array.drop (NDIM * k))
                    (levelDx NDIM patch_level.dx0 patch_level.ratio_to_level_zero)
                    patch_level.x_lower domain_box.lower (op.stencil_box.getD k [])
                    axis).getD d []).sum)).prod) ∧
        ((∀ r w0, w0.length = (roundInterpStencil N).toNat →
            (interp_fcn r w0).length = (roundInterpStencil N).toNat
              ∧ (interp_fcn r w0).sum = 1) →
          (interpRowVals NDIM interp_fcn (roundInterpStencil N) X_vec.ownership_lower
              (X_vec.array.drop (NDIM * k))
              (levelDx NDIM patch_level.dx0 patch_level.ratio_to_level_zero)
              patch_level.x_lower domain_box.lower (op.stencil_box.getD k []) k axis).2.sum
            = 1) := by
  obtain ⟨domain_box', init, count, hdom, hinit, hcount, hfill, hsb, _, _, _⟩ :=
    interpOp_ok NDIM getCellIndex interp_fcn N X_vec num_dofs_per_proc mpi_rank patch_level
      op h
  have hsame : domain_box' = domain_box := by
    rw [hdomain] at hdom
    simpa using hdom.symm
  rw [hsame] at hcount hfill
  have hs := roundInterpStencil_even N
  have hstored : ∀ k axis, k < (X_vec.local_size.tdiv (NDIM : Int)).toNat → axis < NDIM →
      (op.stencil_box.getD k []).getD axis (Box.emptyBox NDIM)
        = stencilBoxAxis NDIM (roundInterpStencil N) (X_vec.array.drop (NDIM * k))
            (cellCentre NDIM
              (sampleCell NDIM getCellIndex X_vec.array patch_level
                (levelDx NDIM patch_level.dx0 patch_level.ratio_to_level_zero) domain_box k)
              domain_box.lower
              (levelDx NDIM patch_level.dx0 patch_level.ratio_to_level_zero)
              patch_level.x_lower)
            (sampleCell NDIM getCellIndex X_vec.array patch_level
              (levelDx NDIM patch_level.dx0 patch_level.ratio_to_level_zero) domain_box k)
            axis (Box.emptyBox NDIM) := by
    intro k axis hk haxis
    rw [hsb]
    exact interpCountPass_stencil_box NDIM getCellIndex (roundInterpStencil N) _ _ _ _
      X_vec.array patch_level _ domain_box _ init count hinit hcount k hk axis haxis
  refine ⟨?_, ?_⟩
  · rw [hsb]
    apply interpFillPass_vals NDIM interp_fcn (roundInterpStencil N) X_vec.ownership_lower
      X_vec.array patch_level _ domain_box count _ op.mat.set_values ?_ hfill
    intro k axis hk haxis
    rw [← hsb, hstored k axis hk haxis]
    exact stencilBox_card NDIM (roundInterpStencil N) hs _ _ _ axis
  · intro k axis hk haxis
    have hsum := interpRowVals_sum NDIM interp_fcn (roundInterpStencil N) hs
      X_vec.ownership_lower (X_vec.array.drop (NDIM * k))
      (levelDx NDIM patch_level.dx0 patch_level.ratio_to_level_zero)
      patch_level.x_lower domain_box.lower (op.stencil_box.getD k []) k axis _ _ _
      (hstored k axis hk haxis)
    refine ⟨rfl, hsum, ?_, ?_⟩
    · intro hlen
      rw [hsum]
      congr 1
      apply List.map_congr_left
      intro d hd
      obtain ⟨hl, _⟩ := interpWeightsAt_kernel NDIM interp_fcn (roundInterpStencil N)
        (X_vec.array.drop (NDIM * k))
        (levelDx NDIM patch_level.dx0 patch_level.ratio_to_level_zero)
        patch_level.x_lower domain_box.lower (op.stencil_box.getD k []) axis hlen d
        (List.mem_range.mp hd)
      rw [← hl, map_getD_range]
    · intro hker
      rw [hsum]
      have hone : ∀ d ∈ List.range NDIM,
          ((List.range (roundInterpStencil N).toNat).map
            (fun j => ((interpWeightsAt NDIM interp_fcn (roundInterpStencil N)
                (X_vec.array.drop (NDIM * k))
                (levelDx NDIM patch_level.dx0 patch_level.ratio_to_level_zero)
                patch_level.x_lower domain_box.lower (op.stencil_box.getD k [])
                axis).getD d []).getD j 0)).sum = 1 := by
        intro d hd
        obtain ⟨hl, r, w0, hw0, hw⟩ := interpWeightsAt_kernel NDIM interp_fcn
          (roundInterpStencil N) (X_vec.array.drop (NDIM * k))
          (levelDx NDIM patch_level.dx0 patch_level.ratio_to_level_zero)
          patch_level.x_lower domain_box.lower (op.stencil_box.getD k []) axis
          (fun r w0 hw0 => (hker r w0 hw0).1) d (List.mem_range.mp hd)
        rw [← hl, map_getD_range, hw]
        exact (hker r w0 hw0).2
      rw [List.map_congr_left hone]
      simp

/-- The two-point linear kernel keeps a buffer of two entries and its weights sum to 1. -/
theorem exampleKernel_normalised (r : ℚ) (w0 : List ℚ) (h : w0.length = 2) :
    (exampleKernel r w0).length = 2 ∧ (exampleKernel r w0).sum = 1 := by
  match w0, h with
  | [a, b], _ =>
    constructor
    · rfl
    · simp [exampleKernel]

/-- Witness for C12 on the example level: the builder succeeds with `exampleInterpOp`, the
two-point kernel is normalised, and the values of row 0 sum to 1. -/
theorem interp_tensor_product_weights_witness :
    constructPatchLevelSCInterpOp 2 exampleGetCellIndex exampleKernel 2 exampleX [50] 0
      exampleLevel = .ok exampleInterpOp ∧
    exampleLevel.domain_boxes = [{ lower := [0, 0], upper := [3, 3] }] ∧
    (∀ r w0, w0.length = (roundInterpStencil 2).toNat →
      (exampleKernel r w0).length = (roundInterpStencil 2).toNat
        ∧ (exampleKernel r w0).sum = 1) ∧
    (interpRowVals 2 exampleKernel (roundInterpStencil 2) exampleX.ownership_lower
        (exampleX.array.drop (2 * 0))
        (levelDx 2 exampleLevel.dx0 exampleLevel.ratio_to_level_zero)
        exampleLevel.x_lower ({ lower := [0, 0], upper := [3, 3] } : Box).lower
        (exampleInterpOp.stencil_box.getD 0 []) 0 0).2.sum = 1 :=
  ⟨exampleInterpOp_ok, rfl, fun r w0 h => exampleKernel_normalised r w0 h,
   ((interp_tensor_product_weights 2 exampleGetCellIndex exampleKernel 2 exampleX [50] 0
      exampleLevel exampleInterpOp exampleInterpOp_ok { lower := [0, 0], upper := [3, 3] }
      rfl).2 0 0 (by decide) (by decide)).2.2.2
      (fun r w0 h => exampleKernel_normalised r w0 h)⟩

/-! ### Round trip of the vector transfer -/

/-- A failure of `constructPatchLevelCCComplexLaplaceOp` is the depth assertion of its
counting pass or one of the two locality assertions of its fill pass. -/
theorem ccComplexLaplaceOp_error (NDIM : Nat) {PS BC : Type}
    (computeCCComplexMatrixCoefficients :
      Patch (CellData Int) → List Index → PS → PS → List BC → ℚ → Index → Nat → ℚ)
    (poisson_spec_real poisson_spec_imag : PS) (bc_coefs : List BC) (data_time : ℚ)
    (num_dofs_per_proc : List Int) (mpi_rank : Nat)
    (patch_level : List (Patch (CellData Int))) (e : Failure)
    (h : constructPatchLevelCCComplexLaplaceOp NDIM computeCCComplexMatrixCoefficients
      poisson_spec_real poisson_spec_imag bc_coefs data_time num_dofs_per_proc mpi_rank
      patch_level = .error e) :
    (e = Failure.assert_cell_depth ∧
      ∃ patch ∈ patch_level, patch.dof_index_data.depth ≠ bc_coefs.length) ∨
    ((∀ patch ∈ patch_level, patch.dof_index_data.depth = bc_coefs.length) ∧
      (e = Failure.assert_real_local ∨ e = Failure.assert_imag_local)) := by
  unfold constructPatchLevelCCComplexLaplaceOp at h
  simp only at h
  split at h
  · rename_i e' he
    cases h
    left
    exact (ccCountPass_error_iff _ _ _ _ _ _ _ _ _).mp he
  · rename_i nnz hok
    right
    constructor
    · intro p hp
      by_contra hne
      have := (ccCountPass_error_iff NDIM 2 bc_coefs.length
        (i_lower num_dofs_per_proc mpi_rank) (i_upper num_dofs_per_proc mpi_rank)
        (n_local num_dofs_per_proc mpi_rank) (n_total num_dofs_per_proc) patch_level
        Failure.assert_cell_depth).mpr ⟨rfl, p, hp, hne⟩
      rw [this] at hok
      cases hok
    · split at h
      · rename_i e' he
        cases h
        refine foldlM_error_of
          (fun e => e = Failure.assert_real_local ∨ e = Failure.assert_imag_local) _ ?_
          _ _ _ he
        intro s p e1 h1
        exact ccComplexFillPatch_error _ _ _ _ _ _ _ _ h1
      · cases h

/-- A filter followed by a `flatMap` is a `flatMap` that yields nothing off the filter. -/
theorem filter_flatMap_eq {α β : Type} (p : α → Bool) (f : α → List β) (l : List α) :
    (l.filter p).flatMap f = l.flatMap (fun v => if p v then f v else []) := by
  induction l with
  | nil => rfl
  | cons a l ih =>
    by_cases hp : p a = true
    · rw [List.filter_cons_of_pos hp, List.flatMap_cons, List.flatMap_cons, ih]
      simp only [hp, if_true]
    · rw [List.filter_cons_of_neg hp, List.flatMap_cons, ih]
      simp only [hp, Bool.false_eq_true, if_false, List.nil_append]

/-- C26: in the fill pass of `constructPatchLevelCCComplexLaplaceOp`, for a cell `i` and an
even component `d`: when neither the real DOF index `dof(i, d)` nor the imaginary one
`dof(i, d + 1)` is local the visit leaves the state as it is and inserts nothing; when both
are local it appends exactly two `MatSetValues` calls, the real row and the imaginary row;
when exactly one is local the visit fails a locality assertion. At the level of the builder:
a visited pair with exactly one local index makes the builder fail (with that assertion when
the depths agree), and on success the calls made are, visit by visit, two rows or none. -/
theorem cc_complex_fill_three_cases (NDIM : Nat) {PS BC : Type}
    (computeCCComplexMatrixCoefficients :
      Patch (CellData Int) → List Index → PS → PS → List BC → ℚ → Index → Nat → ℚ)
    (poisson_spec_real poisson_spec_imag : PS) (bc_coefs : List BC) (data_time : ℚ)
    (num_dofs_per_proc : List Int) (mpi_rank : Nat)
    (patch_level : List (Patch (CellData Int))) :
    (∀ (i_lower i_upper : Int) (matrix_coefs : Index → Nat → ℚ) (dof_index_data : CellData Int)
        (i : Index) (d : Nat)
        (st : (List ℚ × List Int) × (List ℚ × List Int) × List SetValues),
      st.1.1.length = 2 * stencil_sz NDIM → st.1.2.length = 2 * stencil_sz NDIM →
      st.2.1.1.length = 2 * stencil_sz NDIM → st.2.1.2.length = 2 * stencil_sz NDIM →
      (isLocal i_lower i_upper (dof_index_data.data i d) = false →
        isLocal i_lower i_upper (dof_index_data.data i (d + 1)) = false →
        ccComplexFillVisit NDIM i_lower i_upper matrix_coefs dof_index_data i d st = .ok st) ∧
      (isLocal i_lower i_upper (dof_index_data.data i d) = true →
        isLocal i_lower i_upper (dof_index_data.data i (d + 1)) = true →
        ∃ st', ccComplexFillVisit NDIM i_lower i_upper matrix_coefs dof_index_data i d st
            = .ok st' ∧
          st'.2.2 = st.2.2 ++
            [ccComplexInsertionReal NDIM matrix_coefs dof_index_data i d,
             ccComplexInsertionImag NDIM matrix_coefs dof_index_data i d] ∧
          st'.2.2.length = st.2.2.length + 2 ∧
          (ccComplexInsertionReal NDIM matrix_coefs dof_index_data i d).row
            = dof_index_data.data i d ∧
          (ccComplexInsertionImag NDIM matrix_coefs dof_index_data i d).row
            = dof_index_data.data i (d + 1)) ∧
      (isLocal i_lower i_upper (dof_index_data.data i d)
          ≠ isLocal i_lower i_upper (dof_index_data.data i (d + 1)) →
        ccComplexFillVisit NDIM i_lower i_upper matrix_coefs dof_index_data i d st
            = .error Failure.assert_real_local ∨
          ccComplexFillVisit NDIM i_lower i_upper matrix_coefs dof_index_data i d st
            = .error Failure.assert_imag_local)) ∧
    (∀ patch ∈ patch_level, ∀ i ∈ patch.box.indices, ∀ d ∈ evenComponents bc_coefs.length,
      isLocal (i_lower num_dofs_per_proc mpi_rank) (i_upper num_dofs_per_proc mpi_rank)
          (patch.dof_index_data.data i d)
        ≠ isLocal (i_lower num_dofs_per_proc mpi_rank) (i_upper num_dofs_per_proc mpi_rank)
          (patch.dof_index_data.data i (d + 1)) →
      ∃ e, constructPatchLevelCCComplexLaplaceOp NDIM computeCCComplexMatrixCoefficients
          poisson_spec_real poisson_spec_imag bc_coefs data_time num_dofs_per_proc mpi_rank
          patch_level = .error e ∧
        ((∀ p ∈ patch_level, p.dof_index_data.depth = bc_coefs.length) →
          e = Failure.assert_real_local ∨ e = Failure.assert_imag_local)) ∧
    (∀ mat, constructPatchLevelCCComplexLaplaceOp NDIM computeCCComplexMatrixCoefficients
          poisson_spec_real poisson_spec_imag bc_coefs data_time num_dofs_per_proc mpi_rank
          patch_level = .ok mat →
      mat.set_values = (ccComplexVisits bc_coefs.length patch_level).flatMap (fun v =>
        if isLocal (i_lower num_dofs_per_proc mpi_rank) (i_upper num_dofs_per_proc mpi_rank)
              (v.1.dof_index_data.data v.2.1 v.2.2) = true ∧
            isLocal (i_lower num_dofs_per_proc mpi_rank) (i_upper num_dofs_per_proc mpi_rank)
              (v.1.dof_index_data.data v.2.1 (v.2.2 + 1)) = true then
          [ccComplexInsertionReal NDIM
             (computeCCComplexMatrixCoefficients v.1 (stencil NDIM) poisson_spec_real
               poisson_spec_imag bc_coefs data_time) v.1.dof_index_data v.2.1 v.2.2,
           ccComplexInsertionImag NDIM
             (computeCCComplexMatrixCoefficients v.1 (stencil NDIM) poisson_spec_real
               poisson_spec_imag bc_coefs data_time) v.1.dof_index_data v.2.1 v.2.2]
        else [])) := by
  refine ⟨?_, ?_, ?_⟩
  · intro il iu matrix_coefs dof_index_data i d st hv0 hc0 hv1 hc1
    obtain ⟨hnone, hreal, himag⟩ :=
      ccComplexFillVisit_other NDIM il iu matrix_coefs dof_index_data i d st
    refine ⟨hnone, ?_, ?_⟩
    · intro hr hi
      obtain ⟨b1, b2, hok, _⟩ := ccComplexFillVisit_local NDIM il iu matrix_coefs
        dof_index_data i d st hv0 hc0 hv1 hc1 hr hi
      refine ⟨_, hok, rfl, ?_, rfl, rfl⟩
      simp
    · intro hne
      cases hr : isLocal il iu (dof_index_data.data i d) <;>
        cases hi : isLocal il iu (dof_index_data.data i (d + 1))
      · rw [hr, hi] at hne
        exact absurd rfl hne
      · left
        exact hreal hr hi
      · right
        exact himag hr hi
      · rw [hr, hi] at hne
        exact absurd rfl hne
  · intro patch hp i hi d hd hne
    cases hres : constructPatchLevelCCComplexLaplaceOp NDIM computeCCComplexMatrixCoefficients
        poisson_spec_real poisson_spec_imag bc_coefs data_time num_dofs_per_proc mpi_rank
        patch_level with
    | ok mat =>
      exfalso
      obtain ⟨_, _, hpair⟩ := ccComplexLaplaceOp_ok NDIM computeCCComplexMatrixCoefficients
        poisson_spec_real poisson_spec_imag bc_coefs data_time num_dofs_per_proc mpi_rank
        patch_level mat hres
      exact hne (hpair (patch, i, d) (mem_ccComplexVisits _ _ patch hp i hi d hd))
    | error e =>
      refine ⟨e, rfl, ?_⟩
      intro hall
      rcases ccComplexLaplaceOp_error NDIM computeCCComplexMatrixCoefficients
        poisson_spec_real poisson_spec_imag bc_coefs data_time num_dofs_per_proc mpi_rank
        patch_level e hres with ⟨_, p, hp', hne'⟩ | ⟨_, h1⟩
      · exact absurd (hall p hp') hne'
      · exact h1
  · intro mat hres
    obtain ⟨_, hsets, hpair⟩ := ccComplexLaplaceOp_ok NDIM computeCCComplexMatrixCoefficients
      poisson_spec_real poisson_spec_imag bc_coefs data_time num_dofs_per_proc mpi_rank
      patch_level mat hres
    rw [hsets, filter_flatMap_eq]
    apply List.flatMap_congr
    intro v hv
    have := hpair v hv
    cases hr : isLocal (i_lower num_dofs_per_proc mpi_rank) (i_upper num_dofs_per_proc mpi_rank)
        (v.1.dof_index_data.data v.2.1 v.2.2)
    · simp
    · rw [hr] at this
      simp [← this]

/-- Witness for C26: on the split-pair example the real index 0 of the cell `(0, 0)` is local
and the imaginary index is the sentinel, and the builder fails a locality assertion. -/
theorem cc_complex_fill_three_cases_witness :
    ∃ e, constructPatchLevelCCComplexLaplaceOp 2 exampleComplexCoefs () () [(), ()] 0 [1] 0
        [exampleSplitPatch] = .error e ∧
      ((∀ p ∈ [exampleSplitPatch], p.dof_index_data.depth = [(), ()].length) →
        e = Failure.assert_real_local ∨ e = Failure.assert_imag_local) :=
  (cc_complex_fill_three_cases 2 exampleComplexCoefs () () [(), ()] 0 [1] 0
    [exampleSplitPatch]).2.1 exampleSplitPatch (List.mem_singleton.mpr rfl) [0, 0]
    (by decide) 0 (by decide) (by decide)

/-! ### Rows of the side-centred Laplace builder couple sides of one direction -/

/-- A successful run of `constructPatchLevelSCLaplaceOp`: the list `bc_coefs` has `NDIM`
entries, the counting pass completed with the counts the matrix was created with, and the
`MatSetValues` calls are one `scInsertion` per locally owned (patch, axis, side) in visiting
order. -/
theorem scLaplaceOp_ok (NDIM : Nat) {PS BC : Type}
    (computeSCMatrixCoefficients :
      Patch (SideData Int) → List Index → PS → List BC → ℚ → Nat → Index → Nat → ℚ)
    (poisson_spec : PS) (bc_coefs : List BC) (data_time : ℚ)
    (num_dofs_per_proc : List Int) (mpi_rank : Nat)
    (patch_level : List (Patch (SideData Int))) (mat : Mat)
    (h : constructPatchLevelSCLaplaceOp NDIM computeSCMatrixCoefficients poisson_spec bc_coefs
      data_time num_dofs_per_proc mpi_rank patch_level = .ok mat) :
    bc_coefs.length = NDIM ∧
    scCountPass NDIM (i_lower num_dofs_per_proc mpi_rank) (i_upper num_dofs_per_proc mpi_rank)
        (n_local num_dofs_per_proc mpi_rank) (n_total num_dofs_per_proc) patch_level
      = .ok (mat.d_nnz, mat.o_nnz) ∧
    mat.set_values
      = ((scVisits NDIM patch_level).filter
          (fun v => isLocal (i_lower num_dofs_per_proc mpi_rank)
            (i_upper num_dofs_per_proc mpi_rank) (v.1.dof_index_data.data v.2.1 v.2.2 0))).map
          (fun v => scInsertion NDIM
            (computeSCMatrixCoefficients v.1 (stencil NDIM) poisson_spec bc_coefs data_time)
            v.1.dof_index_data v.2.1 v.2.2) := by
  unfold constructPatchLevelSCLaplaceOp at h
  split at h
  · cases h
  · rename_i hlen
    simp only at h
    split at h
    · cases h
    · rename_i nnz hnnz
      cases h
      refine ⟨not_not.mp hlen, hnnz, ?_⟩
      simp only
      rw [scFillLevel_eq NDIM _ _
        (fun patch => computeSCMatrixCoefficients patch (stencil NDIM) poisson_spec bc_coefs
          data_time)]
      simp

/-- The columns of an `scInsertion`: all are DOF indices of sides of the same axis, at the
side itself and at its stencil neighbours. -/
theorem scInsertion_cols (NDIM : Nat) (matrix_coefs : Nat → Index → Nat → ℚ)
    (dof_index_data : SideData Int) (axis : Nat) (i : Index) :
    (scInsertion NDIM matrix_coefs dof_index_data axis i).row = dof_index_data.data axis i 0 ∧
    (scInsertion NDIM matrix_coefs dof_index_data axis i).cols.length = 2 * NDIM + 1 ∧
    (scInsertion NDIM matrix_coefs dof_index_data axis i).cols[0]?
      = some (dof_index_data.data axis i 0) ∧
    (∀ k, 1 ≤ k → k ≤ 2 * NDIM →
      (scInsertion NDIM matrix_coefs dof_index_data axis i).cols[k]?
        = some (dof_index_data.data axis (Index.add i ((stencil NDIM).getD k [])) 0)) ∧
    (i.length = NDIM → ∀ k, k ≤ 2 * NDIM →
      (scInsertion NDIM matrix_coefs dof_index_data axis i).cols[k]?
        = some (dof_index_data.data axis (Index.add i ((stencil NDIM).getD k [])) 0)) ∧
    (∀ c ∈ (scInsertion NDIM matrix_coefs dof_index_data axis i).cols,
      c = dof_index_data.data axis i 0 ∨
      ∃ k, 1 ≤ k ∧ k ≤ 2 * NDIM ∧
        c = dof_index_data.data axis (Index.add i ((stencil NDIM).getD k [])) 0) := by
  refine ⟨rfl, ?_, ?_, ?_, ?_, ?_⟩
  · simp [scInsertion, neighbourDofs]
  · simp [scInsertion]
  · intro k h1 h2
    exact neighbourDofs_getElem? NDIM (fun j => dof_index_data.data axis j 0) i k h1 h2
  · intro hi k h2
    by_cases h0 : k = 0
    · subst h0
      have hz : (stencil NDIM).getD 0 [] = Index.getZeroIndex NDIM := by
        rw [List.getD_eq_getElem?_getD, stencil_getElem?]
        simp
      rw [hz, index_add_zero NDIM i hi]
      simp [scInsertion]
    · exact neighbourDofs_getElem? NDIM (fun j => dof_index_data.data axis j 0) i k
        (by omega) h2
  · intro c hc
    simp only [scInsertion, List.mem_cons, neighbourDofs, List.mem_map, List.mem_range] at hc
    rcases hc with hc | ⟨j, hj, hc⟩
    · left
      exact hc
    · right
      exact ⟨j + 1, by omega, by omega, hc.symm⟩

/-- C28: in `constructPatchLevelSCLaplaceOp` the sides are visited direction by direction
(per patch, `axis = 0 .. NDIM - 1`, and the sides of that axis in box order), and the row of
a locally owned side `(i, axis)` takes all its columns from sides of the same axis: column
0 is the DOF index of the side itself and column `k` is the DOF index stored at the side
`(i + stencil[k], axis)`. -/
theorem sc_row_same_direction (NDIM : Nat) {PS BC : Type}
    (computeSCMatrixCoefficients :
      Patch (SideData Int) → List Index → PS → List BC → ℚ → Nat → Index → Nat → ℚ)
    (poisson_spec : PS) (bc_coefs : List BC) (data_time : ℚ)
    (num_dofs_per_proc : List Int) (mpi_rank : Nat)
    (patch_level : List (Patch (SideData Int))) (mat : Mat)
    (h : constructPatchLevelSCLaplaceOp NDIM computeSCMatrixCoefficients poisson_spec bc_coefs
      data_time num_dofs_per_proc mpi_rank patch_level = .ok mat) :
    mat.set_values
      = patch_level.flatMap (fun patch => (List.range NDIM).flatMap (fun axis =>
          ((patch.box.toSideBox axis).indices.filter
            (fun i => isLocal (i_lower num_dofs_per_proc mpi_rank)
              (i_upper num_dofs_per_proc mpi_rank) (patch.dof_index_data.data axis i 0))).map
            (fun i => scInsertion NDIM
              (computeSCMatrixCoefficients patch (stencil NDIM) poisson_spec bc_coefs
                data_time)
              patch.dof_index_data axis i))) ∧
    ∀ sv ∈ mat.set_values, ∃ patch ∈ patch_level, ∃ axis, axis < NDIM ∧
      ∃ i ∈ (patch.box.toSideBox axis).indices,
        sv.row = patch.dof_index_data.data axis i 0 ∧
        isLocal (i_lower num_dofs_per_proc mpi_rank) (i_upper num_dofs_per_proc mpi_rank)
          sv.row = true ∧
        sv.cols.length = 2 * NDIM + 1 ∧
        sv.cols[0]? = some (patch.dof_index_data.data axis i 0) ∧
        (∀ k, 1 ≤ k → k ≤ 2 * NDIM →
          sv.cols[k]?
            = some (patch.dof_index_data.data axis (Index.add i ((stencil NDIM).getD k [])) 0)) ∧
        (i.length = NDIM → ∀ k, k ≤ 2 * NDIM →
          sv.cols[k]?
            = some (patch.dof_index_data.data axis (Index.add i ((stencil NDIM).getD k [])) 0)) ∧
        (∀ c ∈ sv.cols,
          c = patch.dof_index_data.data axis i 0 ∨
          ∃ k, 1 ≤ k ∧ k ≤ 2 * NDIM ∧
            c = patch.dof_index_data.data axis (Index.add i ((stencil NDIM).getD k [])) 0) := by
  obtain ⟨_, _, hsets⟩ := scLaplaceOp_ok NDIM computeSCMatrixCoefficients poisson_spec bc_coefs
    data_time num_dofs_per_proc mpi_rank patch_level mat h
  have hform : mat.set_values
      = patch_level.flatMap (fun patch => (List.range NDIM).flatMap (fun axis =>
          ((patch.box.toSideBox axis).indices.filter
            (fun i => isLocal (i_lower num_dofs_per_proc mpi_rank)
              (i_upper num_dofs_per_proc mpi_rank) (patch.dof_index_data.data axis i 0))).map
            (fun i => scInsertion NDIM
              (computeSCMatrixCoefficients patch (stencil NDIM) poisson_spec bc_coefs
                data_time)
              patch.dof_index_data axis i))) := by
    rw [hsets]
    simp only [scVisits, sideVisits, List.filter_flatMap, List.map_flatMap, List.filter_map,
      List.map_map, List.flatMap_map]
    rfl
  refine ⟨hform, ?_⟩
  intro sv hsv
  rw [hform] at hsv
  simp only [List.mem_flatMap, List.mem_map, List.mem_filter, List.mem_range] at hsv
  obtain ⟨patch, hp, axis, hax, i, ⟨hi, hloc⟩, rfl⟩ := hsv
  obtain ⟨hrow, hlen, h0, hk, hk', hc⟩ := scInsertion_cols NDIM
    (computeSCMatrixCoefficients patch (stencil NDIM) poisson_spec bc_coefs data_time)
    patch.dof_index_data axis i
  exact ⟨patch, hp, axis, hax, i, hi, hrow, by rw [hrow]; exact hloc, hlen, h0, hk, hk', hc⟩

/-- Witness for C28: the builder on the two-patch example returns `exampleSideMat`; its
calls are the insertions of the two patches taken direction by direction. -/
theorem sc_row_same_direction_witness :
    constructPatchLevelSCLaplaceOp 2 exampleSideCoefs () [(), ()] 0 [7, 7] 0
      [exampleSidePatchA, exampleSidePatchB] = .ok exampleSideMat ∧
    exampleSideMat.set_values
      = [exampleSidePatchA, exampleSidePatchB].flatMap (fun patch =>
          (List.range 2).flatMap (fun axis =>
            ((patch.box.toSideBox axis).indices.filter
              (fun i => isLocal (i_lower [7, 7] 0) (i_upper [7, 7] 0)
                (patch.dof_index_data.data axis i 0))).map
              (fun i => scInsertion 2 (exampleSideCoefs patch (stencil 2) () [(), ()] 0)
                patch.dof_index_data axis i))) :=
  ⟨by rfl,
   (sc_row_same_direction 2 exampleSideCoefs () [(), ()] 0 [7, 7] 0
      [exampleSidePatchA, exampleSidePatchB] exampleSideMat (by rfl)).1⟩

/-! ### Clamping at every visit and clamping once at the end -/

/-- A running sum of non-negative terms clamped at `b` after every term is the total
clamped once, as soon as the start does not exceed `b`. -/
theorem foldl_clamp_min {α : Type} (b : Int) (c : α → Int) (hc : ∀ v, 0 ≤ c v) (vs : List α)
    (x0 : Int) (h : x0 ≤ b) :
    vs.foldl (fun x v => min b (x + c v)) x0 = min b (x0 + (vs.map c).sum) := by
  induction vs generalizing x0 with
  | nil => simp [min_eq_right h]
  | cons v vs ih =>
    have hrest : 0 ≤ (vs.map c).sum := by
      apply List.sum_nonneg
      intro x hx
      rw [List.mem_map] at hx
      obtain ⟨u, _, rfl⟩ := hx
      exact hc u
    rw [List.foldl_cons, ih (min b (x0 + c v)) (min_le_left _ _)]
    simp only [List.map_cons, List.sum_cons]
    have := hc v
    omega

/-- After any sequence of visits starting from zeroed arrays, row `k` of `d_nnz` is the
unclamped total of the visits of the row clamped once at `n_local`, and row `k` of `o_nnz`
the unclamped total clamped once at `n_total - n_local`. -/
theorem countVisits_row_clamped (NDIM : Nat) (inc : Int) (hinc : 0 ≤ inc)
    (i_lower i_upper n_local n_total : Int) (hpart : n_local ≤ n_total)
    (vs : List ((Index → Int) × Index)) (k : Nat) (hk : (k : Int) < n_local) :
    (vs.foldl (fun nnz v => countVisit NDIM inc i_lower i_upper n_local n_total v.1 v.2 nnz)
        (nnzInit n_local)).1[k]?
      = some (min n_local
          (unclampedD NDIM inc i_lower i_upper (vs.filter (visitsRow i_lower i_upper k)))) ∧
    (vs.foldl (fun nnz v => countVisit NDIM inc i_lower i_upper n_local n_total v.1 v.2 nnz)
        (nnzInit n_local)).2[k]?
      = some (min (n_total - n_local)
          (unclampedO NDIM inc i_lower i_upper (vs.filter (visitsRow i_lower i_upper k)))) := by
  obtain ⟨hr1, hr2⟩ := countVisits_row NDIM inc i_lower i_upper n_local n_total vs
    (nnzInit n_local) k
  obtain ⟨hi1, hi2⟩ := nnzInit_getElem? n_local k hk
  rw [hi1] at hr1
  rw [hi2] at hr2
  rw [hr1, hr2]
  simp only [Option.map_some', Option.some.injEq]
  constructor
  · have := foldl_clamp_min n_local
      (fun (v : (Index → Int) × Index) =>
        inc * (1 + ((neighbourDofs NDIM v.1 v.2).countP (isLocal i_lower i_upper) : Int)))
      (fun v => by positivity) (vs.filter (visitsRow i_lower i_upper k)) 0 (by omega)
    simpa [dStep, unclampedD] using this
  · have := foldl_clamp_min (n_total - n_local)
      (fun (v : (Index → Int) × Index) =>
        inc * ((neighbourDofs NDIM v.1 v.2).countP (fun c => !isLocal i_lower i_upper c) : Int))
      (fun v => by positivity) (vs.filter (visitsRow i_lower i_upper k)) 0 (by omega)
    simpa [oStep, unclampedO] using this

/-- One visit of a counting pass keeps the lengths of the two arrays. -/
theorem countVisit_length (NDIM : Nat) (inc : Int) (i_lower i_upper n_local n_total : Int)
    (dof : Index → Int) (i : Index) (nnz : List Int × List Int) :
    (countVisit NDIM inc i_lower i_upper n_local n_total dof i nnz).1.length = nnz.1.length ∧
    (countVisit NDIM inc i_lower i_upper n_local n_total dof i nnz).2.length = nnz.2.length := by
  rw [countVisit_eq]
  split
  · simp [List.length_modify]
  · exact ⟨rfl, rfl⟩

/-- A sequence of visits keeps the lengths of the two arrays. -/
theorem countVisits_length (NDIM : Nat) (inc : Int) (i_lower i_upper n_local n_total : Int)
    (vs : List ((Index → Int) × Index)) (nnz : List Int × List Int) :
    (vs.foldl (fun nnz v => countVisit NDIM inc i_lower i_upper n_local n_total v.1 v.2 nnz)
        nnz).1.length = nnz.1.length ∧
    (vs.foldl (fun nnz v => countVisit NDIM inc i_lower i_upper n_local n_total v.1 v.2 nnz)
        nnz).2.length = nnz.2.length := by
  refine foldl_invariant
    (fun (t : List Int × List Int) => t.1.length = nnz.1.length ∧ t.2.length = nnz.2.length)
    _ ?_ vs nnz ⟨rfl, rfl⟩
  intro t v ht
  obtain ⟨h1, h2⟩ := countVisit_length NDIM inc i_lower i_upper n_local n_total v.1 v.2 t
  exact ⟨h1.trans ht.1, h2.trans ht.2⟩

/-- The unclamped totals of a list of visits do not depend on the order of the list. -/
theorem unclamped_perm (NDIM : Nat) (inc : Int) (i_lower i_upper : Int)
    (vs vs' : List ((Index → Int) × Index)) (h : vs.Perm vs') :
    unclampedD NDIM inc i_lower i_upper vs = unclampedD NDIM inc i_lower i_upper vs' ∧
    unclampedO NDIM inc i_lower i_upper vs = unclampedO NDIM inc i_lower i_upper vs' := by
  unfold unclampedD unclampedO
  exact ⟨(h.map _).sum_eq, (h.map _).sum_eq⟩

/-- Two orders of the same visits give the same counts. -/
theorem countVisits_perm (NDIM : Nat) (inc : Int) (hinc : 0 ≤ inc)
    (i_lower i_upper n_local n_total : Int) (hpart : n_local ≤ n_total)
    (vs vs' : List ((Index → Int) × Index)) (h : vs.Perm vs') :
    vs.foldl (fun nnz v => countVisit NDIM inc i_lower i_upper n_local n_total v.1 v.2 nnz)
        (nnzInit n_local)
      = vs'.foldl (fun nnz v => countVisit NDIM inc i_lower i_upper n_local n_total v.1 v.2 nnz)
        (nnzInit n_local) := by
  obtain ⟨l1, l2⟩ := countVisits_length NDIM inc i_lower i_upper n_local n_total vs
    (nnzInit n_local)
  obtain ⟨l1', l2'⟩ := countVisits_length NDIM inc i_lower i_upper n_local n_total vs'
    (nnzInit n_local)
  have hlen : (nnzInit n_local).1.length = n_local.toNat ∧
      (nnzInit n_local).2.length = n_local.toNat := by simp [nnzInit]
  apply Prod.ext
  · apply List.ext_getElem?
    intro k
    by_cases hk : (k : Int) < n_local
    · rw [(countVisits_row_clamped NDIM inc hinc i_lower i_upper n_local n_total hpart vs k
        hk).1,
        (countVisits_row_clamped NDIM inc hinc i_lower i_upper n_local n_total hpart vs' k
        hk).1,
        (unclamped_perm NDIM inc i_lower i_upper _ _ (h.filter _)).1]
    · rw [List.getElem?_eq_none (by rw [l1, hlen.1]; omega),
        List.getElem?_eq_none (by rw [l1', hlen.1]; omega)]
  · apply List.ext_getElem?
    intro k
    by_cases hk : (k : Int) < n_local
    · rw [(countVisits_row_clamped NDIM inc hinc i_lower i_upper n_local n_total hpart vs k
        hk).2,
        (countVisits_row_clamped NDIM inc hinc i_lower i_upper n_local n_total hpart vs' k
        hk).2,
        (unclamped_perm NDIM inc i_lower i_upper _ _ (h.filter _)).2]
    · rw [List.getElem?_eq_none (by rw [l2, hlen.2]; omega),
        List.getElem?_eq_none (by rw [l2', hlen.2]; omega)]

/-- A completed counting pass of the cell-centred builders, row by row, with the clamp
applied once. -/
theorem ccCountPass_row_clamped (NDIM : Nat) (inc : Int) (hinc : 0 ≤ inc) (depth : Nat)
    (i_lower i_upper n_local n_total : Int) (hpart : n_local ≤ n_total)
    (patch_level : List (Patch (CellData Int))) (nnz : List Int × List Int)
    (h : ccCountPass NDIM inc depth i_lower i_upper n_local n_total patch_level = .ok nnz)
    (k : Nat) (hk : (k : Int) < n_local) :
    nnz.1[k]? = some (min n_local (unclampedD NDIM inc i_lower i_upper
      (ccRowVisits depth patch_level i_lower i_upper k))) ∧
    nnz.2[k]? = some (min (n_total - n_local) (unclampedO NDIM inc i_lower i_upper
      (ccRowVisits depth patch_level i_lower i_upper k))) := by
  unfold ccCountPass at h
  rw [ccCountPass_eq_fold NDIM inc depth i_lower i_upper n_local n_total patch_level _ nnz h]
  exact countVisits_row_clamped NDIM inc hinc i_lower i_upper n_local n_total hpart _ k hk

/-- A completed counting pass of the side-centred builder, row by row, with the clamp
applied once. -/
theorem scCountPass_row_clamped (NDIM : Nat)
    (i_lower i_upper n_local n_total : Int) (hpart : n_local ≤ n_total)
    (patch_level : List (Patch (SideData Int))) (nnz : List Int × List Int)
    (h : scCountPass NDIM i_lower i_upper n_local n_total patch_level = .ok nnz)
    (k : Nat) (hk : (k : Int) < n_local) :
    nnz.1[k]? = some (min n_local (unclampedD NDIM 1 i_lower i_upper
      (scRowVisits NDIM patch_level i_lower i_upper k))) ∧
    nnz.2[k]? = some (min (n_total - n_local) (unclampedO NDIM 1 i_lower i_upper
      (scRowVisits NDIM patch_level i_lower i_upper k))) := by
  unfold scCountPass at h
  rw [scCountPass_eq_fold NDIM i_lower i_upper n_local n_total patch_level _ nnz h]
  exact countVisits_row_clamped NDIM 1 (by norm_num) i_lower i_upper n_local n_total hpart _ k
    hk

/-- C25: in the three Laplace builders the clamp applied after every visit gives the same
result as one clamp at the end. For a non-negative partition and any sequence of visits
starting from the zeroed arrays, `d_nnz` of a local row is `min(n_local, D)` and `o_nnz` is
`min(n_total - n_local, O)`, where `D` and `O` are the totals of local and non-local stencil
entries over the visits of the row; the arrays do not change when the visits are reordered;
and the matrices returned by `constructPatchLevelCCLaplaceOp`,
`constructPatchLevelCCComplexLaplaceOp` (every entry counted twice) and
`constructPatchLevelSCLaplaceOp` carry these counts. -/
theorem clamp_once_at_end (NDIM : Nat) (num_dofs_per_proc : List Int)
    (hnn : ∀ c ∈ num_dofs_per_proc, 0 ≤ c) (mpi_rank : Nat) :
    (∀ (inc : Int), 0 ≤ inc → ∀ (vs : List ((Index → Int) × Index)) (k : Nat),
      (k : Int) < n_local num_dofs_per_proc mpi_rank →
      (vs.foldl (fun nnz v => countVisit NDIM inc (i_lower num_dofs_per_proc mpi_rank)
          (i_upper num_dofs_per_proc mpi_rank) (n_local num_dofs_per_proc mpi_rank)
          (n_total num_dofs_per_proc) v.1 v.2 nnz)
          (nnzInit (n_local num_dofs_per_proc mpi_rank))).1[k]?
        = some (min (n_local num_dofs_per_proc mpi_rank)
            (unclampedD NDIM inc (i_lower num_dofs_per_proc mpi_rank)
              (i_upper num_dofs_per_proc mpi_rank)
              (vs.filter (visitsRow (i_lower num_dofs_per_proc mpi_rank)
                (i_upper num_dofs_per_proc mpi_rank) k)))) ∧
      (vs.foldl (fun nnz v => countVisit NDIM inc (i_lower num_dofs_per_proc mpi_rank)
          (i_upper num_dofs_per_proc mpi_rank) (n_local num_dofs_per_proc mpi_rank)
          (n_total num_dofs_per_proc) v.1 v.2 nnz)
          (nnzInit (n_local num_dofs_per_proc mpi_rank))).2[k]?
        = some (min (n_total num_dofs_per_proc - n_local num_dofs_per_proc mpi_rank)
            (unclampedO NDIM inc (i_lower num_dofs_per_proc mpi_rank)
              (i_upper num_dofs_per_proc mpi_rank)
              (vs.filter (visitsRow (i_lower num_dofs_per_proc mpi_rank)
                (i_upper num_dofs_per_proc mpi_rank) k))))) ∧
    (∀ (inc : Int), 0 ≤ inc → ∀ (vs vs' : List ((Index → Int) × Index)), vs.Perm vs' →
      vs.foldl (fun nnz v => countVisit NDIM inc (i_lower num_dofs_per_proc mpi_rank)
          (i_upper num_dofs_per_proc mpi_rank) (n_local num_dofs_per_proc mpi_rank)
          (n_total num_dofs_per_proc) v.1 v.2 nnz)
          (nnzInit (n_local num_dofs_per_proc mpi_rank))
        = vs'.foldl (fun nnz v => countVisit NDIM inc (i_lower num_dofs_per_proc mpi_rank)
          (i_upper num_dofs_per_proc mpi_rank) (n_local num_dofs_per_proc mpi_rank)
          (n_total num_dofs_per_proc) v.1 v.2 nnz)
          (nnzInit (n_local num_dofs_per_proc mpi_rank))) ∧
    (∀ (PS BC : Type)
      (computeCCMatrixCoefficients :
        Patch (CellData Int) → List Index → PS → List BC → ℚ → Index → Nat → ℚ)
      (poisson_spec : PS) (bc_coefs : List BC) (data_time : ℚ)
      (patch_level : List (Patch (CellData Int))) (mat : Mat),
      constructPatchLevelCCLaplaceOp NDIM computeCCMatrixCoefficients poisson_spec bc_coefs
        data_time num_dofs_per_proc mpi_rank patch_level = .ok mat →
      ∀ k : Nat, (k : Int) < n_local num_dofs_per_proc mpi_rank →
        mat.d_nnz[k]? = some (min (n_local num_dofs_per_proc mpi_rank)
          (unclampedD NDIM 1 (i_lower num_dofs_per_proc mpi_rank)
            (i_upper num_dofs_per_proc mpi_rank)
            (ccRowVisits bc_coefs.length patch_level (i_lower num_dofs_per_proc mpi_rank)
              (i_upper num_dofs_per_proc mpi_rank) k))) ∧
        mat.o_nnz[k]? = some (min (n_total num_dofs_per_proc - n_local num_dofs_per_proc mpi_rank)
          (unclampedO NDIM 1 (i_lower num_dofs_per_proc mpi_rank)
            (i_upper num_dofs_per_proc mpi_rank)
            (ccRowVisits bc_coefs.length patch_level (i_lower num_dofs_per_proc mpi_rank)
              (i_upper num_dofs_per_proc mpi_rank) k)))) ∧
    (∀ (PS BC : Type)
      (computeCCComplexMatrixCoefficients :
        Patch (CellData Int) → List Index → PS → PS → List BC → ℚ → Index → Nat → ℚ)
      (poisson_spec_real poisson_spec_imag : PS) (bc_coefs : List BC) (data_time : ℚ)
      (patch_level : List (Patch (CellData Int))) (mat : Mat),
      constructPatchLevelCCComplexLaplaceOp NDIM computeCCComplexMatrixCoefficients
        poisson_spec_real poisson_spec_imag bc_coefs data_time num_dofs_per_proc mpi_rank
        patch_level = .ok mat →
      ∀ k : Nat, (k : Int) < n_local num_dofs_per_proc mpi_rank →
        mat.d_nnz[k]? = some (min (n_local num_dofs_per_proc mpi_rank)
          (unclampedD NDIM 2 (i_lower num_dofs_per_proc mpi_rank)
            (i_upper num_dofs_per_proc mpi_rank)
            (ccRowVisits bc_coefs.length patch_level (i_lower num_dofs_per_proc mpi_rank)
              (i_upper num_dofs_per_proc mpi_rank) k))) ∧
        mat.o_nnz[k]? = some (min (n_total num_dofs_per_proc - n_local num_dofs_per_proc mpi_rank)
          (unclampedO NDIM 2 (i_lower num_dofs_per_proc mpi_rank)
            (i_upper num_dofs_per_proc mpi_rank)
            (ccRowVisits bc_coefs.length patch_level (i_lower num_dofs_per_proc mpi_rank)
              (i_upper num_dofs_per_proc mpi_rank) k)))) ∧
    (∀ (PS BC : Type)
      (computeSCMatrixCoefficients :
        Patch (SideData Int) → List Index → PS → List BC → ℚ → Nat → Index → Nat → ℚ)
      (poisson_spec : PS) (bc_coefs : List BC) (data_time : ℚ)
      (patch_level : List (Patch (SideData Int))) (mat : Mat),
      constructPatchLevelSCLaplaceOp NDIM computeSCMatrixCoefficients poisson_spec bc_coefs
        data_time num_dofs_per_proc mpi_rank patch_level = .ok mat →
      ∀ k : Nat, (k : Int) < n_local num_dofs_per_proc mpi_rank →
        mat.d_nnz[k]? = some (min (n_local num_dofs_per_proc mpi_rank)
          (unclampedD NDIM 1 (i_lower num_dofs_per_proc mpi_rank)
            (i_upper num_dofs_per_proc mpi_rank)
            (scRowVisits NDIM patch_level (i_lower num_dofs_per_proc mpi_rank)
              (i_upper num_dofs_per_proc mpi_rank) k))) ∧
        mat.o_nnz[k]? = some (min (n_total num_dofs_per_proc - n_local num_dofs_per_proc mpi_rank)
          (unclampedO NDIM 1 (i_lower num_dofs_per_proc mpi_rank)
            (i_upper num_dofs_per_proc mpi_rank)
            (scRowVisits NDIM patch_level (i_lower num_dofs_per_proc mpi_rank)
              (i_upper num_dofs_per_proc mpi_rank) k)))) := by
  have hpart := n_local_le_n_total num_dofs_per_proc hnn mpi_rank
  refine ⟨?_, ?_, ?_, ?_, ?_⟩
  · intro inc hinc vs k hk
    exact countVisits_row_clamped NDIM inc hinc _ _ _ _ hpart vs k hk
  · intro inc hinc vs vs' hperm
    exact countVisits_perm NDIM inc hinc _ _ _ _ hpart vs vs' hperm
  · intro PS BC compute poisson_spec bc_coefs data_time patch_level mat h k hk
    have hc := ccLaplaceOp_counts NDIM compute poisson_spec bc_coefs data_time
      num_dofs_per_proc mpi_rank patch_level mat h
    exact ccCountPass_row_clamped NDIM 1 (by norm_num) bc_coefs.length _ _ _ _ hpart
      patch_level (mat.d_nnz, mat.o_nnz) hc k hk
  · intro PS BC compute ps_real ps_imag bc_coefs data_time patch_level mat h k hk
    obtain ⟨hc, _, _⟩ := ccComplexLaplaceOp_ok NDIM compute ps_real ps_imag bc_coefs data_time
      num_dofs_per_proc mpi_rank patch_level mat h
    exact ccCountPass_row_clamped NDIM 2 (by norm_num) bc_coefs.length _ _ _ _ hpart
      patch_level (mat.d_nnz, mat.o_nnz) hc k hk
  · intro PS BC compute poisson_spec bc_coefs data_time patch_level mat h k hk
    obtain ⟨_, hc, _⟩ := scLaplaceOp_ok NDIM compute poisson_spec bc_coefs data_time
      num_dofs_per_proc mpi_rank patch_level mat h
    exact scCountPass_row_clamped NDIM _ _ _ _ hpart patch_level (mat.d_nnz, mat.o_nnz) hc k hk

/-- Witness for C25: on the two-patch side-centred example with the partition `[7, 7]` the
row 1, visited twice, has the counts `min(7, D)` and `min(7, O)` of its two visits. -/
theorem clamp_once_at_end_witness :
    (∀ c ∈ [(7 : Int), 7], 0 ≤ c) ∧
    exampleSideMat.d_nnz[1]? = some (min (n_local [7, 7] 0)
      (unclampedD 2 1 (i_lower [7, 7] 0) (i_upper [7, 7] 0)
        (scRowVisits 2 [exampleSidePatchA, exampleSidePatchB] (i_lower [7, 7] 0)
          (i_upper [7, 7] 0) 1))) ∧
    exampleSideMat.o_nnz[1]? = some (min (n_total [7, 7] - n_local [7, 7] 0)
      (unclampedO 2 1 (i_lower [7, 7] 0) (i_upper [7, 7] 0)
        (scRowVisits 2 [exampleSidePatchA, exampleSidePatchB] (i_lower [7, 7] 0)
          (i_upper [7, 7] 0) 1))) :=
  ⟨by decide,
   (clamp_once_at_end 2 [7, 7] (by decide) 0).2.2.2.2 Unit Unit exampleSideCoefs () [(), ()] 0
     [exampleSidePatchA, exampleSidePatchB] exampleSideMat (by rfl) 1 (by decide)⟩

/-! ### Accesses to the count arrays and ownership of the inserted rows -/

/-- A DOF index that passes the test `i_lower <= dof_index && dof_index < i_upper`, with
`i_upper = i_lower + n_local`, gives a `local_idx` in `[0, n_local)`, inside any array of
`n_local` entries. -/
theorem local_idx_in_bounds (i_lower n_local g : Int)
    (hg : isLocal i_lower (i_lower + n_local) g = true) :
    0 ≤ g - i_lower ∧ g - i_lower < n_local ∧ (g - i_lower).toNat < n_local.toNat := by
  simp only [isLocal, decide_eq_true_eq] at hg
  omega

/-- The lengths of the arrays a counting pass of the cell-centred builders returns. -/
theorem ccCountPass_length (NDIM : Nat) (inc : Int) (depth : Nat)
    (i_lower i_upper n_local n_total : Int) (patch_level : List (Patch (CellData Int)))
    (nnz : List Int × List Int)
    (h : ccCountPass NDIM inc depth i_lower i_upper n_local n_total patch_level = .ok nnz) :
    nnz.1.length = n_local.toNat ∧ nnz.2.length = n_local.toNat := by
  unfold ccCountPass at h
  rw [ccCountPass_eq_fold NDIM inc depth i_lower i_upper n_local n_total patch_level _ nnz h]
  obtain ⟨h1, h2⟩ := countVisits_length NDIM inc i_lower i_upper n_local n_total
    ((ccVisits depth patch_level).map
      (fun v => ((fun j => v.1.dof_index_data.data j v.2.2), v.2.1))) (nnzInit n_local)
  rw [h1, h2]
  simp [nnzInit]

/-- The lengths of the arrays the counting pass of the side-centred builder returns. -/
theorem scCountPass_length (NDIM : Nat)
    (i_lower i_upper n_local n_total : Int) (patch_level : List (Patch (SideData Int)))
    (nnz : List Int × List Int)
    (h : scCountPass NDIM i_lower i_upper n_local n_total patch_level = .ok nnz) :
    nnz.1.length = n_local.toNat ∧ nnz.2.length = n_local.toNat := by
  unfold scCountPass at h
  rw [scCountPass_eq_fold NDIM i_lower i_upper n_local n_total patch_level _ nnz h]
  obtain ⟨h1, h2⟩ := countVisits_length NDIM 1 i_lower i_upper n_local n_total
    ((scVisits NDIM patch_level).map
      (fun v => ((fun j => v.1.dof_index_data.data v.2.1 j 0), v.2.2))) (nnzInit n_local)
  rw [h1, h2]
  simp [nnzInit]

/-- C24: in the three Laplace builders every access to the predicted-count arrays is in
bounds and every inserted row is locally owned. A visit touches the arrays only when
`i_lower <= dof_index < i_upper`, and then at `local_idx = dof_index - i_lower`, which lies
in `[0, n_local)` and inside both arrays, at whatever point of the pass the visit comes; a
point whose index is a sentinel or owned elsewhere leaves the arrays and the list of
`MatSetValues` calls as they are. The matrices returned carry arrays of `n_local` entries,
and the row of every recorded `MatSetValues` call lies in `[i_lower, i_upper)`. -/
theorem count_arrays_in_bounds (NDIM : Nat) (num_dofs_per_proc : List Int) (mpi_rank : Nat) :
    i_upper num_dofs_per_proc mpi_rank
      = i_lower num_dofs_per_proc mpi_rank + n_local num_dofs_per_proc mpi_rank ∧
    (∀ (inc : Int) (vs pre post : List ((Index → Int) × Index)) (v : (Index → Int) × Index),
      vs = pre ++ v :: post →
      isLocal (i_lower num_dofs_per_proc mpi_rank) (i_upper num_dofs_per_proc mpi_rank)
        (v.1 v.2) = true →
      0 ≤ v.1 v.2 - i_lower num_dofs_per_proc mpi_rank ∧
      v.1 v.2 - i_lower num_dofs_per_proc mpi_rank < n_local num_dofs_per_proc mpi_rank ∧
      (v.1 v.2 - i_lower num_dofs_per_proc mpi_rank).toNat
        < (pre.foldl (fun nnz v => countVisit NDIM inc (i_lower num_dofs_per_proc mpi_rank)
            (i_upper num_dofs_per_proc mpi_rank) (n_local num_dofs_per_proc mpi_rank)
            (n_total num_dofs_per_proc) v.1 v.2 nnz)
            (nnzInit (n_local num_dofs_per_proc mpi_rank))).1.length ∧
      (v.1 v.2 - i_lower num_dofs_per_proc mpi_rank).toNat
        < (pre.foldl (fun nnz v => countVisit NDIM inc (i_lower num_dofs_per_proc mpi_rank)
            (i_upper num_dofs_per_proc mpi_rank) (n_local num_dofs_per_proc mpi_rank)
            (n_total num_dofs_per_proc) v.1 v.2 nnz)
            (nnzInit (n_local num_dofs_per_proc mpi_rank))).2.length) ∧
    (∀ (inc : Int) (dof : Index → Int) (i : Index) (nnz : List Int × List Int),
      isLocal (i_lower num_dofs_per_proc mpi_rank) (i_upper num_dofs_per_proc mpi_rank)
        (dof i) = false →
      countVisit NDIM inc (i_lower num_dofs_per_proc mpi_rank)
        (i_upper num_dofs_per_proc mpi_rank) (n_local num_dofs_per_proc mpi_rank)
        (n_total num_dofs_per_proc) dof i nnz = nnz) ∧
    (∀ (matrix_coefs : Index → Nat → ℚ) (dof_index_data : CellData Int) (i : Index) (d : Nat)
        (st : List ℚ × List Int × List SetValues),
      isLocal (i_lower num_dofs_per_proc mpi_rank) (i_upper num_dofs_per_proc mpi_rank)
        (dof_index_data.data i d) = false →
      ccFillVisit NDIM (i_lower num_dofs_per_proc mpi_rank) (i_upper num_dofs_per_proc mpi_rank)
        matrix_coefs dof_index_data i d st = st) ∧
    (∀ (matrix_coefs : Nat → Index → Nat → ℚ) (dof_index_data : SideData Int) (axis : Nat)
        (i : Index) (st : List ℚ × List Int × List SetValues),
      isLocal (i_lower num_dofs_per_proc mpi_rank) (i_upper num_dofs_per_proc mpi_rank)
        (dof_index_data.data axis i 0) = false →
      scFillVisit NDIM (i_lower num_dofs_per_proc mpi_rank) (i_upper num_dofs_per_proc mpi_rank)
        matrix_coefs dof_index_data axis i st = st) ∧
    (∀ (PS BC : Type)
      (computeCCMatrixCoefficients :
        Patch (CellData Int) → List Index → PS → List BC → ℚ → Index → Nat → ℚ)
      (poisson_spec : PS) (bc_coefs : List BC) (data_time : ℚ)
      (patch_level : List (Patch (CellData Int))) (mat : Mat),
      constructPatchLevelCCLaplaceOp NDIM computeCCMatrixCoefficients poisson_spec bc_coefs
        data_time num_dofs_per_proc mpi_rank patch_level = .ok mat →
      mat.d_nnz.length = (n_local num_dofs_per_proc mpi_rank).toNat ∧
      mat.o_nnz.length = (n_local num_dofs_per_proc mpi_rank).toNat ∧
      ∀ sv ∈ mat.set_values,
        i_lower num_dofs_per_proc mpi_rank ≤ sv.row ∧
        sv.row < i_upper num_dofs_per_proc mpi_rank ∧
        (sv.row - i_lower num_dofs_per_proc mpi_rank).toNat < mat.d_nnz.length) ∧
    (∀ (PS BC : Type)
      (computeCCComplexMatrixCoefficients :
        Patch (CellData Int) → List Index → PS → PS → List BC → ℚ → Index → Nat → ℚ)
      (poisson_spec_real poisson_spec_imag : PS) (bc_coefs : List BC) (data_time : ℚ)
      (patch_level : List (Patch (CellData Int))) (mat : Mat),
      constructPatchLevelCCComplexLaplaceOp NDIM computeCCComplexMatrixCoefficients
        poisson_spec_real poisson_spec_imag bc_coefs data_time num_dofs_per_proc mpi_rank
        patch_level = .ok mat →
      mat.d_nnz.length = (n_local num_dofs_per_proc mpi_rank).toNat ∧
      mat.o_nnz.length = (n_local num_dofs_per_proc mpi_rank).toNat ∧
      ∀ sv ∈ mat.set_values,
        i_lower num_dofs_per_proc mpi_rank ≤ sv.row ∧
        sv.row < i_upper num_dofs_per_proc mpi_rank ∧
        (sv.row - i_lower num_dofs_per_proc mpi_rank).toNat < mat.d_nnz.length) ∧
    (∀ (PS BC : Type)
      (computeSCMatrixCoefficients :
        Patch (SideData Int) → List Index → PS → List BC → ℚ → Nat → Index → Nat → ℚ)
      (poisson_spec : PS) (bc_coefs : List BC) (data_time : ℚ)
      (patch_level : List (Patch (SideData Int))) (mat : Mat),
      constructPatchLevelSCLaplaceOp NDIM computeSCMatrixCoefficients poisson_spec bc_coefs
        data_time num_dofs_per_proc mpi_rank patch_level = .ok mat →
      mat.d_nnz.length = (n_local num_dofs_per_proc mpi_rank).toNat ∧
      mat.o_nnz.length = (n_local num_dofs_per_proc mpi_rank).toNat ∧
      ∀ sv ∈ mat.set_values,
        i_lower num_dofs_per_proc mpi_rank ≤ sv.row ∧
        sv.row < i_upper num_dofs_per_proc mpi_rank ∧
        (sv.row - i_lower num_dofs_per_proc mpi_rank).toNat < mat.d_nnz.length) := by
  have hup : i_upper num_dofs_per_proc mpi_rank
      = i_lower num_dofs_per_proc mpi_rank + n_local num_dofs_per_proc mpi_rank := rfl
  have hrow : ∀ (g : Int) (n : Nat), n = (n_local num_dofs_per_proc mpi_rank).toNat →
      isLocal (i_lower num_dofs_per_proc mpi_rank) (i_upper num_dofs_per_proc mpi_rank) g
        = true →
      i_lower num_dofs_per_proc mpi_rank ≤ g ∧ g < i_upper num_dofs_per_proc mpi_rank ∧
        (g - i_lower num_dofs_per_proc mpi_rank).toNat < n := by
    intro g n hn hg
    have hb := local_idx_in_bounds _ _ g (hup ▸ hg)
    simp only [isLocal, decide_eq_true_eq] at hg
    exact ⟨hg.1, hg.2, hn ▸ hb.2.2⟩
  refine ⟨hup, ?_, ?_, ?_, ?_, ?_, ?_, ?_⟩
  · intro inc vs pre post v _ hloc
    obtain ⟨l1, l2⟩ := countVisits_length NDIM inc (i_lower num_dofs_per_proc mpi_rank)
      (i_upper num_dofs_per_proc mpi_rank) (n_local num_dofs_per_proc mpi_rank)
      (n_total num_dofs_per_proc) pre (nnzInit (n_local num_dofs_per_proc mpi_rank))
    have hb := local_idx_in_bounds _ _ (v.1 v.2) (hup ▸ hloc)
    rw [l1, l2]
    simp only [nnzInit, List.length_replicate]
    exact ⟨hb.1, hb.2.1, hb.2.2, hb.2.2⟩
  · intro inc dof i nnz hloc
    rw [countVisit_eq]
    simp [hloc]
  · intro matrix_coefs dof_index_data i d st hloc
    have hn : ¬ (i_lower num_dofs_per_proc mpi_rank ≤ dof_index_data.data i d ∧
        dof_index_data.data i d < i_upper num_dofs_per_proc mpi_rank) := by
      simpa [isLocal] using hloc
    unfold ccFillVisit
    simp only [hn, if_false]
  · intro matrix_coefs dof_index_data axis i st hloc
    have hn : ¬ (i_lower num_dofs_per_proc mpi_rank ≤ dof_index_data.data axis i 0 ∧
        dof_index_data.data axis i 0 < i_upper num_dofs_per_proc mpi_rank) := by
      simpa [isLocal] using hloc
    unfold scFillVisit
    simp only [hn, if_false]
  · intro PS BC compute poisson_spec bc_coefs data_time patch_level mat h
    have hc := ccLaplaceOp_counts NDIM compute poisson_spec bc_coefs data_time
      num_dofs_per_proc mpi_rank patch_level mat h
    obtain ⟨l1, l2⟩ := ccCountPass_length NDIM 1 _ _ _ _ _ patch_level _ hc
    refine ⟨l1, l2, ?_⟩
    intro sv hsv
    rw [ccLaplaceOp_set_values NDIM compute poisson_spec bc_coefs data_time
      num_dofs_per_proc mpi_rank patch_level mat h] at hsv
    simp only [List.mem_map, List.mem_filter] at hsv
    obtain ⟨v, ⟨_, hloc⟩, rfl⟩ := hsv
    exact hrow _ _ l1 hloc
  · intro PS BC compute ps_real ps_imag bc_coefs data_time patch_level mat h
    obtain ⟨hc, hsets, hpair⟩ := ccComplexLaplaceOp_ok NDIM compute ps_real ps_imag bc_coefs
      data_time num_dofs_per_proc mpi_rank patch_level mat h
    obtain ⟨l1, l2⟩ := ccCountPass_length NDIM 2 _ _ _ _ _ patch_level _ hc
    refine ⟨l1, l2, ?_⟩
    intro sv hsv
    rw [hsets] at hsv
    simp only [List.mem_flatMap, List.mem_filter, List.mem_cons, List.mem_singleton,
      List.not_mem_nil, or_false] at hsv
    obtain ⟨v, ⟨hv, hloc⟩, hsv⟩ := hsv
    rcases hsv with rfl | rfl
    · exact hrow _ _ l1 hloc
    · exact hrow _ _ l1 ((hpair v hv) ▸ hloc)
  · intro PS BC compute poisson_spec bc_coefs data_time patch_level mat h
    obtain ⟨_, hc, hsets⟩ := scLaplaceOp_ok NDIM compute poisson_spec bc_coefs data_time
      num_dofs_per_proc mpi_rank patch_level mat h
    obtain ⟨l1, l2⟩ := scCountPass_length NDIM _ _ _ _ patch_level _ hc
    refine ⟨l1, l2, ?_⟩
    intro sv hsv
    rw [hsets] at hsv
    simp only [List.mem_map, List.mem_filter] at hsv
    obtain ⟨v, ⟨_, hloc⟩, rfl⟩ := hsv
    exact hrow _ _ l1 hloc

/-- Witness for C24: the matrix of the 2 x 2 example on the partition `[4, 4]` carries four
counts per array, and its rows 0, 1, 2, 3 lie in `[0, 4)`. -/
theorem count_arrays_in_bounds_witness :
    exampleCellMat.d_nnz.length = (n_local [4, 4] 0).toNat ∧
    exampleCellMat.o_nnz.length = (n_local [4, 4] 0).toNat ∧
    ∀ sv ∈ exampleCellMat.set_values,
      i_lower [4, 4] 0 ≤ sv.row ∧ sv.row < i_upper [4, 4] 0 ∧
      (sv.row - i_lower [4, 4] 0).toNat < exampleCellMat.d_nnz.length :=
  (count_arrays_in_bounds 2 [4, 4] 0).2.2.2.2.2.1 Unit Unit exampleCoefs () [()] 0
    [exampleCellPatch] exampleCellMat (by rfl)

/-! ### The counts of the interpolation builder, visit by visit -/

/-- One visit of a component by the counting pass of `constructPatchLevelSCInterpOp`, as a
single update of the row `NDIM * k + axis`: the number of points of the stencil box whose
side DOF index is local is added to `d_nnz`, the number of the others to `o_nnz`, and each
is clamped. -/
theorem interpCountAxis_counts (NDIM : Nat) (s : Int)
    (j_lower j_upper n_local n_total : Int)
    (X X_cell : List ℚ) (X_idx : Index) (dof_index_data : SideData Int) (k : Nat)
    (st st' : InterpCount) (axis : Nat)
    (h : interpCountAxis NDIM s j_lower j_upper n_local n_total X X_cell X_idx dof_index_data k
      st axis = .ok st') :
    st'.d_nnz = st.d_nnz.modify
      (fun x => min n_local (x +
        (((stencilBoxAxis NDIM s X X_cell X_idx axis
          ((st.stencil_box.getD k []).getD axis (Box.emptyBox NDIM))).indices.countP
            (fun b => isLocal j_lower j_upper (dof_index_data.data axis b 0)) : Nat) : Int)))
      (NDIM * k + axis) ∧
    st'.o_nnz = st.o_nnz.modify
      (fun x => min (n_total - n_local) (x +
        (((stencilBoxAxis NDIM s X X_cell X_idx axis
          ((st.stencil_box.getD k []).getD axis (Box.emptyBox NDIM))).indices.countP
            (fun b => !isLocal j_lower j_upper (dof_index_data.data axis b 0)) : Nat) : Int)))
      (NDIM * k + axis) ∧
    st'.patch_id = st.patch_id := by
  unfold interpCountAxis at h
  simp only at h
  split at h
  · cases h
  · split at h
    · cases h
    · cases h
      simp only
      have hfold := foldl_classify 1 (NDIM * k + axis)
        (fun b => isLocal j_lower j_upper (dof_index_data.data axis b 0))
        (stencilBoxAxis NDIM s X X_cell X_idx axis
          ((st.stencil_box.getD k []).getD axis (Box.emptyBox NDIM))).indices
        (st.d_nnz, st.o_nnz)
      simp only [isLocal, decide_eq_true_eq] at hfold
      simp only [ge_iff_le, isLocal]
      rw [hfold]
      simp only [modify_modify_same, one_mul]
      exact ⟨trivial, trivial, trivial⟩

/-- A property of the two count arrays that every single-row update keeps is kept by the
whole counting pass of `constructPatchLevelSCInterpOp`. -/
theorem interpCountPass_nnz_invariant (NDIM : Nat)
    (getCellIndex : List ℚ → List ℚ → List ℚ → List ℚ → Index → Index → Index)
    (s : Int) (j_lower j_upper n_local n_total : Int) (X_arr : List ℚ)
    (patch_level : PatchLevel) (dx : List ℚ) (domain_box : Box) (n_local_points : Int)
    (P : List Int × List Int → Prop)
    (hstep : ∀ (idx D O : Nat) (nnz : List Int × List Int), P nnz →
      P (nnz.1.modify (fun x => min n_local (x + (D : Int))) idx,
         nnz.2.modify (fun x => min (n_total - n_local) (x + (O : Int))) idx))
    (init count : InterpCount) (hinit : P (init.d_nnz, init.o_nnz))
    (h : interpCountPass NDIM getCellIndex s j_lower j_upper n_local n_total X_arr patch_level
      dx domain_box n_local_points init = .ok count) :
    P (count.d_nnz, count.o_nnz) := by
  unfold interpCountPass at h
  refine foldlM_invariant (fun st : InterpCount => P (st.d_nnz, st.o_nnz)) _ ?_ _ _ _ hinit h
  intro st k st' hst hp
  unfold interpCountPoint at hp
  simp only at hp
  split at hp
  · cases hp
  · split at hp
    · cases hp
    · split at hp
      · cases hp
      · refine foldlM_invariant (fun st : InterpCount => P (st.d_nnz, st.o_nnz)) _ ?_ _ _ _
          (by exact hst) hp
        intro s1 axis s2 hs1 hax
        obtain ⟨hd, ho, _⟩ := interpCountAxis_counts NDIM s _ _ _ _ _ _ _ _ _ _ _ _ hax
        simp only [hd, ho]
        exact hstep _ _ _ _ hs1

/-- A successful run of `constructPatchLevelSCInterpOp`, with the state in which its
counting pass starts written out. -/
theorem interpOp_ok_init (NDIM : Nat)
    (getCellIndex : List ℚ → List ℚ → List ℚ → List ℚ → Index → Index → Index)
    (interp_fcn : ℚ → List ℚ → List ℚ) (N : Int) (X_vec : Vec)
    (num_dofs_per_proc : List Int) (mpi_rank : Nat) (patch_level : PatchLevel) (op : InterpOp)
    (h : constructPatchLevelSCInterpOp NDIM getCellIndex interp_fcn N X_vec num_dofs_per_proc
      mpi_rank patch_level = .ok op) :
    ∃ (domain_box : Box) (count : InterpCount),
      patch_level.domain_boxes = [domain_box] ∧
      interpCountPass NDIM getCellIndex (roundInterpStencil N)
        (i_lower num_dofs_per_proc mpi_rank)
        (i_lower num_dofs_per_proc mpi_rank + n_local num_dofs_per_proc mpi_rank)
        (n_local num_dofs_per_proc mpi_rank) (n_total num_dofs_per_proc) X_vec.array
        patch_level (levelDx NDIM patch_level.dx0 patch_level.ratio_to_level_zero) domain_box
        (X_vec.local_size.tdiv (NDIM : Int))
        { patch_id := List.replicate (X_vec.local_size.tdiv (NDIM : Int)).toNat (-1),
          stencil_box := List.replicate (X_vec.local_size.tdiv (NDIM : Int)).toNat
            (List.replicate NDIM (Box.emptyBox NDIM)),
          d_nnz := List.replicate X_vec.local_size.toNat 0,
          o_nnz := List.replicate X_vec.local_size.toNat 0 } = .ok count ∧
      (List.range (X_vec.local_size.tdiv (NDIM : Int)).toNat).foldlM
        (interpFillPoint NDIM interp_fcn (roundInterpStencil N) X_vec.ownership_lower
          X_vec.array patch_level
          (levelDx NDIM patch_level.dx0 patch_level.ratio_to_level_zero) domain_box count) []
        = .ok op.mat.set_values ∧
      op.stencil_box = count.stencil_box ∧ op.patch_id = count.patch_id ∧
      op.mat.d_nnz = count.d_nnz ∧ op.mat.o_nnz = count.o_nnz ∧
      op.mat.m_local = X_vec.local_size := by
  unfold constructPatchLevelSCInterpOp at h
  simp only at h
  split at h
  · rename_i domain_box hdom
    split at h
    · cases h
    · rename_i count hcount
      split at h
      · cases h
      · rename_i sets hsets
        cases h
        exact ⟨domain_box, count, hdom, hcount, hsets, rfl, rfl, rfl, rfl, rfl⟩
  · cases h

/-! ### A single-process partition -/

/-- The ranges of a partition with a single entry. -/
theorem single_partition (n : Int) :
    i_lower [n] 0 = 0 ∧ n_local [n] 0 = n ∧ i_upper [n] 0 = n ∧ n_total [n] = n := by
  simp [i_lower, i_upper, n_local, n_total, accumulate]

/-- With the clamp of `o_nnz` at zero, a visit of a counting pass keeps `o_nnz` all zero. -/
theorem countVisit_o_zero (NDIM : Nat) (inc : Int) (hinc : 0 ≤ inc)
    (i_lower i_upper n_local n_total : Int) (h0 : n_total - n_local = 0)
    (dof : Index → Int) (i : Index) (nnz : List Int × List Int)
    (h : ∀ x ∈ nnz.2, x = 0) :
    ∀ x ∈ (countVisit NDIM inc i_lower i_upper n_local n_total dof i nnz).2, x = 0 := by
  rw [countVisit_eq]
  split
  · apply modify_forall _ _ _ _ h
    intro x hx
    rw [hx, h0]
    have : 0 ≤ inc * ((neighbourDofs NDIM dof i).countP
        (fun c => !isLocal i_lower i_upper c) : Int) := mul_nonneg hinc (by positivity)
    omega
  · exact h

/-- With the clamp of `o_nnz` at zero, a sequence of visits from the zeroed arrays leaves
`o_nnz` zero in every row. -/
theorem countVisits_o_zero (NDIM : Nat) (inc : Int) (hinc : 0 ≤ inc)
    (i_lower i_upper n_local n_total : Int) (h0 : n_total - n_local = 0)
    (vs : List ((Index → Int) × Index)) :
    (vs.foldl (fun nnz v => countVisit NDIM inc i_lower i_upper n_local n_total v.1 v.2 nnz)
      (nnzInit n_local)).2 = List.replicate n_local.toNat 0 := by
  rw [List.eq_replicate_iff]
  constructor
  · rw [(countVisits_length NDIM inc i_lower i_upper n_local n_total vs (nnzInit n_local)).2]
    simp [nnzInit]
  · refine foldl_invariant (fun (t : List Int × List Int) => ∀ x ∈ t.2, x = 0) _ ?_ vs _ ?_
    · intro t v ht
      exact countVisit_o_zero NDIM inc hinc i_lower i_upper n_local n_total h0 v.1 v.2 t ht
    · intro x hx
      simp only [nnzInit, List.mem_replicate] at hx
      exact hx.2

/-- C27: on a single-process partition `num_dofs_per_proc = [n]` (rank 0, so that
`n_total = n_local` and `o_nnz` is clamped at zero) every builder predicts `o_nnz = 0` for
every row: the three Laplace builders return `o_nnz` as `n` zeros and the interpolation
builder as `m_local` zeros. A sentinel (negative) index fails the locality test, so a
stencil neighbour carrying one is counted as non-local before the clamp, and the row's
`o_nnz` is zero all the same. -/
theorem single_process_o_nnz_zero (NDIM : Nat) (n : Int) :
    n_total [n] - n_local [n] 0 = 0 ∧
    (∀ c : Int, c < 0 → isLocal (i_lower [n] 0) (i_upper [n] 0) c = false) ∧
    (∀ (dof : Index → Int) (i : Index), (∃ c ∈ neighbourDofs NDIM dof i, c < 0) →
      0 < (neighbourDofs NDIM dof i).countP
        (fun c => !isLocal (i_lower [n] 0) (i_upper [n] 0) c)) ∧
    (∀ (inc : Int), 0 ≤ inc → ∀ (vs : List ((Index → Int) × Index)),
      (vs.foldl (fun nnz v => countVisit NDIM inc (i_lower [n] 0) (i_upper [n] 0)
          (n_local [n] 0) (n_total [n]) v.1 v.2 nnz) (nnzInit (n_local [n] 0))).2
        = List.replicate n.toNat 0) ∧
    (∀ (PS BC : Type)
      (computeCCMatrixCoefficients :
        Patch (CellData Int) → List Index → PS → List BC → ℚ → Index → Nat → ℚ)
      (poisson_spec : PS) (bc_coefs : List BC) (data_time : ℚ)
      (patch_level : List (Patch (CellData Int))) (mat : Mat),
      constructPatchLevelCCLaplaceOp NDIM computeCCMatrixCoefficients poisson_spec bc_coefs
        data_time [n] 0 patch_level = .ok mat →
      mat.o_nnz = List.replicate n.toNat 0) ∧
    (∀ (PS BC : Type)
      (computeCCComplexMatrixCoefficients :
        Patch (CellData Int) → List Index → PS → PS → List BC → ℚ → Index → Nat → ℚ)
      (poisson_spec_real poisson_spec_imag : PS) (bc_coefs : List BC) (data_time : ℚ)
      (patch_level : List (Patch (CellData Int))) (mat : Mat),
      constructPatchLevelCCComplexLaplaceOp NDIM computeCCComplexMatrixCoefficients
        poisson_spec_real poisson_spec_imag bc_coefs data_time [n] 0 patch_level = .ok mat →
      mat.o_nnz = List.replicate n.toNat 0) ∧
    (∀ (PS BC : Type)
      (computeSCMatrixCoefficients :
        Patch (SideData Int) → List Index → PS → List BC → ℚ → Nat → Index → Nat → ℚ)
      (poisson_spec : PS) (bc_coefs : List BC) (data_time : ℚ)
      (patch_level : List (Patch (SideData Int))) (mat : Mat),
      constructPatchLevelSCLaplaceOp NDIM computeSCMatrixCoefficients poisson_spec bc_coefs
        data_time [n] 0 patch_level = .ok mat →
      mat.o_nnz = List.replicate n.toNat 0) ∧
    (∀ (getCellIndex : List ℚ → List ℚ → List ℚ → List ℚ → Index → Index → Index)
      (interp_fcn : ℚ → List ℚ → List ℚ) (N : Int) (X_vec : Vec) (patch_level : PatchLevel)
      (op : InterpOp),
      constructPatchLevelSCInterpOp NDIM getCellIndex interp_fcn N X_vec [n] 0 patch_level
        = .ok op →
      op.mat.o_nnz = List.replicate X_vec.local_size.toNat 0) := by
  obtain ⟨hl, hn, hu, ht⟩ := single_partition n
  have h0 : n_total [n] - n_local [n] 0 = 0 := by rw [ht, hn]; ring
  have hsent : ∀ c : Int, c < 0 → isLocal (i_lower [n] 0) (i_upper [n] 0) c = false := by
    intro c hc
    rw [hl]
    simp only [isLocal, decide_eq_false_iff_not, not_and, not_lt]
    intro h
    omega
  have hvisits : ∀ (inc : Int), 0 ≤ inc → ∀ (vs : List ((Index → Int) × Index)),
      (vs.foldl (fun nnz v => countVisit NDIM inc (i_lower [n] 0) (i_upper [n] 0)
          (n_local [n] 0) (n_total [n]) v.1 v.2 nnz) (nnzInit (n_local [n] 0))).2
        = List.replicate n.toNat 0 := by
    intro inc hinc vs
    have := countVisits_o_zero NDIM inc hinc (i_lower [n] 0) (i_upper [n] 0) (n_local [n] 0)
      (n_total [n]) h0 vs
    rw [this, hn]
  refine ⟨h0, hsent, ?_, hvisits, ?_, ?_, ?_, ?_⟩
  · rintro dof i ⟨c, hc, hneg⟩
    rw [List.countP_pos_iff]
    exact ⟨c, hc, by simp [hsent c hneg]⟩
  · intro PS BC compute poisson_spec bc_coefs data_time patch_level mat h
    have hc := ccLaplaceOp_counts NDIM compute poisson_spec bc_coefs data_time [n] 0
      patch_level mat h
    unfold ccCountPass at hc
    have hf := ccCountPass_eq_fold NDIM 1 bc_coefs.length _ _ _ _ patch_level _ _ hc
    have := congrArg Prod.snd hf
    simp only at this
    rw [this]
    exact hvisits 1 (by norm_num) _
  · intro PS BC compute ps_real ps_imag bc_coefs data_time patch_level mat h
    obtain ⟨hc, _, _⟩ := ccComplexLaplaceOp_ok NDIM compute ps_real ps_imag bc_coefs data_time
      [n] 0 patch_level mat h
    unfold ccCountPass at hc
    have hf := ccCountPass_eq_fold NDIM 2 bc_coefs.length _ _ _ _ patch_level _ _ hc
    have := congrArg Prod.snd hf
    simp only at this
    rw [this]
    exact hvisits 2 (by norm_num) _
  · intro PS BC compute poisson_spec bc_coefs data_time patch_level mat h
    obtain ⟨_, hc, _⟩ := scLaplaceOp_ok NDIM compute poisson_spec bc_coefs data_time [n] 0
      patch_level mat h
    unfold scCountPass at hc
    have hf := scCountPass_eq_fold NDIM _ _ _ _ patch_level _ _ hc
    have := congrArg Prod.snd hf
    simp only at this
    rw [this]
    exact hvisits 1 (by norm_num) _
  · intro getCellIndex interp_fcn N X_vec patch_level op h
    obtain ⟨domain_box, count, _, hcount, _, _, _, _, ho, _⟩ := interpOp_ok_init NDIM
      getCellIndex interp_fcn N X_vec [n] 0 patch_level op h
    rw [ho]
    have hinv := interpCountPass_nnz_invariant NDIM getCellIndex (roundInterpStencil N) _ _ _ _
      _ _ _ _ _
      (fun (t : List Int × List Int) =>
        t.2.length = X_vec.local_size.toNat ∧ ∀ x ∈ t.2, x = 0)
      ?_ _ count ?_ hcount
    · rw [List.eq_replicate_iff]
      exact hinv
    · intro idx D O nnz hnnz
      refine ⟨by simp only [List.length_modify]; exact hnnz.1, ?_⟩
      apply modify_forall _ _ _ _ hnnz.2
      intro x hx
      rw [hx, h0]
      omega
    · simp

/-- Witness for C27: on the complex example with the partition `[2]` the cell `(0, 0)` has
four sentinel neighbours, all counted as non-local, and the builder returns `o_nnz = [0, 0]`. -/
theorem single_process_o_nnz_zero_witness :
    exampleComplexMat.o_nnz = List.replicate (2 : Int).toNat 0 ∧
    0 < (neighbourDofs 2 (fun j => exampleComplexDofs j 0) [0, 0]).countP
      (fun c => !isLocal (i_lower [2] 0) (i_upper [2] 0) c) :=
  ⟨(single_process_o_nnz_zero 2 2).2.2.2.2.2.1 Unit Unit exampleComplexCoefs () () [(), ()] 0
     [exampleComplexPatch] exampleComplexMat (by rfl),
   by decide⟩

/-! ### The overloads taking a single boundary-condition object -/

/-- The matrix a cell-centred builder returns has the block size `bc_coefs.size()`, and every
patch of the level then carries an index field of that depth. -/
theorem ccLaplaceOp_block_size (NDIM : Nat) {PS BC : Type}
    (computeCCMatrixCoefficients :
      Patch (CellData Int) → List Index → PS → List BC → ℚ → Index → Nat → ℚ)
    (computeCCComplexMatrixCoefficients :
      Patch (CellData Int) → List Index → PS → PS → List BC → ℚ → Index → Nat → ℚ)
    (poisson_spec poisson_spec_imag : PS) (bc_coefs : List BC) (data_time : ℚ)
    (num_dofs_per_proc : List Int) (mpi_rank : Nat)
    (patch_level : List (Patch (CellData Int))) (mat : Mat) :
    (constructPatchLevelCCLaplaceOp NDIM computeCCMatrixCoefficients poisson_spec bc_coefs
        data_time num_dofs_per_proc mpi_rank patch_level = .ok mat →
      mat.block_size = some (bc_coefs.length : Int) ∧
      ∀ patch ∈ patch_level, patch.dof_index_data.depth = bc_coefs.length) ∧
    (constructPatchLevelCCComplexLaplaceOp NDIM computeCCComplexMatrixCoefficients poisson_spec
        poisson_spec_imag bc_coefs data_time num_dofs_per_proc mpi_rank patch_level = .ok mat →
      mat.block_size = some (bc_coefs.length : Int) ∧
      ∀ patch ∈ patch_level, patch.dof_index_data.depth = bc_coefs.length) := by
  have hdepth : ∀ (inc : Int) (nnz : List Int × List Int),
      ccCountPass NDIM inc bc_coefs.length (i_lower num_dofs_per_proc mpi_rank)
        (i_upper num_dofs_per_proc mpi_rank) (n_local num_dofs_per_proc mpi_rank)
        (n_total num_dofs_per_proc) patch_level = .ok nnz →
      ∀ patch ∈ patch_level, patch.dof_index_data.depth = bc_coefs.length := by
    intro inc nnz hok p hp
    by_contra hne
    have := (ccCountPass_error_iff NDIM inc bc_coefs.length
      (i_lower num_dofs_per_proc mpi_rank) (i_upper num_dofs_per_proc mpi_rank)
      (n_local num_dofs_per_proc mpi_rank) (n_total num_dofs_per_proc) patch_level
      Failure.assert_cell_depth).mpr ⟨rfl, p, hp, hne⟩
    rw [this] at hok
    cases hok
  constructor
  · intro h
    unfold constructPatchLevelCCLaplaceOp at h
    simp only at h
    split at h
    · cases h
    · rename_i nnz hnnz
      cases h
      exact ⟨rfl, hdepth 1 nnz hnnz⟩
  · intro h
    unfold constructPatchLevelCCComplexLaplaceOp at h
    simp only at h
    split at h
    · cases h
    · rename_i nnz hnnz
      split at h
      · cases h
      · cases h
        exact ⟨rfl, hdepth 2 nnz hnnz⟩

/-- C23: the overloads taking a single boundary-condition object agree with the list
overloads: `constructPatchLevelCCLaplaceOp(mat, spec, bc_coef, ...)` is the list overload
called with `[bc_coef]`, of depth 1, and
`constructPatchLevelCCComplexLaplaceOp(mat, spec_real, spec_imag, bc_coef, ...)` is the list
overload called with `[bc_coef, bc_coef]`, of depth 2. Accordingly the real one fails
exactly when some patch carries an index field of depth other than 1, and the matrices they
return have block size 1 and 2 over index fields of depth 1 and 2. -/
theorem single_bc_overloads (NDIM : Nat) {PS BC : Type}
    (computeCCMatrixCoefficients :
      Patch (CellData Int) → List Index → PS → List BC → ℚ → Index → Nat → ℚ)
    (computeCCComplexMatrixCoefficients :
      Patch (CellData Int) → List Index → PS → PS → List BC → ℚ → Index → Nat → ℚ)
    (poisson_spec poisson_spec_imag : PS) (bc_coef : BC) (data_time : ℚ)
    (num_dofs_per_proc : List Int) (mpi_rank : Nat)
    (patch_level : List (Patch (CellData Int))) :
    constructPatchLevelCCLaplaceOp_single NDIM computeCCMatrixCoefficients poisson_spec
        bc_coef data_time num_dofs_per_proc mpi_rank patch_level
      = constructPatchLevelCCLaplaceOp NDIM computeCCMatrixCoefficients poisson_spec
        [bc_coef] data_time num_dofs_per_proc mpi_rank patch_level ∧
    [bc_coef].length = 1 ∧
    constructPatchLevelCCComplexLaplaceOp_single NDIM computeCCComplexMatrixCoefficients
        poisson_spec poisson_spec_imag bc_coef data_time num_dofs_per_proc mpi_rank patch_level
      = constructPatchLevelCCComplexLaplaceOp NDIM computeCCComplexMatrixCoefficients
        poisson_spec poisson_spec_imag [bc_coef, bc_coef] data_time num_dofs_per_proc mpi_rank
        patch_level ∧
    [bc_coef, bc_coef].length = 2 ∧
    (∀ e : Failure,
      constructPatchLevelCCLaplaceOp_single NDIM computeCCMatrixCoefficients poisson_spec
          bc_coef data_time num_dofs_per_proc mpi_rank patch_level = .error e ↔
        (e = Failure.assert_cell_depth ∧
          ∃ patch ∈ patch_level, patch.dof_index_data.depth ≠ 1)) ∧
    (∀ mat : Mat,
      constructPatchLevelCCLaplaceOp_single NDIM computeCCMatrixCoefficients poisson_spec
          bc_coef data_time num_dofs_per_proc mpi_rank patch_level = .ok mat →
      mat.block_size = some 1 ∧ ∀ patch ∈ patch_level, patch.dof_index_data.depth = 1) ∧
    (∀ mat : Mat,
      constructPatchLevelCCComplexLaplaceOp_single NDIM computeCCComplexMatrixCoefficients
          poisson_spec poisson_spec_imag bc_coef data_time num_dofs_per_proc mpi_rank
          patch_level = .ok mat →
      mat.block_size = some 2 ∧ ∀ patch ∈ patch_level, patch.dof_index_data.depth = 2) := by
  refine ⟨rfl, rfl, rfl, rfl, ?_, ?_, ?_⟩
  · intro e
    unfold constructPatchLevelCCLaplaceOp_single constructPatchLevelCCLaplaceOp
    simp only
    split
    · rename_i e' he
      rw [← ccCountPass_error_iff NDIM 1 1 _ _ _ _ patch_level e]
      constructor
      · intro h
        cases h
        exact he
      · intro h
        have he' : (List.replicate 1 bc_coef).length = 1 := rfl
        rw [he'] at he
        rw [h] at he
        cases he
        rfl
    · rename_i nnz hok
      constructor
      · intro h
        cases h
      · intro h
        rw [← ccCountPass_error_iff NDIM 1 1 _ _ _ _ patch_level e] at h
        have he' : (List.replicate 1 bc_coef).length = 1 := rfl
        rw [he'] at hok
        rw [h] at hok
        cases hok
  · intro mat h
    exact (ccLaplaceOp_block_size NDIM computeCCMatrixCoefficients
      computeCCComplexMatrixCoefficients poisson_spec poisson_spec_imag [bc_coef] data_time
      num_dofs_per_proc mpi_rank patch_level mat).1 h
  · intro mat h
    exact (ccLaplaceOp_block_size NDIM computeCCMatrixCoefficients
      computeCCComplexMatrixCoefficients poisson_spec poisson_spec_imag [bc_coef, bc_coef]
      data_time num_dofs_per_proc mpi_rank patch_level mat).2 h

/-- Witness for C23: with the single boundary-condition object `()` the real overload
returns `exampleCellMat` for the 2 x 2 example, with block size 1. -/
theorem single_bc_overloads_witness :
    constructPatchLevelCCLaplaceOp_single 2 exampleCoefs () () 0 [4, 4] 0 [exampleCellPatch]
      = .ok exampleCellMat ∧
    exampleCellMat.block_size = some 1 ∧
    ∀ patch ∈ [exampleCellPatch], patch.dof_index_data.depth = 1 :=
  ⟨by rfl,
   (single_bc_overloads 2 exampleCoefs exampleComplexCoefs () () () 0 [4, 4] 0
      [exampleCellPatch]).2.2.2.2.2.1 exampleCellMat (by rfl)⟩

/-! ### The checks of the side-centred Laplace builder -/

/-- The counting pass of the side-centred builder fails exactly when some patch has an index
field whose depth is not 1, and then with the depth assertion. -/
theorem scCountPatches_cases (NDIM : Nat)
    (i_lower i_upper n_local n_total : Int) (patch_level : List (Patch (SideData Int)))
    (init : List Int × List Int) :
    ((∀ patch ∈ patch_level, patch.dof_index_data.depth = 1) ∧
      ∃ nnz, patch_level.foldlM (scCountPatch NDIM i_lower i_upper n_local n_total)
        init = .ok nnz) ∨
    ((∃ patch ∈ patch_level, patch.dof_index_data.depth ≠ 1) ∧
      patch_level.foldlM (scCountPatch NDIM i_lower i_upper n_local n_total) init
        = .error Failure.assert_side_depth) := by
  induction patch_level generalizing init with
  | nil =>
    left
    exact ⟨by simp, init, rfl⟩
  | cons patch rest ih =>
    rw [List.foldlM_cons]
    by_cases hd : patch.dof_index_data.depth = 1
    · have hstep : ∃ s1, scCountPatch NDIM i_lower i_upper n_local n_total init patch
          = .ok s1 := by
        unfold scCountPatch
        simp only [ne_eq, hd, not_true_eq_false, if_false]
        exact ⟨_, rfl⟩
      obtain ⟨s1, hs1⟩ := hstep
      simp only [hs1, bind, Except.bind]
      rcases ih s1 with ⟨hall, hok⟩ | ⟨hex, herr⟩
      · left
        refine ⟨?_, hok⟩
        intro p hp
        rcases List.mem_cons.mp hp with rfl | hp'
        · exact hd
        · exact hall p hp'
      · right
        obtain ⟨p, hp, hne⟩ := hex
        exact ⟨⟨p, List.mem_cons_of_mem _ hp, hne⟩, herr⟩
    · right
      refine ⟨⟨patch, List.mem_cons_self _ _, hd⟩, ?_⟩
      have hstep : scCountPatch NDIM i_lower i_upper n_local n_total init patch
          = .error Failure.assert_side_depth := by
        unfold scCountPatch
        simp only [ne_eq, hd, not_false_eq_true, if_true]
      simp only [hstep, bind, Except.bind]

/-- The builder with the handle made explicit and the builder returning the matrix agree:
they fail together with the same failure, and on success the handle holds the matrix
returned, the incoming matrix, if any, having been destroyed. -/
theorem scLaplaceOp_ref_eq (NDIM : Nat) {PS BC : Type}
    (computeSCMatrixCoefficients :
      Patch (SideData Int) → List Index → PS → List BC → ℚ → Nat → Index → Nat → ℚ)
    (mat : MatRef) (poisson_spec : PS) (bc_coefs : List BC) (data_time : ℚ)
    (num_dofs_per_proc : List Int) (mpi_rank : Nat)
    (patch_level : List (Patch (SideData Int))) :
    (constructPatchLevelSCLaplaceOp_ref NDIM computeSCMatrixCoefficients mat poisson_spec
        bc_coefs data_time num_dofs_per_proc mpi_rank patch_level).2
      = (constructPatchLevelSCLaplaceOp NDIM computeSCMatrixCoefficients poisson_spec bc_coefs
        data_time num_dofs_per_proc mpi_rank patch_level).map (fun _ => ()) ∧
    ∀ m, constructPatchLevelSCLaplaceOp NDIM computeSCMatrixCoefficients poisson_spec bc_coefs
        data_time num_dofs_per_proc mpi_rank patch_level = .ok m →
      (constructPatchLevelSCLaplaceOp_ref NDIM computeSCMatrixCoefficients mat poisson_spec
        bc_coefs data_time num_dofs_per_proc mpi_rank patch_level).1
        = { handle := some m, destroyed := mat.destroyed ++ mat.handle.toList } := by
  unfold constructPatchLevelSCLaplaceOp_ref constructPatchLevelSCLaplaceOp
  by_cases hlen : bc_coefs.length = NDIM
  · simp only [ne_eq, hlen, not_true_eq_false, if_false]
    cases hc : scCountPass NDIM (i_lower num_dofs_per_proc mpi_rank)
        (i_upper num_dofs_per_proc mpi_rank) (n_local num_dofs_per_proc mpi_rank)
        (n_total num_dofs_per_proc) patch_level with
    | error e =>
      refine ⟨rfl, ?_⟩
      intro m hm
      cases hm
    | ok nnz =>
      refine ⟨rfl, ?_⟩
      intro m hm
      cases hm
      cases hh : mat.handle with
      | none => simp
      | some m0 => simp
  · simp only [ne_eq, hlen, not_false_eq_true, if_true]
    refine ⟨rfl, ?_⟩
    intro m hm
    cases hm

/-- C22: `constructPatchLevelSCLaplaceOp` checks `bc_coefs.size() == NDIM` before anything
else. When the size is not `NDIM` the builder fails with that assertion whatever the level,
the partition and the incoming handle are, even if the depth check would fail too, and the
reference `mat` is returned as it came: nothing was destroyed and no matrix was created.
The builder reports that assertion only in this case. When the size is `NDIM` and some
patch carries a side-centred index field of depth other than 1, the builder fails with the
depth assertion of its counting pass; by then the incoming matrix has been destroyed and
the handle is null. In either case a patch of depth other than 1 makes the builder fail. -/
theorem sc_bc_size_checked_first (NDIM : Nat) {PS BC : Type}
    (computeSCMatrixCoefficients :
      Patch (SideData Int) → List Index → PS → List BC → ℚ → Nat → Index → Nat → ℚ)
    (mat : MatRef) (poisson_spec : PS) (bc_coefs : List BC) (data_time : ℚ)
    (num_dofs_per_proc : List Int) (mpi_rank : Nat)
    (patch_level : List (Patch (SideData Int))) :
    (bc_coefs.length ≠ NDIM →
      constructPatchLevelSCLaplaceOp_ref NDIM computeSCMatrixCoefficients mat poisson_spec
        bc_coefs data_time num_dofs_per_proc mpi_rank patch_level
        = (mat, .error Failure.assert_bc_coefs_size)) ∧
    ((constructPatchLevelSCLaplaceOp_ref NDIM computeSCMatrixCoefficients mat poisson_spec
        bc_coefs data_time num_dofs_per_proc mpi_rank patch_level).2
        = .error Failure.assert_bc_coefs_size ↔ bc_coefs.length ≠ NDIM) ∧
    (bc_coefs.length = NDIM → (∃ patch ∈ patch_level, patch.dof_index_data.depth ≠ 1) →
      constructPatchLevelSCLaplaceOp_ref NDIM computeSCMatrixCoefficients mat poisson_spec
        bc_coefs data_time num_dofs_per_proc mpi_rank patch_level
        = ({ handle := none, destroyed := mat.destroyed ++ mat.handle.toList },
           .error Failure.assert_side_depth)) ∧
    ((∃ patch ∈ patch_level, patch.dof_index_data.depth ≠ 1) →
      ∃ e, (constructPatchLevelSCLaplaceOp_ref NDIM computeSCMatrixCoefficients mat
          poisson_spec bc_coefs data_time num_dofs_per_proc mpi_rank patch_level).2 = .error e ∧
        constructPatchLevelSCLaplaceOp NDIM computeSCMatrixCoefficients poisson_spec bc_coefs
          data_time num_dofs_per_proc mpi_rank patch_level = .error e) ∧
    (constructPatchLevelSCLaplaceOp NDIM computeSCMatrixCoefficients poisson_spec bc_coefs
        data_time num_dofs_per_proc mpi_rank patch_level = .error Failure.assert_bc_coefs_size ↔
      bc_coefs.length ≠ NDIM) := by
  have hdepth : bc_coefs.length = NDIM →
      (∃ patch ∈ patch_level, patch.dof_index_data.depth ≠ 1) →
      scCountPass NDIM (i_lower num_dofs_per_proc mpi_rank)
        (i_upper num_dofs_per_proc mpi_rank) (n_local num_dofs_per_proc mpi_rank)
        (n_total num_dofs_per_proc) patch_level = .error Failure.assert_side_depth := by
    intro _ hex
    unfold scCountPass
    rcases scCountPatches_cases NDIM (i_lower num_dofs_per_proc mpi_rank)
      (i_upper num_dofs_per_proc mpi_rank) (n_local num_dofs_per_proc mpi_rank)
      (n_total num_dofs_per_proc) patch_level (nnzInit (n_local num_dofs_per_proc mpi_rank))
      with ⟨hall, _⟩ | ⟨_, herr⟩
    · obtain ⟨p, hp, hne⟩ := hex
      exact absurd (hall p hp) hne
    · exact herr
  have hcount_ne : ∀ e, scCountPass NDIM (i_lower num_dofs_per_proc mpi_rank)
        (i_upper num_dofs_per_proc mpi_rank) (n_local num_dofs_per_proc mpi_rank)
        (n_total num_dofs_per_proc) patch_level = .error e → e = Failure.assert_side_depth := by
    intro e he
    unfold scCountPass at he
    rcases scCountPatches_cases NDIM (i_lower num_dofs_per_proc mpi_rank)
      (i_upper num_dofs_per_proc mpi_rank) (n_local num_dofs_per_proc mpi_rank)
      (n_total num_dofs_per_proc) patch_level (nnzInit (n_local num_dofs_per_proc mpi_rank))
      with ⟨_, nnz, hok⟩ | ⟨_, herr⟩
    · rw [hok] at he
      cases he
    · rw [herr] at he
      cases he
      rfl
  have h1 : bc_coefs.length ≠ NDIM →
      constructPatchLevelSCLaplaceOp_ref NDIM computeSCMatrixCoefficients mat poisson_spec
        bc_coefs data_time num_dofs_per_proc mpi_rank patch_level
        = (mat, .error Failure.assert_bc_coefs_size) := by
    intro hlen
    unfold constructPatchLevelSCLaplaceOp_ref
    simp only [ne_eq, hlen, not_false_eq_true, if_true]
  have h3 : bc_coefs.length = NDIM → (∃ patch ∈ patch_level, patch.dof_index_data.depth ≠ 1) →
      constructPatchLevelSCLaplaceOp_ref NDIM computeSCMatrixCoefficients mat poisson_spec
        bc_coefs data_time num_dofs_per_proc mpi_rank patch_level
        = ({ handle := none, destroyed := mat.destroyed ++ mat.handle.toList },
           .error Failure.assert_side_depth) := by
    intro hlen hex
    unfold constructPatchLevelSCLaplaceOp_ref
    simp only [ne_eq, hlen, not_true_eq_false, if_false, hdepth hlen hex]
    cases hh : mat.handle with
    | none =>
      have : mat = { handle := none, destroyed := mat.destroyed } := by
        cases mat
        simp_all
      simp [← this]
    | some m0 => simp
  have hpure : constructPatchLevelSCLaplaceOp NDIM computeSCMatrixCoefficients poisson_spec
        bc_coefs data_time num_dofs_per_proc mpi_rank patch_level
        = .error Failure.assert_bc_coefs_size ↔ bc_coefs.length ≠ NDIM := by
    constructor
    · intro h hlen
      unfold constructPatchLevelSCLaplaceOp at h
      simp only [ne_eq, hlen, not_true_eq_false, if_false] at h
      split at h
      · rename_i e he
        cases h
        have := hcount_ne _ he
        cases this
      · cases h
    · intro hlen
      unfold constructPatchLevelSCLaplaceOp
      simp only [ne_eq, hlen, not_false_eq_true, if_true]
  have heq := (scLaplaceOp_ref_eq NDIM computeSCMatrixCoefficients mat poisson_spec bc_coefs
    data_time num_dofs_per_proc mpi_rank patch_level).1
  refine ⟨h1, ?_, h3, ?_, hpure⟩
  · rw [heq, ← hpure]
    cases constructPatchLevelSCLaplaceOp NDIM computeSCMatrixCoefficients poisson_spec bc_coefs
        data_time num_dofs_per_proc mpi_rank patch_level with
    | error e => simp [Except.map]
    | ok m => simp [Except.map]
  · intro hex
    by_cases hlen : bc_coefs.length = NDIM
    · refine ⟨Failure.assert_side_depth, by rw [h3 hlen hex], ?_⟩
      unfold constructPatchLevelSCLaplaceOp
      simp only [ne_eq, hlen, not_true_eq_false, if_false, hdepth hlen hex]
    · refine ⟨Failure.assert_bc_coefs_size, by rw [h1 hlen], hpure.mpr hlen⟩

/-- Witness for C22: in two dimensions, a list of one boundary-condition object is rejected
and the incoming matrix `exampleSideMat` is still held by the handle. -/
theorem sc_bc_size_checked_first_witness :
    constructPatchLevelSCLaplaceOp_ref 2 exampleSideCoefs
        { handle := some exampleSideMat, destroyed := [] } () [()] 0 [7, 7] 0
        [exampleSidePatchA, exampleSidePatchB]
      = ({ handle := some exampleSideMat, destroyed := [] },
         .error Failure.assert_bc_coefs_size) :=
  (sc_bc_size_checked_first 2 exampleSideCoefs
    { handle := some exampleSideMat, destroyed := [] } () [()] 0 [7, 7] 0
    [exampleSidePatchA, exampleSidePatchB]).1 (by decide)

/-! ### The rows written by the interpolation builder -/

/-- The number of sample points `m_local / NDIM` is positive only for a positive `m_local`,
and `NDIM * k + axis` stays below `m_local` for every sample point `k` and component
`axis`. -/
theorem interp_local_idx_lt (NDIM : Nat) (m_local : Int) (k axis : Nat)
    (hk : k < (m_local.tdiv (NDIM : Int)).toNat) (haxis : axis < NDIM) :
    ((NDIM * k + axis : Nat) : Int) < m_local ∧ NDIM * k + axis < m_local.toNat := by
  have hk' : (k : Int) < m_local.tdiv (NDIM : Int) := Int.lt_toNat.mp hk
  have hm : 0 ≤ m_local := by
    by_contra hneg
    have h1 : 0 ≤ (-m_local).tdiv (NDIM : Int) :=
      Int.tdiv_nonneg (by omega) (Int.ofNat_nonneg NDIM)
    rw [Int.neg_tdiv] at h1
    omega
  rw [Int.tdiv_eq_ediv hm (Int.ofNat_nonneg NDIM)] at hk'
  have hN : (NDIM : Int) ≠ 0 := by omega
  have h2 : (NDIM : Int) * (m_local / (NDIM : Int)) ≤ m_local := Int.mul_ediv_self_le hN
  have h3 : (NDIM : Int) * ((k : Int) + 1) ≤ (NDIM : Int) * (m_local / (NDIM : Int)) :=
    Int.mul_le_mul_of_nonneg_left (by omega) (Int.ofNat_nonneg NDIM)
  have h4 : (NDIM : Int) * ((k : Int) + 1) = (NDIM : Int) * (k : Int) + (NDIM : Int) := by ring
  have h5 : ((NDIM * k + axis : Nat) : Int) = (NDIM : Int) * (k : Int) + (axis : Int) := by
    push_cast
    ring
  have h6 : ((NDIM * k + axis : Nat) : Int) < m_local := by
    rw [h5]
    omega
  exact ⟨h6, by omega⟩

/-- When `NDIM` divides `m_local >= 0`, the sample points and components cover
`m_local` rows. -/
theorem interp_rows_cover (NDIM : Nat) (m_local : Int) (hdvd : (NDIM : Int) ∣ m_local) :
    NDIM * (m_local.tdiv (NDIM : Int)).toNat = m_local.toNat := by
  by_cases hm : 0 ≤ m_local
  · have h1 : (NDIM : Int) * m_local.tdiv (NDIM : Int) = m_local := Int.mul_tdiv_cancel' hdvd
    have h2 : 0 ≤ m_local.tdiv (NDIM : Int) := Int.tdiv_nonneg hm (Int.ofNat_nonneg NDIM)
    have h3 : ((NDIM * (m_local.tdiv (NDIM : Int)).toNat : Nat) : Int) = m_local := by
      push_cast
      rw [Int.toNat_of_nonneg h2, h1]
    omega
  · have h1 : 0 ≤ (-m_local).tdiv (NDIM : Int) :=
      Int.tdiv_nonneg (by omega) (Int.ofNat_nonneg NDIM)
    rw [Int.neg_tdiv] at h1
    have h2 : (m_local.tdiv (NDIM : Int)).toNat = 0 := by omega
    have h3 : m_local.toNat = 0 := by omega
    rw [h2, h3]
    simp

/-- The stencil boxes a successful run of `constructPatchLevelSCInterpOp` stores: for every
sample point and component, the box the three-branch loop builds from the empty box at the
effective width, with `s ^ NDIM` points. -/
theorem interpOp_boxes (NDIM : Nat)
    (getCellIndex : List ℚ → List ℚ → List ℚ → List ℚ → Index → Index → Index)
    (interp_fcn : ℚ → List ℚ → List ℚ) (N : Int) (X_vec : Vec)
    (num_dofs_per_proc : List Int) (mpi_rank : Nat) (patch_level : PatchLevel) (op : InterpOp)
    (h : constructPatchLevelSCInterpOp NDIM getCellIndex interp_fcn N X_vec num_dofs_per_proc
      mpi_rank patch_level = .ok op)
    (k : Nat) (hk : k < (X_vec.local_size.tdiv (NDIM : Int)).toNat)
    (axis : Nat) (haxis : axis < NDIM) :
    (∃ (X X_cell : List ℚ) (X_idx : Index),
      (op.stencil_box.getD k []).getD axis (Box.emptyBox NDIM)
        = stencilBoxAxis NDIM (roundInterpStencil N) X X_cell X_idx axis (Box.emptyBox NDIM)) ∧
    ((op.stencil_box.getD k []).getD axis (Box.emptyBox NDIM)).indices.length
      = (roundInterpStencil N).toNat ^ NDIM := by
  obtain ⟨domain_box, count, _, hcount, _, hsb, _, _, _, _⟩ := interpOp_ok_init NDIM
    getCellIndex interp_fcn N X_vec num_dofs_per_proc mpi_rank patch_level op h
  have hbox := interpCountPass_stencil_box NDIM getCellIndex (roundInterpStencil N) _ _ _ _ _
    _ _ _ _ _ count rfl hcount k hk axis haxis
  rw [hsb, hbox]
  exact ⟨⟨_, _, _, rfl⟩, stencilBox_card NDIM _ (roundInterpStencil_even N) _ _ _ _⟩

/-- The rows of the `MatSetValues` calls of a successful run of
`constructPatchLevelSCInterpOp`, in the order of the calls: `i_lower + j` for
`j = 0, ..., NDIM * (m_local / NDIM) - 1`. -/
theorem interpOp_rows (NDIM : Nat)
    (getCellIndex : List ℚ → List ℚ → List ℚ → List ℚ → Index → Index → Index)
    (interp_fcn : ℚ → List ℚ → List ℚ) (N : Int) (X_vec : Vec)
    (num_dofs_per_proc : List Int) (mpi_rank : Nat) (patch_level : PatchLevel) (op : InterpOp)
    (h : constructPatchLevelSCInterpOp NDIM getCellIndex interp_fcn N X_vec num_dofs_per_proc
      mpi_rank patch_level = .ok op) :
    op.mat.set_values.map (fun sv => sv.row)
      = (List.range (X_vec.local_size.tdiv (NDIM : Int)).toNat).flatMap (fun k =>
          (List.range NDIM).map (fun axis =>
            X_vec.ownership_lower + ((NDIM * k + axis : Nat) : Int))) ∧
    op.mat.set_values.map (fun sv => sv.row)
      = (List.range (NDIM * (X_vec.local_size.tdiv (NDIM : Int)).toNat)).map
          (fun (j : Nat) => X_vec.ownership_lower + (j : Int)) := by
  obtain ⟨domain_box, count, _, hcount, hfill, hsb, _, _, _, _⟩ := interpOp_ok_init NDIM
    getCellIndex interp_fcn N X_vec num_dofs_per_proc mpi_rank patch_level op h
  have hvals := interpFillPass_vals NDIM interp_fcn (roundInterpStencil N)
    X_vec.ownership_lower X_vec.array patch_level _ domain_box count _ _
    (fun k axis hk haxis => by
      have := (interpOp_boxes NDIM getCellIndex interp_fcn N X_vec num_dofs_per_proc mpi_rank
        patch_level op h k hk axis haxis).2
      rw [hsb] at this
      exact this)
    hfill
  have hrow : op.mat.set_values.map (fun sv => sv.row)
      = (op.mat.set_values.map (fun sv => (sv.row, sv.vals))).map Prod.fst := by
    rw [List.map_map]
    rfl
  have h1 : op.mat.set_values.map (fun sv => sv.row)
      = (List.range (X_vec.local_size.tdiv (NDIM : Int)).toNat).flatMap (fun k =>
          (List.range NDIM).map (fun axis =>
            X_vec.ownership_lower + ((NDIM * k + axis : Nat) : Int))) := by
    rw [hrow, hvals, List.map_flatMap]
    apply List.flatMap_congr
    intro k _
    rw [List.map_map]
    apply List.map_congr_left
    intro axis _
    rfl
  refine ⟨h1, ?_⟩
  rw [h1, ← flatMap_blocks NDIM, List.map_flatMap]
  apply List.flatMap_congr
  intro k _
  rw [List.map_map]
  rfl

/-- The count arrays of the matrix `constructPatchLevelSCInterpOp` returns have `m_local`
entries. -/
theorem interpOp_nnz_length (NDIM : Nat)
    (getCellIndex : List ℚ → List ℚ → List ℚ → List ℚ → Index → Index → Index)
    (interp_fcn : ℚ → List ℚ → List ℚ) (N : Int) (X_vec : Vec)
    (num_dofs_per_proc : List Int) (mpi_rank : Nat) (patch_level : PatchLevel) (op : InterpOp)
    (h : constructPatchLevelSCInterpOp NDIM getCellIndex interp_fcn N X_vec num_dofs_per_proc
      mpi_rank patch_level = .ok op) :
    op.mat.d_nnz.length = X_vec.local_size.toNat ∧
    op.mat.o_nnz.length = X_vec.local_size.toNat := by
  obtain ⟨domain_box, count, _, hcount, _, _, _, hd, ho, _⟩ := interpOp_ok_init NDIM
    getCellIndex interp_fcn N X_vec num_dofs_per_proc mpi_rank patch_level op h
  rw [hd, ho]
  refine interpCountPass_nnz_invariant NDIM getCellIndex (roundInterpStencil N) _ _ _ _ _ _ _
    _ _
    (fun (t : List Int × List Int) =>
      t.1.length = X_vec.local_size.toNat ∧ t.2.length = X_vec.local_size.toNat)
    ?_ _ count ?_ hcount
  · intro idx D O nnz hnnz
    simp only [List.length_modify]
    exact hnnz
  · simp

/-- C30: in a successful run of `constructPatchLevelSCInterpOp` the rows of the
`MatSetValues` calls are, in order, `i_lower + NDIM * k + axis` for
`k = 0, ..., m_local / NDIM - 1` and `axis = 0, ..., NDIM - 1`. They are pairwise distinct,
lie in `[i_lower, i_lower + m_local)`, and each is written exactly once; the index
`NDIM * k + axis` used for the counts lies inside the arrays `d_nnz` and `o_nnz`, which have
`m_local` entries; and when `NDIM` divides `m_local` every row of
`[i_lower, i_lower + m_local)` is written. -/
theorem interp_rows_written (NDIM : Nat)
    (getCellIndex : List ℚ → List ℚ → List ℚ → List ℚ → Index → Index → Index)
    (interp_fcn : ℚ → List ℚ → List ℚ) (N : Int) (X_vec : Vec)
    (num_dofs_per_proc : List Int) (mpi_rank : Nat) (patch_level : PatchLevel) (op : InterpOp)
    (h : constructPatchLevelSCInterpOp NDIM getCellIndex interp_fcn N X_vec num_dofs_per_proc
      mpi_rank patch_level = .ok op) :
    op.mat.set_values.map (fun sv => sv.row)
      = (List.range (X_vec.local_size.tdiv (NDIM : Int)).toNat).flatMap (fun k =>
          (List.range NDIM).map (fun axis =>
            X_vec.ownership_lower + ((NDIM * k + axis : Nat) : Int))) ∧
    (op.mat.set_values.map (fun sv => sv.row)).Nodup ∧
    (∀ r ∈ op.mat.set_values.map (fun sv => sv.row),
      X_vec.ownership_lower ≤ r ∧ r < X_vec.ownership_lower + X_vec.local_size) ∧
    (∀ k axis : Nat, k < (X_vec.local_size.tdiv (NDIM : Int)).toNat → axis < NDIM →
      (op.mat.set_values.map (fun sv => sv.row)).count
          (X_vec.ownership_lower + ((NDIM * k + axis : Nat) : Int)) = 1 ∧
      NDIM * k + axis < op.mat.d_nnz.length ∧ NDIM * k + axis < op.mat.o_nnz.length) ∧
    op.mat.d_nnz.length = X_vec.local_size.toNat ∧
    op.mat.o_nnz.length = X_vec.local_size.toNat ∧
    ((NDIM : Int) ∣ X_vec.local_size →
      ∀ r : Int, X_vec.ownership_lower ≤ r → r < X_vec.ownership_lower + X_vec.local_size →
        r ∈ op.mat.set_values.map (fun sv => sv.row)) := by
  obtain ⟨h1, h2⟩ := interpOp_rows NDIM getCellIndex interp_fcn N X_vec num_dofs_per_proc
    mpi_rank patch_level op h
  obtain ⟨ld, lo⟩ := interpOp_nnz_length NDIM getCellIndex interp_fcn N X_vec
    num_dofs_per_proc mpi_rank patch_level op h
  have hnodup : (op.mat.set_values.map (fun sv => sv.row)).Nodup := by
    rw [h2]
    apply List.Nodup.map _ (List.nodup_range _)
    intro a b hab
    simp only at hab
    omega
  have hmem : ∀ k axis : Nat, k < (X_vec.local_size.tdiv (NDIM : Int)).toNat → axis < NDIM →
      X_vec.ownership_lower + ((NDIM * k + axis : Nat) : Int)
        ∈ op.mat.set_values.map (fun sv => sv.row) := by
    intro k axis hk haxis
    rw [h1]
    simp only [List.mem_flatMap, List.mem_map, List.mem_range]
    exact ⟨k, hk, axis, haxis, rfl⟩
  refine ⟨h1, hnodup, ?_, ?_, ld, lo, ?_⟩
  · intro r hr
    rw [h1] at hr
    simp only [List.mem_flatMap, List.mem_map, List.mem_range] at hr
    obtain ⟨k, hk, axis, haxis, rfl⟩ := hr
    have := (interp_local_idx_lt NDIM X_vec.local_size k axis hk haxis).1
    omega
  · intro k axis hk haxis
    have := (interp_local_idx_lt NDIM X_vec.local_size k axis hk haxis).2
    refine ⟨List.count_eq_one_of_mem hnodup (hmem k axis hk haxis), ?_, ?_⟩
    · rw [ld]
      exact this
    · rw [lo]
      exact this
  · intro hdvd r hr1 hr2
    rw [h2, interp_rows_cover NDIM X_vec.local_size hdvd]
    simp only [List.mem_map, List.mem_range]
    exact ⟨(r - X_vec.ownership_lower).toNat, by omega, by omega⟩

/-- Witness for C30: the example run writes the rows 0 and 1, once each. -/
theorem interp_rows_written_witness :
    exampleInterpOp.mat.set_values.map (fun sv => sv.row)
      = (List.range (exampleX.local_size.tdiv ((2 : Nat) : Int)).toNat).flatMap (fun k =>
          (List.range 2).map (fun axis =>
            exampleX.ownership_lower + ((2 * k + axis : Nat) : Int))) ∧
    (exampleInterpOp.mat.set_values.map (fun sv => sv.row)).Nodup :=
  ⟨(interp_rows_written 2 exampleGetCellIndex exampleKernel 2 exampleX [50] 0 exampleLevel
      exampleInterpOp exampleInterpOp_ok).1,
   (interp_rows_written 2 exampleGetCellIndex exampleKernel 2 exampleX [50] 0 exampleLevel
      exampleInterpOp exampleInterpOp_ok).2.1⟩

/-! ### Stencil boxes, buffers and counts of the interpolation builder -/

/-- A fold of steps each of which touches its own entries of a table: an entry no step
touches is unchanged, and an entry touched by a step is related to the initial entry as that
step relates entries. -/
theorem foldlM_touch {σ α β : Type} (view : σ → Nat → β) (Inv : σ → Prop)
    (touch : α → Nat → Prop) (Rel : β → β → Prop) (f : σ → α → Except Failure σ)
    (hf : ∀ t a t', Inv t → f t a = .ok t' →
      Inv t' ∧ ∀ j, (¬ touch a j → view t' j = view t j) ∧
        (touch a j → Rel (view t j) (view t' j)))
    (l : List α) (hl : l.Pairwise (fun a b => ∀ j, ¬ (touch a j ∧ touch b j)))
    (s s' : σ) (hs : Inv s) (h : l.foldlM f s = .ok s') :
    Inv s' ∧ ∀ j, ((∀ a ∈ l, ¬ touch a j) → view s' j = view s j) ∧
      (∀ a ∈ l, touch a j → Rel (view s j) (view s' j)) := by
  induction l generalizing s with
  | nil =>
    simp only [List.foldlM_nil, pure, Except.pure, Except.ok.injEq] at h
    subst h
    exact ⟨hs, fun j => ⟨fun _ => rfl, fun a ha => absurd ha (List.not_mem_nil a)⟩⟩
  | cons a l ih =>
    rw [List.foldlM_cons] at h
    cases hfa : f s a with
    | error e => simp [hfa, bind, Except.bind] at h
    | ok s1 =>
      simp only [hfa, bind, Except.bind] at h
      obtain ⟨hinv1, hstep⟩ := hf s a s1 hs hfa
      rw [List.pairwise_cons] at hl
      obtain ⟨hinv', hrest⟩ := ih hl.2 s1 hinv1 h
      refine ⟨hinv', ?_⟩
      intro j
      constructor
      · intro hno
        rw [(hrest j).1 (fun b hb => hno b (List.mem_cons_of_mem a hb)),
          (hstep j).1 (hno a (List.mem_cons_self a l))]
      · intro b hb htb
        rcases List.mem_cons.mp hb with rfl | hb'
        · rw [(hrest j).1 (fun c hc hcj => hl.1 c hc j ⟨htb, hcj⟩)]
          exact (hstep j).2 htb
        · have hna : ¬ touch a j := fun haj => hl.1 b hb' j ⟨haj, htb⟩
          rw [← (hstep j).1 hna]
          exact (hrest j).2 b hb' htb

/-- The tensor-product loop is the fold of its body over the points of the stencil box. -/
theorem interpTensor_eq_foldl (NDIM : Nat) (dof_index_data : SideData Int) (axis : Nat)
    (stencil_box_axis : Box) (w : List (List ℚ)) (st : List ℚ × List Int × Nat) :
    interpTensor NDIM dof_index_data axis stencil_box_axis w st
      = stencil_box_axis.indices.foldl
          (interpTensorStep NDIM dof_index_data axis stencil_box_axis.lower w) st := rfl

/-- The counter `stencil_idx` after the loop body has run over the points `bs`. -/
theorem interpTensorStep_counter (NDIM : Nat) (dof_index_data : SideData Int) (axis : Nat)
    (stencil_box_lower : Index) (w : List (List ℚ)) (bs : List Index)
    (st : List ℚ × List Int × Nat) :
    (bs.foldl (interpTensorStep NDIM dof_index_data axis stencil_box_lower w) st).2.2
      = st.2.2 + bs.length := by
  induction bs generalizing st with
  | nil => rfl
  | cons b bs ih =>
    rw [List.foldl_cons, ih]
    simp only [interpTensorStep, List.length_cons]
    omega

/-- The members of `intRange`. -/
theorem mem_intRange (lo hi x : Int) (hx : x ∈ intRange lo hi) : lo ≤ x ∧ x ≤ hi := by
  rw [intRange_eq] at hx
  simp only [List.mem_map, List.mem_range] at hx
  obtain ⟨k, hk, rfl⟩ := hx
  omega

/-- A point of a box has as many components as the lower corner and lies between the
corners in every direction. -/
theorem mem_boxIndices (lo up : List Int) (b : Index) (hb : b ∈ boxIndices lo up) :
    b.length = lo.length ∧
    ∀ d, d < lo.length → lo.getD d 0 ≤ b.getD d 0 ∧ b.getD d 0 ≤ up.getD d 0 := by
  induction lo generalizing up b with
  | nil =>
    cases up with
    | nil =>
      simp only [boxIndices, List.mem_singleton] at hb
      subst hb
      exact ⟨rfl, fun d hd => absurd hd (by simp)⟩
    | cons u us => simp [boxIndices] at hb
  | cons l ls ih =>
    cases up with
    | nil => simp [boxIndices] at hb
    | cons u us =>
      simp only [boxIndices, List.mem_flatMap, List.mem_map] at hb
      obtain ⟨rest, hrest, x, hx, rfl⟩ := hb
      obtain ⟨hlen, hcomp⟩ := ih us rest hrest
      obtain ⟨hx1, hx2⟩ := mem_intRange l u x hx
      refine ⟨by simp [hlen], ?_⟩
      intro d hd
      cases d with
      | zero => simpa using ⟨hx1, hx2⟩
      | succ d =>
        simp only [List.length_cons, Nat.add_lt_add_iff_right] at hd
        simpa using hcomp d hd

/-- For an even width, every side of a stencil box built over a box with `NDIM`-component
corners has `s` points, and the box has `s ^ NDIM` points. -/
theorem stencilBox_card_shaped (NDIM : Nat) (s : Int) (hs : s.tmod 2 = 0) (X X_cell : List ℚ)
    (X_idx : Index) (axis : Nat) (b0 : Box) (hl : b0.lower.length = NDIM)
    (hu : b0.upper.length = NDIM) :
    (∀ d, d < NDIM →
      Index.comp (stencilBoxAxis NDIM s X X_cell X_idx axis b0).upper d + 1
        - Index.comp (stencilBoxAxis NDIM s X X_cell X_idx axis b0).lower d = s) ∧
    (stencilBoxAxis NDIM s X X_cell X_idx axis b0).indices.length = s.toNat ^ NDIM := by
  have hwidth : ∀ d, d < NDIM →
      Index.comp (stencilBoxAxis NDIM s X X_cell X_idx axis b0).upper d + 1
        - Index.comp (stencilBoxAxis NDIM s X X_cell X_idx axis b0).lower d = s := by
    intro d hd
    obtain ⟨h1, h2⟩ := stencilBoxAxis_comp NDIM s X X_cell X_idx axis b0 hl hu d hd
    rw [h1, h2]
    have h := Int.tmod_add_tdiv s 2
    rw [hs] at h
    unfold stencilLower stencilUpper
    split
    · omega
    · split
      · omega
      · omega
  refine ⟨hwidth, ?_⟩
  obtain ⟨l1, l2⟩ := stencilBoxAxis_lengths NDIM s X X_cell X_idx axis b0
  rw [hl] at l1
  rw [hu] at l2
  unfold Box.indices
  rw [boxIndices_length _ _ (by rw [l1, l2]), l1]
  have hmap : (List.range NDIM).map
        (fun d => ((stencilBoxAxis NDIM s X X_cell X_idx axis b0).upper.getD d 0 + 1
          - (stencilBoxAxis NDIM s X X_cell X_idx axis b0).lower.getD d 0).toNat)
      = (List.range NDIM).map (fun _ => s.toNat) := by
    apply List.map_congr_left
    intro d hd
    have := hwidth d (List.mem_range.mp hd)
    unfold Index.comp at this
    rw [this]
  rw [hmap]
  simp [List.prod_replicate]

/-- The box a visit of the counting pass starts from, stored or default, has corners with
`NDIM` components when the stored boxes do. -/
theorem boxesShaped_getD (NDIM : Nat) (t : InterpCount) (ht : BoxesShaped NDIM t)
    (k axis : Nat) :
    ((t.stencil_box.getD k []).getD axis (Box.emptyBox NDIM)).lower.length = NDIM ∧
    ((t.stencil_box.getD k []).getD axis (Box.emptyBox NDIM)).upper.length = NDIM := by
  simp only [List.getD_eq_getElem?_getD]
  cases hk : t.stencil_box[k]? with
  | none => simp [Box.emptyBox]
  | some bs =>
    simp only [Option.getD_some]
    cases ha : bs[axis]? with
    | none => simp [Box.emptyBox]
    | some b =>
      simp only [Option.getD_some]
      exact ht bs (List.mem_iff_getElem?.mpr ⟨k, hk⟩) b (List.mem_iff_getElem?.mpr ⟨axis, ha⟩)

/-- One visit of a component by the counting pass of the interpolation builder at an even
width: the row `NDIM * k + axis` is counted with `s ^ NDIM` columns, every other row is left
alone, and the stored boxes keep their shape. -/
theorem interpCountAxis_row (NDIM : Nat) (s : Int) (hs : s.tmod 2 = 0)
    (j_lower j_upper n_local n_total : Int)
    (X X_cell : List ℚ) (X_idx : Index) (dof_index_data : SideData Int) (k : Nat)
    (st st' : InterpCount) (axis : Nat) (hst : BoxesShaped NDIM st)
    (h : interpCountAxis NDIM s j_lower j_upper n_local n_total X X_cell X_idx dof_index_data k
      st axis = .ok st') :
    BoxesShaped NDIM st' ∧
    ∀ j, (¬ j = NDIM * k + axis → st'.row j = st.row j) ∧
      (j = NDIM * k + axis →
        RowCounted (s.toNat ^ NDIM) n_local n_total (st.row j) (st'.row j)) := by
  obtain ⟨hd, ho, _⟩ := interpCountAxis_counts NDIM s j_lower j_upper n_local n_total X X_cell
    X_idx dof_index_data k st st' axis h
  have hsb := interpCountAxis_stencil_box NDIM s j_lower j_upper n_local n_total X X_cell
    X_idx dof_index_data k st st' axis h
  obtain ⟨hl, hu⟩ := boxesShaped_getD NDIM st hst k axis
  constructor
  · intro bs hbs
    rw [hsb] at hbs
    revert bs
    apply modify_forall
      (fun (bs : List Box) => ∀ b ∈ bs, b.lower.length = NDIM ∧ b.upper.length = NDIM)
      _ _ _ hst
    intro bs hall
    apply modify_forall (fun (b : Box) => b.lower.length = NDIM ∧ b.upper.length = NDIM)
      _ _ _ hall
    intro b hb
    obtain ⟨l1, l2⟩ := stencilBoxAxis_lengths NDIM s X X_cell X_idx axis b
    exact ⟨l1.trans hb.1, l2.trans hb.2⟩
  · intro j
    constructor
    · intro hne
      have hne' : ¬ NDIM * k + axis = j := fun e => hne e.symm
      simp only [InterpCount.row, hd, ho, List.getElem?_modify, hne', if_false]
      cases st.d_nnz[j]? <;> cases st.o_nnz[j]? <;> rfl
    · intro hj
      subst hj
      unfold RowCounted
      refine ⟨(stencilBoxAxis NDIM s X X_cell X_idx axis
          ((st.stencil_box.getD k []).getD axis (Box.emptyBox NDIM))).indices.countP
            (fun b => isLocal j_lower j_upper (dof_index_data.data axis b 0)),
        (stencilBoxAxis NDIM s X X_cell X_idx axis
          ((st.stencil_box.getD k []).getD axis (Box.emptyBox NDIM))).indices.countP
            (fun b => !isLocal j_lower j_upper (dof_index_data.data axis b 0)), ?_, ?_, ?_⟩
      · rw [countP_add_countP_not]
        exact (stencilBox_card_shaped NDIM s hs X X_cell X_idx axis _ hl hu).2
      · simp only [InterpCount.row, hd, List.getElem?_modify, if_true]
        cases st.d_nnz[NDIM * k + axis]? <;> rfl
      · simp only [InterpCount.row, ho, List.getElem?_modify, if_true]
        cases st.o_nnz[NDIM * k + axis]? <;> rfl

/-- The rows of different sample points are different. -/
theorem interp_rows_disjoint (NDIM : Nat) (a b : Nat) (hab : a < b) (j : Nat) :
    ¬ ((∃ axis, axis < NDIM ∧ j = NDIM * a + axis) ∧
       (∃ axis, axis < NDIM ∧ j = NDIM * b + axis)) := by
  rintro ⟨⟨x, hx, h1⟩, ⟨y, hy, h2⟩⟩
  have h3 : NDIM * (a + 1) ≤ NDIM * b := Nat.mul_le_mul_left NDIM hab
  rw [Nat.mul_succ] at h3
  omega

/-- One visit of a sample point by the counting pass of the interpolation builder at an
even width: each of its `NDIM` rows is counted with `s ^ NDIM` columns, every other row is
left alone. -/
theorem interpCountPoint_row (NDIM : Nat)
    (getCellIndex : List ℚ → List ℚ → List ℚ → List ℚ → Index → Index → Index)
    (s : Int) (hs : s.tmod 2 = 0) (j_lower j_upper n_local n_total : Int)
    (X_arr : List ℚ) (patch_level : PatchLevel) (dx : List ℚ) (domain_box : Box)
    (st st' : InterpCount) (k : Nat) (hst : BoxesShaped NDIM st)
    (h : interpCountPoint NDIM getCellIndex s j_lower j_upper n_local n_total X_arr
      patch_level dx domain_box st k = .ok st') :
    BoxesShaped NDIM st' ∧
    ∀ j, (¬ (∃ axis, axis < NDIM ∧ j = NDIM * k + axis) → st'.row j = st.row j) ∧
      ((∃ axis, axis < NDIM ∧ j = NDIM * k + axis) →
        RowCounted (s.toNat ^ NDIM) n_local n_total (st.row j) (st'.row j)) := by
  unfold interpCountPoint at h
  simp only at h
  split at h
  · cases h
  · rename_i first rest hov
    split at h
    · cases h
    · rename_i patch hpatch
      split at h
      · cases h
      · obtain ⟨hinv, hrows⟩ := foldlM_touch (fun (t : InterpCount) j => t.row j)
          (BoxesShaped NDIM) (fun (axis : Nat) (j : Nat) => j = NDIM * k + axis)
          (RowCounted (s.toNat ^ NDIM) n_local n_total) _
          (fun t a t' ht hta => interpCountAxis_row NDIM s hs _ _ _ _ _ _ _ _ _ _ _ _ ht hta)
          (List.range NDIM)
          ((List.pairwise_lt_range NDIM).imp (fun {a b} hab j hj => by omega))
          _ st' (by exact hst) h
        refine ⟨hinv, ?_⟩
        intro j
        constructor
        · intro hno
          have := (hrows j).1 (fun a ha haj => hno ⟨a, List.mem_range.mp ha, haj⟩)
          simpa [InterpCount.row] using this
        · rintro ⟨axis, haxis, hj⟩
          have := (hrows j).2 axis (List.mem_range.mpr haxis) hj
          simpa [InterpCount.row] using this

/-- The counting pass of the interpolation builder at an even width, row by row: every row
`NDIM * k + axis` of a sample point `k` and component `axis` is counted once, with
`s ^ NDIM` columns. -/
theorem interpCountPass_row (NDIM : Nat)
    (getCellIndex : List ℚ → List ℚ → List ℚ → List ℚ → Index → Index → Index)
    (s : Int) (hs : s.tmod 2 = 0) (j_lower j_upper n_local n_total : Int)
    (X_arr : List ℚ) (patch_level : PatchLevel) (dx : List ℚ) (domain_box : Box)
    (n_local_points : Int) (init count : InterpCount) (hinit : BoxesShaped NDIM init)
    (h : interpCountPass NDIM getCellIndex s j_lower j_upper n_local n_total X_arr patch_level
      dx domain_box n_local_points init = .ok count)
    (k : Nat) (hk : k < n_local_points.toNat) (axis : Nat) (haxis : axis < NDIM) :
    RowCounted (s.toNat ^ NDIM) n_local n_total (init.row (NDIM * k + axis))
      (count.row (NDIM * k + axis)) := by
  unfold interpCountPass at h
  obtain ⟨_, hrows⟩ := foldlM_touch (fun (t : InterpCount) j => t.row j)
    (BoxesShaped NDIM) (fun (k : Nat) (j : Nat) => ∃ axis, axis < NDIM ∧ j = NDIM * k + axis)
    (RowCounted (s.toNat ^ NDIM) n_local n_total) _
    (fun t a t' ht hta => interpCountPoint_row NDIM getCellIndex s hs _ _ _ _ _ _ _ _ _ _ _
      ht hta)
    (List.range n_local_points.toNat)
    ((List.pairwise_lt_range _).imp (fun {a b} hab j => interp_rows_disjoint NDIM a b hab j))
    init count hinit h
  exact (hrows (NDIM * k + axis)).2 k (List.mem_range.mpr hk) ⟨axis, haxis, rfl⟩

/-- The buffer size `stencil_box_nvals` is non-negative for a non-negative width. -/
theorem stencil_box_nvals_nonneg (NDIM : Nat) (s : Int) (hs : 0 ≤ s) :
    0 ≤ (List.range NDIM).foldl (fun (n : Int) _ => n * s) 1 := by
  induction NDIM with
  | zero => simp
  | succ m ih =>
    rw [List.range_succ, List.foldl_append]
    simp only [List.foldl_cons, List.foldl_nil]
    positivity

/-- The effective width for a requested width of at least 1: even, at least 2, and the
requested width or one more. -/
theorem roundInterpStencil_bounds (N : Int) (hN : 1 ≤ N) :
    (roundInterpStencil N).tmod 2 = 0 ∧ 2 ≤ roundInterpStencil N ∧
    N ≤ roundInterpStencil N ∧ roundInterpStencil N ≤ N + 1 := by
  have heven := roundInterpStencil_even N
  have h1 : N ≤ roundInterpStencil N ∧ roundInterpStencil N ≤ N + 1 := by
    unfold roundInterpStencil
    split <;> omega
  have h2 := Int.tmod_add_tdiv (roundInterpStencil N) 2
  rw [heven] at h2
  exact ⟨heven, by omega, h1.1, h1.2⟩

/-- C29: in a successful run of `constructPatchLevelSCInterpOp` with a requested width of at
least 1, let `s` be the even effective width. For every sample point `k` and component
`axis`, the stencil box stored has exactly `s` points along every direction, hence
`s ^ NDIM` points, which is the buffer size `stencil_box_nvals`; for every point of the box
and every direction the weight index `i(d) - stencil_box_lower(d)` lies in `[0, s)`; the
fill loop reaches the `j`-th point of the box with `stencil_idx = j`, below the buffer
size, and ends with `stencil_idx = stencil_box_nvals`, so that every slot is written once
and none past the end; and the row `NDIM * k + axis` was counted with `D` local and `O`
other columns, `D + O = s ^ NDIM`, before the clamps. -/
theorem interp_stencil_box_size (NDIM : Nat)
    (getCellIndex : List ℚ → List ℚ → List ℚ → List ℚ → Index → Index → Index)
    (interp_fcn : ℚ → List ℚ → List ℚ) (N : Int) (X_vec : Vec)
    (num_dofs_per_proc : List Int) (mpi_rank : Nat) (patch_level : PatchLevel) (op : InterpOp)
    (hN : 1 ≤ N)
    (h : constructPatchLevelSCInterpOp NDIM getCellIndex interp_fcn N X_vec num_dofs_per_proc
      mpi_rank patch_level = .ok op) :
    (roundInterpStencil N).tmod 2 = 0 ∧ 2 ≤ roundInterpStencil N ∧
    N ≤ roundInterpStencil N ∧ roundInterpStencil N ≤ N + 1 ∧
    ((List.range NDIM).foldl (fun (n : Int) _ => n * roundInterpStencil N) 1).toNat
      = (roundInterpStencil N).toNat ^ NDIM ∧
    ∀ k axis : Nat, k < (X_vec.local_size.tdiv (NDIM : Int)).toNat → axis < NDIM →
      (∀ d, d < NDIM →
        Index.comp ((op.stencil_box.getD k []).getD axis (Box.emptyBox NDIM)).upper d + 1
          - Index.comp ((op.stencil_box.getD k []).getD axis (Box.emptyBox NDIM)).lower d
          = roundInterpStencil N ∧
        (intRange
          (Index.comp ((op.stencil_box.getD k []).getD axis (Box.emptyBox NDIM)).lower d)
          (Index.comp ((op.stencil_box.getD k []).getD axis (Box.emptyBox NDIM)).upper d)).length
          = (roundInterpStencil N).toNat) ∧
      ((op.stencil_box.getD k []).getD axis (Box.emptyBox NDIM)).indices.length
        = (roundInterpStencil N).toNat ^ NDIM ∧
      ((((op.stencil_box.getD k []).getD axis (Box.emptyBox NDIM)).indices.length : Nat) : Int)
        = (List.range NDIM).foldl (fun (n : Int) _ => n * roundInterpStencil N) 1 ∧
      (∀ b ∈ ((op.stencil_box.getD k []).getD axis (Box.emptyBox NDIM)).indices,
        ∀ d, d < NDIM →
          0 ≤ Index.comp b d
            - Index.comp ((op.stencil_box.getD k []).getD axis (Box.emptyBox NDIM)).lower d ∧
          Index.comp b d
            - Index.comp ((op.stencil_box.getD k []).getD axis (Box.emptyBox NDIM)).lower d
            < roundInterpStencil N ∧
          (Index.comp b d
            - Index.comp ((op.stencil_box.getD k []).getD axis
                (Box.emptyBox NDIM)).lower d).toNat
            < (roundInterpStencil N).toNat) ∧
      (∀ (pre post : List Index) (b : Index),
        ((op.stencil_box.getD k []).getD axis (Box.emptyBox NDIM)).indices = pre ++ b :: post →
        ∀ (dof_index_data : SideData Int) (w : List (List ℚ)) (vals : List ℚ)
          (cols : List Int),
          (pre.foldl
            (interpTensorStep NDIM dof_index_data axis
              ((op.stencil_box.getD k []).getD axis (Box.emptyBox NDIM)).lower w)
            (vals, cols, 0)).2.2 = pre.length ∧
          pre.length
            < ((List.range NDIM).foldl (fun (n : Int) _ => n * roundInterpStencil N) 1).toNat) ∧
      (∀ (dof_index_data : SideData Int) (w : List (List ℚ)) (vals : List ℚ) (cols : List Int),
        (interpTensor NDIM dof_index_data axis
          ((op.stencil_box.getD k []).getD axis (Box.emptyBox NDIM)) w (vals, cols, 0)).2.2
          = ((List.range NDIM).foldl (fun (n : Int) _ => n * roundInterpStencil N) 1).toNat) ∧
      (∃ D O : Nat, D + O = (roundInterpStencil N).toNat ^ NDIM ∧
        op.mat.d_nnz[NDIM * k + axis]?
          = some (min (n_local num_dofs_per_proc mpi_rank) (D : Int)) ∧
        op.mat.o_nnz[NDIM * k + axis]?
          = some (min (n_total num_dofs_per_proc - n_local num_dofs_per_proc mpi_rank)
              (O : Int))) := by
  obtain ⟨heven, h2, hNs, hsN⟩ := roundInterpStencil_bounds N hN
  have hs0 : 0 ≤ roundInterpStencil N := by omega
  have hnv := stencil_box_nvals_eq NDIM (roundInterpStencil N) hs0
  have hnv0 := stencil_box_nvals_nonneg NDIM (roundInterpStencil N) hs0
  refine ⟨heven, h2, hNs, hsN, hnv, ?_⟩
  intro k axis hk haxis
  obtain ⟨⟨X, X_cell, X_idx, hbox⟩, hcard⟩ := interpOp_boxes NDIM getCellIndex interp_fcn N
    X_vec num_dofs_per_proc mpi_rank patch_level op h k hk axis haxis
  have hwidth := (stencilBox_card_shaped NDIM (roundInterpStencil N) heven X X_cell X_idx axis
    (Box.emptyBox NDIM) (by simp [Box.emptyBox]) (by simp [Box.emptyBox])).1
  obtain ⟨hll, _⟩ := stencilBoxAxis_lengths NDIM (roundInterpStencil N) X X_cell X_idx axis
    (Box.emptyBox NDIM)
  have hll' : (stencilBoxAxis NDIM (roundInterpStencil N) X X_cell X_idx axis
      (Box.emptyBox NDIM)).lower.length = NDIM := by
    rw [hll]
    simp [Box.emptyBox]
  rw [← hbox] at hwidth hll'
  refine ⟨?_, hcard, ?_, ?_, ?_, ?_, ?_⟩
  · intro d hd
    refine ⟨hwidth d hd, ?_⟩
    rw [intRange_eq, List.length_map, List.length_range, hwidth d hd]
  · rw [hcard, ← hnv]
    omega
  · intro b hb d hd
    obtain ⟨_, hcomp⟩ := mem_boxIndices _ _ b hb
    have hc := hcomp d (by rw [hll']; exact hd)
    have hw := hwidth d hd
    unfold Index.comp at hw ⊢
    omega
  · intro pre post b hsplit dof_index_data w vals cols
    rw [interpTensorStep_counter]
    have hlen : pre.length
        < ((op.stencil_box.getD k []).getD axis (Box.emptyBox NDIM)).indices.length := by
      rw [hsplit]
      simp
    rw [hcard, ← hnv] at hlen
    exact ⟨by simp, hlen⟩
  · intro dof_index_data w vals cols
    rw [interpTensor_eq_foldl, interpTensorStep_counter, hcard, hnv]
    simp
  · obtain ⟨domain_box, count, _, hcount, _, _, _, hd, ho, _⟩ := interpOp_ok_init NDIM
      getCellIndex interp_fcn N X_vec num_dofs_per_proc mpi_rank patch_level op h
    have hrow := interpCountPass_row NDIM getCellIndex (roundInterpStencil N) heven _ _ _ _ _
      _ _ _ _ _ count
      (by
        intro bs hbs b hb
        simp only [List.mem_replicate] at hbs
        rw [hbs.2] at hb
        simp only [List.mem_replicate] at hb
        rw [hb.2]
        simp [Box.emptyBox])
      hcount k hk axis haxis
    obtain ⟨D, O, hsum, hdq, hoq⟩ := hrow
    have hidx := (interp_local_idx_lt NDIM X_vec.local_size k axis hk haxis).2
    refine ⟨D, O, hsum, ?_, ?_⟩
    · rw [hd]
      simp only [InterpCount.row] at hdq
      rw [hdq, List.getElem?_replicate]
      simp [hidx]
    · rw [ho]
      simp only [InterpCount.row] at hoq
      rw [hoq, List.getElem?_replicate]
      simp [hidx]

/-- Witness for C29: in the example run with width 2 in two dimensions, the stencil box of
component 0 of the only sample point has `2 ^ 2` points. -/
theorem interp_stencil_box_size_witness :
    (1 : Int) ≤ 2 ∧
    ((exampleInterpOp.stencil_box.getD 0 []).getD 0 (Box.emptyBox 2)).indices.length
      = (roundInterpStencil 2).toNat ^ 2 :=
  ⟨by decide,
   ((interp_stencil_box_size 2 exampleGetCellIndex exampleKernel 2 exampleX [50] 0
      exampleLevel exampleInterpOp (by decide) exampleInterpOp_ok).2.2.2.2.2 0 0 (by decide)
      (by decide)).2.1⟩

/-! ### Synchronisation of node-centred data, axis by axis -/

end IBTK
